import Mathlib

/-!
PGE code generator (`compilers/pge/pge_gen.c`)

A shallow embedding of the generator that turns a P6 rule expression tree
into PIR text, followed by theorems about the text it produces and about
the behaviour of the emitted instructions.

Conventions of the embedding

* C strings are `List Char`; an `unsigned char` with value `b` is the
  character with code `b`.  C `int`s are `Int` (or `Nat` for the buffer
  offsets, which are never negative); C truth values are `Bool`.
* The file-level variables `pge_cbuf`, `pge_cbuf_size`, `pge_cbuf_len`,
  `pge_cbuf_lcount` and `pge_istraced` form the record `State`; every
  function of the source that touches them is a function `State → State`.
  `pge_cbuf` holds the C string that starts at the buffer's first byte.
* Undefined behaviour that the source can reach through its own arguments
  (a `%s` conversion fed an `int`, a dereferenced null child pointer) sets
  the sticky flag `State.ub`; once set, nothing more is emitted and
  `pge_gen` returns no text.  Bounds of the fixed-size character arrays and
  allocation failure are not modelled.
* `pge.h` is not among the sources: `PGE_INF`, `PGE_MAX_LITERAL_LEN` and
  `pge_is_bos_anchored` are parameters (`Env`), and the node-kind
  enumeration is modelled with the enumerator names the source uses.
-/

namespace PGE

/-! ## Node type (`PGE_Exp` of `pge.h`) -/

/-- Modelled from the spec: the node-kind enumeration of `pge.h` (the header
is not among the sources).  The fourteen enumerators are the ones the
dispatcher names; `PGE_OTHER tag` stands for any other value the `type`
field of the C struct can hold. -/
inductive pge_exp_t where
  | PGE_NULL_PATTERN
  | PGE_PATTERN_END
  | PGE_DOT
  | PGE_LITERAL
  | PGE_CONCAT
  | PGE_GROUP
  | PGE_ALT
  | PGE_ANCHOR_BOS
  | PGE_ANCHOR_EOS
  | PGE_ANCHOR_BOL
  | PGE_ANCHOR_EOL
  | PGE_CUT_ALT
  | PGE_CUT_RULE
  | PGE_BACKREFERENCE
  | PGE_OTHER (tag : Int)
  deriving DecidableEq, Repr

/-- The scalar fields of `struct PGE_Exp` (the fields the generator reads). -/
structure PGE_Node where
  id : Int
  type : pge_exp_t
  nlen : Int
  min : Int
  max : Int
  isgreedy : Bool
  iscut : Bool
  group : Int
  name : List Char
  deriving DecidableEq, Repr

/-- A `PGE_Exp*`: the null pointer, or a node with its two child pointers
`exp1` and `exp2`. -/
inductive PGE_Exp where
  | null : PGE_Exp
  | node (n : PGE_Node) (exp1 exp2 : PGE_Exp) : PGE_Exp
  deriving DecidableEq, Repr

/-- What `pge.h` and the parser provide to this file. -/
structure Env where
  PGE_INF : Int
  PGE_MAX_LITERAL_LEN : Nat
  pge_is_bos_anchored : PGE_Exp → Bool

/-! ## `printf`-style formatting -/

/-- One variadic argument. -/
inductive Arg where
  | d (n : Int)
  | s (str : List Char)
  | c (ch : Char)
  deriving DecidableEq, Repr

/-- Decimal digits of `n`, most significant first, pushed in front of `acc`. -/
def fmt_nat_aux : Nat → Nat → List Char → List Char
  | 0, _, acc => acc
  | fuel + 1, n, acc =>
    if n < 10 then Char.ofNat (48 + n) :: acc
    else fmt_nat_aux fuel (n / 10) (Char.ofNat (48 + n % 10) :: acc)

/-- Decimal rendering of a natural number. -/
def fmt_nat (n : Nat) : List Char := fmt_nat_aux (n + 1) n []

/-- The conversion `%d`. -/
def fmt_d : Int → List Char
  | Int.ofNat n => fmt_nat n
  | Int.negSucc n => '-' :: fmt_nat (n + 1)

/-- The conversions of `vsprintf` that the source uses: `%d`, `%s`, `%c`
and `%.16s`.  A conversion whose argument is missing or of another type is
undefined behaviour (`none`); arguments left over are ignored. -/
def vsprintf : List Char → List Arg → Option (List Char)
  | [], _ => some []
  | '%' :: 'd' :: fmt, Arg.d n :: args => (vsprintf fmt args).map (fmt_d n ++ ·)
  | '%' :: 's' :: fmt, Arg.s str :: args => (vsprintf fmt args).map (str ++ ·)
  | '%' :: 'c' :: fmt, Arg.c ch :: args => (vsprintf fmt args).map (ch :: ·)
  | '%' :: '.' :: '1' :: '6' :: 's' :: fmt, Arg.s str :: args =>
    (vsprintf fmt args).map (str.take 16 ++ ·)
  | '%' :: _, _ => none
  | ch :: fmt, args => (vsprintf fmt args).map (ch :: ·)

/-- The function `sprintf` into a local array, for the formats of the source
whose arguments always fit their conversions. -/
def sprintf (fmt : String) (args : List Arg) : List Char :=
  (vsprintf fmt.toList args).getD []

/-- What `vsprintf` writes for a `%s` whose argument is the null pointer
(the C library prints this text). -/
def null_str : List Char := "(null)".toList

/-! ## The output buffer -/

/-- The file-level variables of `pge_gen.c`, and the flag `ub`. -/
structure State where
  pge_cbuf : List Char
  pge_cbuf_size : Nat
  pge_cbuf_len : Nat
  pge_cbuf_lcount : Int
  pge_istraced : Bool
  ub : Bool
  deriving DecidableEq, Repr

/-- The loop `while (lookahead > pge_cbuf_size) pge_cbuf_size += 4096;`.
Every round adds 4096, so `lookahead` rounds are enough. -/
def grow_size : Nat → Nat → Nat → Nat
  | 0, _, size => size
  | fuel + 1, lookahead, size =>
    if lookahead > size then grow_size fuel lookahead (size + 4096) else size

/-- Marks the state as having run into undefined behaviour. -/
def State.fault (s : State) : State := { s with ub := true }

/-- The buffer size after the growth step of `emit`:
`if (lookahead > pge_cbuf_size) { while ... }`. -/
def next_size (env : Env) (fmt : String) (len size : Nat) : Nat :=
  let lookahead := len + env.PGE_MAX_LITERAL_LEN * 2 + 3 + fmt.length * 2
  if lookahead > size then grow_size lookahead lookahead size else size

/-- The function `emit(fmt, ...)`: grows the buffer if needed and prints the
formatted text at offset `pge_cbuf_len`. -/
def emit (env : Env) (fmt : String) (args : List Arg) (s : State) : State :=
  if s.ub then s
  else
    match vsprintf fmt.toList args with
    | none => s.fault
    | some out =>
      { s with
        pge_cbuf := s.pge_cbuf.take s.pge_cbuf_len ++ out
        pge_cbuf_size := next_size env fmt s.pge_cbuf_len s.pge_cbuf_size
        pge_cbuf_len := s.pge_cbuf_len + out.length }

/-- The function `emitlcount()`: counts the newlines written so far and emits a
`# line` marker when more than ten were added since the last marker. -/
def emitlcount (env : Env) (s : State) : State :=
  if s.ub then s
  else
    let lcount : Int := (s.pge_cbuf.count '\n' : Nat)
    if lcount > s.pge_cbuf_lcount + 10 then
      { emit env "# line %d\n" [Arg.d lcount] s with pge_cbuf_lcount := lcount }
    else s

/-- The function `emitsub(sub, r1, ..., 0)`: saves the named registers, calls
`sub`, restores them in reverse order and propagates a group cut.  `regs`
are the arguments before the terminating null; at most ten are read. -/
def emitsub (env : Env) (sub : List Char) (regs : List (List Char)) (s : State) : State :=
  let rs := regs.take 10
  let s := rs.foldl (fun st r => emit env "    save %s\n" [Arg.s r] st) s
  let s := emit env "    bsr %s\n" [Arg.s sub] s
  let s := rs.reverse.foldl (fun st r => emit env "    restore %s\n" [Arg.s r] st) s
  emit env "    if cutgrp goto fail_group\n" [] s

/-! ## String constants and quantifier text -/

/-- One round of the `switch` in `str_con`. -/
def str_con_esc (c : Char) : List Char :=
  if c = '\\' then ['\\', '\\']
  else if c = '"' then ['\\', '"']
  else if c = '\'' then ['\\', '\'']
  else if c = '\n' then ['\\', 'n']
  else if c = '\r' then ['\\', 'r']
  else if c = '\t' then ['\\', 't']
  else if c = Char.ofNat 0 then ['\\', '0']
  else [c]

/-- The loop `for (i = 0; i < len; i++)` of `str_con`, on the bytes not yet
read and the number of rounds left. -/
def str_con_loop : List Char → Nat → List Char
  | _, 0 => []
  | [], _ + 1 => []
  | c :: cs, n + 1 => str_con_esc c ++ str_con_loop cs n

/-- The function `str_con(s, len)`: the PIR string constant for the first `len`
bytes of `s`. -/
def str_con (s : List Char) (len : Int) : List Char :=
  '"' :: (str_con_loop s len.toNat ++ ['"'])

/-- The function `fmt_quant(e)`: the quantifier as `<m..n>` text. -/
def fmt_quant (env : Env) (e : PGE_Node) : List Char :=
  let c : Char := if e.isgreedy then ' ' else '?'
  if e.max = env.PGE_INF then sprintf "<%d...>%c" [Arg.d e.min, Arg.c c]
  else if e.max ≠ e.min then sprintf "<%d..%d>%c" [Arg.d e.min, Arg.d e.max, Arg.c c]
  else sprintf "<%d>%c" [Arg.d e.min, Arg.c c]

/-- The function `trace(fmt, ...)`: a comment line and, when tracing is on, a
`.trace` call.  The text is cut to the 79 characters that fit `s[80]`. -/
def trace (env : Env) (fmt : String) (args : List Arg) (s : State) : State :=
  match vsprintf fmt.toList args with
  | none => s.fault
  | some t =>
    let t := t.take 79
    let s := emit env "    # %s\n" [Arg.s t] s
    if s.pge_istraced then emit env "    .trace(pos, '%s')\n" [Arg.s t] s else s

/-- Runs `g` when `c` holds: an `if` without `else`. -/
def on_cond (c : Bool) (g : State → State) (s : State) : State :=
  if c then g s else s

/-! ## Code generation, one function per node kind -/

/-- The function `pge_gen_pattern_end`. -/
def pge_gen_pattern_end (env : Env) (_e : PGE_Node) (_succ : List Char) (s : State) : State :=
  s |> trace env "eop" []
    |> emit env "    .yield(pos)\n" []
    |> emit env "    goto fail\n\n" []

/-- The greedy branch of `pge_gen_dot`. -/
def pge_gen_dot_greedy (env : Env) (e : PGE_Node) (succ : List Char) (s : State) : State :=
  let s := s
    |> emit env "    rep = maxrep\n" []
    |> emit env "    pos += rep\n" []
    |> emit env "  R%d_2:\n" [Arg.d e.id]
    |> emit env "    if rep < %d goto fail\n" [Arg.d e.min]
  if e.iscut then emit env "    goto %s\n" [Arg.s succ] s
  else s
    |> emit env "    if rep == %d goto %s\n" [Arg.d e.min, Arg.s succ]
    |> emitsub env succ ["pos".toList, "rep".toList]
    |> emit env "    dec rep\n" []
    |> emit env "    dec pos\n" []
    |> emit env "    goto R%d_2\n\n" [Arg.d e.id]

/-- The lazy branch of `pge_gen_dot`. -/
def pge_gen_dot_lazy (env : Env) (e : PGE_Node) (succ : List Char) (s : State) : State :=
  let s := s
    |> emit env "    rep = %d\n" [Arg.d e.min]
    |> on_cond (e.min > 0) (emit env "    pos += %d\n" [Arg.d e.min])
    |> emit env "  R%d_3:\n" [Arg.d e.id]
    |> emit env "    if rep > maxrep goto fail\n" []
  if e.iscut then emit env "    goto %s\n" [Arg.s succ] s
  else s
    |> emit env "    if rep == maxrep goto %s\n" [Arg.s succ]
    |> emitsub env succ ["pos".toList, "rep".toList, "maxrep".toList]
    |> emit env "    inc rep\n" []
    |> emit env "    inc pos\n" []
    |> emit env "    goto R%d_3\n\n" [Arg.d e.id]

/-- The function `pge_gen_dot`. -/
def pge_gen_dot (env : Env) (e : PGE_Node) (succ : List Char) (s : State) : State :=
  let s := s
    |> trace env "dot %s" [Arg.s (fmt_quant env e)]
    |> emit env "    maxrep = length target\n" []
    |> emit env "    maxrep -= pos\n" []
    |> on_cond (e.min > 0) (emit env "    if maxrep < %d goto fail\n" [Arg.d e.min])
  if e.min = e.max then s
    |> emit env "    pos += %d\n" [Arg.d e.min]
    |> emit env "    goto %s\n\n" [Arg.s succ]
  else
    let s := s
      |> on_cond (e.max ≠ env.PGE_INF) (fun s => s
        |> emit env "    if maxrep <= %d goto R%d_1\n" [Arg.d e.max, Arg.d e.id]
        |> emit env "    maxrep = %d\n" [Arg.d e.max]
        |> emit env "  R%d_1:\n" [Arg.d e.id])
    if e.isgreedy then pge_gen_dot_greedy env e succ s
    else pge_gen_dot_lazy env e succ s

/-- The greedy branch of `pge_gen_string`. -/
def pge_gen_string_greedy (env : Env) (e : PGE_Node) (succ : List Char) (s : State) : State :=
  let s := s
    |> emit env "    rep = 0\n" []
    |> emit env "  R%d_1:\n" [Arg.d e.id]
    |> on_cond (e.max ≠ env.PGE_INF)
        (emit env "    if rep >= %d goto R%d_2\n" [Arg.d e.max, Arg.d e.id])
    |> emit env "    substr $S0, target, pos, strlen\n" []
    |> emit env "    if $S0 != str goto R%d_2\n" [Arg.d e.id]
    |> emit env "    inc rep\n" []
    |> emit env "    pos += strlen\n" [Arg.d e.nlen]
    |> emit env "    goto R%d_1\n" [Arg.d e.id]
    |> emit env "  R%d_2:\n" [Arg.d e.id]
    |> on_cond (e.min > 0) (emit env "    if rep < %d goto fail\n" [Arg.d e.min])
  if e.iscut then emit env "    goto %s\n" [Arg.s succ] s
  else s
    |> emit env "    if rep == %d goto %s\n" [Arg.d e.min, Arg.s succ]
    |> emitsub env succ ["pos".toList, "rep".toList, "strlen".toList]
    |> emit env "    dec rep\n" []
    |> emit env "    pos -= strlen\n" []
    |> emit env "    goto R%d_2\n\n" [Arg.d e.id]

/-- The lazy branch of `pge_gen_string`. -/
def pge_gen_string_lazy (env : Env) (e : PGE_Node) (succ : List Char) (s : State) : State :=
  let s := s
    |> emit env "    rep = 0\n" []
    |> emit env "  R%d_1:\n" [Arg.d e.id]
    |> on_cond (e.min > 0)
        (emit env "    if rep < %d goto R%d_2:\n" [Arg.d e.min, Arg.d e.id])
  if e.iscut then emit env "    goto %s\n" [Arg.s succ] s
  else s
    |> on_cond (e.max ≠ env.PGE_INF)
        (emit env "    if rep == %d goto %s\n" [Arg.d e.max, Arg.s succ])
    |> emitsub env succ ["pos".toList, "rep".toList, "str".toList, "strlen".toList]
    |> emit env "  R%d_2:\n" [Arg.d e.id]
    |> emit env "    substr $S0, target, pos, strlen\n" [Arg.d e.nlen]
    |> emit env "    if $S0 != str goto fail\n" []
    |> emit env "    inc rep\n" []
    |> emit env "    pos += strlen\n" []
    |> emit env "    goto R%d_1\n\n" [Arg.d e.id]

/-- The function `pge_gen_string`: the repeated match of the string held in
`str` and `strlen`, shared by literals and backreferences. -/
def pge_gen_string (env : Env) (e : PGE_Node) (succ : List Char) (s : State) : State :=
  if e.min = 1 ∧ e.max = 1 then s
    |> emit env "    substr $S0, target, pos, strlen\n" []
    |> emit env "    if $S0 != str goto fail\n" []
    |> emit env "    pos += strlen\n" []
    |> emit env "    goto %s\n\n" [Arg.s succ]
  else if e.isgreedy then pge_gen_string_greedy env e succ s
  else pge_gen_string_lazy env e succ s

/-- The function `pge_gen_literal`. -/
def pge_gen_literal (env : Env) (e : PGE_Node) (succ : List Char) (s : State) : State :=
  s |> trace env "%.16s %s" [Arg.s (str_con e.name e.nlen), Arg.s (fmt_quant env e)]
    |> emit env "    str = %s\n" [Arg.s (str_con e.name e.nlen)]
    |> emit env "    strlen = %d\n" [Arg.d e.nlen]
    |> pge_gen_string env e succ

/-- The function `pge_gen_backreference`. -/
def pge_gen_backreference (env : Env) (e : PGE_Node) (succ : List Char) (s : State) : State :=
  let key := sprintf "\"%d\"" [Arg.d e.group]
  s |> trace env "backref $%d %s" [Arg.d e.group, Arg.s (fmt_quant env e)]
    |> emit env "    classoffset $I0, match, \"PGE::Match\"\n" []
    |> emit env "    $I0 += 4\n" []
    |> emit env "    getattribute gr_cap, match, $I0\n" []
    |> emit env "    $I0 = defined gr_cap[%s]\n" [Arg.s key]
    |> emit env "    unless $I0 goto %s\n" [Arg.s succ]
    |> emit env "    $P0 = gr_cap[%s]\n" [Arg.s key]
    |> emit env "    $I0 = $P0[-2]\n" []
    |> emit env "    $I1 = $P0[-1]\n" []
    |> emit env "    if $I0 >= $I1 goto %s\n" [Arg.s succ]
    |> emit env "    strlen = $I1 - $I0\n" []
    |> emit env "    substr str, target, $I0, strlen\n" []
    |> pge_gen_string env e succ

/-- The function `pge_gen_anchor`. -/
def pge_gen_anchor (env : Env) (e : PGE_Node) (succ : List Char) (s : State) : State :=
  match e.type with
  | .PGE_ANCHOR_BOS => s
    |> trace env "^anchor" []
    |> emit env "    if pos != 0 goto fail\n" []
    |> emit env "    goto %s\n" [Arg.s succ]
  | .PGE_ANCHOR_EOS => s
    |> trace env "anchor$" []
    |> emit env "    if pos != lastpos goto fail\n" []
    |> emit env "    goto %s\n" [Arg.s succ]
  | .PGE_ANCHOR_BOL => s
    |> trace env "^^anchor" []
    |> emit env "    if pos == 0 goto %s\n" [Arg.s succ]
    |> emit env "    if pos == lastpos goto fail\n" []
    |> emit env "    $I0 = pos - 1\n" []
    |> emit env "    substr $S0, target, $I0, 1\n" []
    |> emit env "    if $S0 == \"\\n\" goto %s\n" [Arg.s succ]
    |> emit env "    goto fail\n\n" []
  | .PGE_ANCHOR_EOL => s
    |> trace env "anchor$$" []
    |> emit env "    if pos == lastpos goto R%d_1\n" [Arg.d e.id]
    |> emit env "    substr $S0, target, pos, 1\n" []
    |> emit env "    if $S0 == \"\\n\" goto %s\n" [Arg.s succ]
    |> emit env "    goto fail\n" []
    |> emit env "R%d_1:\n" [Arg.d e.id]
    |> emit env "    $I0 = pos - 1\n" []
    |> emit env "    substr $S0, target, $I0, 1\n" []
    |> emit env "    if $S0 != \"\\n\" goto %s\n" [Arg.s succ]
    |> emit env "    goto fail\n\n" []
  | _ => s

/-- The function `pge_gen_cut`. -/
def pge_gen_cut (env : Env) (e : PGE_Node) (succ : List Char) (s : State) : State :=
  s |> on_cond (e.type = .PGE_CUT_ALT) (fun s => s
        |> trace env "::cut alt" []
        |> emitsub env succ []
        |> emit env "    goto fail_group\n" [])
    |> on_cond (e.type = .PGE_CUT_RULE) (fun s => s
        |> trace env "::cut rule" []
        |> emit env "    .yield(-2)\n" []
        |> emit env "    goto fail\n" [])

/-- The function `pge_gen_concat`; `gen1` and `gen2` generate the two children
(they are `pge_gen_exp` at `e->exp1` and `e->exp2`), `id1` and `id2` are the
children's ids. -/
def pge_gen_concat (env : Env) (id1 id2 : Int) (gen1 gen2 : List Char → State → State)
    (succ : List Char) (s : State) : State :=
  let s := emit env "    #concat R%d, R%d\n" [Arg.d id1, Arg.d id2] s
  let succ2 := sprintf "R%d" [Arg.d id2]
  let s := gen1 succ2 s
  gen2 succ s

/-- The initialisation block of `pge_gen_group` (source lines 329 to 363). -/
def pge_gen_group_init (env : Env) (e : PGE_Node) (key repsub : List Char) (s : State) :
    State :=
  s |> emit env "    classoffset $I0, match, \"PGE::Match\"\n" []
    |> emit env "    $I0 += 3\n" []
    |> emit env "    getattribute gr_rep, match, $I0\n" []
    |> emit env "    $I1 = exists gr_rep[%s]\n" [Arg.s key]
    |> emit env "    if $I1 goto R%d_1\n" [Arg.d e.id]
    |> emit env "    new $P1, .PerlInt\n" []
    |> emit env "    gr_rep[%s] = $P1\n" [Arg.s key]
    |> emit env "  R%d_1:\n" [Arg.d e.id]
    |> on_cond (e.group ≥ 0) (fun s => s
        |> emit env "    inc $I0\n" []
        |> emit env "    getattribute gr_cap, match, $I0\n" []
        |> emit env "    $I1 = exists gr_cap[%s]\n" [Arg.s key]
        |> emit env "    if $I1 goto R%d_2\n" [Arg.d e.id]
        |> emit env "    new $P1, .PerlArray\n" []
        |> emit env "    gr_cap[%s] = $P1\n" [Arg.s key]
        |> emit env "  R%d_2:\n" [Arg.d e.id])
    |> emit env "    $P1 = gr_rep[%s]\n" [Arg.s key]
    |> emit env "    $I1 = $P1\n" []
    |> emit env "    $P1 = 0\n" []
    |> emit env "    save pos\n" []
    |> emit env "    save gr_rep\n" []
    |> emit env "    save $I1\n" []
    |> emit env "    bsr %s\n" [Arg.s repsub]
    |> emit env "    restore $I1\n" []
    |> emit env "    restore gr_rep\n" []
    |> emit env "    restore pos\n" []
    |> emit env "    $P1 = gr_rep[%s]\n" [Arg.s key]
    |> emit env "    $P1 = $I1\n" []
    |> emit env "    goto fail\n\n" []

/-- The repeat block of `pge_gen_group` (source lines 369 to 420). -/
def pge_gen_group_repeat (env : Env) (e : PGE_Node) (key repsub r1sub succ : List Char)
    (s : State) : State :=
  let s := s
    |> emit env "  %s:\n" [Arg.s repsub]
    |> emit env "    classoffset $I0, match, \"PGE::Match\"\n" []
    |> emit env "    $I0 += 3\n" []
    |> emit env "    getattribute $P0, match, $I0\n" []
    |> emit env "    gr_rep = $P0[%s]\n" [Arg.s key]
    |> on_cond (e.group ≥ 0) (fun s => s
        |> emit env "    inc $I0\n" []
        |> emit env "    getattribute $P0, match, $I0\n" []
        |> emit env "    gr_cap = $P0[%s]\n" [Arg.s key]
        |> emit env "    if gr_rep < 1 goto %s_1\n" [Arg.s repsub]
        |> emit env "    push gr_cap, pos\n" [])
    |> emit env "  %s_1:\n" [Arg.s repsub]
  let s :=
    if e.isgreedy then s
      |> on_cond (e.max ≠ env.PGE_INF)
          (emit env "    if gr_rep >= %d goto %s_2\n" [Arg.d e.max, Arg.s repsub])
      |> emit env "    inc gr_rep\n" []
      |> on_cond (e.group ≥ 0) (emit env "    push gr_cap, pos\n" [])
      |> emitsub env r1sub ["pos".toList, "gr_cap".toList, "gr_rep".toList]
      |> on_cond (e.group ≥ 0) (emit env "    $I0 = pop gr_cap\n" [])
      |> emit env "    dec gr_rep\n" []
      |> emit env "  %s_2:\n" [Arg.s repsub]
      |> on_cond (e.min > 0)
          (emit env "    if gr_rep < %d goto %s_fail\n" [Arg.d e.min, Arg.s repsub])
      |> emitsub env succ ["pos".toList, "gr_cap".toList, "gr_rep".toList]
    else s
      |> on_cond (e.min > 0)
          (emit env "    if gr_rep < %d goto %s_3\n" [Arg.d e.min, Arg.s repsub])
      |> emitsub env succ ["pos".toList, "gr_cap".toList, "gr_rep".toList]
      |> emit env "  %s_3:\n" [Arg.s repsub]
      |> on_cond (e.max ≠ env.PGE_INF)
          (emit env "    if gr_rep >= %d goto %s_fail\n" [Arg.d e.max, Arg.s repsub])
      |> emit env "    inc gr_rep\n" []
      |> on_cond (e.group ≥ 0) (emit env "    push gr_cap, pos\n" [])
      |> emitsub env r1sub ["pos".toList, "gr_cap".toList, "gr_rep".toList]
      |> on_cond (e.group ≥ 0) (emit env "    $I0 = pop gr_cap\n" [])
      |> emit env "    dec gr_rep\n" []
  let s := s
    |> emit env "  %s_fail:\n" [Arg.s repsub]
    |> on_cond (e.group ≥ 0) (fun s => s
        |> emit env "    if gr_rep < 1 goto fail\n" [Arg.s repsub]
        |> emit env "    $I0 = pop gr_cap\n" [])
  if e.iscut then emit env "    goto fail_group\n\n" [] s
  else emit env "    goto fail\n\n" [] s

/-- The function `pge_gen_group`; `gen1` generates the body (it is `pge_gen_exp`
at `e->exp1`) and `id1` is the body's id. -/
def pge_gen_group (env : Env) (e : PGE_Node) (id1 : Int) (gen1 : List Char → State → State)
    (succ : List Char) (s : State) : State :=
  let c1 : Char := if e.group ≥ 0 then '(' else '['
  let c2 : Char := if e.group ≥ 0 then ')' else ']'
  let repsub := sprintf "R%d_repeat" [Arg.d e.id]
  let r1sub := sprintf "R%d" [Arg.d id1]
  let key := sprintf "\"%d\"" [Arg.d e.group]
  let s := trace env "group %s %c %s %c %s"
    [Arg.s key, Arg.c c1, Arg.s r1sub, Arg.c c2, Arg.s (fmt_quant env e)] s
  if e.min = 1 ∧ e.max = 1 ∧ e.group < 0 then gen1 succ s
  else s
    |> pge_gen_group_init env e key repsub
    |> pge_gen_group_repeat env e key repsub r1sub succ
    |> gen1 repsub

/-- The function `pge_gen_alt`; `gen1` and `gen2` generate the two branches. -/
def pge_gen_alt (env : Env) (id1 id2 : Int) (gen1 gen2 : List Char → State → State)
    (succ : List Char) (s : State) : State :=
  let s := trace env "alt R%d | R%d" [Arg.d id1, Arg.d id2] s
  let r1sub := sprintf "R%d" [Arg.d id1]
  let s := s
    |> emitsub env r1sub ["pos".toList]
    |> emit env "    goto R%d\n\n" [Arg.d id2]
  let s := gen1 succ s
  gen2 succ s

/-- The field `e->id` read through the pointer `e`. -/
def PGE_Exp.id? : PGE_Exp → Option Int
  | .null => none
  | .node n _ _ => some n.id

/-- The function `pge_gen_exp`: the node's label, then the code for its kind.
Reading a field through a null pointer is undefined behaviour. -/
def pge_gen_exp (env : Env) : PGE_Exp → List Char → State → State
  | .null, _, s => s.fault
  | .node e exp1 exp2, succ, s =>
    let s := emitlcount env s
    let s := emit env "  R%d:\n" [Arg.d e.id] s
    match e.type with
    | .PGE_NULL_PATTERN => emit env "    goto %s\n" [Arg.d e.id, Arg.s succ] s
    | .PGE_PATTERN_END => pge_gen_pattern_end env e succ s
    | .PGE_DOT => pge_gen_dot env e succ s
    | .PGE_LITERAL => pge_gen_literal env e succ s
    | .PGE_CONCAT =>
      match exp1.id?, exp2.id? with
      | some id1, some id2 =>
        pge_gen_concat env id1 id2 (pge_gen_exp env exp1) (pge_gen_exp env exp2) succ s
      | _, _ => s.fault
    | .PGE_GROUP =>
      match exp1.id? with
      | some id1 => pge_gen_group env e id1 (pge_gen_exp env exp1) succ s
      | none => s.fault
    | .PGE_ALT =>
      match exp1.id?, exp2.id? with
      | some id1, some id2 =>
        pge_gen_alt env id1 id2 (pge_gen_exp env exp1) (pge_gen_exp env exp2) succ s
      | _, _ => s.fault
    | .PGE_ANCHOR_BOS => pge_gen_anchor env e succ s
    | .PGE_ANCHOR_EOS => pge_gen_anchor env e succ s
    | .PGE_ANCHOR_BOL => pge_gen_anchor env e succ s
    | .PGE_ANCHOR_EOL => pge_gen_anchor env e succ s
    | .PGE_CUT_ALT => pge_gen_cut env e succ s
    | .PGE_CUT_RULE => pge_gen_cut env e succ s
    | .PGE_BACKREFERENCE => pge_gen_backreference env e succ s
    | .PGE_OTHER _ => s

/-- The definition of the trace macro, emitted by `pge_gen` when tracing is on
(source lines 531 to 538). -/
def pge_gen_tracedef (env : Env) (s : State) : State :=
  s |> on_cond s.pge_istraced (fun s => s
        |> emit env ".macro trace(POS, LABEL)\n" []
        |> emit env "    $S31 = repeat ' ', .POS\n" []
        |> emit env "    print $S31\n" []
        |> emit env "    print .LABEL\n" []
        |> emit env "    print \"\\n\"\n" []
        |> emit env ".endm\n\n" [])

/-- The two procedures `pge_gen` emits before the expression (source lines 540
to 577); `r1sub` is the root's label. -/
def pge_gen_prologue (env : Env) (e : PGE_Exp) (r1sub : List Char) (s : State) : State :=
  s |> pge_gen_tracedef env
    |> emit env ".sub _PGE_Rule\n" []
    |> emit env "    .param string target\n" []
    |> emit env "    .local pmc match\n" []
    |> emit env "    .local pmc rulecor\n" []
    |> emit env "    .local pmc newmeth\n" []
    |> emit env "    newsub rulecor, .Coroutine, _PGE_Rule_cor\n" []
    |> emit env "    find_global newmeth, \"PGE::Match\", \"new\"\n" []
    |> emit env "    match = newmeth(target, rulecor)\n" []
    |> emit env "    match.\"_next\"()\n" []
    |> emit env "    .return(match)\n" []
    |> emit env ".end\n\n" []
    |> emit env ".sub _PGE_Rule_cor\n" []
    |> emit env "    .param pmc match\n" []
    |> emit env "    .param string target\n" []
    |> emit env "    .param int pos\n" []
    |> emit env "    .param int lastpos\n" []
    |> emit env "    .local int rep\n" []
    |> emit env "    .local int maxrep\n" []
    |> emit env "    .local pmc gr_rep\n" []
    |> emit env "    .local pmc gr_cap\n" []
    |> emit env "    .local int cutgrp\n" []
    |> emit env "    .local string str\n" []
    |> emit env "    .local int strlen\n" []
    |> emit env "    if pos >= 0 goto try_once_at_pos\n" []
    |> emit env "    pos = 0\n" []
    |> on_cond (!env.pge_is_bos_anchored e) (fun s => s
        |> emit env "  try_match:\n" []
        |> emit env "    if pos > lastpos goto fail_forever\n" []
        |> emitsub env r1sub ["pos".toList]
        |> emit env "    inc pos\n" []
        |> emit env "    goto try_match\n" [])
    |> emit env "  try_once_at_pos:\n" []
    |> emitsub env r1sub []
    |> emit env "  fail_forever:\n" []
    |> emit env "    .yield(-2)\n" []
    |> emit env "    goto fail_forever\n\n" []

/-- The shared failure blocks `pge_gen` emits after the expression (source
lines 580 to 587). -/
def pge_gen_epilogue (env : Env) (s : State) : State :=
  s |> emit env "  fail_group:\n" []
    |> trace env "fail_group" []
    |> emit env "    cutgrp = 1\n    ret\n" []
    |> emit env "  fail:\n" []
    |> trace env "fail" []
    |> emit env "    cutgrp = 0\n" []
    |> emit env "    ret\n" []
    |> emit env ".end\n" []

/-- The globals after `pge_gen(e)` has run. -/
def pge_gen_state (env : Env) (e : PGE_Exp) (s : State) : State :=
  let s := { s with pge_cbuf_len := 0, pge_cbuf_lcount := 0 }
  match e.id? with
  | none => s.fault
  | some id =>
    let r1sub := sprintf "R%d" [Arg.d id]
    s |> pge_gen_prologue env e r1sub
      |> pge_gen_exp env e null_str
      |> pge_gen_epilogue env

/-- The function `pge_gen(e)`: the program text it returns, or `none` when the
run meets undefined behaviour. -/
def pge_gen (env : Env) (e : PGE_Exp) (s : State) : Option (List Char) :=
  let s := pge_gen_state env e s
  if s.ub then none else some s.pge_cbuf

/-- The function `pge_set_trace`. -/
def pge_set_trace (istraced : Bool) (s : State) : State :=
  { s with pge_istraced := istraced }

/-- The values of `pge.h` used where a theorem evaluates the generator on a
concrete tree. -/
def env_demo : Env := ⟨-1, 128, fun _ => false⟩

/-- The globals before the first call of `pge_gen`. -/
def State.initial : State := ⟨[], 0, 0, 0, false, false⟩

/-- A node with the given id and kind, quantifier `<1>`, greedy, no cut, no
capture, no literal bytes. -/
def PGE_Node.plain (id : Int) (type : pge_exp_t) : PGE_Node :=
  ⟨id, type, 0, 1, 1, true, false, -1, []⟩

/-- A leaf of the tree. -/
def PGE_Exp.leaf (n : PGE_Node) : PGE_Exp := .node n .null .null

/-! ## Sound buffer states -/

/-- No undefined behaviour so far, and `pge_cbuf_len` is the length of the
string in the buffer (true after every `emit`). -/
def State.ok (s : State) : Prop :=
  s.ub = false ∧ s.pge_cbuf_len = s.pge_cbuf.length

/-- The state `s` after `out` was appended, with buffer size `size`. -/
def State.app (s : State) (out : List Char) (size : Nat) : State :=
  { s with
    pge_cbuf := s.pge_cbuf ++ out
    pge_cbuf_size := size
    pge_cbuf_len := s.pge_cbuf.length + out.length }

/-- The text of the `# line` marker `emitlcount` writes in state `s`; empty when
it writes none. -/
def line_marker (s : State) : List Char :=
  if ((s.pge_cbuf.count '\n' : Nat) : Int) > s.pge_cbuf_lcount + 10 then
    sprintf "# line %d\n" [Arg.d (s.pge_cbuf.count '\n' : Nat)]
  else []

/-- Two states that agree on everything but the allocated size
`pge_cbuf_size`. -/
def Sim (s t : State) : Prop :=
  s.pge_cbuf = t.pge_cbuf ∧ s.pge_cbuf_len = t.pge_cbuf_len ∧
  s.pge_cbuf_lcount = t.pge_cbuf_lcount ∧ s.pge_istraced = t.pge_istraced ∧ s.ub = t.ub

/-- A tree with a node of kind `PGE_NULL_PATTERN`: `Concat(NullPattern, PatternEnd)`
with ids 1, 2 and 3. -/
def tree_null_pattern : PGE_Exp :=
  .node (PGE_Node.plain 1 .PGE_CONCAT)
    (PGE_Exp.leaf (PGE_Node.plain 2 .PGE_NULL_PATTERN))
    (PGE_Exp.leaf (PGE_Node.plain 3 .PGE_PATTERN_END))

/-- A tree with a node whose kind is none of the fourteen enumerators:
`Concat(<kind 99>, PatternEnd)` with ids 1, 7 and 3. -/
def tree_other_kind : PGE_Exp :=
  .node (PGE_Node.plain 1 .PGE_CONCAT)
    (PGE_Exp.leaf (PGE_Node.plain 7 (.PGE_OTHER 99)))
    (PGE_Exp.leaf (PGE_Node.plain 3 .PGE_PATTERN_END))

/-- The tree `Concat(AnyChar<2..4>, PatternEnd)` with ids 1, 2 and 3. -/
def tree_dot : PGE_Exp :=
  .node (PGE_Node.plain 1 .PGE_CONCAT)
    (PGE_Exp.leaf { PGE_Node.plain 2 .PGE_DOT with min := 2, max := 4 })
    (PGE_Exp.leaf (PGE_Node.plain 3 .PGE_PATTERN_END))

/-! ## The string-literal decoder of the target syntax -/

/-- Modelled from the spec: the byte that a two-byte escape denotes, given the
byte after the backslash (`\\`, `\"`, `\'`, `\n`, `\r`, `\t`, `\0`); the
reader of PIR string constants is not among the sources. -/
def escape_byte (d : Char) : Option Char :=
  if d = '\\' then some '\\'
  else if d = '"' then some '"'
  else if d = '\'' then some '\''
  else if d = 'n' then some '\n'
  else if d = 'r' then some '\r'
  else if d = 't' then some '\t'
  else if d = '0' then some (Char.ofNat 0)
  else none

/-- Modelled from the spec: replaces each two-byte escape by the byte it
denotes and copies every other byte. -/
def unescape : List Char → List Char
  | [] => []
  | [c] => [c]
  | c :: d :: rest =>
    if c = '\\' then
      match escape_byte d with
      | some b => b :: unescape rest
      | none => c :: unescape (d :: rest)
    else c :: unescape (d :: rest)

/-- Modelled from the spec: the string-literal decoder, which strips the
opening and the closing double quote and decodes the escapes in between; a
text that is not enclosed in double quotes is no string literal. -/
def string_literal_decode : List Char → Option (List Char)
  | [] => none
  | q :: body =>
    if q = '"' ∧ body.getLast? = some '"' then some (unescape body.dropLast) else none

/-! ## The instructions of the emitted program

The generator writes text.  To speak about the instructions in it, the lines
it can write are given a structured form (`Instr`) together with the text of
each (`Instr.text`); a statement about an emitted block first shows that the
block's text is `render prog` for an explicit instruction list `prog`. -/

/-- The integer registers the emitted code names. -/
inductive IReg where
  | pos | rep | maxrep | cutgrp | strlen | lastpos | I0 | I1
  deriving DecidableEq, Repr

/-- The string registers the emitted code names. -/
inductive SReg where
  | target | str | S0
  deriving DecidableEq, Repr

/-- The PMC registers the emitted code names. -/
inductive PReg where
  | gr_rep | gr_cap | P0 | P1
  deriving DecidableEq, Repr

/-- A register of any kind, as operand of `save` and `restore`. -/
inductive Reg where
  | int (r : IReg)
  | string (r : SReg)
  | pmc (r : PReg)
  deriving DecidableEq, Repr

/-- An integer operand: a register or a constant written with `%d`. -/
inductive Opd where
  | reg (r : IReg)
  | num (n : Int)
  deriving DecidableEq, Repr

/-- A string operand: a register or a string constant, kept as written. -/
inductive SOpd where
  | reg (r : SReg)
  | const (text : List Char)
  deriving DecidableEq, Repr

/-- The comparison operators of the conditional branches. -/
inductive Cmp where
  | lt | le | eq | ne | gt | ge
  deriving DecidableEq, Repr

/-- The lines the generator writes; the directives of the two procedure
headers are kept as they are written (`raw`). -/
inductive Instr where
  | label (indent : Nat) (name : List Char)
  | comment (indent : Nat) (text : List Char)
  | blank
  | trace_call (text : List Char)
  | goto (l : List Char)
  | if_cmp (a : IReg) (c : Cmp) (b : Opd) (l : List Char)
  | if_true (a : IReg) (l : List Char)
  | unless_true (a : IReg) (l : List Char)
  | if_scmp (a : SReg) (c : Cmp) (b : SOpd) (l : List Char)
  | length (dst : IReg) (src : SReg)
  | set (dst : IReg) (b : Opd)
  | add (dst : IReg) (b : Opd)
  | sub (dst : IReg) (b : Opd)
  | sub3 (dst : IReg) (a : IReg) (b : Opd)
  | inc (dst : IReg)
  | dec (dst : IReg)
  | save (r : Reg)
  | restore (r : Reg)
  | bsr (l : List Char)
  | ret
  | substr (dst src : SReg) (off : IReg) (len : Opd)
  | sets (dst : SReg) (b : SOpd)
  | classoffset (dst : IReg)
  | getattribute (dst : PReg) (idx : IReg)
  | defined (dst : IReg) (tbl : PReg) (key : List Char)
  | fetch (dst : PReg) (tbl : PReg) (key : List Char)
  | elem (dst : IReg) (arr : PReg) (idx : Int)
  | yield (v : Opd)
  | raw (line : List Char)
  | if_pcmp (a : PReg) (c : Cmp) (b : Opd) (l : List Char)
  | pinc (dst : PReg)
  | pdec (dst : PReg)
  | push (arr : PReg) (src : IReg)
  | pop (dst : IReg) (arr : PReg)
  | exists_key (dst : IReg) (tbl : PReg) (key : List Char)
  | new_pmc (dst : PReg) (cls : List Char)
  | store_key (tbl : PReg) (key : List Char) (src : PReg)
  | get_int (dst : IReg) (src : PReg)
  | pset (dst : PReg) (b : Opd)
  deriving DecidableEq

/-- The name of an integer register in the emitted text. -/
def IReg.name : IReg → List Char
  | .pos => "pos".toList
  | .rep => "rep".toList
  | .maxrep => "maxrep".toList
  | .cutgrp => "cutgrp".toList
  | .strlen => "strlen".toList
  | .lastpos => "lastpos".toList
  | .I0 => "$I0".toList
  | .I1 => "$I1".toList

/-- The name of a string register in the emitted text. -/
def SReg.name : SReg → List Char
  | .target => "target".toList
  | .str => "str".toList
  | .S0 => "$S0".toList

/-- The name of a PMC register in the emitted text. -/
def PReg.name : PReg → List Char
  | .gr_rep => "gr_rep".toList
  | .gr_cap => "gr_cap".toList
  | .P0 => "$P0".toList
  | .P1 => "$P1".toList

/-- The name of a register in the emitted text. -/
def Reg.name : Reg → List Char
  | .int r => r.name
  | .string r => r.name
  | .pmc r => r.name

/-- The text of an integer operand. -/
def Opd.text : Opd → List Char
  | .reg r => r.name
  | .num n => fmt_d n

/-- The text of a string operand. -/
def SOpd.text : SOpd → List Char
  | .reg r => r.name
  | .const t => t

/-- The text of a comparison operator. -/
def Cmp.text : Cmp → List Char
  | .lt => "<".toList
  | .le => "<=".toList
  | .eq => "==".toList
  | .ne => "!=".toList
  | .gt => ">".toList
  | .ge => ">=".toList

/-- The line of text that stands for an instruction, followed by `rest`. -/
def Instr.write : Instr → List Char → List Char
  | .label indent name, rest => List.replicate indent ' ' ++ (name ++ (':' :: rest))
  | .comment indent text, rest => List.replicate indent ' ' ++ ('#' :: (text ++ rest))
  | .blank, rest => rest
  | .trace_call text, rest =>
    "    .trace(pos, '".toList ++ (text ++ ("')".toList ++ rest))
  | .goto l, rest => "    goto ".toList ++ (l ++ rest)
  | .if_cmp a c b l, rest =>
    "    if ".toList ++ (a.name ++ (' ' :: (c.text ++ (' ' :: (b.text
      ++ (" goto ".toList ++ (l ++ rest)))))))
  | .if_true a l, rest => "    if ".toList ++ (a.name ++ (" goto ".toList ++ (l ++ rest)))
  | .unless_true a l, rest =>
    "    unless ".toList ++ (a.name ++ (" goto ".toList ++ (l ++ rest)))
  | .if_scmp a c b l, rest =>
    "    if ".toList ++ (a.name ++ (' ' :: (c.text ++ (' ' :: (b.text
      ++ (" goto ".toList ++ (l ++ rest)))))))
  | .length dst src, rest =>
    "    ".toList ++ (dst.name ++ (" = length ".toList ++ (src.name ++ rest)))
  | .set dst b, rest => "    ".toList ++ (dst.name ++ (" = ".toList ++ (b.text ++ rest)))
  | .add dst b, rest => "    ".toList ++ (dst.name ++ (" += ".toList ++ (b.text ++ rest)))
  | .sub dst b, rest => "    ".toList ++ (dst.name ++ (" -= ".toList ++ (b.text ++ rest)))
  | .sub3 dst a b, rest =>
    "    ".toList ++ (dst.name ++ (" = ".toList ++ (a.name ++ (" - ".toList
      ++ (b.text ++ rest)))))
  | .inc dst, rest => "    inc ".toList ++ (dst.name ++ rest)
  | .dec dst, rest => "    dec ".toList ++ (dst.name ++ rest)
  | .save r, rest => "    save ".toList ++ (r.name ++ rest)
  | .restore r, rest => "    restore ".toList ++ (r.name ++ rest)
  | .bsr l, rest => "    bsr ".toList ++ (l ++ rest)
  | .ret, rest => "    ret".toList ++ rest
  | .substr dst src off len, rest =>
    "    substr ".toList ++ (dst.name ++ (", ".toList ++ (src.name ++ (", ".toList
      ++ (off.name ++ (", ".toList ++ (len.text ++ rest)))))))
  | .sets dst b, rest => "    ".toList ++ (dst.name ++ (" = ".toList ++ (b.text ++ rest)))
  | .classoffset dst, rest =>
    "    classoffset ".toList ++ (dst.name ++ (", match, \"PGE::Match\"".toList ++ rest))
  | .getattribute dst idx, rest =>
    "    getattribute ".toList ++ (dst.name ++ (", match, ".toList ++ (idx.name ++ rest)))
  | .defined dst tbl key, rest =>
    "    ".toList ++ (dst.name ++ (" = defined ".toList ++ (tbl.name ++ ('[' :: (key
      ++ (']' :: rest))))))
  | .fetch dst tbl key, rest =>
    "    ".toList ++ (dst.name ++ (" = ".toList ++ (tbl.name ++ ('[' :: (key
      ++ (']' :: rest))))))
  | .elem dst arr idx, rest =>
    "    ".toList ++ (dst.name ++ (" = ".toList ++ (arr.name ++ ('[' :: (fmt_d idx
      ++ (']' :: rest))))))
  | .yield v, rest => "    .yield(".toList ++ (v.text ++ (')' :: rest))
  | .raw line, rest => line ++ rest
  | .if_pcmp a c b l, rest =>
    "    if ".toList ++ (a.name ++ (' ' :: (c.text ++ (' ' :: (b.text
      ++ (" goto ".toList ++ (l ++ rest)))))))
  | .pinc dst, rest => "    inc ".toList ++ (dst.name ++ rest)
  | .pdec dst, rest => "    dec ".toList ++ (dst.name ++ rest)
  | .push arr src, rest =>
    "    push ".toList ++ (arr.name ++ (", ".toList ++ (src.name ++ rest)))
  | .pop dst arr, rest =>
    "    ".toList ++ (dst.name ++ (" = pop ".toList ++ (arr.name ++ rest)))
  | .exists_key dst tbl key, rest =>
    "    ".toList ++ (dst.name ++ (" = exists ".toList ++ (tbl.name ++ ('[' :: (key
      ++ (']' :: rest))))))
  | .new_pmc dst cls, rest =>
    "    new ".toList ++ (dst.name ++ (", ".toList ++ (cls ++ rest)))
  | .store_key tbl key src, rest =>
    "    ".toList ++ (tbl.name ++ ('[' :: (key ++ ("] = ".toList ++ (src.name ++ rest)))))
  | .get_int dst src, rest =>
    "    ".toList ++ (dst.name ++ (" = ".toList ++ (src.name ++ rest)))
  | .pset dst b, rest => "    ".toList ++ (dst.name ++ (" = ".toList ++ (b.text ++ rest)))

/-- The line of text (without its newline) that stands for an instruction. -/
def Instr.text (i : Instr) : List Char := i.write []

/-- The text of an instruction list: every line followed by a newline. -/
def render : List Instr → List Char
  | [] => []
  | i :: rest => i.write ('\n' :: render rest)

/-! ## The target machine -/

/-- Modelled from the spec: what a PMC register can refer to: nothing, one of
the two per-group tables of the match object, the capture stack of one group,
or the repetition counter of one group.  (The virtual machine and the match
object are not among the sources.) -/
inductive PVal where
  | undef
  | rep_table
  | cap_table
  | cap_stack (key : List Char)
  | rep_cell (key : List Char)
  deriving DecidableEq, Repr

/-- A value on the stack of `save` and `restore`. -/
inductive Val where
  | int (n : Int)
  | str (t : List Char)
  | pmc (v : PVal)
  deriving DecidableEq, Repr

/-- Modelled from the spec: the match run-time state of section 3: the
registers, and the two tables of the match object (the per-group repetition
counts and the per-group stacks of captured boundary offsets), keyed by the
group key as written in the program.  `attr_base` is the value `classoffset`
yields for the match class. -/
structure Store where
  int : IReg → Int
  str : SReg → List Char
  pmc : PReg → PVal
  attr_base : Int
  reps : List Char → Option Int
  caps : List Char → Option (List Int)

/-- Writes an integer register. -/
def Store.set_int (st : Store) (r : IReg) (v : Int) : Store :=
  { st with int := fun x => if x = r then v else st.int x }

/-- Writes a string register. -/
def Store.set_str (st : Store) (r : SReg) (v : List Char) : Store :=
  { st with str := fun x => if x = r then v else st.str x }

/-- Writes a PMC register. -/
def Store.set_pmc (st : Store) (r : PReg) (v : PVal) : Store :=
  { st with pmc := fun x => if x = r then v else st.pmc x }

/-- Writes the repetition count of the group `key`. -/
def Store.set_rep (st : Store) (key : List Char) (v : Int) : Store :=
  { st with reps := fun k => if k = key then some v else st.reps k }

/-- Writes the capture stack of the group `key`. -/
def Store.set_cap (st : Store) (key : List Char) (xs : List Int) : Store :=
  { st with caps := fun k => if k = key then some xs else st.caps k }

/-- The value of an integer operand. -/
def Store.opd (st : Store) : Opd → Int
  | .reg r => st.int r
  | .num n => n

/-- The value of a string operand; a constant is read with the string-literal
decoder. -/
def Store.sopd (st : Store) : SOpd → Option (List Char)
  | .reg r => some (st.str r)
  | .const t => string_literal_decode t

/-- Whether a comparison holds. -/
def Cmp.holds : Cmp → Int → Int → Bool
  | .lt, a, b => decide (a < b)
  | .le, a, b => decide (a ≤ b)
  | .eq, a, b => decide (a = b)
  | .ne, a, b => decide (a ≠ b)
  | .gt, a, b => decide (a > b)
  | .ge, a, b => decide (a ≥ b)

/-- What the machine records: control arrives at a label (with the values of
`pos` and `rep` at that moment), or a value is yielded. -/
inductive Event where
  | arrive (label : List Char) (pos rep : Int)
  | yielded (v : Int)
  deriving DecidableEq, Repr

/-- Whether the machine still runs. `returned`: a `ret` found the call stack
of this code empty, control is back at whoever entered it.  `left l`: control
went to the label `l` outside the program and does not come back.  `error`:
the instruction or its operands are outside the model. -/
inductive Status where
  | running
  | returned
  | left (l : List Char)
  | error
  deriving DecidableEq, Repr

/-- Modelled from the spec: a configuration of the backtracking machine: the
instructions still ahead, the store, the stack of `save`/`restore`, the
return points of the pending `bsr` calls, and the events so far. -/
structure Machine where
  code : List Instr
  store : Store
  saved : List Val
  calls : List (List Instr)
  log : List Event
  status : Status

/-- The behaviour of code outside the program under study: entered at a label,
as the n-th event, with a store, it either fails, returning with the store
it leaves behind, or it keeps control (`none`). -/
abbrev Ext := List Char → Nat → Store → Option Store

/-- Whether the instruction defines the label `l`. -/
def Instr.defines (l : List Char) : Instr → Bool
  | .label _ name => decide (name = l)
  | _ => false

/-- The program from the definition of label `l` on. -/
def find_label : List Instr → List Char → Option (List Instr)
  | [], _ => none
  | i :: rest, l => if i.defines l then some (i :: rest) else find_label rest l

/-- The instruction `ret`. -/
def Machine.do_ret (m : Machine) : Machine :=
  match m.calls with
  | [] => { m with status := .returned }
  | k :: ks => { m with code := k, calls := ks }

/-- Transfers control to label `l`: into the program when it defines `l`,
otherwise to the outside code, whose failure is a `ret`. -/
def Machine.jump (prog : List Instr) (ext : Ext) (l : List Char) (m : Machine) : Machine :=
  match find_label prog l with
  | some code => { m with code := code }
  | none =>
    let log := m.log ++ [Event.arrive l (m.store.int .pos) (m.store.int .rep)]
    match ext l m.log.length m.store with
    | none => { m with log := log, status := .left l }
    | some st => { m with log := log, store := st }.do_ret

/-- The value of a register. -/
def Store.get (st : Store) : Reg → Val
  | .int r => .int (st.int r)
  | .string r => .str (st.str r)
  | .pmc r => .pmc (st.pmc r)

/-- The instruction `restore r` with `v` on top of the stack. -/
def Store.put (st : Store) : Reg → Val → Option Store
  | .int r, .int n => some (st.set_int r n)
  | .string r, .str t => some (st.set_str r t)
  | .pmc r, .pmc v => some (st.set_pmc r v)
  | _, _ => none

/-- The element of `xs` at index `idx`; a negative index counts from the end. -/
def elem_at (xs : List Int) (idx : Int) : Option Int :=
  if 0 ≤ idx then xs.get? idx.toNat
  else if (-idx).toNat ≤ xs.length then xs.get? (xs.length - (-idx).toNat)
  else none

/-- Modelled from the spec: the effect of one instruction (already taken off
`code`).  `substr` is defined for an offset inside the string and a length
that is not negative.  A PMC register that holds a counter or a stack refers
to the object in the table, so `inc`, `dec`, `push` and `pop` on it change the
table, and `save`/`restore` keep the reference, not the value.  Creating an
object (`new`) and storing it in a table are given no meaning. -/
def Machine.exec (prog : List Instr) (ext : Ext) (m : Machine) : Instr → Machine
  | .label _ name =>
    { m with log := m.log ++ [Event.arrive name (m.store.int .pos) (m.store.int .rep)] }
  | .comment _ _ => m
  | .blank => m
  | .trace_call _ => m
  | .goto l => m.jump prog ext l
  | .if_cmp a c b l => if c.holds (m.store.int a) (m.store.opd b) then m.jump prog ext l else m
  | .if_true a l => if m.store.int a ≠ 0 then m.jump prog ext l else m
  | .unless_true a l => if m.store.int a = 0 then m.jump prog ext l else m
  | .if_scmp a c b l =>
    match m.store.sopd b, c with
    | some t, .eq => if m.store.str a = t then m.jump prog ext l else m
    | some t, .ne => if m.store.str a ≠ t then m.jump prog ext l else m
    | _, _ => { m with status := .error }
  | .length dst src => { m with store := m.store.set_int dst (m.store.str src).length }
  | .set dst b => { m with store := m.store.set_int dst (m.store.opd b) }
  | .add dst b => { m with store := m.store.set_int dst (m.store.int dst + m.store.opd b) }
  | .sub dst b => { m with store := m.store.set_int dst (m.store.int dst - m.store.opd b) }
  | .sub3 dst a b => { m with store := m.store.set_int dst (m.store.int a - m.store.opd b) }
  | .inc dst => { m with store := m.store.set_int dst (m.store.int dst + 1) }
  | .dec dst => { m with store := m.store.set_int dst (m.store.int dst - 1) }
  | .save r => { m with saved := m.store.get r :: m.saved }
  | .restore r =>
    match m.saved with
    | [] => { m with status := .error }
    | v :: vs =>
      match m.store.put r v with
      | none => { m with status := .error }
      | some st => { m with store := st, saved := vs }
  | .bsr l => { m with calls := m.code :: m.calls }.jump prog ext l
  | .ret => m.do_ret
  | .substr dst src off len =>
    let o := m.store.int off
    let n := m.store.opd len
    if 0 ≤ o ∧ o < (m.store.str src).length ∧ 0 ≤ n then
      { m with store := m.store.set_str dst (((m.store.str src).drop o.toNat).take n.toNat) }
    else { m with status := .error }
  | .sets dst b =>
    match m.store.sopd b with
    | some t => { m with store := m.store.set_str dst t }
    | none => { m with status := .error }
  | .classoffset dst => { m with store := m.store.set_int dst m.store.attr_base }
  | .getattribute dst idx =>
    if m.store.int idx = m.store.attr_base + 3 then
      { m with store := m.store.set_pmc dst .rep_table }
    else if m.store.int idx = m.store.attr_base + 4 then
      { m with store := m.store.set_pmc dst .cap_table }
    else { m with status := .error }
  | .defined dst tbl key =>
    match m.store.pmc tbl with
    | .cap_table =>
      { m with store := m.store.set_int dst (if (m.store.caps key).isSome then 1 else 0) }
    | .rep_table =>
      { m with store := m.store.set_int dst (if (m.store.reps key).isSome then 1 else 0) }
    | _ => { m with status := .error }
  | .fetch dst tbl key =>
    match m.store.pmc tbl, m.store.caps key with
    | .cap_table, some _ => { m with store := m.store.set_pmc dst (.cap_stack key) }
    | .rep_table, _ =>
      match m.store.reps key with
      | some _ => { m with store := m.store.set_pmc dst (.rep_cell key) }
      | none => { m with status := .error }
    | _, _ => { m with status := .error }
  | .elem dst arr idx =>
    match m.store.pmc arr with
    | .cap_stack key =>
      match (m.store.caps key).bind (fun xs => elem_at xs idx) with
      | some v => { m with store := m.store.set_int dst v }
      | none => { m with status := .error }
    | _ => { m with status := .error }
  | .yield v => { m with log := m.log ++ [Event.yielded (m.store.opd v)] }
  | .raw _ => { m with status := .error }
  | .if_pcmp a c b l =>
    match m.store.pmc a with
    | .rep_cell key =>
      match m.store.reps key with
      | some v => if c.holds v (m.store.opd b) then m.jump prog ext l else m
      | none => { m with status := .error }
    | _ => { m with status := .error }
  | .pinc dst =>
    match m.store.pmc dst with
    | .rep_cell key =>
      match m.store.reps key with
      | some v => { m with store := m.store.set_rep key (v + 1) }
      | none => { m with status := .error }
    | _ => { m with status := .error }
  | .pdec dst =>
    match m.store.pmc dst with
    | .rep_cell key =>
      match m.store.reps key with
      | some v => { m with store := m.store.set_rep key (v - 1) }
      | none => { m with status := .error }
    | _ => { m with status := .error }
  | .push arr src =>
    match m.store.pmc arr with
    | .cap_stack key =>
      match m.store.caps key with
      | some xs => { m with store := m.store.set_cap key (xs ++ [m.store.int src]) }
      | none => { m with status := .error }
    | _ => { m with status := .error }
  | .pop dst arr =>
    match m.store.pmc arr with
    | .cap_stack key =>
      match m.store.caps key with
      | some xs =>
        match xs.getLast? with
        | some v => { m with store := (m.store.set_cap key xs.dropLast).set_int dst v }
        | none => { m with status := .error }
      | none => { m with status := .error }
    | _ => { m with status := .error }
  | .exists_key dst tbl key =>
    match m.store.pmc tbl with
    | .cap_table =>
      { m with store := m.store.set_int dst (if (m.store.caps key).isSome then 1 else 0) }
    | .rep_table =>
      { m with store := m.store.set_int dst (if (m.store.reps key).isSome then 1 else 0) }
    | _ => { m with status := .error }
  | .new_pmc _ _ => { m with status := .error }
  | .store_key _ _ _ => { m with status := .error }
  | .get_int dst src =>
    match m.store.pmc src with
    | .rep_cell key =>
      match m.store.reps key with
      | some v => { m with store := m.store.set_int dst v }
      | none => { m with status := .error }
    | _ => { m with status := .error }
  | .pset dst b =>
    match m.store.pmc dst with
    | .rep_cell key =>
      match m.store.reps key with
      | some _ => { m with store := m.store.set_rep key (m.store.opd b) }
      | none => { m with status := .error }
    | _ => { m with status := .error }

/-- One step of the machine; a machine that has stopped stays as it is. -/
def Machine.step (prog : List Instr) (ext : Ext) (m : Machine) : Machine :=
  match m.status with
  | .running =>
    match m.code with
    | [] => { m with status := .error }
    | i :: rest => { m with code := rest }.exec prog ext i
  | _ => m

/-- The machine after `n` steps. -/
def Machine.run (prog : List Instr) (ext : Ext) : Nat → Machine → Machine
  | 0, m => m
  | n + 1, m => Machine.run prog ext n (m.step prog ext)

/-- The machine about to run `prog` from the label `l`, entered from outside
with the store `st`. -/
def Machine.start (prog : List Instr) (l : List Char) (st : Store) : Machine :=
  { code := (find_label prog l).getD [], store := st, saved := [], calls := [], log := [],
    status := .running }

/-- The values of `rep` and `pos` at each arrival at label `l`, in order. -/
def attempts (l : List Char) : List Event → List (Int × Int)
  | [] => []
  | .arrive l' pos rep :: rest =>
    if l' = l then (rep, pos) :: attempts l rest else attempts l rest
  | .yielded _ :: rest => attempts l rest

/-- The labels at which control arrived, in order. -/
def arrivals : List Event → List (List Char)
  | [] => []
  | .arrive l _ _ :: rest => l :: arrivals rest
  | .yielded _ :: rest => arrivals rest

/-! ## The emitted blocks as instruction lists -/

/-- The label `R<id><suffix>` of an auxiliary block of node `id`. -/
def aux_label (id : Int) (suffix : String) : List Char :=
  'R' :: (fmt_d id ++ suffix.toList)

/-- The lines `trace` writes for the formatted text `t`. -/
def trace_prog (tr : Bool) (t : List Char) : List Instr :=
  .comment 4 (' ' :: t.take 79) :: (if tr then [.trace_call (t.take 79)] else [])

/-- The lines `emitsub` writes. -/
def emitsub_prog (sub : List Char) (regs : List Reg) : List Instr :=
  regs.map .save ++ .bsr sub :: (regs.reverse.map .restore
    ++ [.if_true .cutgrp "fail_group".toList])

/-- The instructions the greedy branch of `pge_gen_dot` writes. -/
def dot_greedy_prog (e : PGE_Node) (succ : List Char) : List Instr :=
  [.set .rep (.reg .maxrep), .add .pos (.reg .rep), .label 2 (aux_label e.id "_2"),
    .if_cmp .rep .lt (.num e.min) "fail".toList] ++
  if e.iscut then [.goto succ]
  else
    [.if_cmp .rep .eq (.num e.min) succ] ++ emitsub_prog succ [.int .pos, .int .rep] ++
    [.dec .rep, .dec .pos, .goto (aux_label e.id "_2"), .blank]

/-- The instructions the lazy branch of `pge_gen_dot` writes. -/
def dot_lazy_prog (e : PGE_Node) (succ : List Char) : List Instr :=
  [.set .rep (.num e.min)] ++ (if e.min > 0 then [.add .pos (.num e.min)] else []) ++
  [.label 2 (aux_label e.id "_3"), .if_cmp .rep .gt (.reg .maxrep) "fail".toList] ++
  if e.iscut then [.goto succ]
  else
    [.if_cmp .rep .eq (.reg .maxrep) succ] ++
    emitsub_prog succ [.int .pos, .int .rep, .int .maxrep] ++
    [.inc .rep, .inc .pos, .goto (aux_label e.id "_3"), .blank]

/-- The instructions `pge_gen_dot` writes. -/
def dot_prog (env : Env) (e : PGE_Node) (succ : List Char) (tr : Bool) : List Instr :=
  trace_prog tr (sprintf "dot %s" [Arg.s (fmt_quant env e)]) ++
  [.length .maxrep .target, .sub .maxrep (.reg .pos)] ++
  (if e.min > 0 then [.if_cmp .maxrep .lt (.num e.min) "fail".toList] else []) ++
  if e.min = e.max then [.add .pos (.num e.min), .goto succ, .blank]
  else
    (if e.max ≠ env.PGE_INF then
      [.if_cmp .maxrep .le (.num e.max) (aux_label e.id "_1"), .set .maxrep (.num e.max),
        .label 2 (aux_label e.id "_1")]
    else []) ++
    if e.isgreedy then dot_greedy_prog e succ else dot_lazy_prog e succ

/-- The function `emit` once the text is formatted. -/
def put (env : Env) (fmt : String) (out : Option (List Char)) (s : State) : State :=
  if s.ub then s
  else
    match out with
    | none => s.fault
    | some out =>
      { s with
        pge_cbuf := s.pge_cbuf.take s.pge_cbuf_len ++ out
        pge_cbuf_size := next_size env fmt s.pge_cbuf_len s.pge_cbuf_size
        pge_cbuf_len := s.pge_cbuf_len + out.length }

/-- No undefined behaviour so far and `pge_cbuf_len` inside the buffer's string. -/
def State.ok0 (s : State) : Prop :=
  s.ub = false ∧ s.pge_cbuf_len ≤ s.pge_cbuf.length

/-- From the sound state `s`, the run to `s'` stays sound, appends `out` to the
buffer and leaves the trace flag and the line counter alone. -/
def Emits (s s' : State) (out : List Char) : Prop :=
  s'.ok ∧ s'.pge_cbuf = s.pge_cbuf ++ out ∧ s'.pge_istraced = s.pge_istraced ∧
  s'.pge_cbuf_lcount = s.pge_cbuf_lcount

/-- The instructions of the shared failure blocks `pge_gen` writes last. -/
def epilogue_prog (tr : Bool) : List Instr :=
  .label 2 "fail_group".toList :: (trace_prog tr "fail_group".toList ++
    (.set .cutgrp (.num 1) :: .ret :: .label 2 "fail".toList :: (trace_prog tr "fail".toList ++
      [.set .cutgrp (.num 0), .ret, .raw ".end".toList])))

/-- The first part of the block of `pge_gen_dot`: the count of characters
left, the test against `min` and the cap at `max`. -/
def dot_head_prog (env : Env) (e : PGE_Node) (tr : Bool) : List Instr :=
  trace_prog tr (sprintf "dot %s" [Arg.s (fmt_quant env e)]) ++
  [.length .maxrep .target, .sub .maxrep (.reg .pos)] ++
  (if e.min > 0 then [.if_cmp .maxrep .lt (.num e.min) "fail".toList] else []) ++
  (if e.max ≠ env.PGE_INF then
      [.if_cmp .maxrep .le (.num e.max) (aux_label e.id "_1"), .set .maxrep (.num e.max),
        .label 2 (aux_label e.id "_1")]
    else [])

/-- The loop of the greedy branch, after its label. -/
def dot_greedy_loop (e : PGE_Node) (succ : List Char) : List Instr :=
  [.if_cmp .rep .lt (.num e.min) "fail".toList, .if_cmp .rep .eq (.num e.min) succ]
    ++ emitsub_prog succ [.int .pos, .int .rep] ++
    [.dec .rep, .dec .pos, .goto (aux_label e.id "_2"), .blank]

/-- The loop of the lazy branch, after its label. -/
def dot_lazy_loop (e : PGE_Node) (succ : List Char) : List Instr :=
  [.if_cmp .rep .gt (.reg .maxrep) "fail".toList, .if_cmp .rep .eq (.reg .maxrep) succ]
    ++ emitsub_prog succ [.int .pos, .int .rep, .int .maxrep] ++
    [.inc .rep, .inc .pos, .goto (aux_label e.id "_3"), .blank]

/-- The list `(lo + j, p + lo + j), ..., (lo + 1, p + lo + 1), (lo, p + lo)`:
the counts from `lo + j` down to `lo`, each with the position it is tried at. -/
def counts_down (p lo : Int) : Nat → List (Int × Int)
  | 0 => [(lo, p + lo)]
  | j + 1 => (lo + (j + 1 : Nat), p + (lo + (j + 1 : Nat))) :: counts_down p lo j

/-- The list `(hi - j, p + hi - j), ..., (hi - 1, p + hi - 1), (hi, p + hi)`:
the counts from `hi - j` up to `hi`, each with the position it is tried at. -/
def counts_up (p hi : Int) : Nat → List (Int × Int)
  | 0 => [(hi, p + hi)]
  | j + 1 => (hi - (j + 1 : Nat), p + (hi - (j + 1 : Nat))) :: counts_up p hi j

/-- The largest repetition count of an any-character node at position `p` of a
subject of length `n`: what is left of the subject, capped at `max` when `max`
is finite. -/
def dot_maxrep (env : Env) (e : PGE_Node) (n p : Int) : Int :=
  if e.max = env.PGE_INF then n - p else if n - p ≤ e.max then n - p else e.max

/-- From `m` the machine gets, after some number of steps, to a configuration
that satisfies `P`. -/
def Leads (prog : List Instr) (ext : Ext) (m : Machine) (P : Machine → Prop) : Prop :=
  ∃ n, P (Machine.run prog ext n m)

/-- The subject `abcde` with `pos = 0`; every other register is zero or empty. -/
def store_demo : Store :=
  { int := fun _ => 0
    str := fun r => if r = .target then "abcde".toList else []
    pmc := fun _ => .undef
    attr_base := 0
    reps := fun _ => none
    caps := fun _ => none }

/-- Outside code that always fails at once: it returns with `cutgrp = 0`. -/
def ext_fail : Ext := fun _ _ st => some (st.set_int .cutgrp 0)

/-- The node `AnyChar<2..4>` with id 2. -/
def node_dot (greedy : Bool) : PGE_Node :=
  { PGE_Node.plain 2 .PGE_DOT with min := 2, max := 4, isgreedy := greedy }

/-- The instructions `pge_gen_string` writes for the quantifier `<1>`. -/
def string_fixed_prog (succ : List Char) : List Instr :=
  [.substr .S0 .target .pos (.reg .strlen), .if_scmp .S0 .ne (.reg .str) "fail".toList,
    .add .pos (.reg .strlen), .goto succ, .blank]

/-- The instructions the greedy branch of `pge_gen_string` writes. -/
def string_greedy_prog (env : Env) (e : PGE_Node) (succ : List Char) : List Instr :=
  [.set .rep (.num 0), .label 2 (aux_label e.id "_1")] ++
  (if e.max ≠ env.PGE_INF then [.if_cmp .rep .ge (.num e.max) (aux_label e.id "_2")] else []) ++
  [.substr .S0 .target .pos (.reg .strlen),
    .if_scmp .S0 .ne (.reg .str) (aux_label e.id "_2"), .inc .rep, .add .pos (.reg .strlen),
    .goto (aux_label e.id "_1"), .label 2 (aux_label e.id "_2")] ++
  (if e.min > 0 then [.if_cmp .rep .lt (.num e.min) "fail".toList] else []) ++
  if e.iscut then [.goto succ]
  else
    [.if_cmp .rep .eq (.num e.min) succ] ++
    emitsub_prog succ [.int .pos, .int .rep, .int .strlen] ++
    [.dec .rep, .sub .pos (.reg .strlen), .goto (aux_label e.id "_2"), .blank]

/-- The instructions the lazy branch of `pge_gen_string` writes. -/
def string_lazy_prog (env : Env) (e : PGE_Node) (succ : List Char) : List Instr :=
  [.set .rep (.num 0), .label 2 (aux_label e.id "_1")] ++
  (if e.min > 0 then [.if_cmp .rep .lt (.num e.min) (aux_label e.id "_2:")] else []) ++
  if e.iscut then [.goto succ]
  else
    (if e.max ≠ env.PGE_INF then [.if_cmp .rep .eq (.num e.max) succ] else []) ++
    emitsub_prog succ [.int .pos, .int .rep, .string .str, .int .strlen] ++
    [.label 2 (aux_label e.id "_2"), .substr .S0 .target .pos (.reg .strlen),
      .if_scmp .S0 .ne (.reg .str) "fail".toList, .inc .rep, .add .pos (.reg .strlen),
      .goto (aux_label e.id "_1"), .blank]

/-- The instructions `pge_gen_string` writes. -/
def string_prog (env : Env) (e : PGE_Node) (succ : List Char) : List Instr :=
  if e.min = 1 ∧ e.max = 1 then string_fixed_prog succ
  else if e.isgreedy then string_greedy_prog env e succ
  else string_lazy_prog env e succ

/-- The group key as written in the program: the group number in double
quotes. -/
def group_key (e : PGE_Node) : List Char := sprintf "\"%d\"" [Arg.d e.group]

/-- The instructions `pge_gen_backreference` writes before the shared routine:
the lookup of the capture and the two tests. -/
def backref_head_prog (env : Env) (e : PGE_Node) (succ : List Char) (tr : Bool) : List Instr :=
  trace_prog tr (sprintf "backref $%d %s" [Arg.d e.group, Arg.s (fmt_quant env e)]) ++
  [.classoffset .I0, .add .I0 (.num 4), .getattribute .gr_cap .I0,
    .defined .I0 .gr_cap (group_key e), .unless_true .I0 succ,
    .fetch .P0 .gr_cap (group_key e), .elem .I0 .P0 (-2), .elem .I1 .P0 (-1),
    .if_cmp .I0 .ge (.reg .I1) succ, .sub3 .strlen .I1 (.reg .I0),
    .substr .str .target .I0 (.reg .strlen)]

/-- The instructions `pge_gen_backreference` writes. -/
def backref_prog (env : Env) (e : PGE_Node) (succ : List Char) (tr : Bool) : List Instr :=
  backref_head_prog env e succ tr ++ string_prog env e succ

/-- Outside code that keeps control. -/
def ext_stop : Ext := fun _ _ _ => none

/-- The node `\1` (a back reference to group 1, quantifier `<1>`) with id 5. -/
def node_backref : PGE_Node :=
  { PGE_Node.plain 5 .PGE_BACKREFERENCE with group := 1 }

/-- The store of `store_demo` with the offsets `[1, 3]` captured for group 1. -/
def store_captured : Store :=
  { store_demo with caps := fun k => if k = "\"1\"".toList then some [1, 3] else none }

/-- Reads a decimal numeral back: the value of its digits. -/
def read_nat (t : List Char) (init : Nat) : Nat :=
  t.foldl (fun acc c => acc * 10 + (c.toNat - 48)) init

/-- The label `R<id>` of the block of node `id`. -/
def node_label (id : Int) : List Char := sprintf "R%d" [Arg.d id]

/-- The number in the `# line` marker `emitlcount` writes in state `s`, if one
is due. -/
def due (s : State) : Option Int :=
  if ((s.pge_cbuf.count '\n' : Nat) : Int) > s.pge_cbuf_lcount + 10 then
    some ((s.pge_cbuf.count '\n' : Nat) : Int)
  else none

/-- The line `emitlcount` writes. -/
def marker_prog : Option Int → List Instr
  | none => []
  | some n => [.comment 0 (sprintf " line %d" [Arg.d n])]

/-- The label of an alternation and the lines `pge_gen_alt` writes before the
blocks of the two branches. -/
def alt_head_prog (ida id1 id2 : Int) (tr : Bool) : List Instr :=
  .label 2 (node_label ida) ::
    (trace_prog tr (sprintf "alt R%d | R%d" [Arg.d id1, Arg.d id2]) ++
      emitsub_prog (node_label id1) [.int .pos] ++ [.goto (node_label id2), .blank])

/-- The label of a concatenation and the line `pge_gen_concat` writes before
the blocks of the two parts. -/
def concat_head_prog (idc id1 id2 : Int) : List Instr :=
  [.label 2 (node_label idc), .comment 4 (sprintf "concat R%d, R%d" [Arg.d id1, Arg.d id2])]

/-- The block of a `PGE_CUT_ALT` node: its label and the lines `pge_gen_cut`
writes. -/
def cut_alt_block (idk : Int) (succ : List Char) (tr : Bool) : List Instr :=
  .label 2 (node_label idk) ::
    (trace_prog tr "::cut alt".toList ++ emitsub_prog succ [] ++ [.goto "fail_group".toList])

/-- The program text from the label of an alternation `A` with the left branch
`Concat(CutAlternative, X)` up to the block of `X`; `o1`, `o2`, `o3` are the
line markers before the three labels. -/
def cut_alt_prog (o1 o2 o3 : Option Int) (ida idc idk idx idy : Int) (tr : Bool) :
    List Instr :=
  marker_prog o1 ++ (alt_head_prog ida idc idy tr ++ (marker_prog o2 ++
    (concat_head_prog idc idk idx ++ (marker_prog o3 ++
      cut_alt_block idk (node_label idx) tr))))

/-- As `Emits`, but the line counter may have moved. -/
def Writes (s s' : State) (out : List Char) : Prop :=
  s'.ok ∧ s'.pge_cbuf = s.pge_cbuf ++ out ∧ s'.pge_istraced = s.pge_istraced

/-- The instructions of the block of a Literal node: its label and the lines
`pge_gen_literal` writes. -/
def literal_prog (env : Env) (e : PGE_Node) (succ : List Char) (tr : Bool) : List Instr :=
  .label 2 (node_label e.id) ::
    (trace_prog tr (sprintf "%.16s %s" [Arg.s (str_con e.name e.nlen), Arg.s (fmt_quant env e)])
      ++ [.sets .str (.const (str_con e.name e.nlen)), .set .strlen (.num e.nlen)]
      ++ string_prog env e succ)

/-- The Literal node with the given id whose text is the single character `ch`. -/
def node_lit (id : Int) (ch : Char) : PGE_Node :=
  { PGE_Node.plain id .PGE_LITERAL with name := [ch], nlen := 1 }

/-- The tree `Alt(Concat(CutAlternative, Literal("x")), Literal("y"))` with the
ids 1 to 5. -/
def tree_cut_alt : PGE_Exp :=
  .node (PGE_Node.plain 1 .PGE_ALT)
    (.node (PGE_Node.plain 2 .PGE_CONCAT) (PGE_Exp.leaf (PGE_Node.plain 3 .PGE_CUT_ALT))
      (PGE_Exp.leaf (node_lit 4 'x')))
    (PGE_Exp.leaf (node_lit 5 'y'))

/-- The blocks of `Literal("x")` and `Literal("y")` in the program of
`tree_cut_alt` with the continuation `R6`; a line marker is due before the
first. -/
def rest_cut_alt : List Instr :=
  marker_prog (some 15) ++
  literal_prog env_demo (node_lit 4 'x') "R6".toList false ++
  literal_prog env_demo (node_lit 5 'y') "R6".toList false

/-- The instructions `pge_gen_anchor` writes for a `PGE_ANCHOR_EOL` node. -/
def eol_prog (e : PGE_Node) (succ : List Char) (tr : Bool) : List Instr :=
  trace_prog tr "anchor$$".toList ++
  [.if_cmp .pos .eq (.reg .lastpos) (aux_label e.id "_1"),
    .substr .S0 .target .pos (.num 1),
    .if_scmp .S0 .eq (.const "\"\\n\"".toList) succ,
    .goto "fail".toList,
    .label 0 (aux_label e.id "_1"),
    .sub3 .I0 .pos (.num 1),
    .substr .S0 .target .I0 (.num 1),
    .if_scmp .S0 .ne (.const "\"\\n\"".toList) succ,
    .goto "fail".toList, .blank]

/-- The node `AnchorEndOfLine` with id 7. -/
def node_eol : PGE_Node := PGE_Node.plain 7 .PGE_ANCHOR_EOL

/-- A store with the subject `t`, `lastpos` its length and `pos = p`. -/
def store_at (t : List Char) (p : Int) : Store :=
  { int := fun r => if r = .pos then p else if r = .lastpos then t.length else 0
    str := fun r => if r = .target then t else []
    pmc := fun _ => .undef
    attr_base := 0
    reps := fun _ => none
    caps := fun _ => none }

/-- The seven bytes `str_con` writes as two: backslash, double quote, single
quote, LF, CR, TAB and NUL. -/
def escaped (c : Char) : Bool :=
  c = '\\' || c = '"' || c = '\'' || c = '\n' || c = '\r' || c = '\t' || c = Char.ofNat 0

/-- The tree `Concat(AnyChar<3..2>, PatternEnd)` with ids 1, 2 and 3: the finite
`max` is below `min`. -/
def tree_bad_bounds : PGE_Exp :=
  .node (PGE_Node.plain 1 .PGE_CONCAT)
    (PGE_Exp.leaf { PGE_Node.plain 2 .PGE_DOT with min := 3, max := 2 })
    (PGE_Exp.leaf (PGE_Node.plain 3 .PGE_PATTERN_END))

/-- Whether `line` (without its newline) is one of the lines of `text`. -/
def has_line (line : List Char) (text : List Char) : Bool :=
  (text.splitOn '\n').contains line

/-- The node `Literal("a")<2..3>?:` with id 5: lazy, with the cut flag. -/
def node_lazy_cut : PGE_Node :=
  { PGE_Node.plain 5 .PGE_LITERAL with
    name := ['a'], nlen := 1, min := 2, max := 3, isgreedy := false, iscut := true }

/-- The name `R<id>_repeat` of the repeat block of a group. -/
def repeat_label (id : Int) : List Char := sprintf "R%d_repeat" [Arg.d id]

/-- The three registers `emitsub` saves around the calls of the repeat block. -/
def group_regs : List Reg := [.int .pos, .pmc .gr_cap, .pmc .gr_rep]

/-- The instructions of `pge_gen_group_init`. -/
def group_init_prog (e : PGE_Node) (key repsub : List Char) : List Instr :=
  [.classoffset .I0, .add .I0 (.num 3), .getattribute .gr_rep .I0,
    .exists_key .I1 .gr_rep key, .if_true .I1 (aux_label e.id "_1"),
    .new_pmc .P1 ".PerlInt".toList, .store_key .gr_rep key .P1,
    .label 2 (aux_label e.id "_1")] ++
  (if e.group ≥ 0 then
    [.inc .I0, .getattribute .gr_cap .I0, .exists_key .I1 .gr_cap key,
      .if_true .I1 (aux_label e.id "_2"), .new_pmc .P1 ".PerlArray".toList,
      .store_key .gr_cap key .P1, .label 2 (aux_label e.id "_2")]
  else []) ++
  [.fetch .P1 .gr_rep key, .get_int .I1 .P1, .pset .P1 (.num 0),
    .save (.int .pos), .save (.pmc .gr_rep), .save (.int .I1), .bsr repsub,
    .restore (.int .I1), .restore (.pmc .gr_rep), .restore (.int .pos),
    .fetch .P1 .gr_rep key, .pset .P1 (.reg .I1), .goto "fail".toList, .blank]

/-- The first part of the repeat block: it looks up the counter and the
capture stack of the group and, from the second round on, records the end of
the previous capture. -/
def repeat_head_prog (e : PGE_Node) (key repsub : List Char) : List Instr :=
  [.label 2 repsub, .classoffset .I0, .add .I0 (.num 3), .getattribute .P0 .I0,
    .fetch .gr_rep .P0 key] ++
  (if e.group ≥ 0 then
    [.inc .I0, .getattribute .P0 .I0, .fetch .gr_cap .P0 key,
      .if_pcmp .gr_rep .lt (.num 1) (repsub ++ "_1".toList), .push .gr_cap .pos]
  else []) ++
  [.label 2 (repsub ++ "_1".toList)]

/-- One more round of the body: the call of `R<body.id>` between the
increment and the decrement of the counter (and, for a capturing group,
between the push and the pop of the start of the next capture). -/
def body_call_prog (e : PGE_Node) (r1sub : List Char) : List Instr :=
  [.pinc .gr_rep] ++ (if e.group ≥ 0 then [.push .gr_cap .pos] else []) ++
  emitsub_prog r1sub group_regs ++
  (if e.group ≥ 0 then [.pop .I0 .gr_cap] else []) ++ [.pdec .gr_rep]

/-- The middle of the repeat block when the group is greedy. -/
def repeat_greedy_prog (env : Env) (e : PGE_Node) (repsub r1sub succ : List Char) :
    List Instr :=
  (if e.max ≠ env.PGE_INF then
    [.if_pcmp .gr_rep .ge (.num e.max) (repsub ++ "_2".toList)] else []) ++
  body_call_prog e r1sub ++ [.label 2 (repsub ++ "_2".toList)] ++
  (if e.min > 0 then
    [.if_pcmp .gr_rep .lt (.num e.min) (repsub ++ "_fail".toList)] else []) ++
  emitsub_prog succ group_regs

/-- The middle of the repeat block when the group is lazy. -/
def repeat_lazy_prog (env : Env) (e : PGE_Node) (repsub r1sub succ : List Char) :
    List Instr :=
  (if e.min > 0 then
    [.if_pcmp .gr_rep .lt (.num e.min) (repsub ++ "_3".toList)] else []) ++
  emitsub_prog succ group_regs ++ [.label 2 (repsub ++ "_3".toList)] ++
  (if e.max ≠ env.PGE_INF then
    [.if_pcmp .gr_rep .ge (.num e.max) (repsub ++ "_fail".toList)] else []) ++
  body_call_prog e r1sub

/-- The end of the repeat block: it removes the recorded end of the previous
capture and fails. -/
def repeat_tail_prog (e : PGE_Node) (repsub : List Char) : List Instr :=
  [.label 2 (repsub ++ "_fail".toList)] ++
  (if e.group ≥ 0 then
    [.if_pcmp .gr_rep .lt (.num 1) "fail".toList, .pop .I0 .gr_cap] else []) ++
  [.goto (if e.iscut then "fail_group".toList else "fail".toList), .blank]

/-- The instructions of `pge_gen_group_repeat`. -/
def group_repeat_prog (env : Env) (e : PGE_Node) (key repsub r1sub succ : List Char) :
    List Instr :=
  repeat_head_prog e key repsub ++
  (if e.isgreedy then repeat_greedy_prog env e repsub r1sub succ
    else repeat_lazy_prog env e repsub r1sub succ) ++
  repeat_tail_prog e repsub

/-- The targets of the `bsr` instructions of a program, in the order of the
text. -/
def calls : List Instr → List (List Char)
  | [] => []
  | .bsr l :: rest => l :: calls rest
  | _ :: rest => calls rest

/-- A group node with id 4 and body `R5`: capturing group 0 with the
quantifier `<0...>`, greedy or lazy. -/
def node_group (greedy : Bool) : PGE_Node :=
  { PGE_Node.plain 4 .PGE_GROUP with min := 0, max := -1, isgreedy := greedy, group := 0 }

/-- What the repeat block keeps while it runs: `gr_rep` and `gr_cap` refer to
the counter and the capture stack of the group `key`, whose values are `R` and
`S`. -/
def GInv (key : List Char) (R : Int) (S : List Int) (st : Store) : Prop :=
  st.pmc .gr_rep = .rep_cell key ∧ st.pmc .gr_cap = .cap_stack key ∧
  st.reps key = some R ∧ st.caps key = some S

/-- The labels the repeat block `repsub` defines. -/
def repeat_labels (repsub : List Char) : List (List Char) :=
  [repsub, repsub ++ "_1".toList, repsub ++ "_2".toList, repsub ++ "_3".toList,
    repsub ++ "_fail".toList]

/-- Code outside the repeat block: the two failure labels keep control, every
other label fails at once with `cutgrp = 0`. -/
def ext_calls : Ext := fun l _ st =>
  if l = "fail".toList ∨ l = "fail_group".toList then none else some (st.set_int .cutgrp 0)

/-- A store in which group 0 has the counter 1 and the capture stack `[0]`. -/
def store_group : Store :=
  { store_demo with
    reps := fun k => if k = "\"0\"".toList then some 1 else none
    caps := fun k => if k = "\"0\"".toList then some [0] else none }

/-- What the repeat block is run against: the two called labels and the two
failure labels are outside the block; the failure labels keep control; a
called subroutine fails with `cutgrp = 0` and leaves the counter and the
capture stack of the group as they were at the call. -/
structure GroupEnv (prog : List Instr) (ext : Ext) (key r1sub succ : List Char) : Prop where
  find_body : find_label prog r1sub = none
  find_succ : find_label prog succ = none
  find_fail : find_label prog "fail".toList = none
  find_fail_group : find_label prog "fail_group".toList = none
  ext_fail : ∀ k st, ext "fail".toList k st = none
  ext_fail_group : ∀ k st, ext "fail_group".toList k st = none
  ext_body : ∀ k st, ∃ st1, ext r1sub k st = some st1 ∧ st1.int .cutgrp = 0 ∧
    st1.reps key = st.reps key ∧ st1.caps key = st.caps key
  ext_succ : ∀ k st, ∃ st1, ext succ k st = some st1 ∧ st1.int .cutgrp = 0 ∧
    st1.reps key = st.reps key ∧ st1.caps key = st.caps key

/-- The instructions `pge_gen_pattern_end` writes. -/
def pattern_end_prog (tr : Bool) : List Instr :=
  trace_prog tr "eop".toList ++ [.yield (.reg .pos), .goto "fail".toList, .blank]

/-- The instructions `pge_gen_anchor` writes. -/
def anchor_prog (e : PGE_Node) (succ : List Char) (tr : Bool) : List Instr :=
  match e.type with
  | .PGE_ANCHOR_BOS =>
    trace_prog tr "^anchor".toList ++ [.if_cmp .pos .ne (.num 0) "fail".toList, .goto succ]
  | .PGE_ANCHOR_EOS =>
    trace_prog tr "anchor$".toList ++
      [.if_cmp .pos .ne (.reg .lastpos) "fail".toList, .goto succ]
  | .PGE_ANCHOR_BOL =>
    trace_prog tr "^^anchor".toList ++
      [.if_cmp .pos .eq (.num 0) succ, .if_cmp .pos .eq (.reg .lastpos) "fail".toList,
        .sub3 .I0 .pos (.num 1), .substr .S0 .target .I0 (.num 1),
        .if_scmp .S0 .eq (.const "\"\\n\"".toList) succ, .goto "fail".toList, .blank]
  | .PGE_ANCHOR_EOL => eol_prog e succ tr
  | _ => []

/-- The instructions `pge_gen_cut` writes. -/
def cut_prog (e : PGE_Node) (succ : List Char) (tr : Bool) : List Instr :=
  (if e.type = .PGE_CUT_ALT then
    trace_prog tr "::cut alt".toList ++ emitsub_prog succ [] ++ [.goto "fail_group".toList]
  else []) ++
  (if e.type = .PGE_CUT_RULE then
    trace_prog tr "::cut rule".toList ++ [.yield (.num (-2)), .goto "fail".toList]
  else [])

/-- The instructions `pge_gen_literal` writes. -/
def literal_body_prog (env : Env) (e : PGE_Node) (succ : List Char) (tr : Bool) :
    List Instr :=
  trace_prog tr (sprintf "%.16s %s" [Arg.s (str_con e.name e.nlen), Arg.s (fmt_quant env e)])
    ++ [.sets .str (.const (str_con e.name e.nlen)), .set .strlen (.num e.nlen)]
    ++ string_prog env e succ

/-- The text of the trace line of a group. -/
def group_trace_text (env : Env) (e : PGE_Node) (id1 : Int) : List Char :=
  sprintf "group %s %c %s %c %s"
    [Arg.s (group_key e), Arg.c (if e.group ≥ 0 then '(' else '['), Arg.s (node_label id1),
      Arg.c (if e.group ≥ 0 then ')' else ']'), Arg.s (fmt_quant env e)]

/-- The lines `pge_gen_alt` writes before the blocks of the two branches. -/
def alt_body_prog (id1 id2 : Int) (tr : Bool) : List Instr :=
  trace_prog tr (sprintf "alt R%d | R%d" [Arg.d id1, Arg.d id2]) ++
    emitsub_prog (node_label id1) [.int .pos] ++ [.goto (node_label id2), .blank]

/-- The instructions of a node that has no child to generate: what the
function of its kind writes after the label. -/
def leaf_prog (env : Env) (e : PGE_Node) (succ : List Char) (tr : Bool) : List Instr :=
  match e.type with
  | .PGE_PATTERN_END => pattern_end_prog tr
  | .PGE_DOT => dot_prog env e succ tr
  | .PGE_LITERAL => literal_body_prog env e succ tr
  | .PGE_ANCHOR_BOS => anchor_prog e succ tr
  | .PGE_ANCHOR_EOS => anchor_prog e succ tr
  | .PGE_ANCHOR_BOL => anchor_prog e succ tr
  | .PGE_ANCHOR_EOL => anchor_prog e succ tr
  | .PGE_CUT_ALT => cut_prog e succ tr
  | .PGE_CUT_RULE => cut_prog e succ tr
  | .PGE_BACKREFERENCE => backref_prog env e succ tr
  | _ => []

/-- The instructions `pge_gen_exp` writes for a tree, from the state `s` (the
state decides where line markers fall).  For the trees on which `pge_gen_exp`
runs into undefined behaviour the list is of no use. -/
def exp_prog (env : Env) : PGE_Exp → List Char → State → List Instr
  | .null, _, _ => []
  | .node e exp1 exp2, succ, s =>
    let s1 := emit env "  R%d:\n" [Arg.d e.id] (emitlcount env s)
    marker_prog (due s) ++ .label 2 (node_label e.id) ::
    (match e.type with
    | .PGE_CONCAT =>
      match exp1.id?, exp2.id? with
      | some id1, some id2 =>
        let s2 := emit env "    #concat R%d, R%d\n" [Arg.d id1, Arg.d id2] s1
        .comment 4 (sprintf "concat R%d, R%d" [Arg.d id1, Arg.d id2]) ::
          (exp_prog env exp1 (node_label id2) s2 ++
            exp_prog env exp2 succ (pge_gen_exp env exp1 (node_label id2) s2))
      | _, _ => []
    | .PGE_GROUP =>
      match exp1.id? with
      | some id1 =>
        let s2 := trace env "group %s %c %s %c %s"
          [Arg.s (group_key e), Arg.c (if e.group ≥ 0 then '(' else '['),
            Arg.s (node_label id1), Arg.c (if e.group ≥ 0 then ')' else ']'),
            Arg.s (fmt_quant env e)] s1
        trace_prog s.pge_istraced (group_trace_text env e id1) ++
        (if e.min = 1 ∧ e.max = 1 ∧ e.group < 0 then exp_prog env exp1 succ s2
        else
          group_init_prog e (group_key e) (repeat_label e.id) ++
          (group_repeat_prog env e (group_key e) (repeat_label e.id) (node_label id1) succ ++
            exp_prog env exp1 (repeat_label e.id)
              (pge_gen_group_repeat env e (group_key e) (repeat_label e.id) (node_label id1)
                succ (pge_gen_group_init env e (group_key e) (repeat_label e.id) s2))))
      | none => []
    | .PGE_ALT =>
      match exp1.id?, exp2.id? with
      | some id1, some id2 =>
        let s2 := s1
          |> trace env "alt R%d | R%d" [Arg.d id1, Arg.d id2]
          |> emitsub env (node_label id1) ["pos".toList]
          |> emit env "    goto R%d\n\n" [Arg.d id2]
        alt_body_prog id1 id2 s.pge_istraced ++
          (exp_prog env exp1 succ s2 ++ exp_prog env exp2 succ (pge_gen_exp env exp1 succ s2))
      | _, _ => []
    | _ => leaf_prog env e succ s.pge_istraced)

/-- The instructions of `pge_gen_prologue`: the definition of the trace macro
(when tracing is on), the procedure `_PGE_Rule` and the head of the procedure
`_PGE_Rule_cor` with the search loop. -/
def prologue_prog (env : Env) (e : PGE_Exp) (r1sub : List Char) (tr : Bool) : List Instr :=
  (if tr then
    [.raw ".macro trace(POS, LABEL)".toList, .raw "    $S31 = repeat ' ', .POS".toList,
      .raw "    print $S31".toList, .raw "    print .LABEL".toList,
      .raw "    print \"\\n\"".toList, .raw ".endm".toList, .blank]
  else []) ++
  [.raw ".sub _PGE_Rule".toList, .raw "    .param string target".toList,
    .raw "    .local pmc match".toList, .raw "    .local pmc rulecor".toList,
    .raw "    .local pmc newmeth".toList,
    .raw "    newsub rulecor, .Coroutine, _PGE_Rule_cor".toList,
    .raw "    find_global newmeth, \"PGE::Match\", \"new\"".toList,
    .raw "    match = newmeth(target, rulecor)".toList, .raw "    match.\"_next\"()".toList,
    .raw "    .return(match)".toList, .raw ".end".toList, .blank,
    .raw ".sub _PGE_Rule_cor".toList, .raw "    .param pmc match".toList,
    .raw "    .param string target".toList, .raw "    .param int pos".toList,
    .raw "    .param int lastpos".toList, .raw "    .local int rep".toList,
    .raw "    .local int maxrep".toList, .raw "    .local pmc gr_rep".toList,
    .raw "    .local pmc gr_cap".toList, .raw "    .local int cutgrp".toList,
    .raw "    .local string str".toList, .raw "    .local int strlen".toList,
    .if_cmp .pos .ge (.num 0) "try_once_at_pos".toList, .set .pos (.num 0)] ++
  (if !env.pge_is_bos_anchored e then
    [.label 2 "try_match".toList, .if_cmp .pos .gt (.reg .lastpos) "fail_forever".toList] ++
    emitsub_prog r1sub [.int .pos] ++ [.inc .pos, .goto "try_match".toList]
  else []) ++
  [.label 2 "try_once_at_pos".toList] ++ emitsub_prog r1sub [] ++
  [.label 2 "fail_forever".toList, .yield (.num (-2)), .goto "fail_forever".toList, .blank]

/-- The globals as `pge_gen` sets them before it writes: nothing written yet.
(The bytes left in the buffer from an earlier run are overwritten by the first
`emit`; here they are dropped at once.) -/
def State.fresh (s : State) : State :=
  { s with pge_cbuf := [], pge_cbuf_len := 0, pge_cbuf_lcount := 0 }

/-- The instructions of the whole program `pge_gen` returns. -/
def gen_prog (env : Env) (e : PGE_Exp) (s : State) : List Instr :=
  match e.id? with
  | none => []
  | some id =>
    prologue_prog env e (node_label id) s.pge_istraced ++
    (exp_prog env e null_str (pge_gen_prologue env e (node_label id) s.fresh) ++
      epilogue_prog s.pge_istraced)

/-- Whether `pge_gen_exp` can generate the tree without undefined behaviour:
no null pointer where a node is read, and no node of kind `PGE_NULL_PATTERN`
(whose `emit` call hands an `int` to `%s`). -/
def PGE_Exp.wf : PGE_Exp → Bool
  | .null => false
  | .node e exp1 exp2 =>
    match e.type with
    | .PGE_NULL_PATTERN => false
    | .PGE_CONCAT => exp1.wf && exp2.wf
    | .PGE_GROUP => exp1.wf
    | .PGE_ALT => exp1.wf && exp2.wf
    | _ => true

/-- The facts about the blocks of the node kinds from which a property `P` of
instruction lists follows for every `exp_prog` written with the trace flag
`tr`; `G` is what the property needs to know of the continuation label. -/
structure BlockProp (env : Env) (tr : Bool) (G : List Char → Prop) (P : List Instr → Prop) :
    Prop where
  nil : P []
  append : ∀ p q, P p → P q → P (p ++ q)
  marker : ∀ o, P (marker_prog o)
  label : ∀ id, P [.label 2 (node_label id)]
  succ_node : ∀ id, G (node_label id)
  succ_repeat : ∀ id, G (repeat_label id)
  leaf : ∀ e succ, G succ → P (leaf_prog env e succ tr)
  concat : ∀ id1 id2, P [.comment 4 (sprintf "concat R%d, R%d" [Arg.d id1, Arg.d id2])]
  group_trace : ∀ e id1, P (trace_prog tr (group_trace_text env e id1))
  group_init : ∀ e, P (group_init_prog e (group_key e) (repeat_label e.id))
  group_repeat : ∀ e id1 succ, G succ →
    P (group_repeat_prog env e (group_key e) (repeat_label e.id) (node_label id1) succ)
  alt : ∀ id1 id2, P (alt_body_prog id1 id2 tr)

/-- Whether the instruction, if it defines a label, defines one that starts
with `R` (the labels of the blocks of the nodes). -/
def Instr.local_label : Instr → Bool
  | .label _ name => name.head? == some 'R'
  | _ => true

/-- The number of definitions of the label `l` in the program. -/
def label_count (l : List Char) (prog : List Instr) : Nat :=
  prog.countP (Instr.defines l)

/-- The block `fail` of the program: the second half of `epilogue_prog`. -/
def fail_prog (tr : Bool) : List Instr :=
  .label 2 "fail".toList :: (trace_prog tr "fail".toList ++
    [.set .cutgrp (.num 0), .ret, .raw ".end".toList])

/-- The tree `Concat(Group(Literal "a")*, PatternEnd)`: a greedy capturing
group (id 4, group 0) around the literal `a` (id 5), under the root with id 1
and before the PatternEnd with id 3. -/
def tree_group : PGE_Exp :=
  .node (PGE_Node.plain 1 .PGE_CONCAT)
    (.node (node_group true) (PGE_Exp.leaf (node_lit 5 'a')) .null)
    (PGE_Exp.leaf (PGE_Node.plain 3 .PGE_PATTERN_END))

/-- The strings an instruction carries besides its fixed text: label names,
comment and trace texts, keys, constants and raw lines. -/
def Instr.strings : Instr → List (List Char)
  | .label _ name => [name]
  | .comment _ text => [text]
  | .trace_call text => [text]
  | .goto l => [l]
  | .if_cmp _ _ _ l => [l]
  | .if_true _ l => [l]
  | .unless_true _ l => [l]
  | .if_scmp _ _ b l => [b.text, l]
  | .sets _ b => [b.text]
  | .bsr l => [l]
  | .defined _ _ key => [key]
  | .fetch _ _ key => [key]
  | .raw line => [line]
  | .if_pcmp _ _ _ l => [l]
  | .exists_key _ _ key => [key]
  | .new_pmc _ cls => [cls]
  | .store_key _ key _ => [key]
  | _ => []

/-- An argument of `vsprintf` that brings no newline into the text. -/
def Arg.tidy : Arg → Prop
  | .d _ => True
  | .s str => '\n' ∉ str
  | .c ch => ch ≠ '\n'

/-- No string of any instruction of the list has a newline. -/
def tidy (p : List Instr) : Prop := ∀ i ∈ p, ∀ a ∈ i.strings, '\n' ∉ a

/-- The line without its indentation. -/
def unindent (l : List Char) : List Char := l.dropWhile (· == ' ')

/-- Whether the text `l` starts with the word `w`. -/
def starts_with : List Char → List Char → Bool
  | [], _ => true
  | a :: w, l =>
    match l with
    | [] => false
    | b :: rest => a == b && starts_with w rest

/-- Whether the line belongs to tracing: a `.trace(` call, or the first or
the last line of a macro definition. -/
def trace_line (l : List Char) : Bool :=
  starts_with ".trace(".toList (unindent l) || starts_with ".macro".toList (unindent l) ||
    starts_with ".endm".toList (unindent l)

/-- No line of the instruction list belongs to tracing. -/
def quiet (p : List Instr) : Bool := p.all (fun i => !trace_line i.text)

/-- Whether the line defines the label `name`: the name and a colon, after
any indentation. -/
def line_defines (name l : List Char) : Bool := unindent l == name ++ [':']

/-- The number of lines of the text that define the label `name`. -/
def label_lines (name text : List Char) : Nat := (text.splitOn '\n').countP (line_defines name)

/-- Whether the line defines one of the three shared labels. -/
def shared_line (l : List Char) : Bool :=
  line_defines "fail_group".toList l || line_defines "fail".toList l ||
    line_defines "fail_forever".toList l

/-- No line of the instruction list defines a shared label. -/
def shared_free (p : List Instr) : Bool := p.all (fun i => !shared_line i.text)

/-- What a line does to the stack of saved registers; a register is known by
its name in the text. -/
inductive StackOp where
  | save (r : List Char)
  | restore (r : List Char)
  | call
  | other
  deriving DecidableEq

/-- The stack operation of a line: `save <r>`, `restore <r>`, `bsr <label>`,
or anything else. -/
def line_op (l : List Char) : StackOp :=
  if starts_with "save ".toList (unindent l) then .save ((unindent l).drop 5)
  else if starts_with "restore ".toList (unindent l) then .restore ((unindent l).drop 8)
  else if starts_with "bsr ".toList (unindent l) then .call
  else .other

/-- The stack operations of the lines of a text. -/
def text_ops (text : List Char) : List StackOp := (text.splitOn '\n').map line_op

/-- The state of a reader that checks the discipline of `save`, `bsr` and
`restore`: before a call, with the registers saved so far (last first), or
after a call, with the registers still to be restored (next first). -/
inductive Scan where
  | saving (rs : List (List Char))
  | restoring (rs : List (List Char))
  deriving DecidableEq

/-- One line read by the checker.  A `save` must be followed by more saves
and then a `bsr`; after the `bsr` the registers saved come back in reverse
order, at once, and no other `restore` is allowed. -/
def Scan.next : Scan → StackOp → Option Scan
  | .saving rs, .save r => some (.saving (r :: rs))
  | .saving rs, .call => some (.restoring rs)
  | .saving _, .restore _ => none
  | .saving [], .other => some (.saving [])
  | .saving (_ :: _), .other => none
  | .restoring (r :: rs), .restore r' => if r = r' then some (.restoring rs) else none
  | .restoring (_ :: _), _ => none
  | .restoring [], .restore _ => none
  | .restoring [], .save r => some (.saving [r])
  | .restoring [], .call => some (.restoring [])
  | .restoring [], .other => some (.saving [])

/-- The checker run over the operations of a text; `none` when the discipline
is broken. -/
def scan (m : Scan) : List StackOp → Option Scan
  | [] => some m
  | op :: rest => (m.next op).bind (fun m' => scan m' rest)

/-- The number of registers the operation pushes: 1 for a `save`. -/
def StackOp.saves : StackOp → Nat
  | .save _ => 1
  | _ => 0

/-- The number of registers the operation pops: 1 for a `restore`. -/
def StackOp.restores : StackOp → Nat
  | .restore _ => 1
  | _ => 0

/-- The number of `save` lines. -/
def save_count (ops : List StackOp) : Nat := (ops.map StackOp.saves).sum

/-- The number of `restore` lines. -/
def restore_count (ops : List StackOp) : Nat := (ops.map StackOp.restores).sum

/-- The registers the checker still holds. -/
def Scan.depth : Scan → Nat
  | .saving rs => rs.length
  | .restoring rs => rs.length

/-- The stack operations of the lines of an instruction list. -/
def prog_ops (p : List Instr) : List StackOp := p.map (fun i => line_op i.text)

/-- The checker accepts the lines of the instruction list, from idle to idle. -/
def balanced (p : List Instr) : Prop := scan (.saving []) (prog_ops p) = some (.saving [])

/-- Whether the text has a line that defines the label `name`. -/
def defines_label (name : List Char) (text : List Char) : Bool :=
  (text.splitOn '\n').any (line_defines name)

/-- The tree `Concat(Literal "a" <2..3> lazy with cut, PatternEnd)` with the
ids 1, 5 and 3. -/
def tree_lazy_cut : PGE_Exp :=
  .node (PGE_Node.plain 1 .PGE_CONCAT)
    (PGE_Exp.leaf node_lazy_cut)
    (PGE_Exp.leaf (PGE_Node.plain 3 .PGE_PATTERN_END))

/-- The nodes of a tree that `pge_gen_exp` visits: the root and, for the kinds
with children, the nodes of the children it generates (`exp1` and `exp2` of a
concatenation or an alternation, `exp1` of a group). -/
def PGE_Exp.nodes : PGE_Exp → List PGE_Node
  | .null => []
  | .node e exp1 exp2 =>
    e :: (match e.type with
      | .PGE_CONCAT => exp1.nodes ++ exp2.nodes
      | .PGE_GROUP => exp1.nodes
      | .PGE_ALT => exp1.nodes ++ exp2.nodes
      | _ => [])

/-- The label of a node and the instructions the function of its kind writes,
when the kind has no child to generate. -/
def node_block (env : Env) (n : PGE_Node) (succ : List Char) (tr : Bool) : List Instr :=
  .label 2 (node_label n.id) :: leaf_prog env n succ tr

/-- The line that follows the first line equal to `a`, if there is one. -/
def line_after (a : List Char) : List (List Char) → Option (List Char)
  | [] => none
  | x :: rest =>
    if x = a then rest.head? else line_after a rest

/-- The globals after the first `emit` call of `pge_gen` (trace off): the
buffer is allocated and holds the first line. -/
def state_first_emit : State := emit env_demo ".sub _PGE_Rule\n" [] State.initial

/-! # Theorems -/

/-! ## String constants -/

theorem unescape_esc (c : Char) (rest : List Char) :
    unescape (str_con_esc c ++ rest) = c :: unescape rest := by
  unfold str_con_esc
  split_ifs with h1 h2 h3 h4 h5 h6 h7
  · subst h1; simp [unescape, escape_byte]
  · subst h2; simp [unescape, escape_byte]
  · subst h3; simp [unescape, escape_byte]
  · subst h4; simp [unescape, escape_byte]
  · subst h5; simp [unescape, escape_byte]
  · subst h6; simp [unescape, escape_byte]
  · subst h7; simp [unescape, escape_byte]
  · cases rest <;> simp [unescape, h1]

theorem unescape_loop (s : List Char) (n : Nat) :
    unescape (str_con_loop s n) = s.take n := by
  induction s generalizing n with
  | nil => cases n <;> simp [str_con_loop, unescape]
  | cons c cs ih =>
    cases n with
    | zero => simp [str_con_loop, unescape]
    | succ n => simp [str_con_loop, unescape_esc, ih]

theorem decode_str_con (s : List Char) (n : Nat) :
    string_literal_decode (str_con s n) = some (s.take n) := by
  simp [str_con, string_literal_decode, unescape_loop]

/-- C1: decoding `str_con(s, len)` with the string-literal decoder (strip the
two double quotes, replace each two-byte escape by the byte it denotes, copy
every other byte) gives back exactly `s`, for every byte sequence `s` whose
length `len` is at most `PGE_MAX_LITERAL_LEN`. -/
theorem str_con_round_trip (env : Env) (s : List Char)
    (_hlen : s.length ≤ env.PGE_MAX_LITERAL_LEN) :
    string_literal_decode (str_con s s.length) = some s := by
  have h := decode_str_con s s.length
  simpa using h

theorem str_con_round_trip_witness :
    string_literal_decode
      (str_con ['a', '\\', '"', '\'', '\n', '\r', '\t', Char.ofNat 0, Char.ofNat 200]
        (9 : Nat))
      = some ['a', '\\', '"', '\'', '\n', '\r', '\t', Char.ofNat 0, Char.ofNat 200] :=
  str_con_round_trip ⟨-1, 128, fun _ => false⟩ _ (by decide)

/-- C2: `str_con` is injective: two byte sequences (of any lengths, with any
byte values) whose string constants are the same text are equal. -/
theorem str_con_injective (s1 s2 : List Char)
    (h : str_con s1 s1.length = str_con s2 s2.length) : s1 = s2 := by
  have h1 := decode_str_con s1 s1.length
  have h2 := decode_str_con s2 s2.length
  rw [h, h2] at h1
  simpa using h1.symm

theorem str_con_injective_witness : ['a', '\n'] = ['a', '\n'] :=
  str_con_injective ['a', '\n'] ['a', '\n'] rfl

/-! ## Sound states and the text `emit` appends -/

@[simp] theorem app_ub (s : State) (o : List Char) (z : Nat) : (s.app o z).ub = s.ub := rfl
@[simp] theorem app_cbuf (s : State) (o : List Char) (z : Nat) :
    (s.app o z).pge_cbuf = s.pge_cbuf ++ o := rfl
@[simp] theorem app_istraced (s : State) (o : List Char) (z : Nat) :
    (s.app o z).pge_istraced = s.pge_istraced := rfl
@[simp] theorem app_lcount (s : State) (o : List Char) (z : Nat) :
    (s.app o z).pge_cbuf_lcount = s.pge_cbuf_lcount := rfl
@[simp] theorem app_len (s : State) (o : List Char) (z : Nat) :
    (s.app o z).pge_cbuf_len = s.pge_cbuf.length + o.length := rfl
@[simp] theorem app_size (s : State) (o : List Char) (z : Nat) :
    (s.app o z).pge_cbuf_size = z := rfl

theorem app_ok {s : State} (h : s.ok) (o : List Char) (z : Nat) : (s.app o z).ok := by
  refine ⟨h.1, ?_⟩
  simp

@[simp] theorem app_app (s : State) (o1 o2 : List Char) (z1 z2 : Nat) :
    (s.app o1 z1).app o2 z2 = s.app (o1 ++ o2) z2 := by
  simp [State.app, Nat.add_assoc]

theorem emit_ok {s : State} (h : s.ok) (env : Env) (fmt : String) (args : List Arg) :
    emit env fmt args s =
      match vsprintf fmt.toList args with
      | none => s.fault
      | some out => s.app out (next_size env fmt s.pge_cbuf_len s.pge_cbuf_size) := by
  obtain ⟨h1, h2⟩ := h
  unfold emit
  rw [h1]
  simp only [Bool.false_eq_true, if_false]
  cases vsprintf fmt.toList args with
  | none => rfl
  | some out => simp [State.app, h2, h1]

theorem emitlcount_ok {s : State} (h : s.ok) (env : Env) :
    (emitlcount env s).ok ∧
    (emitlcount env s).pge_cbuf = s.pge_cbuf ++ line_marker s ∧
    (emitlcount env s).pge_istraced = s.pge_istraced := by
  have hub := h.1
  unfold emitlcount line_marker
  rw [hub]
  simp only [Bool.false_eq_true, if_false]
  split_ifs with hc
  · rw [emit_ok h]
    simp only [vsprintf, String.toList, sprintf]
    refine ⟨⟨by simpa using hub, by simp⟩, by simp, by simp⟩
  · exact ⟨h, by simp, rfl⟩

/-! ## The text of the emitted blocks -/

theorem emit_eq_put (env : Env) (fmt : String) (args : List Arg) (s : State) :
    emit env fmt args s = put env fmt (vsprintf fmt.toList args) s := by
  unfold emit put
  cases s.ub <;> rfl

theorem emit_istraced (env : Env) (fmt : String) (args : List Arg) (s : State) :
    (emit env fmt args s).pge_istraced = s.pge_istraced := by
  unfold emit
  split_ifs
  · rfl
  · cases vsprintf fmt.toList args <;> rfl

theorem put_istraced (env : Env) (fmt : String) (out : Option (List Char)) (s : State) :
    (put env fmt out s).pge_istraced = s.pge_istraced := by
  unfold put
  split_ifs
  · rfl
  · cases out <;> rfl

theorem put_lcount (env : Env) (fmt : String) (out : Option (List Char)) (s : State) :
    (put env fmt out s).pge_cbuf_lcount = s.pge_cbuf_lcount := by
  unfold put
  split_ifs
  · rfl
  · cases out <;> rfl

theorem ok0_of_ok {s : State} (h : s.ok) : s.ok0 = True :=
  eq_true ⟨h.1, Nat.le_of_eq h.2⟩

theorem put_ok0_eq (env : Env) (fmt : String) (out : List Char) (s : State) :
    (put env fmt (some out) s).ok0 = s.ok0 := by
  apply propext
  unfold put State.ok0
  cases hub : s.ub with
  | true => simp [hub]
  | false =>
    simp only [Bool.false_eq_true, if_false, List.length_append, List.length_take, true_and]
    omega

theorem put_ok_eq (env : Env) (fmt : String) (out : List Char) (s : State) :
    (put env fmt (some out) s).ok = s.ok0 := by
  apply propext
  unfold put State.ok0 State.ok
  cases hub : s.ub with
  | true => simp [hub]
  | false =>
    simp only [Bool.false_eq_true, if_false, List.length_append, List.length_take, true_and]
    omega

theorem put_cbuf {s : State} (h : s.ok) (env : Env) (fmt : String) (out : List Char) :
    (put env fmt (some out) s).pge_cbuf = s.pge_cbuf ++ out := by
  unfold put
  rw [h.1, h.2]
  simp

theorem Emits.nil {s : State} (h : s.ok) : Emits s s [] :=
  ⟨h, by simp, rfl, rfl⟩

theorem Emits.seq {s s' s'' : State} {a b : List Char} (h1 : Emits s s' a)
    (h2 : s'.ok → Emits s' s'' b) : Emits s s'' (a ++ b) := by
  obtain ⟨k1, k2, k3, k4⟩ := h2 h1.1
  obtain ⟨_, j2, j3, j4⟩ := h1
  exact ⟨k1, by rw [k2, j2, List.append_assoc], k3.trans j3, k4.trans j4⟩

theorem write_append (i : Instr) (x y : List Char) : i.write (x ++ y) = i.write x ++ y := by
  cases i <;> simp only [Instr.write, List.append_assoc, List.cons_append]

theorem render_append (p q : List Instr) : render (p ++ q) = render p ++ render q := by
  induction p with
  | nil => rfl
  | cons i p ih =>
    show i.write ('\n' :: render (p ++ q)) = i.write ('\n' :: render p) ++ render q
    rw [ih, ← write_append, List.cons_append]

theorem Emits.seqp {s s' s'' : State} {p q : List Instr} (h1 : Emits s s' (render p))
    (h2 : s'.ok → Emits s' s'' (render q)) : Emits s s'' (render (p ++ q)) := by
  rw [render_append]
  exact h1.seq h2

/-- One `emit` call writes one line. -/
theorem emits_line {s : State} (hs : s.ok) (env : Env) (fmt : String) (args : List Arg)
    (i : Instr) (hv : vsprintf fmt.toList args = some (i.write ['\n'])) :
    Emits s (emit env fmt args s) (render [i]) := by
  rw [emit_eq_put, hv]
  refine ⟨?_, ?_, put_istraced _ _ _ _, put_lcount _ _ _ _⟩
  · rw [put_ok_eq]; exact ⟨hs.1, Nat.le_of_eq hs.2⟩
  · rw [put_cbuf hs]; rfl

/-- One more `emit` call writes one more line. -/
theorem emits_rcons {s s' : State} {env : Env} {fmt : String} {args : List Arg} {i : Instr}
    {p : List Instr} (hv : vsprintf fmt.toList args = some (i.write ['\n']))
    (h : Emits s s' (render p.reverse)) :
    Emits s (emit env fmt args s') (render (i :: p).reverse) := by
  rw [List.reverse_cons]
  exact h.seqp (fun h' => emits_line h' env fmt args i hv)

/-- One more `emit` call with two lines in its format. -/
theorem emits_rcons2 {s s' : State} {env : Env} {fmt : String} {args : List Arg}
    {i j : Instr} {p : List Instr}
    (hv : vsprintf fmt.toList args = some (i.write ('\n' :: j.write ['\n'])))
    (h : Emits s s' (render p.reverse)) :
    Emits s (emit env fmt args s') (render (j :: i :: p).reverse) := by
  rw [List.reverse_cons, List.reverse_cons, List.append_assoc]
  refine h.seqp (fun h' => ?_)
  rw [emit_eq_put, hv]
  refine ⟨?_, ?_, put_istraced _ _ _ _, put_lcount _ _ _ _⟩
  · rw [put_ok_eq]; exact ⟨h'.1, Nat.le_of_eq h'.2⟩
  · rw [put_cbuf h']; rfl

theorem emits_of_rev {s s' : State} {p : List Instr}
    (h : Emits s s' (render p.reverse.reverse)) : Emits s s' (render p) := by
  rwa [List.reverse_reverse] at h

set_option maxRecDepth 20000 in
set_option maxHeartbeats 2000000 in
theorem pge_gen_dot_text (env : Env) (e : PGE_Node) (succ : List Char) (s : State)
    (hs : s.ok) :
    Emits s (pge_gen_dot env e succ s) (render (dot_prog env e succ s.pge_istraced)) := by
  unfold pge_gen_dot pge_gen_dot_greedy pge_gen_dot_lazy dot_prog dot_greedy_prog dot_lazy_prog
  cases htr : s.pge_istraced <;>
  simp only [on_cond, trace, emitsub, vsprintf, String.toList, Option.map,
    decide_eq_true_eq, emit_istraced, htr, List.take, List.foldl, List.reverse,
    List.reverseAux, Bool.false_eq_true, if_false, if_true] <;>
  split_ifs <;>
  apply emits_of_rev <;>
  repeat (first
    | exact Emits.nil hs
    | (refine emits_rcons ?_ ?_; · rfl)
    | (refine emits_rcons2 ?_ ?_; · rfl)
    | (refine emits_rcons ?_ ?_;
       · simp only [vsprintf, String.toList, Option.map, Instr.write, aux_label, sprintf,
           List.replicate, List.append_assoc, List.cons_append, List.nil_append,
           Option.getD, List.take, IReg.name, SReg.name, PReg.name, Reg.name, Opd.text,
           SOpd.text, Cmp.text])
    | (refine emits_rcons2 ?_ ?_;
       · simp only [vsprintf, String.toList, Option.map, Instr.write, aux_label, sprintf,
           List.replicate, List.append_assoc, List.cons_append, List.nil_append,
           Option.getD, List.take, IReg.name, SReg.name, PReg.name, Reg.name, Opd.text,
           SOpd.text, Cmp.text]))

/-! ## Running the any-character block -/


@[simp] theorem set_int_int (st : Store) (r r' : IReg) (v : Int) :
    (st.set_int r v).int r' = if r' = r then v else st.int r' := rfl
@[simp] theorem set_int_str (st : Store) (r : IReg) (v : Int) :
    (st.set_int r v).str = st.str := rfl

theorem run_add (prog : List Instr) (ext : Ext) (a b : Nat) (m : Machine) :
    Machine.run prog ext (a + b) m = Machine.run prog ext b (Machine.run prog ext a m) := by
  induction a generalizing m with
  | zero => simp [Machine.run]
  | succ a ih => rw [Nat.succ_add]; simp only [Machine.run]; exact ih _

theorem run_step (prog : List Instr) (ext : Ext) (n : Nat) (i : Instr) (c : List Instr)
    (st : Store) (sv : List Val) (cs : List (List Instr)) (L : List Event) :
    Machine.run prog ext (n + 1) ⟨i :: c, st, sv, cs, L, .running⟩ =
      Machine.run prog ext n (Machine.exec prog ext ⟨c, st, sv, cs, L, .running⟩ i) := rfl

theorem run_zero (prog : List Instr) (ext : Ext) (m : Machine) :
    Machine.run prog ext 0 m = m := rfl

theorem attempts_append (l : List Char) (a b : List Event) :
    attempts l (a ++ b) = attempts l a ++ attempts l b := by
  induction a with
  | nil => rfl
  | cons ev a ih =>
    cases ev with
    | arrive l' pos rep =>
      simp only [List.cons_append, attempts]
      split_ifs <;> simp [ih]
    | yielded v => simpa [attempts] using ih

theorem find_label_append (pre q : List Instr) (l : List Char)
    (h : ∀ i ∈ pre, i.defines l = false) : find_label (pre ++ q) l = find_label q l := by
  induction pre with
  | nil => rfl
  | cons i pre ih =>
    have hi : i.defines l = false := h i (List.mem_cons_self _ _)
    simp only [List.cons_append, find_label, hi, Bool.false_eq_true, if_false]
    exact ih (fun i' hi' => h i' (List.mem_cons_of_mem _ hi'))

theorem aux_label_ne (id : Int) (a b : String) (h : a.toList ≠ b.toList) :
    aux_label id a ≠ aux_label id b := by
  intro hab
  simp only [aux_label, List.cons.injEq, true_and, List.append_cancel_left_eq] at hab
  exact h hab

theorem trace_prog_defines (tr : Bool) (t l : List Char) :
    ∀ i ∈ trace_prog tr t, i.defines l = false := by
  intro i hi
  cases tr <;> simp [trace_prog] at hi <;> rcases hi with rfl | rfl <;> rfl

theorem leads_done {prog : List Instr} {ext : Ext} {m : Machine} {P : Machine → Prop}
    (h : P m) : Leads prog ext m P := ⟨0, h⟩

theorem leads_step {prog : List Instr} {ext : Ext} {i : Instr} {c : List Instr}
    {st : Store} {sv : List Val} {cs : List (List Instr)} {L : List Event}
    {P : Machine → Prop}
    (h : Leads prog ext (Machine.exec prog ext ⟨c, st, sv, cs, L, .running⟩ i) P) :
    Leads prog ext ⟨i :: c, st, sv, cs, L, .running⟩ P := by
  obtain ⟨n, hn⟩ := h
  exact ⟨n + 1, hn⟩

theorem leads_mono {prog : List Instr} {ext : Ext} {m : Machine} {P Q : Machine → Prop}
    (h : Leads prog ext m P) (hPQ : ∀ m', P m' → Q m') : Leads prog ext m Q := by
  obtain ⟨n, hn⟩ := h
  exact ⟨n, hPQ _ hn⟩

theorem leads_bind {prog : List Instr} {ext : Ext} {m : Machine} {P Q : Machine → Prop}
    (h1 : Leads prog ext m Q) (h2 : ∀ m', Q m' → Leads prog ext m' P) : Leads prog ext m P := by
  obtain ⟨a, ha⟩ := h1
  obtain ⟨b, hb⟩ := h2 _ ha
  exact ⟨a + b, by rw [run_add]; exact hb⟩

/-- Running the first part of the dot block sets `maxrep` and changes nothing
else that matters. -/
theorem dot_head_run (prog : List Instr) (ext : Ext) (env : Env) (e : PGE_Node) (tr : Bool)
    (tail : List Instr)
    (h1 : e.max ≠ env.PGE_INF →
      find_label prog (aux_label e.id "_1") = some (.label 2 (aux_label e.id "_1") :: tail))
    (st : Store) (sv : List Val) (L : List Event)
    (hn : e.min ≤ ((st.str .target).length : Int) - st.int .pos) :
    Leads prog ext ⟨dot_head_prog env e tr ++ tail, st, sv, [], L, .running⟩
      (fun m' => ∃ st' L', m' = ⟨tail, st', sv, [], L', .running⟩ ∧
        st'.int .maxrep = dot_maxrep env e (st.str .target).length (st.int .pos) ∧
        st'.int .pos = st.int .pos ∧ st'.str = st.str ∧
        (∀ l, l ≠ aux_label e.id "_1" → attempts l L' = attempts l L)) := by
  have hlt : ¬ ((st.str .target).length : Int) - st.int .pos < e.min := by omega
  unfold dot_head_prog dot_maxrep trace_prog
  cases tr <;> by_cases hmin : e.min > 0 <;> by_cases hinf : e.max = env.PGE_INF <;>
    by_cases hcap : ((st.str .target).length : Int) - st.int .pos ≤ e.max <;>
    simp only [hmin, hinf, if_true, if_false, ne_eq, not_true_eq_false, not_false_eq_true,
      List.cons_append, List.nil_append, List.append_assoc, Bool.false_eq_true] <;>
    (repeat (apply leads_step;
             simp only [Machine.exec, Cmp.holds, Store.opd, set_int_int, set_int_str,
               reduceCtorEq, if_true, if_false, hlt, hcap, decide_False, decide_True,
               Bool.false_eq_true, Machine.jump, h1, hinf, ne_eq, not_false_eq_true])) <;>
    refine leads_done ⟨_, _, rfl, ?_, ?_, ?_, ?_⟩ <;>
    first
      | (intro l hl; simp [attempts_append, attempts, Ne.symm hl])
      | simp [hcap]

/-- The greedy loop: entered with `rep = min + j`, it tries the continuation at
`min + j`, `min + j - 1`, ..., `min` and then fails. -/
theorem dot_greedy_loop_run (prog : List Instr) (ext : Ext) (e : PGE_Node) (succ : List Char)
    (rest : List Instr) (p : Int)
    (h2 : find_label prog (aux_label e.id "_2") =
      some (.label 2 (aux_label e.id "_2") :: (dot_greedy_loop e succ ++ rest)))
    (hS : find_label prog succ = none)
    (hne : succ ≠ aux_label e.id "_2")
    (hfail : ∀ k st, ∃ st', ext succ k st = some st' ∧ st'.int .cutgrp = 0) :
    ∀ (j : Nat) (st : Store) (sv : List Val) (L : List Event),
      st.int .rep = e.min + j → st.int .pos = p + (e.min + j) →
      Leads prog ext ⟨dot_greedy_loop e succ ++ rest, st, sv, [], L, .running⟩
        (fun m' => m'.status = .returned ∧ m'.store.int .cutgrp = 0 ∧ m'.saved = sv ∧
          attempts succ m'.log = attempts succ L ++ counts_down p e.min j) := by
  intro j
  induction j with
  | zero =>
    intro st sv L hrep hpos
    obtain ⟨st', hst', hcut⟩ := hfail L.length st
    simp only [Nat.cast_zero, add_zero] at hrep hpos
    have hlt : ¬ e.min < e.min := by omega
    simp only [dot_greedy_loop, emitsub_prog, List.map, List.reverse, List.reverseAux,
      List.cons_append, List.nil_append, List.append_assoc]
    iterate 2
      apply leads_step
      simp only [Machine.exec, Cmp.holds, Store.opd, hrep, hlt, decide_False, decide_True,
        Bool.false_eq_true, if_false, if_true, Machine.jump, hS, hst', Machine.do_ret, eq_self]
    refine leads_done ⟨rfl, hcut, rfl, ?_⟩
    simp [attempts_append, attempts, counts_down, hpos]
  | succ j ih =>
    intro st sv L hrep hpos
    obtain ⟨st', hst', hcut⟩ := hfail L.length st
    have hlt : ¬ e.min + ((j + 1 : Nat) : Int) < e.min := by omega
    have hneq : ¬ e.min + ((j + 1 : Nat) : Int) = e.min := by omega
    simp only [dot_greedy_loop, emitsub_prog, List.map, List.reverse, List.reverseAux,
      List.cons_append, List.nil_append, List.append_assoc]
    iterate 12
      apply leads_step
      simp only [Machine.exec, Cmp.holds, Store.opd, hrep, hlt, hneq, decide_False,
        Bool.false_eq_true, if_false, Store.get, Machine.jump, hS, hst', Machine.do_ret,
        Store.put, set_int_int, hcut, reduceCtorEq, ne_eq, not_true_eq_false, h2]
    refine leads_mono (ih _ _ _ ?_ ?_) ?_
    · simp only [set_int_int, reduceCtorEq, if_true, if_false, hrep]
      push_cast
      omega
    · simp only [set_int_int, reduceCtorEq, if_true, if_false, hpos]
      push_cast
      omega
    · rintro m' ⟨k1, k2, k3, k4⟩
      refine ⟨k1, k2, k3, ?_⟩
      rw [k4]
      simp [attempts_append, attempts, counts_down, hne, hne.symm, hrep, hpos]

/-- The lazy loop: entered with `rep = hi - j` and `maxrep = hi`, it tries the
continuation at `hi - j`, `hi - j + 1`, ..., `hi` and then fails. -/
theorem dot_lazy_loop_run (prog : List Instr) (ext : Ext) (e : PGE_Node) (succ : List Char)
    (rest : List Instr) (p hi : Int)
    (h3 : find_label prog (aux_label e.id "_3") =
      some (.label 2 (aux_label e.id "_3") :: (dot_lazy_loop e succ ++ rest)))
    (hS : find_label prog succ = none)
    (hne : succ ≠ aux_label e.id "_3")
    (hfail : ∀ k st, ∃ st', ext succ k st = some st' ∧ st'.int .cutgrp = 0) :
    ∀ (j : Nat) (st : Store) (sv : List Val) (L : List Event),
      st.int .rep = hi - j → st.int .pos = p + (hi - j) → st.int .maxrep = hi →
      Leads prog ext ⟨dot_lazy_loop e succ ++ rest, st, sv, [], L, .running⟩
        (fun m' => m'.status = .returned ∧ m'.store.int .cutgrp = 0 ∧ m'.saved = sv ∧
          attempts succ m'.log = attempts succ L ++ counts_up p hi j) := by
  intro j
  induction j with
  | zero =>
    intro st sv L hrep hpos hmax
    obtain ⟨st', hst', hcut⟩ := hfail L.length st
    simp only [Nat.cast_zero, sub_zero] at hrep hpos
    have hlt : ¬ hi > hi := by omega
    simp only [dot_lazy_loop, emitsub_prog, List.map, List.reverse, List.reverseAux,
      List.cons_append, List.nil_append, List.append_assoc]
    iterate 2
      apply leads_step
      simp only [Machine.exec, Cmp.holds, Store.opd, hrep, hmax, hlt, decide_False, decide_True,
        Bool.false_eq_true, if_false, if_true, Machine.jump, hS, hst', Machine.do_ret, eq_self]
    refine leads_done ⟨rfl, hcut, rfl, ?_⟩
    simp [attempts_append, attempts, counts_up, hpos]
  | succ j ih =>
    intro st sv L hrep hpos hmax
    obtain ⟨st', hst', hcut⟩ := hfail L.length st
    have hlt : ¬ hi - ((j + 1 : Nat) : Int) > hi := by omega
    have hneq : ¬ hi - ((j + 1 : Nat) : Int) = hi := by omega
    simp only [dot_lazy_loop, emitsub_prog, List.map, List.reverse, List.reverseAux,
      List.cons_append, List.nil_append, List.append_assoc]
    iterate 14
      apply leads_step
      simp only [Machine.exec, Cmp.holds, Store.opd, hrep, hmax, hlt, hneq, decide_False,
        Bool.false_eq_true, if_false, Store.get, Machine.jump, hS, hst', Machine.do_ret,
        Store.put, set_int_int, hcut, reduceCtorEq, ne_eq, not_true_eq_false, h3]
    refine leads_mono (ih _ _ _ ?_ ?_ ?_) ?_
    · simp only [set_int_int, reduceCtorEq, if_true, if_false, hrep]
      push_cast
      omega
    · simp only [set_int_int, reduceCtorEq, if_true, if_false, hpos]
      push_cast
      omega
    · simp only [set_int_int, reduceCtorEq, if_true, if_false, hmax]
    · rintro m' ⟨k1, k2, k3, k4⟩
      refine ⟨k1, k2, k3, ?_⟩
      rw [k4]
      simp [attempts_append, attempts, counts_up, hne, hne.symm, hrep, hpos]

theorem find_label_none (prog : List Instr) (l : List Char)
    (h : ∀ i ∈ prog, i.defines l = false) : find_label prog l = none := by
  have := find_label_append prog [] l h
  simpa [find_label] using this

theorem find_label_here (n : Nat) (l : List Char) (q : List Instr) :
    find_label (.label n l :: q) l = some (.label n l :: q) := by
  simp [find_label, Instr.defines]

theorem epilogue_defines (tr : Bool) (l : List Char) (h1 : l ≠ "fail_group".toList)
    (h2 : l ≠ "fail".toList) : ∀ i ∈ epilogue_prog tr, i.defines l = false := by
  intro i hi
  cases tr <;> simp [epilogue_prog, trace_prog] at hi <;>
    rcases hi with rfl | rfl | rfl | rfl | rfl | rfl | rfl | rfl | rfl | rfl | rfl <;>
    simp [Instr.defines] <;>
    first
      | exact fun h => h1 h.symm
      | exact fun h => h2 h.symm

theorem dot_head_defines (env : Env) (e : PGE_Node) (tr : Bool) (l : List Char)
    (h1 : l ≠ aux_label e.id "_1") : ∀ i ∈ dot_head_prog env e tr, i.defines l = false := by
  intro i hi
  unfold dot_head_prog at hi
  simp only [List.mem_append] at hi
  rcases hi with ((hi | hi) | hi) | hi
  · exact trace_prog_defines _ _ _ i hi
  · simp at hi; rcases hi with rfl | rfl <;> rfl
  · split_ifs at hi <;> simp at hi; subst hi; rfl
  · split_ifs at hi <;> simp at hi
    rcases hi with rfl | rfl | rfl
    · rfl
    · rfl
    · simp [Instr.defines, Ne.symm h1]

theorem dot_prog_greedy (env : Env) (e : PGE_Node) (succ : List Char) (tr : Bool)
    (hne : e.min ≠ e.max) (hg : e.isgreedy = true) (hc : e.iscut = false) :
    dot_prog env e succ tr = dot_head_prog env e tr ++
      (.set .rep (.reg .maxrep) :: .add .pos (.reg .rep) :: .label 2 (aux_label e.id "_2") ::
        dot_greedy_loop e succ) := by
  unfold dot_prog dot_head_prog dot_greedy_prog dot_greedy_loop
  simp only [hne, hg, hc, if_true, if_false, Bool.false_eq_true, List.append_assoc,
    List.cons_append, List.nil_append]

theorem dot_prog_lazy (env : Env) (e : PGE_Node) (succ : List Char) (tr : Bool)
    (hne : e.min ≠ e.max) (hg : e.isgreedy = false) (hc : e.iscut = false) :
    dot_prog env e succ tr = dot_head_prog env e tr ++
      (.set .rep (.num e.min) :: ((if e.min > 0 then [.add .pos (.num e.min)] else []) ++
        .label 2 (aux_label e.id "_3") :: dot_lazy_loop e succ)) := by
  unfold dot_prog dot_head_prog dot_lazy_prog dot_lazy_loop
  simp only [hne, hg, hc, if_true, if_false, Bool.false_eq_true, List.append_assoc,
    List.cons_append, List.nil_append]

theorem dot_greedy_loop_defines (e : PGE_Node) (succ l : List Char) :
    ∀ i ∈ dot_greedy_loop e succ, i.defines l = false := by
  intro i hi
  simp [dot_greedy_loop, emitsub_prog] at hi
  rcases hi with rfl | rfl | rfl | rfl | rfl | rfl | rfl | rfl | rfl | rfl | rfl | rfl <;> rfl

theorem dot_lazy_loop_defines (e : PGE_Node) (succ l : List Char) :
    ∀ i ∈ dot_lazy_loop e succ, i.defines l = false := by
  intro i hi
  simp [dot_lazy_loop, emitsub_prog] at hi
  rcases hi with rfl | rfl | rfl | rfl | rfl | rfl | rfl | rfl | rfl | rfl | rfl | rfl | rfl
    | rfl <;> rfl

theorem dot_maxrep_ge (env : Env) (e : PGE_Node) (n p : Int) (hn : e.min ≤ n - p)
    (hmax : e.max ≠ env.PGE_INF → e.min < e.max) : e.min ≤ dot_maxrep env e n p := by
  unfold dot_maxrep
  split_ifs with h1 h2
  · exact hn
  · exact hn
  · exact le_of_lt (hmax h1)

/-- Running the greedy dot block from its first instruction. -/
theorem dot_greedy_run (env : Env) (e : PGE_Node) (succ : List Char) (tr : Bool)
    (hg : e.isgreedy = true) (hc : e.iscut = false) (hne : e.min ≠ e.max)
    (hmax : e.max ≠ env.PGE_INF → e.min < e.max)
    (hsucc : succ ∉ [aux_label e.id "_1", aux_label e.id "_2", "fail_group".toList,
      "fail".toList])
    (ext : Ext) (hfail : ∀ k st, ∃ st', ext succ k st = some st' ∧ st'.int .cutgrp = 0)
    (st : Store) (sv : List Val)
    (hn : e.min ≤ ((st.str .target).length : Int) - st.int .pos) :
    Leads (dot_prog env e succ tr ++ epilogue_prog tr) ext
      ⟨dot_prog env e succ tr ++ epilogue_prog tr, st, sv, [], [], .running⟩
      (fun m' => m'.status = .returned ∧ m'.store.int .cutgrp = 0 ∧ m'.saved = sv ∧
        attempts succ m'.log = counts_down (st.int .pos) e.min
          (dot_maxrep env e (st.str .target).length (st.int .pos) - e.min).toNat) := by
  simp only [List.mem_cons, List.mem_singleton, not_or, List.not_mem_nil, or_false] at hsucc
  obtain ⟨hs1, hs2, hs3, hs4⟩ := hsucc
  have h12 : aux_label e.id "_1" ≠ aux_label e.id "_2" := aux_label_ne _ _ _ (by decide)
  have hf1 : aux_label e.id "_1" ≠ "fail_group".toList := by simp [aux_label]
  have hf2 : aux_label e.id "_2" ≠ "fail_group".toList := by simp [aux_label]
  have hg1 : aux_label e.id "_1" ≠ "fail".toList := by simp [aux_label]
  have hg2 : aux_label e.id "_2" ≠ "fail".toList := by simp [aux_label]
  rw [dot_prog_greedy env e succ tr hne hg hc, List.append_assoc]
  generalize hprog : dot_head_prog env e tr ++
      ((.set .rep (.reg .maxrep) :: .add .pos (.reg .rep) :: .label 2 (aux_label e.id "_2") ::
        dot_greedy_loop e succ) ++ epilogue_prog tr) = prog
  have h1 : e.max ≠ env.PGE_INF → find_label prog (aux_label e.id "_1") =
      some (.label 2 (aux_label e.id "_1") ::
        ((.set .rep (.reg .maxrep) :: .add .pos (.reg .rep) :: .label 2 (aux_label e.id "_2") ::
          dot_greedy_loop e succ) ++ epilogue_prog tr)) := by
    intro hinf
    subst hprog
    cases tr <;> by_cases hmin : e.min > 0 <;>
      simp [dot_head_prog, trace_prog, hinf, hmin, find_label, Instr.defines]
  have h2 : find_label prog (aux_label e.id "_2") =
      some (.label 2 (aux_label e.id "_2") :: (dot_greedy_loop e succ ++ epilogue_prog tr)) := by
    subst hprog
    rw [find_label_append _ _ _ (dot_head_defines env e tr _ h12.symm)]
    simp [find_label, Instr.defines]
  have hS : find_label prog succ = none := by
    subst hprog
    apply find_label_none
    intro i hi
    simp only [List.mem_append, List.mem_cons] at hi
    rcases hi with hi | (rfl | rfl | rfl | hi) | hi
    · exact dot_head_defines env e tr _ hs1 i hi
    · rfl
    · rfl
    · simp [Instr.defines, Ne.symm hs2]
    · exact dot_greedy_loop_defines e succ _ i hi
    · exact epilogue_defines tr _ hs3 hs4 i hi
  subst hprog
  have hk := dot_maxrep_ge env e (st.str .target).length (st.int .pos) hn hmax
  refine leads_bind (dot_head_run _ ext env e tr _ h1 st sv [] hn) ?_
  rintro m' ⟨st', L', rfl, hmr, hpos', hstr, hatt⟩
  simp only [List.cons_append]
  iterate 3
    apply leads_step
    simp only [Machine.exec, Store.opd, set_int_int, reduceCtorEq, if_true, if_false]
  refine leads_mono (dot_greedy_loop_run _ ext e succ (epilogue_prog tr) (st.int .pos) h2 hS
    hs2 hfail (dot_maxrep env e (st.str .target).length (st.int .pos) - e.min).toNat _ sv _
    ?_ ?_) ?_
  · simp only [set_int_int, reduceCtorEq, if_true, if_false, hmr]
    omega
  · simp only [set_int_int, reduceCtorEq, if_true, if_false, hmr, hpos']
    omega
  · rintro m' ⟨k1, k2, k3, k4⟩
    refine ⟨k1, k2, k3, ?_⟩
    rw [k4, attempts_append, hatt succ hs1]
    simp [attempts, hs2, Ne.symm hs2]

/-- Running the lazy dot block: the part after the head, `mid` being the
instructions between the head and the loop label. -/
theorem dot_lazy_run_aux (env : Env) (e : PGE_Node) (succ : List Char) (tr : Bool)
    (mid : List Instr) (hmid : ∀ l, ∀ i ∈ mid, i.defines l = false)
    (hmax : e.max ≠ env.PGE_INF → e.min < e.max)
    (hsucc : succ ∉ [aux_label e.id "_1", aux_label e.id "_3", "fail_group".toList,
      "fail".toList])
    (ext : Ext) (hfail : ∀ k st, ∃ st', ext succ k st = some st' ∧ st'.int .cutgrp = 0)
    (st : Store) (sv : List Val)
    (hn : e.min ≤ ((st.str .target).length : Int) - st.int .pos)
    (hrun : ∀ (prog : List Instr) (st' : Store) (L' : List Event) (P : Machine → Prop),
      (∀ st'' L'', st''.int .rep = e.min → st''.int .pos = st'.int .pos + e.min →
        st''.int .maxrep = st'.int .maxrep → (∀ l, attempts l L'' = attempts l L') →
        Leads prog ext ⟨.label 2 (aux_label e.id "_3") :: (dot_lazy_loop e succ ++
          epilogue_prog tr), st'', sv, [], L'', .running⟩ P) →
      Leads prog ext ⟨mid ++ .label 2 (aux_label e.id "_3") :: (dot_lazy_loop e succ ++
        epilogue_prog tr), st', sv, [], L', .running⟩ P) :
    Leads (dot_head_prog env e tr ++ (mid ++ .label 2 (aux_label e.id "_3") ::
        (dot_lazy_loop e succ ++ epilogue_prog tr))) ext
      ⟨dot_head_prog env e tr ++ (mid ++ .label 2 (aux_label e.id "_3") ::
        (dot_lazy_loop e succ ++ epilogue_prog tr)), st, sv, [], [], .running⟩
      (fun m' => m'.status = .returned ∧ m'.store.int .cutgrp = 0 ∧ m'.saved = sv ∧
        attempts succ m'.log = counts_up (st.int .pos)
          (dot_maxrep env e (st.str .target).length (st.int .pos))
          (dot_maxrep env e (st.str .target).length (st.int .pos) - e.min).toNat) := by
  simp only [List.mem_cons, List.mem_singleton, not_or, List.not_mem_nil, or_false] at hsucc
  obtain ⟨hs1, hs2, hs3, hs4⟩ := hsucc
  have h13 : aux_label e.id "_1" ≠ aux_label e.id "_3" := aux_label_ne _ _ _ (by decide)
  generalize hprog : dot_head_prog env e tr ++ (mid ++ .label 2 (aux_label e.id "_3") ::
        (dot_lazy_loop e succ ++ epilogue_prog tr)) = prog
  have h1 : e.max ≠ env.PGE_INF → find_label prog (aux_label e.id "_1") =
      some (.label 2 (aux_label e.id "_1") :: (mid ++ .label 2 (aux_label e.id "_3") ::
        (dot_lazy_loop e succ ++ epilogue_prog tr))) := by
    intro hinf
    subst hprog
    cases tr <;> by_cases hmin : e.min > 0 <;>
      simp [dot_head_prog, trace_prog, hinf, hmin, find_label, Instr.defines]
  have h3 : find_label prog (aux_label e.id "_3") =
      some (.label 2 (aux_label e.id "_3") :: (dot_lazy_loop e succ ++ epilogue_prog tr)) := by
    subst hprog
    rw [find_label_append _ _ _ (dot_head_defines env e tr _ h13.symm),
      find_label_append _ _ _ (hmid _)]
    exact find_label_here _ _ _
  have hS : find_label prog succ = none := by
    subst hprog
    apply find_label_none
    intro i hi
    simp only [List.mem_append, List.mem_cons] at hi
    rcases hi with hi | hi | rfl | hi | hi
    · exact dot_head_defines env e tr _ hs1 i hi
    · exact hmid _ i hi
    · simp [Instr.defines, Ne.symm hs2]
    · exact dot_lazy_loop_defines e succ _ i hi
    · exact epilogue_defines tr _ hs3 hs4 i hi
  have hk := dot_maxrep_ge env e (st.str .target).length (st.int .pos) hn hmax
  have hstart : (⟨prog, st, sv, [], [], .running⟩ : Machine) =
      ⟨dot_head_prog env e tr ++ (mid ++ .label 2 (aux_label e.id "_3") ::
        (dot_lazy_loop e succ ++ epilogue_prog tr)), st, sv, [], [], .running⟩ := by
    rw [hprog]
  rw [hstart]
  refine leads_bind (dot_head_run prog ext env e tr _ h1 st sv [] hn) ?_
  rintro m' ⟨st', L', rfl, hmr, hpos', hstr, hatt⟩
  apply hrun
  intro st'' L'' hrep'' hpos'' hmr'' hatt''
  apply leads_step
  simp only [Machine.exec]
  refine leads_mono (dot_lazy_loop_run prog ext e succ (epilogue_prog tr) (st.int .pos)
    (dot_maxrep env e (st.str .target).length (st.int .pos)) h3 hS
    hs2 hfail (dot_maxrep env e (st.str .target).length (st.int .pos) - e.min).toNat _ sv _
    ?_ ?_ ?_) ?_
  · rw [hrep'']; omega
  · rw [hpos'', hpos']; omega
  · rw [hmr'', hmr]
  · rintro m' ⟨k1, k2, k3, k4⟩
    refine ⟨k1, k2, k3, ?_⟩
    rw [k4, attempts_append, hatt'' succ, hatt succ hs1]
    simp [attempts, hs2, Ne.symm hs2]

/-- Running the lazy dot block from its first instruction. -/
theorem dot_lazy_run (env : Env) (e : PGE_Node) (succ : List Char) (tr : Bool)
    (hg : e.isgreedy = false) (hc : e.iscut = false) (hmin0 : 0 ≤ e.min) (hne : e.min ≠ e.max)
    (hmax : e.max ≠ env.PGE_INF → e.min < e.max)
    (hsucc : succ ∉ [aux_label e.id "_1", aux_label e.id "_3", "fail_group".toList,
      "fail".toList])
    (ext : Ext) (hfail : ∀ k st, ∃ st', ext succ k st = some st' ∧ st'.int .cutgrp = 0)
    (st : Store) (sv : List Val)
    (hn : e.min ≤ ((st.str .target).length : Int) - st.int .pos) :
    Leads (dot_prog env e succ tr ++ epilogue_prog tr) ext
      ⟨dot_prog env e succ tr ++ epilogue_prog tr, st, sv, [], [], .running⟩
      (fun m' => m'.status = .returned ∧ m'.store.int .cutgrp = 0 ∧ m'.saved = sv ∧
        attempts succ m'.log = counts_up (st.int .pos)
          (dot_maxrep env e (st.str .target).length (st.int .pos))
          (dot_maxrep env e (st.str .target).length (st.int .pos) - e.min).toNat) := by
  rw [dot_prog_lazy env e succ tr hne hg hc, List.append_assoc]
  by_cases hmin : e.min > 0
  · simp only [hmin, if_true, List.cons_append, List.nil_append]
    refine dot_lazy_run_aux env e succ tr
      [.set .rep (.num e.min), .add .pos (.num e.min)] ?_ hmax hsucc ext hfail st sv hn ?_
    · intro l i hi
      simp at hi
      rcases hi with rfl | rfl <;> rfl
    · intro prog st' L' P h
      simp only [List.cons_append, List.nil_append]
      iterate 2
        apply leads_step
        simp only [Machine.exec, Store.opd]
      apply h <;> simp
  · simp only [hmin, if_false, List.cons_append, List.nil_append]
    have h0 : e.min = 0 := by omega
    refine dot_lazy_run_aux env e succ tr [.set .rep (.num e.min)] ?_ hmax hsucc ext hfail
      st sv hn ?_
    · intro l i hi
      simp at hi
      subst hi
      rfl
    · intro prog st' L' P h
      simp only [List.cons_append, List.nil_append]
      apply leads_step
      simp only [Machine.exec, Store.opd]
      apply h <;> simp [h0]

theorem pge_gen_epilogue_text (env : Env) (s : State) (hs : s.ok) :
    Emits s (pge_gen_epilogue env s) (render (epilogue_prog s.pge_istraced)) := by
  unfold pge_gen_epilogue epilogue_prog trace_prog
  cases htr : s.pge_istraced <;>
  simp only [trace, vsprintf, String.toList, Option.map, emit_istraced, htr, List.take,
    Bool.false_eq_true, if_false, if_true, List.cons_append, List.nil_append] <;>
  apply emits_of_rev <;>
  repeat (first
    | exact Emits.nil hs
    | (refine emits_rcons ?_ ?_; · rfl)
    | (refine emits_rcons2 ?_ ?_; · rfl))

/-- C6: greedy any-character search order.  For an AnyChar node with
`isgreedy` set, `iscut` clear and `min < max` (or `max` unbounded), the text
`pge_gen_dot` writes is the instruction list `dot_prog`; run from position `p`
of a subject with at least `min` characters left, against a continuation
`succ` that fails on every entry (returns with `cutgrp = 0`), it enters `succ`
with the repetition counts `k, k-1, ..., min` for `k = min(max, n - p)`, in
that order and each once, at position `p + count`, and then control is back
at the caller with `cutgrp = 0` (the last entry, at count `min`, is a jump, so
the failure of `succ` there is the failure of the block). -/
theorem dot_greedy_search_order (env : Env) (e : PGE_Node) (succ : List Char) (s : State)
    (hs : s.ok) (hg : e.isgreedy = true) (hc : e.iscut = false) (hne : e.min ≠ e.max)
    (hmax : e.max ≠ env.PGE_INF → e.min < e.max)
    (hsucc : succ ∉ [aux_label e.id "_1", aux_label e.id "_2", "fail_group".toList,
      "fail".toList])
    (ext : Ext) (hfail : ∀ k st, ∃ st', ext succ k st = some st' ∧ st'.int .cutgrp = 0)
    (st : Store) (sv : List Val)
    (hn : e.min ≤ ((st.str .target).length : Int) - st.int .pos) :
    Emits s (pge_gen_dot env e succ s) (render (dot_prog env e succ s.pge_istraced)) ∧
    Emits (pge_gen_dot env e succ s) (pge_gen_epilogue env (pge_gen_dot env e succ s))
      (render (epilogue_prog s.pge_istraced)) ∧
    Leads (dot_prog env e succ s.pge_istraced ++ epilogue_prog s.pge_istraced) ext
      ⟨dot_prog env e succ s.pge_istraced ++ epilogue_prog s.pge_istraced, st, sv, [], [],
        .running⟩
      (fun m' => m'.status = .returned ∧ m'.store.int .cutgrp = 0 ∧ m'.saved = sv ∧
        attempts succ m'.log = counts_down (st.int .pos) e.min
          (dot_maxrep env e (st.str .target).length (st.int .pos) - e.min).toNat) := by
  have h1 := pge_gen_dot_text env e succ s hs
  have h2 := pge_gen_epilogue_text env _ h1.1
  rw [h1.2.2.1] at h2
  exact ⟨h1, h2, dot_greedy_run env e succ _ hg hc hne hmax hsucc ext hfail st sv hn⟩

theorem dot_greedy_search_order_witness :
    Leads (dot_prog env_demo (node_dot true) "R3".toList false ++ epilogue_prog false) ext_fail
      ⟨dot_prog env_demo (node_dot true) "R3".toList false ++ epilogue_prog false, store_demo,
        [], [], [], .running⟩
      (fun m' => m'.status = .returned ∧ m'.store.int .cutgrp = 0 ∧ m'.saved = [] ∧
        attempts "R3".toList m'.log = [(4, 4), (3, 3), (2, 2)]) :=
  (dot_greedy_search_order env_demo (node_dot true) "R3".toList State.initial ⟨rfl, rfl⟩ rfl rfl
    (by decide) (by decide) (by decide) ext_fail
    (fun _ st => ⟨_, rfl, rfl⟩) store_demo [] (by decide)).2.2


/-- C7: lazy any-character search order.  For an AnyChar node with `isgreedy`
clear, `iscut` clear and `0 <= min < max` (or `max` unbounded), the text
`pge_gen_dot` writes is the instruction list `dot_prog`; run from position `p`
of a subject with at least `min` characters left, against a continuation
`succ` that fails on every entry (returns with `cutgrp = 0`), it enters `succ`
with the repetition counts `min, min+1, ..., k` for `k = min(max, n - p)`, in
that order and each once, at position `p + count`, and then control is back
at the caller with `cutgrp = 0` (the last entry, at count `k`, is a jump, so
the failure of `succ` there is the failure of the block). -/
theorem dot_lazy_search_order (env : Env) (e : PGE_Node) (succ : List Char) (s : State)
    (hs : s.ok) (hg : e.isgreedy = false) (hc : e.iscut = false) (hmin0 : 0 ≤ e.min)
    (hne : e.min ≠ e.max) (hmax : e.max ≠ env.PGE_INF → e.min < e.max)
    (hsucc : succ ∉ [aux_label e.id "_1", aux_label e.id "_3", "fail_group".toList,
      "fail".toList])
    (ext : Ext) (hfail : ∀ k st, ∃ st', ext succ k st = some st' ∧ st'.int .cutgrp = 0)
    (st : Store) (sv : List Val)
    (hn : e.min ≤ ((st.str .target).length : Int) - st.int .pos) :
    Emits s (pge_gen_dot env e succ s) (render (dot_prog env e succ s.pge_istraced)) ∧
    Emits (pge_gen_dot env e succ s) (pge_gen_epilogue env (pge_gen_dot env e succ s))
      (render (epilogue_prog s.pge_istraced)) ∧
    Leads (dot_prog env e succ s.pge_istraced ++ epilogue_prog s.pge_istraced) ext
      ⟨dot_prog env e succ s.pge_istraced ++ epilogue_prog s.pge_istraced, st, sv, [], [],
        .running⟩
      (fun m' => m'.status = .returned ∧ m'.store.int .cutgrp = 0 ∧ m'.saved = sv ∧
        attempts succ m'.log = counts_up (st.int .pos)
          (dot_maxrep env e (st.str .target).length (st.int .pos))
          (dot_maxrep env e (st.str .target).length (st.int .pos) - e.min).toNat) := by
  have h1 := pge_gen_dot_text env e succ s hs
  have h2 := pge_gen_epilogue_text env _ h1.1
  rw [h1.2.2.1] at h2
  exact ⟨h1, h2, dot_lazy_run env e succ _ hg hc hmin0 hne hmax hsucc ext hfail st sv hn⟩

theorem dot_lazy_search_order_witness :
    Leads (dot_prog env_demo (node_dot false) "R3".toList false ++ epilogue_prog false) ext_fail
      ⟨dot_prog env_demo (node_dot false) "R3".toList false ++ epilogue_prog false, store_demo,
        [], [], [], .running⟩
      (fun m' => m'.status = .returned ∧ m'.store.int .cutgrp = 0 ∧ m'.saved = [] ∧
        attempts "R3".toList m'.log = [(2, 2), (3, 3), (4, 4)]) :=
  (dot_lazy_search_order env_demo (node_dot false) "R3".toList State.initial ⟨rfl, rfl⟩ rfl rfl
    (by decide) (by decide) (by decide) (by decide) ext_fail
    (fun _ st => ⟨_, rfl, rfl⟩) store_demo [] (by decide)).2.2

/-! ## Running the backreference block -/

set_option maxRecDepth 20000 in
set_option maxHeartbeats 2000000 in
theorem pge_gen_string_text (env : Env) (e : PGE_Node) (succ : List Char) (s : State)
    (hs : s.ok) :
    Emits s (pge_gen_string env e succ s) (render (string_prog env e succ)) := by
  unfold pge_gen_string pge_gen_string_greedy pge_gen_string_lazy string_prog string_fixed_prog
    string_greedy_prog string_lazy_prog
  simp only [on_cond, emitsub, decide_eq_true_eq, List.take, List.foldl, List.reverse,
    List.reverseAux]
  split_ifs <;>
  apply emits_of_rev <;>
  repeat (first
    | exact Emits.nil hs
    | (refine emits_rcons ?_ ?_; · rfl)
    | (refine emits_rcons2 ?_ ?_; · rfl)
    | (refine emits_rcons ?_ ?_;
       · simp only [vsprintf, String.toList, Option.map, Instr.write, aux_label, sprintf,
           List.replicate, List.append_assoc, List.cons_append, List.nil_append,
           Option.getD, List.take, IReg.name, SReg.name, PReg.name, Reg.name, Opd.text,
           SOpd.text, Cmp.text])
    | (refine emits_rcons2 ?_ ?_;
       · simp only [vsprintf, String.toList, Option.map, Instr.write, aux_label, sprintf,
           List.replicate, List.append_assoc, List.cons_append, List.nil_append,
           Option.getD, List.take, IReg.name, SReg.name, PReg.name, Reg.name, Opd.text,
           SOpd.text, Cmp.text]))

set_option maxRecDepth 20000 in
set_option maxHeartbeats 2000000 in
theorem pge_gen_backreference_head_text (env : Env) (e : PGE_Node) (succ : List Char)
    (s : State) (hs : s.ok) :
    Emits s
      (s |> trace env "backref $%d %s" [Arg.d e.group, Arg.s (fmt_quant env e)]
        |> emit env "    classoffset $I0, match, \"PGE::Match\"\n" []
        |> emit env "    $I0 += 4\n" []
        |> emit env "    getattribute gr_cap, match, $I0\n" []
        |> emit env "    $I0 = defined gr_cap[%s]\n" [Arg.s (group_key e)]
        |> emit env "    unless $I0 goto %s\n" [Arg.s succ]
        |> emit env "    $P0 = gr_cap[%s]\n" [Arg.s (group_key e)]
        |> emit env "    $I0 = $P0[-2]\n" []
        |> emit env "    $I1 = $P0[-1]\n" []
        |> emit env "    if $I0 >= $I1 goto %s\n" [Arg.s succ]
        |> emit env "    strlen = $I1 - $I0\n" []
        |> emit env "    substr str, target, $I0, strlen\n" [])
      (render (backref_head_prog env e succ s.pge_istraced)) := by
  unfold backref_head_prog trace_prog
  cases htr : s.pge_istraced <;>
  simp only [trace, vsprintf, String.toList, Option.map, emit_istraced, htr, List.take,
    Bool.false_eq_true, if_false, if_true, List.cons_append, List.nil_append] <;>
  apply emits_of_rev <;>
  repeat (first
    | exact Emits.nil hs
    | (refine emits_rcons ?_ ?_; · rfl))

theorem pge_gen_backreference_text (env : Env) (e : PGE_Node) (succ : List Char)
    (s : State) (hs : s.ok) :
    Emits s (pge_gen_backreference env e succ s)
      (render (backref_prog env e succ s.pge_istraced)) := by
  unfold pge_gen_backreference backref_prog
  exact (pge_gen_backreference_head_text env e succ s hs).seqp
    (fun h => pge_gen_string_text env e succ _ h)


theorem elem_at_last2 (xs : List Int) (a b : Int) :
    elem_at (xs ++ [a, b]) (-2) = some a ∧ elem_at (xs ++ [a, b]) (-1) = some b := by
  constructor
  · have h : (xs ++ [a, b]).length - 2 = xs.length := by simp
    simp only [elem_at, show ¬ (0 : Int) ≤ -2 by decide, if_false, neg_neg]
    rw [if_pos (by simp)]
    show (xs ++ [a, b]).get? ((xs ++ [a, b]).length - 2) = some a
    rw [h, List.get?_eq_getElem?, List.getElem?_append_right (by simp)]; simp
  · have h : (xs ++ [a, b]).length - 1 = xs.length + 1 := by simp
    simp only [elem_at, show ¬ (0 : Int) ≤ -1 by decide, if_false, neg_neg]
    rw [if_pos (by simp)]
    show (xs ++ [a, b]).get? ((xs ++ [a, b]).length - 1) = some b
    rw [h, List.get?_eq_getElem?, List.getElem?_append_right (by simp)]; simp

theorem string_prog_defines (env : Env) (e : PGE_Node) (succ l : List Char)
    (h1 : l ≠ aux_label e.id "_1") (h2 : l ≠ aux_label e.id "_2") :
    ∀ i ∈ string_prog env e succ, i.defines l = false := by
  unfold string_prog string_fixed_prog string_greedy_prog string_lazy_prog
  split_ifs <;>
  simp [emitsub_prog, Instr.defines, Ne.symm h1, Ne.symm h2]

theorem backref_head_defines (env : Env) (e : PGE_Node) (succ l : List Char) (tr : Bool) :
    ∀ i ∈ backref_head_prog env e succ tr, i.defines l = false := by
  intro i hi
  unfold backref_head_prog at hi
  rcases List.mem_append.1 hi with h | h
  · exact trace_prog_defines _ _ _ i h
  · clear hi
    revert i
    simp [Instr.defines]

theorem backref_find_succ (env : Env) (e : PGE_Node) (succ : List Char) (tr : Bool)
    (hsucc : succ ∉ [aux_label e.id "_1", aux_label e.id "_2"]) :
    find_label (backref_prog env e succ tr) succ = none := by
  simp only [List.mem_cons, List.mem_singleton, List.not_mem_nil, or_false, not_or] at hsucc
  apply find_label_none
  intro i hi
  rcases List.mem_append.1 hi with hi | hi
  · exact backref_head_defines env e succ succ tr i hi
  · exact string_prog_defines env e succ succ hsucc.1 hsucc.2 i hi


@[simp] theorem set_int_pmc (st : Store) (r : IReg) (v : Int) :
    (st.set_int r v).pmc = st.pmc := rfl
@[simp] theorem set_int_caps (st : Store) (r : IReg) (v : Int) :
    (st.set_int r v).caps = st.caps := rfl
@[simp] theorem set_int_attr_base (st : Store) (r : IReg) (v : Int) :
    (st.set_int r v).attr_base = st.attr_base := rfl
@[simp] theorem set_pmc_int (st : Store) (r : PReg) (v : PVal) :
    (st.set_pmc r v).int = st.int := rfl
@[simp] theorem set_pmc_str (st : Store) (r : PReg) (v : PVal) :
    (st.set_pmc r v).str = st.str := rfl
@[simp] theorem set_pmc_caps (st : Store) (r : PReg) (v : PVal) :
    (st.set_pmc r v).caps = st.caps := rfl
@[simp] theorem set_pmc_pmc (st : Store) (r r' : PReg) (v : PVal) :
    (st.set_pmc r v).pmc r' = if r' = r then v else st.pmc r' := rfl
@[simp] theorem set_str_int (st : Store) (r : SReg) (v : List Char) :
    (st.set_str r v).int = st.int := rfl
@[simp] theorem set_str_str (st : Store) (r r' : SReg) (v : List Char) :
    (st.set_str r v).str r' = if r' = r then v else st.str r' := rfl

theorem attr_slot_ne (a : Int) : (a + 4 = a + 3) = False := by
  simp

/-- The backreference block up to the test of the group entry: without an
entry control goes to `succ` with `pos` and the string registers as they were. -/
theorem backref_run_absent (prog rest : List Instr) (env : Env) (e : PGE_Node)
    (succ : List Char) (tr : Bool) (hf : find_label prog succ = none)
    (st : Store) (sv : List Val) (hcap : st.caps (group_key e) = none) :
    Leads prog ext_stop
      ⟨backref_head_prog env e succ tr ++ rest, st, sv, [], [], .running⟩
      (fun m' => m'.status = .left succ ∧ m'.store.int .pos = st.int .pos ∧
        m'.store.str = st.str ∧ m'.saved = sv ∧
        m'.log = [Event.arrive succ (st.int .pos) (st.int .rep)]) := by
  unfold backref_head_prog trace_prog
  cases tr <;>
  simp only [Bool.false_eq_true, if_false, if_true, List.cons_append, List.nil_append] <;>
  (repeat (apply leads_step; simp only [Machine.exec, Machine.jump, hf, ext_stop, hcap,
    Store.opd, set_int_int, set_int_str, set_int_pmc, set_int_caps, set_int_attr_base,
    set_pmc_int, set_pmc_str, set_pmc_caps, set_pmc_pmc, reduceCtorEq, if_true, if_false,
    Option.isSome, attr_slot_ne, eq_self, Bool.false_eq_true, List.nil_append,
    List.length_nil])) <;>
  exact leads_done ⟨rfl, rfl, rfl, rfl, rfl⟩

/-- The backreference block with an empty most recent capture: control goes
to `succ` with `pos` and the string registers as they were. -/
theorem backref_run_empty (prog rest : List Instr) (env : Env) (e : PGE_Node)
    (succ : List Char) (tr : Bool) (hf : find_label prog succ = none)
    (st : Store) (sv : List Val) (xs : List Int) (a b : Int)
    (hcap : st.caps (group_key e) = some (xs ++ [a, b])) (hab : b ≤ a) :
    Leads prog ext_stop
      ⟨backref_head_prog env e succ tr ++ rest, st, sv, [], [], .running⟩
      (fun m' => m'.status = .left succ ∧ m'.store.int .pos = st.int .pos ∧
        m'.store.str = st.str ∧ m'.saved = sv ∧
        m'.log = [Event.arrive succ (st.int .pos) (st.int .rep)]) := by
  unfold backref_head_prog trace_prog
  cases tr <;>
  simp only [Bool.false_eq_true, if_false, if_true, List.cons_append, List.nil_append] <;>
  (repeat (apply leads_step; simp only [Machine.exec, Machine.jump, hf, ext_stop, hcap,
    Store.opd, set_int_int, set_int_str, set_int_pmc, set_int_caps, set_int_attr_base,
    set_pmc_int, set_pmc_str, set_pmc_caps, set_pmc_pmc, reduceCtorEq, if_true, if_false,
    Option.isSome, attr_slot_ne, eq_self, Bool.false_eq_true, List.nil_append,
    List.length_nil, Option.bind, (elem_at_last2 xs a b).1, (elem_at_last2 xs a b).2,
    Cmp.holds, ge_iff_le, hab, decide_True, one_ne_zero])) <;>
  exact leads_done ⟨rfl, rfl, rfl, rfl, rfl⟩

/-- The backreference block with a most recent capture that is not empty:
control reaches the shared routine with `str` and `strlen` set from it. -/
theorem backref_run_captured (prog rest : List Instr) (env : Env) (e : PGE_Node)
    (succ : List Char) (tr : Bool)
    (st : Store) (sv : List Val) (xs : List Int) (a b : Int)
    (hcap : st.caps (group_key e) = some (xs ++ [a, b])) (hab : a < b) (ha : 0 ≤ a)
    (hlen : a < (st.str .target).length) :
    Leads prog ext_stop
      ⟨backref_head_prog env e succ tr ++ rest, st, sv, [], [], .running⟩
      (fun m' => m'.status = .running ∧ m'.code = rest ∧ m'.log = [] ∧ m'.saved = sv ∧
        m'.store.int .pos = st.int .pos ∧ m'.store.int .strlen = b - a ∧
        m'.store.str .str = ((st.str .target).drop a.toNat).take (b - a).toNat ∧
        m'.store.str .target = st.str .target) := by
  have hab' : ¬ b ≤ a := not_le.2 hab
  have hba : 0 ≤ b - a := by omega
  unfold backref_head_prog trace_prog
  cases tr <;>
  simp only [Bool.false_eq_true, if_false, if_true, List.cons_append, List.nil_append] <;>
  (repeat (apply leads_step; simp only [Machine.exec, Machine.jump, ext_stop, hcap,
    Store.opd, set_int_int, set_int_str, set_int_pmc, set_int_caps, set_int_attr_base,
    set_pmc_int, set_pmc_str, set_pmc_caps, set_pmc_pmc, reduceCtorEq, if_true, if_false,
    Option.isSome, attr_slot_ne, eq_self, Bool.false_eq_true, List.nil_append,
    List.length_nil, Option.bind, (elem_at_last2 xs a b).1, (elem_at_last2 xs a b).2,
    Cmp.holds, ge_iff_le, hab', decide_False, one_ne_zero, ha, hlen, hba, and_self])) <;>
  exact leads_done ⟨rfl, rfl, rfl, rfl, rfl, rfl, rfl, rfl⟩


/-- C8: backreference vacuous success.  For every Backreference node and
continuation `succ`, the text `pge_gen_backreference` writes is the
instruction list `backref_prog` (the lookup, then the routine of
`pge_gen_string`), and run from any store: when the group has no capture
entry, and also when the most recent captured start offset is greater than or
equal to the captured end offset, control goes to `succ` with `pos` and every
string register as they were (no substring was taken or compared); when
`start < end` (offsets inside the subject), control reaches the first
instruction of the shared routine with `strlen = end - start`, `str` the
subject from `start` of that length, and `pos` unchanged. -/
theorem backreference_vacuous_success (env : Env) (e : PGE_Node) (succ : List Char)
    (s : State) (hs : s.ok)
    (hsucc : succ ∉ [aux_label e.id "_1", aux_label e.id "_2"])
    (st : Store) (sv : List Val) :
    Emits s (pge_gen_backreference env e succ s)
      (render (backref_prog env e succ s.pge_istraced)) ∧
    (st.caps (group_key e) = none →
      Leads (backref_prog env e succ s.pge_istraced) ext_stop
        ⟨backref_prog env e succ s.pge_istraced, st, sv, [], [], .running⟩
        (fun m' => m'.status = .left succ ∧ m'.store.int .pos = st.int .pos ∧
          m'.store.str = st.str ∧ m'.saved = sv ∧
          m'.log = [Event.arrive succ (st.int .pos) (st.int .rep)])) ∧
    (∀ xs a b, st.caps (group_key e) = some (xs ++ [a, b]) → b ≤ a →
      Leads (backref_prog env e succ s.pge_istraced) ext_stop
        ⟨backref_prog env e succ s.pge_istraced, st, sv, [], [], .running⟩
        (fun m' => m'.status = .left succ ∧ m'.store.int .pos = st.int .pos ∧
          m'.store.str = st.str ∧ m'.saved = sv ∧
          m'.log = [Event.arrive succ (st.int .pos) (st.int .rep)])) ∧
    (∀ xs a b, st.caps (group_key e) = some (xs ++ [a, b]) → a < b → 0 ≤ a →
      b ≤ (st.str .target).length →
      Leads (backref_prog env e succ s.pge_istraced) ext_stop
        ⟨backref_prog env e succ s.pge_istraced, st, sv, [], [], .running⟩
        (fun m' => m'.status = .running ∧ m'.code = string_prog env e succ ∧ m'.log = [] ∧
          m'.saved = sv ∧ m'.store.int .pos = st.int .pos ∧ m'.store.int .strlen = b - a ∧
          m'.store.str .str = ((st.str .target).drop a.toNat).take (b - a).toNat ∧
          m'.store.str .target = st.str .target)) := by
  have hf := backref_find_succ env e succ s.pge_istraced hsucc
  refine ⟨pge_gen_backreference_text env e succ s hs, ?_, ?_, ?_⟩
  · intro hcap
    exact backref_run_absent _ _ env e succ _ hf st sv hcap
  · intro xs a b hcap hab
    exact backref_run_empty _ _ env e succ _ hf st sv xs a b hcap hab
  · intro xs a b hcap hab ha hb
    exact backref_run_captured _ _ env e succ _ st sv xs a b hcap hab ha (by omega)

theorem backreference_vacuous_success_witness :
    Leads (backref_prog env_demo node_backref "R6".toList false) ext_stop
      ⟨backref_prog env_demo node_backref "R6".toList false, store_demo, [], [], [], .running⟩
      (fun m' => m'.status = .left "R6".toList ∧ m'.store.int .pos = 0 ∧
        m'.store.str = store_demo.str ∧ m'.saved = [] ∧
        m'.log = [Event.arrive "R6".toList 0 0]) ∧
    Leads (backref_prog env_demo node_backref "R6".toList false) ext_stop
      ⟨backref_prog env_demo node_backref "R6".toList false, store_captured, [], [], [],
        .running⟩
      (fun m' => m'.status = .running ∧
        m'.code = string_prog env_demo node_backref "R6".toList ∧ m'.log = [] ∧
        m'.saved = [] ∧ m'.store.int .pos = 0 ∧ m'.store.int .strlen = 2 ∧
        m'.store.str .str = ['b', 'c'] ∧ m'.store.str .target = "abcde".toList) :=
  ⟨(backreference_vacuous_success env_demo node_backref "R6".toList State.initial ⟨rfl, rfl⟩
      (by decide) store_demo []).2.1 rfl,
   (backreference_vacuous_success env_demo node_backref "R6".toList State.initial ⟨rfl, rfl⟩
      (by decide) store_captured []).2.2.2 [] 1 3 rfl (by decide) (by decide) (by decide)⟩

/-! ## A cut inside an alternation -/

theorem digit_toNat (d : Nat) (h : d < 10) : (Char.ofNat (48 + d)).toNat - 48 = d := by
  interval_cases d <;> rfl

theorem digit_ne_minus (d : Nat) (h : d < 10) : Char.ofNat (48 + d) ≠ '-' := by
  interval_cases d <;> decide

theorem fmt_nat_aux_read (fuel : Nat) : ∀ (n : Nat) (acc : List Char), n < fuel →
    read_nat (fmt_nat_aux fuel n acc) 0 = read_nat acc n := by
  induction fuel with
  | zero => intro n acc h; omega
  | succ fuel ih =>
    intro n acc h
    unfold fmt_nat_aux
    split_ifs with h10
    · simp only [read_nat, List.foldl_cons, Nat.zero_mul, Nat.zero_add, digit_toNat n h10]
    · rw [ih (n / 10) _ (by omega)]
      simp only [read_nat, List.foldl_cons, digit_toNat (n % 10) (Nat.mod_lt _ (by decide))]
      rw [Nat.div_add_mod']

theorem fmt_nat_aux_head (fuel : Nat) : ∀ (n : Nat) (acc : List Char), n < fuel →
    (fmt_nat_aux fuel n acc).head? ≠ some '-' := by
  induction fuel with
  | zero => intro n acc h; omega
  | succ fuel ih =>
    intro n acc h
    unfold fmt_nat_aux
    split_ifs with h10
    · simp only [List.head?_cons, ne_eq, Option.some.injEq]
      exact digit_ne_minus n h10
    · exact ih (n / 10) _ (by omega)

theorem fmt_nat_injective (n m : Nat) (h : fmt_nat n = fmt_nat m) : n = m := by
  have h1 := fmt_nat_aux_read (n + 1) n [] (by omega)
  have h2 := fmt_nat_aux_read (m + 1) m [] (by omega)
  unfold fmt_nat at h
  rw [h, h2] at h1
  simpa [read_nat] using h1.symm

/-- The conversion `%d` writes different numbers differently. -/
theorem fmt_d_injective (a b : Int) (h : fmt_d a = fmt_d b) : a = b := by
  cases a with
  | ofNat n =>
    cases b with
    | ofNat m => rw [fmt_nat_injective n m h]
    | negSucc m =>
      exfalso
      have := fmt_nat_aux_head (n + 1) n [] (by omega)
      simp only [fmt_d] at h
      unfold fmt_nat at h
      rw [h] at this
      simp at this
  | negSucc n =>
    cases b with
    | ofNat m =>
      exfalso
      have := fmt_nat_aux_head (m + 1) m [] (by omega)
      simp only [fmt_d] at h
      unfold fmt_nat at h
      rw [← h] at this
      simp at this
    | negSucc m =>
      simp only [fmt_d, List.cons.injEq, true_and] at h
      have := fmt_nat_injective _ _ h
      have : n = m := by omega
      rw [this]

theorem Emits.writes {s s' : State} {out : List Char} (h : Emits s s' out) :
    Writes s s' out := ⟨h.1, h.2.1, h.2.2.1⟩

theorem writes_seqp {s s' s'' : State} {p q : List Instr} (h1 : Writes s s' (render p))
    (h2 : s'.ok → Writes s' s'' (render q)) : Writes s s'' (render (p ++ q)) := by
  rw [render_append]
  obtain ⟨k1, k2, k3⟩ := h2 h1.1
  obtain ⟨_, j2, j3⟩ := h1
  exact ⟨k1, by rw [k2, j2, List.append_assoc], k3.trans j3⟩

theorem emitlcount_text (env : Env) (s : State) (hs : s.ok) :
    Writes s (emitlcount env s) (render (marker_prog (due s))) := by
  obtain ⟨h1, h2, h3⟩ := emitlcount_ok hs env
  refine ⟨h1, ?_, h3⟩
  rw [h2]
  unfold line_marker due
  split_ifs
  · simp only [marker_prog, render, Instr.write, sprintf, vsprintf, String.toList, Option.map,
      Option.getD, List.replicate, List.nil_append, List.append_nil, List.cons_append,
      List.append_assoc]
  · rfl

set_option maxRecDepth 20000 in
set_option maxHeartbeats 2000000 in
theorem alt_head_text (env : Env) (ida id1 id2 : Int) (s : State) (hs : s.ok) :
    Emits s
      (s |> emit env "  R%d:\n" [Arg.d ida]
        |> trace env "alt R%d | R%d" [Arg.d id1, Arg.d id2]
        |> emitsub env (sprintf "R%d" [Arg.d id1]) ["pos".toList]
        |> emit env "    goto R%d\n\n" [Arg.d id2])
      (render (alt_head_prog ida id1 id2 s.pge_istraced)) := by
  unfold alt_head_prog trace_prog emitsub_prog
  cases htr : s.pge_istraced <;>
  simp only [trace, emitsub, vsprintf, String.toList, Option.map, emit_istraced, htr, List.take,
    List.foldl, List.reverse, List.reverseAux, List.map,
    Bool.false_eq_true, if_false, if_true, List.cons_append, List.nil_append] <;>
  apply emits_of_rev <;>
  repeat (first
    | exact Emits.nil hs
    | (refine emits_rcons ?_ ?_; · rfl)
    | (refine emits_rcons2 ?_ ?_; · rfl)
    | (refine emits_rcons ?_ ?_;
       · simp only [vsprintf, String.toList, Option.map, Instr.write, node_label, sprintf,
           List.replicate, List.append_assoc, List.cons_append, List.nil_append,
           Option.getD, List.take, IReg.name, SReg.name, PReg.name, Reg.name, Opd.text,
           SOpd.text, Cmp.text])
    | (refine emits_rcons2 ?_ ?_;
       · simp only [vsprintf, String.toList, Option.map, Instr.write, node_label, sprintf,
           List.replicate, List.append_assoc, List.cons_append, List.nil_append,
           Option.getD, List.take, IReg.name, SReg.name, PReg.name, Reg.name, Opd.text,
           SOpd.text, Cmp.text]))

theorem concat_head_text (env : Env) (idc id1 id2 : Int) (s : State) (hs : s.ok) :
    Emits s
      (s |> emit env "  R%d:\n" [Arg.d idc]
        |> emit env "    #concat R%d, R%d\n" [Arg.d id1, Arg.d id2])
      (render (concat_head_prog idc id1 id2)) := by
  unfold concat_head_prog
  apply emits_of_rev
  repeat (first
    | exact Emits.nil hs
    | (refine emits_rcons ?_ ?_; · rfl)
    | (refine emits_rcons ?_ ?_;
       · simp only [vsprintf, String.toList, Option.map, Instr.write, node_label, sprintf,
           List.replicate, List.append_assoc, List.cons_append, List.nil_append,
           Option.getD]))

set_option maxRecDepth 20000 in
theorem cut_alt_block_text (env : Env) (k : PGE_Node) (succ : List Char) (s : State)
    (hs : s.ok) (hk : k.type = .PGE_CUT_ALT) :
    Emits s
      (s |> emit env "  R%d:\n" [Arg.d k.id] |> pge_gen_cut env k succ)
      (render (cut_alt_block k.id succ s.pge_istraced)) := by
  unfold cut_alt_block trace_prog emitsub_prog pge_gen_cut
  cases htr : s.pge_istraced <;>
  simp only [on_cond, hk, trace, emitsub, vsprintf, String.toList, Option.map, emit_istraced, htr,
    List.take, List.foldl, List.reverse, List.reverseAux, List.map, reduceCtorEq,
    decide_True, decide_False,
    Bool.false_eq_true, if_false, if_true, List.cons_append, List.nil_append] <;>
  apply emits_of_rev <;>
  repeat (first
    | exact Emits.nil hs
    | (refine emits_rcons ?_ ?_; · rfl)
    | (refine emits_rcons ?_ ?_;
       · simp only [vsprintf, String.toList, Option.map, Instr.write, node_label, sprintf,
           List.replicate, List.append_assoc, List.cons_append, List.nil_append,
           Option.getD]))

/-- The text `pge_gen_exp` writes for an alternation whose left branch is
`Concat(CutAlternative, X)`, up to the block of `X`. -/
theorem cut_alt_text (env : Env) (a c k : PGE_Node) (k1 k2 x y : PGE_Exp) (idx idy : Int)
    (succ : List Char) (s : State) (hs : s.ok)
    (ha : a.type = .PGE_ALT) (hc : c.type = .PGE_CONCAT) (hk : k.type = .PGE_CUT_ALT)
    (hx : x.id? = some idx) (hy : y.id? = some idy) :
    ∃ o1 o2 o3 s3,
      Writes s s3 (render (cut_alt_prog o1 o2 o3 a.id c.id k.id idx idy s.pge_istraced)) ∧
      pge_gen_exp env (.node a (.node c (.node k k1 k2) x) y) succ s =
        pge_gen_exp env y succ (pge_gen_exp env x succ s3) := by
  have e1 := emitlcount_text env s hs
  have t1 := e1.2.2
  have e2 := writes_seqp e1 (fun h => by
    have h' := (alt_head_text env a.id c.id idy _ h).writes
    rw [t1] at h'
    exact h')
  have e3 := writes_seqp e2 (fun h => emitlcount_text env _ h)
  have e4 := writes_seqp e3 (fun h => (concat_head_text env c.id k.id idx _ h).writes)
  have e5 := writes_seqp e4 (fun h => emitlcount_text env _ h)
  have t5 := e5.2.2
  have e6 := writes_seqp e5 (fun h => by
    have h' := (cut_alt_block_text env k (sprintf "R%d" [Arg.d idx]) _ h hk).writes
    rw [t5] at h'
    exact h')
  simp only [List.append_assoc] at e6
  refine ⟨_, _, _, _, e6, ?_⟩
  have hcid : (PGE_Exp.node c (PGE_Exp.node k k1 k2) x).id? = some c.id := rfl
  have hkid : (PGE_Exp.node k k1 k2).id? = some k.id := rfl
  simp only [pge_gen_exp, ha, hc, hk, hx, hy, hcid, hkid, pge_gen_alt, pge_gen_concat]

theorem arrivals_append (a b : List Event) : arrivals (a ++ b) = arrivals a ++ arrivals b := by
  induction a with
  | nil => rfl
  | cons ev a ih => cases ev <;> simp [arrivals, ih]

theorem node_label_injective (a b : Int) (h : node_label a = node_label b) : a = b := by
  simp only [node_label, sprintf, vsprintf, String.toList, Option.map, Option.getD,
    List.cons.injEq, true_and, List.append_nil] at h
  exact fmt_d_injective a b h

theorem node_label_ne_fail_group (a : Int) : node_label a ≠ "fail_group".toList := by
  simp [node_label, sprintf, vsprintf]

/-- A line marker does nothing. -/
theorem leads_marker {prog : List Instr} {ext : Ext} {o : Option Int} {c : List Instr}
    {st : Store} {sv : List Val} {cs : List (List Instr)} {L : List Event}
    {P : Machine → Prop} (h : Leads prog ext ⟨c, st, sv, cs, L, .running⟩ P) :
    Leads prog ext ⟨marker_prog o ++ c, st, sv, cs, L, .running⟩ P := by
  cases o with
  | none => exact h
  | some n => exact leads_step h

/-- The lines of `trace` do nothing. -/
theorem leads_trace {prog : List Instr} {ext : Ext} {tr : Bool} {t : List Char}
    {c : List Instr} {st : Store} {sv : List Val} {cs : List (List Instr)} {L : List Event}
    {P : Machine → Prop} (h : Leads prog ext ⟨c, st, sv, cs, L, .running⟩ P) :
    Leads prog ext ⟨trace_prog tr t ++ c, st, sv, cs, L, .running⟩ P := by
  cases tr with
  | false => exact leads_step h
  | true => exact leads_step (leads_step h)

/-- The block `fail_group` sets the group-cut flag and returns to the caller. -/
theorem fail_group_run {prog : List Instr} {ext : Ext} {tr : Bool} {st : Store}
    {sv : List Val} {k : List Instr} {ks : List (List Instr)} {L : List Event}
    {P : Machine → Prop}
    (h : Leads prog ext ⟨k, st.set_int .cutgrp 1, sv, ks,
      L ++ [Event.arrive "fail_group".toList (st.int .pos) (st.int .rep)], .running⟩ P) :
    Leads prog ext ⟨epilogue_prog tr, st, sv, k :: ks, L, .running⟩ P := by
  unfold epilogue_prog
  apply leads_step
  simp only [Machine.exec]
  apply leads_trace
  apply leads_step
  simp only [Machine.exec, Store.opd]
  apply leads_step
  simp only [Machine.exec, Machine.do_ret]
  exact h

/-- The block `fail_group` entered with no call pending: the code fails with
the group-cut flag set. -/
theorem fail_group_final {prog : List Instr} {ext : Ext} {tr : Bool} {st : Store}
    {sv : List Val} {L : List Event} {P : Machine → Prop}
    (h : P ⟨.label 2 "fail".toList :: (trace_prog tr "fail".toList ++
        [.set .cutgrp (.num 0), .ret, .raw ".end".toList]), st.set_int .cutgrp 1, sv, [],
      L ++ [Event.arrive "fail_group".toList (st.int .pos) (st.int .rep)], .returned⟩) :
    Leads prog ext ⟨epilogue_prog tr, st, sv, [], L, .running⟩ P := by
  unfold epilogue_prog
  apply leads_step
  simp only [Machine.exec]
  apply leads_trace
  apply leads_step
  simp only [Machine.exec, Store.opd]
  apply leads_step
  simp only [Machine.exec, Machine.do_ret]
  exact leads_done h

/-- Running the alternation with a cut in its left branch: when `X` fails,
the code fails with the group-cut flag set; `R<Y>` is not entered. -/
theorem cut_alt_run (prog rest : List Instr) (ext : Ext) (o1 o2 o3 : Option Int)
    (ida idc idk idx idy : Int) (tr : Bool) (cx : List Instr)
    (hC : find_label prog (node_label idc) =
      some (concat_head_prog idc idk idx ++ (marker_prog o3 ++
        (cut_alt_block idk (node_label idx) tr ++ rest))))
    (hF : find_label prog "fail_group".toList = some (epilogue_prog tr))
    (hx : find_label prog (node_label idx) = some cx)
    (st : Store) (sv : List Val)
    (hX : ∀ sv' k ks L, Leads prog ext ⟨cx, st, sv', k :: ks, L, .running⟩
      (fun m' => m'.status = .running ∧ m'.code = k ∧ m'.calls = ks ∧ m'.saved = sv' ∧
        ∃ L', m'.log = L ++ L' ∧ node_label idy ∉ arrivals L')) :
    Leads prog ext
      ⟨marker_prog o1 ++ (alt_head_prog ida idc idy tr ++ (marker_prog o2 ++
        (concat_head_prog idc idk idx ++ (marker_prog o3 ++
          (cut_alt_block idk (node_label idx) tr ++ rest))))), st, sv, [], [], .running⟩
      (fun m' => m'.status = .returned ∧ m'.store.int .cutgrp = 1 ∧ m'.saved = sv ∧
        m'.store.int .pos = st.int .pos ∧
        ∃ L', arrivals m'.log = node_label ida :: node_label idc :: node_label idk ::
          (arrivals L' ++ ["fail_group".toList, "fail_group".toList]) ∧
          node_label idy ∉ arrivals L') := by
  apply leads_marker
  unfold alt_head_prog emitsub_prog
  simp only [List.cons_append, List.append_assoc, List.map, List.reverse, List.reverseAux,
    List.nil_append]
  apply leads_step
  simp only [Machine.exec]
  apply leads_trace
  apply leads_step
  simp only [Machine.exec, Store.get]
  apply leads_step
  simp only [Machine.exec, Machine.jump, hC]
  unfold concat_head_prog
  simp only [List.cons_append, List.nil_append]
  apply leads_step
  simp only [Machine.exec]
  apply leads_step
  simp only [Machine.exec]
  apply leads_marker
  unfold cut_alt_block emitsub_prog
  simp only [List.cons_append, List.append_assoc, List.map, List.reverse, List.reverseAux,
    List.nil_append]
  apply leads_step
  simp only [Machine.exec]
  apply leads_trace
  apply leads_step
  simp only [Machine.exec, Machine.jump, hx]
  refine leads_bind (hX _ _ _ _) ?_
  rintro ⟨code, st', sv', cs, L, status⟩ ⟨h1, h2, h3, h4, L', h5, h6⟩
  simp only at h1 h2 h3 h4 h5
  subst h1 h2 h3 h4 h5
  have key : Leads prog ext ⟨epilogue_prog tr, st', Val.int (st.int .pos) :: sv,
      [.restore (.int .pos) :: .if_true .cutgrp "fail_group".toList ::
        .goto (node_label idy) :: .blank :: (marker_prog o2 ++
          (.label 2 (node_label idc) ::
            .comment 4 (sprintf "concat R%d, R%d" [Arg.d idk, Arg.d idx]) ::
            (marker_prog o3 ++ (.label 2 (node_label idk) ::
              (trace_prog tr "::cut alt".toList ++
                (.bsr (node_label idx) :: .if_true .cutgrp "fail_group".toList ::
                  .goto "fail_group".toList :: rest))))))],
      [] ++ [Event.arrive (node_label ida) (st.int .pos) (st.int .rep)] ++
        [Event.arrive (node_label idc) (st.int .pos) (st.int .rep)] ++
        [Event.arrive (node_label idk) (st.int .pos) (st.int .rep)] ++ L', .running⟩
      (fun m' => m'.status = .returned ∧ m'.store.int .cutgrp = 1 ∧ m'.saved = sv ∧
        m'.store.int .pos = st.int .pos ∧
        ∃ L', arrivals m'.log = node_label ida :: node_label idc :: node_label idk ::
          (arrivals L' ++ ["fail_group".toList, "fail_group".toList]) ∧
          node_label idy ∉ arrivals L') := by
    apply fail_group_run
    apply leads_step
    simp only [Machine.exec, Store.put]
    apply leads_step
    simp only [Machine.exec, Machine.jump, hF, set_int_int, reduceCtorEq, if_true, if_false,
      ne_eq, one_ne_zero, not_false_eq_true]
    apply fail_group_final
    refine ⟨rfl, rfl, rfl, rfl, L', ?_, h6⟩
    simp [arrivals_append, arrivals]
  apply leads_step
  by_cases hcut : st'.int .cutgrp = 0
  · simp only [Machine.exec, hcut, ne_eq, not_true_eq_false, if_false]
    apply leads_step
    simp only [Machine.exec, Machine.jump, hF]
    exact key
  · simp only [Machine.exec, hcut, ne_eq, not_false_eq_true, if_true, Machine.jump, hF]
    exact key

theorem marker_prog_defines (o : Option Int) (l : List Char) :
    ∀ i ∈ marker_prog o, i.defines l = false := by
  cases o <;> simp [marker_prog, Instr.defines]

theorem alt_head_defines (ida id1 id2 : Int) (tr : Bool) (l : List Char)
    (h : l ≠ node_label ida) : ∀ i ∈ alt_head_prog ida id1 id2 tr, i.defines l = false := by
  cases tr <;> simp [alt_head_prog, trace_prog, emitsub_prog, Instr.defines, Ne.symm h]

theorem concat_head_defines (idc id1 id2 : Int) (l : List Char)
    (h : l ≠ node_label idc) : ∀ i ∈ concat_head_prog idc id1 id2, i.defines l = false := by
  simp [concat_head_prog, Instr.defines, Ne.symm h]

theorem cut_alt_block_defines (idk : Int) (succ : List Char) (tr : Bool) (l : List Char)
    (h : l ≠ node_label idk) : ∀ i ∈ cut_alt_block idk succ tr, i.defines l = false := by
  cases tr <;> simp [cut_alt_block, trace_prog, emitsub_prog, Instr.defines, Ne.symm h]

theorem cut_alt_prog_defines (o1 o2 o3 : Option Int) (ida idc idk idx idy : Int) (tr : Bool)
    (l : List Char) (h1 : l ≠ node_label ida) (h2 : l ≠ node_label idc)
    (h3 : l ≠ node_label idk) :
    ∀ i ∈ cut_alt_prog o1 o2 o3 ida idc idk idx idy tr, i.defines l = false := by
  intro i hi
  unfold cut_alt_prog at hi
  simp only [List.mem_append] at hi
  rcases hi with hi | hi | hi | hi | hi | hi
  · exact marker_prog_defines _ _ i hi
  · exact alt_head_defines _ _ _ _ _ h1 i hi
  · exact marker_prog_defines _ _ i hi
  · exact concat_head_defines _ _ _ _ h2 i hi
  · exact marker_prog_defines _ _ i hi
  · exact cut_alt_block_defines _ _ _ _ h3 i hi

theorem cut_alt_find_concat (o1 o2 o3 : Option Int) (ida idc idk idx idy : Int) (tr : Bool)
    (rest : List Instr) (hac : ida ≠ idc) :
    find_label (cut_alt_prog o1 o2 o3 ida idc idk idx idy tr ++ rest) (node_label idc) =
      some (concat_head_prog idc idk idx ++ (marker_prog o3 ++
        (cut_alt_block idk (node_label idx) tr ++ rest))) := by
  have hne : node_label idc ≠ node_label ida := fun h => hac (node_label_injective _ _ h).symm
  have e : cut_alt_prog o1 o2 o3 ida idc idk idx idy tr ++ rest =
      (marker_prog o1 ++ (alt_head_prog ida idc idy tr ++ marker_prog o2)) ++
        (concat_head_prog idc idk idx ++ (marker_prog o3 ++
          (cut_alt_block idk (node_label idx) tr ++ rest))) := by
    simp only [cut_alt_prog, List.append_assoc]
  rw [e, find_label_append]
  · exact find_label_here _ _ _
  · intro i hi
    simp only [List.mem_append] at hi
    rcases hi with hi | hi | hi
    · exact marker_prog_defines _ _ i hi
    · exact alt_head_defines _ _ _ _ _ hne i hi
    · exact marker_prog_defines _ _ i hi

theorem cut_alt_find_fail_group (o1 o2 o3 : Option Int) (ida idc idk idx idy : Int)
    (tr : Bool) (rest : List Instr)
    (hrest : ∀ i ∈ rest, i.defines "fail_group".toList = false) :
    find_label (cut_alt_prog o1 o2 o3 ida idc idk idx idy tr ++ (rest ++ epilogue_prog tr))
      "fail_group".toList = some (epilogue_prog tr) := by
  rw [find_label_append, find_label_append _ _ _ hrest]
  · exact find_label_here _ _ _
  · exact cut_alt_prog_defines _ _ _ _ _ _ _ _ _ _ (node_label_ne_fail_group _).symm
      (node_label_ne_fail_group _).symm (node_label_ne_fail_group _).symm

/-- C9: cut inside alternation commits.  For every alternation `A` whose left
branch is `Concat(CutAlternative, X)` and whose right branch is `Y`, the text
`pge_gen_exp` writes before the blocks of `X` and `Y` is the instruction list
`cut_alt_prog` (with the line markers that are due); and in the program made
of these instructions, any blocks `rest` for `X` and `Y` and the two shared
failure blocks, run from the label of `A`: when `X`, entered with the store of
that moment, fails (returns to its caller without entering `R<Y.id>`), the run
ends with control back at the caller of `A` with the group-cut flag `cutgrp`
set to 1, `pos` as it was, after passing `fail_group` twice (once from the cut,
once from the alternation), and control has never arrived at `R<Y.id>`. -/
theorem cut_in_alternation_commits (env : Env) (a c k : PGE_Node) (k1 k2 x y : PGE_Exp)
    (idx idy : Int) (succ : List Char) (s : State) (hs : s.ok)
    (ha : a.type = .PGE_ALT) (hc : c.type = .PGE_CONCAT) (hk : k.type = .PGE_CUT_ALT)
    (hx : x.id? = some idx) (hy : y.id? = some idy)
    (hac : a.id ≠ c.id) (hya : idy ≠ a.id) (hyc : idy ≠ c.id) (hyk : idy ≠ k.id) :
    (∃ o1 o2 o3 s3,
      Writes s s3 (render (cut_alt_prog o1 o2 o3 a.id c.id k.id idx idy s.pge_istraced)) ∧
      pge_gen_exp env (.node a (.node c (.node k k1 k2) x) y) succ s =
        pge_gen_exp env y succ (pge_gen_exp env x succ s3)) ∧
    ∀ (o1 o2 o3 : Option Int) (rest cx : List Instr) (ext : Ext) (st : Store) (sv : List Val),
      (∀ i ∈ rest, i.defines "fail_group".toList = false) →
      find_label (cut_alt_prog o1 o2 o3 a.id c.id k.id idx idy s.pge_istraced ++
        (rest ++ epilogue_prog s.pge_istraced)) (node_label idx) = some cx →
      (∀ sv' r rs L,
        Leads (cut_alt_prog o1 o2 o3 a.id c.id k.id idx idy s.pge_istraced ++
            (rest ++ epilogue_prog s.pge_istraced)) ext
          ⟨cx, st, sv', r :: rs, L, .running⟩
          (fun m' => m'.status = .running ∧ m'.code = r ∧ m'.calls = rs ∧ m'.saved = sv' ∧
            ∃ L', m'.log = L ++ L' ∧ node_label idy ∉ arrivals L')) →
      Leads (cut_alt_prog o1 o2 o3 a.id c.id k.id idx idy s.pge_istraced ++
          (rest ++ epilogue_prog s.pge_istraced)) ext
        ⟨cut_alt_prog o1 o2 o3 a.id c.id k.id idx idy s.pge_istraced ++
          (rest ++ epilogue_prog s.pge_istraced), st, sv, [], [], .running⟩
        (fun m' => m'.status = .returned ∧ m'.store.int .cutgrp = 1 ∧ m'.saved = sv ∧
          m'.store.int .pos = st.int .pos ∧ node_label idy ∉ arrivals m'.log ∧
          ∃ L', arrivals m'.log = node_label a.id :: node_label c.id :: node_label k.id ::
            (arrivals L' ++ ["fail_group".toList, "fail_group".toList])) := by
  refine ⟨cut_alt_text env a c k k1 k2 x y idx idy succ s hs ha hc hk hx hy, ?_⟩
  intro o1 o2 o3 rest cx ext st sv hrest hcx hX
  have hC := cut_alt_find_concat o1 o2 o3 a.id c.id k.id idx idy s.pge_istraced
    (rest ++ epilogue_prog s.pge_istraced) hac
  have hF := cut_alt_find_fail_group o1 o2 o3 a.id c.id k.id idx idy s.pge_istraced rest hrest
  have hrun := cut_alt_run _ (rest ++ epilogue_prog s.pge_istraced) ext o1 o2 o3 a.id c.id k.id
    idx idy s.pge_istraced cx hC hF hcx st sv hX
  have e : cut_alt_prog o1 o2 o3 a.id c.id k.id idx idy s.pge_istraced ++
      (rest ++ epilogue_prog s.pge_istraced) =
      marker_prog o1 ++ (alt_head_prog a.id c.id idy s.pge_istraced ++ (marker_prog o2 ++
        (concat_head_prog c.id k.id idx ++ (marker_prog o3 ++
          (cut_alt_block k.id (node_label idx) s.pge_istraced ++
            (rest ++ epilogue_prog s.pge_istraced)))))) := by
    simp only [cut_alt_prog, List.append_assoc]
  rw [← e] at hrun
  refine leads_mono hrun ?_
  rintro m' ⟨h1, h2, h3, h4, L', h5, h6⟩
  refine ⟨h1, h2, h3, h4, ?_, L', h5⟩
  rw [h5]
  have n1 : node_label idy ≠ node_label a.id := fun h => hya (node_label_injective _ _ h)
  have n2 : node_label idy ≠ node_label c.id := fun h => hyc (node_label_injective _ _ h)
  have n3 : node_label idy ≠ node_label k.id := fun h => hyk (node_label_injective _ _ h)
  simp only [List.mem_cons, List.mem_append, List.not_mem_nil, or_false, not_or]
  exact ⟨n1, n2, n3, h6, node_label_ne_fail_group _, node_label_ne_fail_group _⟩

set_option maxRecDepth 20000 in
set_option maxHeartbeats 2000000 in
theorem literal_head_text (env : Env) (e : PGE_Node) (s : State) (hs : s.ok) :
    Emits s
      (s |> emit env "  R%d:\n" [Arg.d e.id]
        |> trace env "%.16s %s" [Arg.s (str_con e.name e.nlen), Arg.s (fmt_quant env e)]
        |> emit env "    str = %s\n" [Arg.s (str_con e.name e.nlen)]
        |> emit env "    strlen = %d\n" [Arg.d e.nlen])
      (render (.label 2 (node_label e.id) ::
        (trace_prog s.pge_istraced
            (sprintf "%.16s %s" [Arg.s (str_con e.name e.nlen), Arg.s (fmt_quant env e)])
          ++ [.sets .str (.const (str_con e.name e.nlen)), .set .strlen (.num e.nlen)]))) := by
  unfold trace_prog
  cases htr : s.pge_istraced <;>
  simp only [trace, vsprintf, String.toList, Option.map, emit_istraced, htr, List.take,
    Bool.false_eq_true, if_false, if_true, List.cons_append, List.nil_append] <;>
  apply emits_of_rev <;>
  repeat (first
    | exact Emits.nil hs
    | (refine emits_rcons ?_ ?_; · rfl)
    | (refine emits_rcons ?_ ?_;
       · simp only [vsprintf, String.toList, Option.map, Instr.write, node_label, sprintf,
           List.replicate, List.append_assoc, List.cons_append, List.nil_append,
           Option.getD, List.take, IReg.name, SReg.name, PReg.name, Reg.name, Opd.text,
           SOpd.text, Cmp.text]))

/-- The text of the block of a Literal node: its label and what
`pge_gen_literal` writes. -/
theorem pge_gen_literal_text (env : Env) (e : PGE_Node) (succ : List Char) (s : State)
    (hs : s.ok) :
    Emits s (s |> emit env "  R%d:\n" [Arg.d e.id] |> pge_gen_literal env e succ)
      (render (literal_prog env e succ s.pge_istraced)) := by
  have h := (literal_head_text env e s hs).seqp (fun h => pge_gen_string_text env e succ _ h)
  unfold literal_prog pge_gen_literal
  simpa only [List.cons_append, List.append_assoc] using h

/-- The block of a Literal node with the quantifier `<1>`, entered where the
subject does not continue with the literal, fails: control is back at the
caller via `fail`, with the stacks as they were. -/
theorem literal_fixed_fails (prog rest tail : List Instr) (ext : Ext) (env : Env)
    (e : PGE_Node) (succ : List Char) (tr : Bool) (hmin : e.min = 1) (hmax : e.max = 1)
    (hfail : find_label prog "fail".toList = some (.label 2 "fail".toList ::
      (trace_prog tr "fail".toList ++ (.set .cutgrp (.num 0) :: .ret :: tail))))
    (st : Store) (hlen : e.nlen = e.name.length) (hpos : 0 ≤ st.int .pos)
    (hpos2 : st.int .pos < (st.str .target).length)
    (hmis : ((st.str .target).drop (st.int .pos).toNat).take e.nlen.toNat ≠ e.name)
    (sv : List Val) (r : List Instr) (rs : List (List Instr)) (L : List Event) :
    Leads prog ext ⟨literal_prog env e succ tr ++ rest, st, sv, r :: rs, L, .running⟩
      (fun m' => m'.status = .running ∧ m'.code = r ∧ m'.calls = rs ∧ m'.saved = sv ∧
        m'.log = L ++ [Event.arrive (node_label e.id) (st.int .pos) (st.int .rep),
          Event.arrive "fail".toList (st.int .pos) (st.int .rep)]) := by
  have hdec : string_literal_decode (str_con e.name e.nlen) = some e.name := by
    have h := decode_str_con e.name e.name.length
    rw [hlen]
    simpa using h
  have hn : 0 ≤ e.nlen := by rw [hlen]; exact Int.natCast_nonneg _
  unfold literal_prog string_prog string_fixed_prog
  simp only [hmin, hmax, and_self, if_true, List.cons_append, List.append_assoc,
    List.nil_append]
  apply leads_step
  simp only [Machine.exec]
  apply leads_trace
  apply leads_step
  simp only [Machine.exec, Store.sopd, hdec]
  apply leads_step
  simp only [Machine.exec, Store.opd]
  apply leads_step
  simp only [Machine.exec, Store.opd, set_int_int, set_int_str, set_str_int, set_str_str,
    reduceCtorEq, if_true, if_false, hpos, hpos2, hn, and_self]
  apply leads_step
  simp only [Machine.exec, Store.sopd, set_int_int, set_int_str, set_str_int, set_str_str,
    reduceCtorEq, if_true, if_false, ne_eq, hmis, not_false_eq_true, Machine.jump, hfail]
  apply leads_step
  simp only [Machine.exec]
  apply leads_trace
  apply leads_step
  simp only [Machine.exec, Store.opd]
  apply leads_step
  simp only [Machine.exec, Machine.do_ret]
  refine leads_done ⟨rfl, rfl, rfl, rfl, ?_⟩
  simp only [set_int_int, set_int_str, set_str_int, set_str_str, reduceCtorEq, if_false,
    List.append_assoc, List.cons_append, List.nil_append]

set_option maxRecDepth 100000 in
theorem cut_in_alternation_commits_witness :
    (pge_gen_exp env_demo tree_cut_alt "R6".toList State.initial).pge_cbuf =
      render (cut_alt_prog none none none 1 2 3 4 5 false ++ rest_cut_alt) ∧
    Leads (cut_alt_prog none none none 1 2 3 4 5 false ++
        (rest_cut_alt ++ epilogue_prog false)) ext_stop
      ⟨cut_alt_prog none none none 1 2 3 4 5 false ++ (rest_cut_alt ++ epilogue_prog false),
        store_demo, [], [], [], .running⟩
      (fun m' => m'.status = .returned ∧ m'.store.int .cutgrp = 1 ∧ m'.saved = [] ∧
        m'.store.int .pos = 0 ∧ node_label 5 ∉ arrivals m'.log ∧
        ∃ L', arrivals m'.log = node_label 1 :: node_label 2 :: node_label 3 ::
          (arrivals L' ++ ["fail_group".toList, "fail_group".toList])) :=
  ⟨by decide,
   (cut_in_alternation_commits env_demo (PGE_Node.plain 1 .PGE_ALT)
      (PGE_Node.plain 2 .PGE_CONCAT) (PGE_Node.plain 3 .PGE_CUT_ALT) .null .null
      (PGE_Exp.leaf (node_lit 4 'x')) (PGE_Exp.leaf (node_lit 5 'y')) 4 5 "R6".toList
      State.initial ⟨rfl, rfl⟩ rfl rfl rfl rfl rfl (by decide) (by decide) (by decide)
      (by decide)).2 none none none rest_cut_alt
      (literal_prog env_demo (node_lit 4 'x') "R6".toList false ++
        (literal_prog env_demo (node_lit 5 'y') "R6".toList false ++ epilogue_prog false))
      ext_stop store_demo [] (by decide) rfl
      (fun sv' r rs L => leads_mono
        (literal_fixed_fails
          (cut_alt_prog none none none 1 2 3 4 5 false ++ (rest_cut_alt ++ epilogue_prog false))
          (literal_prog env_demo (node_lit 5 'y') "R6".toList false ++ epilogue_prog false)
          [.raw ".end".toList] ext_stop env_demo (node_lit 4 'x')
          "R6".toList false rfl rfl rfl store_demo rfl (by decide) (by decide) (by decide)
          sv' r rs L)
        (fun _ h => ⟨h.1, h.2.1, h.2.2.1, h.2.2.2.1, _, h.2.2.2.2, by decide⟩))⟩

/-! ## The end-of-line anchor -/

set_option maxRecDepth 20000 in
set_option maxHeartbeats 2000000 in
theorem pge_gen_anchor_eol_text (env : Env) (e : PGE_Node) (succ : List Char) (s : State)
    (hs : s.ok) (hty : e.type = .PGE_ANCHOR_EOL) :
    Emits s (pge_gen_anchor env e succ s) (render (eol_prog e succ s.pge_istraced)) := by
  unfold pge_gen_anchor eol_prog trace_prog
  cases htr : s.pge_istraced <;>
  simp only [hty, trace, vsprintf, String.toList, Option.map, emit_istraced, htr, List.take,
    Bool.false_eq_true, if_false, if_true, List.cons_append, List.nil_append] <;>
  apply emits_of_rev <;>
  repeat (first
    | exact Emits.nil hs
    | (refine emits_rcons ?_ ?_; · rfl)
    | (refine emits_rcons2 ?_ ?_; · rfl)
    | (refine emits_rcons ?_ ?_;
       · simp only [vsprintf, String.toList, Option.map, Instr.write, aux_label, sprintf,
           List.replicate, List.append_assoc, List.cons_append, List.nil_append,
           Option.getD, List.take, IReg.name, SReg.name, PReg.name, Reg.name, Opd.text,
           SOpd.text, Cmp.text]))

theorem take_one_drop (l : List Char) (n : Nat) (c : Char) :
    ((l.drop n).take 1 = [c]) ↔ l.get? n = some c := by
  induction l generalizing n with
  | nil => simp
  | cons a l ih =>
    cases n with
    | zero => simp
    | succ n => simpa using ih n

theorem newline_const : string_literal_decode "\"\\n\"".toList = some ['\n'] := by
  decide

theorem eol_find (e : PGE_Node) (succ : List Char) (tr : Bool)
    (hsucc : succ ≠ aux_label e.id "_1") :
    find_label (eol_prog e succ tr) succ = none ∧
    find_label (eol_prog e succ tr) "fail".toList = none ∧
    find_label (eol_prog e succ tr) (aux_label e.id "_1") =
      some [.label 0 (aux_label e.id "_1"), .sub3 .I0 .pos (.num 1),
        .substr .S0 .target .I0 (.num 1), .if_scmp .S0 .ne (.const "\"\\n\"".toList) succ,
        .goto "fail".toList, .blank] := by
  refine ⟨find_label_none _ _ ?_, find_label_none _ _ ?_, ?_⟩
  · cases tr <;> simp [eol_prog, trace_prog, Instr.defines, Ne.symm hsucc]
  · cases tr <;> simp [eol_prog, trace_prog, Instr.defines, aux_label]
  · cases tr <;> simp [eol_prog, trace_prog, find_label, Instr.defines]

/-- The end-of-line block inside the subject: it tests the byte at `pos`. -/
theorem eol_run_inside (e : PGE_Node) (succ : List Char) (tr : Bool)
    (hsucc : succ ≠ aux_label e.id "_1") (st : Store) (sv : List Val)
    (h0 : 0 ≤ st.int .pos) (hlt : st.int .pos < st.int .lastpos)
    (hlast : st.int .lastpos = (st.str .target).length) :
    Leads (eol_prog e succ tr) ext_stop ⟨eol_prog e succ tr, st, sv, [], [], .running⟩
      (fun m' =>
        m'.status = .left
          (if (st.str .target).get? (st.int .pos).toNat = some '\n' then succ
            else "fail".toList) ∧
        m'.store.int .pos = st.int .pos ∧ m'.saved = sv) := by
  obtain ⟨hS, hF, -⟩ := eol_find e succ tr hsucc
  generalize hprog : eol_prog e succ tr = prog at hS hF
  have hstart : (⟨prog, st, sv, [], [], .running⟩ : Machine) =
      ⟨eol_prog e succ tr, st, sv, [], [], .running⟩ := by rw [hprog]
  rw [hstart]
  have hne : ¬ st.int .pos = st.int .lastpos := ne_of_lt hlt
  have hlen : st.int .pos < (st.str .target).length := by rw [← hlast]; exact hlt
  unfold eol_prog
  apply leads_trace
  apply leads_step
  simp only [Machine.exec, Cmp.holds, Store.opd, hne, decide_False, Bool.false_eq_true,
    if_false]
  apply leads_step
  simp only [Machine.exec, Store.opd, h0, hlen, le_refl, Int.reduceLE, zero_le_one, and_self,
    if_true]
  apply leads_step
  by_cases hc : (st.str .target).get? (st.int .pos).toNat = some '\n'
  · have hc' := (take_one_drop _ _ _).2 hc
    simp only [Machine.exec, Store.sopd, newline_const, set_str_str, if_true, Int.toNat_one,
      hc', hc, Machine.jump, hS, ext_stop]
    exact leads_done ⟨rfl, rfl, rfl⟩
  · have hc' : ¬ ((st.str .target).drop (st.int .pos).toNat).take 1 = ['\n'] :=
      fun h => hc ((take_one_drop _ _ _).1 h)
    simp only [Machine.exec, Store.sopd, newline_const, set_str_str, if_true, Int.toNat_one,
      hc', hc, if_false]
    apply leads_step
    simp only [Machine.exec, Machine.jump, hF, ext_stop]
    exact leads_done ⟨rfl, rfl, rfl⟩

/-- The end-of-line block at the end of a subject that is not empty: it tests
the byte before `pos`. -/
theorem eol_run_at_end (e : PGE_Node) (succ : List Char) (tr : Bool)
    (hsucc : succ ≠ aux_label e.id "_1") (st : Store) (sv : List Val)
    (h0 : 0 < st.int .pos) (heq : st.int .pos = st.int .lastpos)
    (hlast : st.int .lastpos = (st.str .target).length) :
    Leads (eol_prog e succ tr) ext_stop ⟨eol_prog e succ tr, st, sv, [], [], .running⟩
      (fun m' =>
        m'.status = .left
          (if (st.str .target).get? (st.int .pos - 1).toNat = some '\n' then "fail".toList
            else succ) ∧
        m'.store.int .pos = st.int .pos ∧ m'.saved = sv) := by
  obtain ⟨hS, hF, h1⟩ := eol_find e succ tr hsucc
  generalize hprog : eol_prog e succ tr = prog at hS hF h1
  have hstart : (⟨prog, st, sv, [], [], .running⟩ : Machine) =
      ⟨eol_prog e succ tr, st, sv, [], [], .running⟩ := by rw [hprog]
  rw [hstart]
  have hlen : st.int .pos - 1 < (st.str .target).length := by rw [← hlast, ← heq]; omega
  have hge : 0 ≤ st.int .pos - 1 := by omega
  unfold eol_prog
  apply leads_trace
  apply leads_step
  have hd : decide (st.int .pos = st.int .lastpos) = true := decide_eq_true heq
  simp only [Machine.exec, Cmp.holds, Store.opd, hd, if_true, Machine.jump, h1]
  apply leads_step
  simp only [Machine.exec]
  apply leads_step
  simp only [Machine.exec, Store.opd]
  apply leads_step
  simp only [Machine.exec, Store.opd, set_int_int, set_int_str, if_true, hge, hlen,
    zero_le_one, and_self]
  apply leads_step
  by_cases hc : (st.str .target).get? (st.int .pos - 1).toNat = some '\n'
  · have hc' := (take_one_drop _ _ _).2 hc
    simp only [Machine.exec, Store.sopd, newline_const, set_str_str, set_int_str, if_true,
      Int.toNat_one, hc', hc, ne_eq, not_true_eq_false, if_false]
    apply leads_step
    simp only [Machine.exec, Machine.jump, hF, ext_stop]
    exact leads_done ⟨rfl, rfl, rfl⟩
  · have hc' : ¬ ((st.str .target).drop (st.int .pos - 1).toNat).take 1 = ['\n'] :=
      fun h => hc ((take_one_drop _ _ _).1 h)
    simp only [Machine.exec, Store.sopd, newline_const, set_str_str, set_int_str, if_true,
      Int.toNat_one, hc', hc, ne_eq, not_false_eq_true, if_false, Machine.jump, hS, ext_stop]
    exact leads_done ⟨rfl, rfl, rfl⟩


set_option maxRecDepth 100000 in
/-- C10 (counterexample): on the subject `a\n` at `pos = lastpos = 2` (end of
string) the block written for an AnchorEndOfLine node does not transfer
control to `succ`: it jumps to `R7_1`, finds a newline before `pos`, and
leaves to `fail`. -/
theorem eol_anchor_fails_after_newline :
    (pge_gen_anchor env_demo node_eol "R8".toList State.initial).pge_cbuf =
      render (eol_prog node_eol "R8".toList false) ∧
    (store_at ['a', '\n'] 2).int .pos = (store_at ['a', '\n'] 2).int .lastpos ∧
    (store_at ['a', '\n'] 2).int .lastpos = ((store_at ['a', '\n'] 2).str .target).length ∧
    (Machine.run (eol_prog node_eol "R8".toList false) ext_stop 7
      ⟨eol_prog node_eol "R8".toList false, store_at ['a', '\n'] 2, [], [], [],
        .running⟩).status = .left "fail".toList ∧
    arrivals (Machine.run (eol_prog node_eol "R8".toList false) ext_stop 7
      ⟨eol_prog node_eol "R8".toList false, store_at ['a', '\n'] 2, [], [], [],
        .running⟩).log = [aux_label 7 "_1", "fail".toList] := by
  decide

/-- C10 (amended): end-of-line anchor.  The text `pge_gen_anchor` writes for an
AnchorEndOfLine node is the instruction list `eol_prog`, and for every subject,
with `lastpos` its length, and every position `0 <= pos <= lastpos` (`pos > 0`
when `pos = lastpos`), the block leaves `pos` unchanged and transfers control:
inside the subject to `succ` when the byte at `pos` is a newline, else to
`fail`; at the end of the subject to `succ` when the byte before `pos` is not
a newline, else to `fail`. -/
theorem eol_anchor_succeeds (env : Env) (e : PGE_Node) (succ : List Char) (s : State)
    (hs : s.ok) (hty : e.type = .PGE_ANCHOR_EOL) (hsucc : succ ≠ aux_label e.id "_1")
    (st : Store) (sv : List Val)
    (hlast : st.int .lastpos = (st.str .target).length)
    (h0 : 0 ≤ st.int .pos) (h1 : st.int .pos ≤ st.int .lastpos)
    (hne : st.int .pos = st.int .lastpos → 0 < st.int .pos) :
    Emits s (pge_gen_anchor env e succ s) (render (eol_prog e succ s.pge_istraced)) ∧
    Leads (eol_prog e succ s.pge_istraced) ext_stop
      ⟨eol_prog e succ s.pge_istraced, st, sv, [], [], .running⟩
      (fun m' =>
        m'.status = .left
          (if st.int .pos = st.int .lastpos then
            (if (st.str .target).get? (st.int .pos - 1).toNat = some '\n' then "fail".toList
              else succ)
          else
            (if (st.str .target).get? (st.int .pos).toNat = some '\n' then succ
              else "fail".toList)) ∧
        m'.store.int .pos = st.int .pos ∧ m'.saved = sv) := by
  refine ⟨pge_gen_anchor_eol_text env e succ s hs hty, ?_⟩
  by_cases heq : st.int .pos = st.int .lastpos
  · rw [if_pos heq]
    exact eol_run_at_end e succ _ hsucc st sv (hne heq) heq hlast
  · rw [if_neg heq]
    exact eol_run_inside e succ _ hsucc st sv h0 (lt_of_le_of_ne h1 heq) hlast

theorem eol_anchor_succeeds_witness :
    Leads (eol_prog node_eol "R8".toList false) ext_stop
      ⟨eol_prog node_eol "R8".toList false, store_at ['a', '\n', 'b'] 1, [], [], [], .running⟩
      (fun m' => m'.status = .left "R8".toList ∧ m'.store.int .pos = 1 ∧ m'.saved = []) ∧
    Leads (eol_prog node_eol "R8".toList false) ext_stop
      ⟨eol_prog node_eol "R8".toList false, store_at ['a', 'b'] 2, [], [], [], .running⟩
      (fun m' => m'.status = .left "R8".toList ∧ m'.store.int .pos = 2 ∧ m'.saved = []) :=
  ⟨(eol_anchor_succeeds env_demo node_eol "R8".toList State.initial ⟨rfl, rfl⟩ rfl (by decide)
      (store_at ['a', '\n', 'b'] 1) [] rfl (by decide) (by decide) (by decide)).2,
   (eol_anchor_succeeds env_demo node_eol "R8".toList State.initial ⟨rfl, rfl⟩ rfl (by decide)
      (store_at ['a', 'b'] 2) [] rfl (by decide) (by decide) (by decide)).2⟩

/-! ## Unknown node kinds -/

/-- On a node whose type tag is none of the fourteen kinds, `pge_gen_exp`
returns normally from a sound state, and all it has written is the line marker
(if one is due) and the label line `R<id>:`. -/
theorem other_kind_label (env : Env) (n : PGE_Node) (exp1 exp2 : PGE_Exp)
    (succ : List Char) (s : State) (tag : Int) (hty : n.type = .PGE_OTHER tag) (hs : s.ok) :
    (pge_gen_exp env (.node n exp1 exp2) succ s).ub = false ∧
    (pge_gen_exp env (.node n exp1 exp2) succ s).pge_cbuf =
      s.pge_cbuf ++ line_marker s ++ ("  R".toList ++ fmt_d n.id ++ ":\n".toList) := by
  obtain ⟨h1, h2, _⟩ := emitlcount_ok hs env
  unfold pge_gen_exp
  simp only [hty]
  rw [emit_ok h1]
  simp [vsprintf, h2, h1.1]

/-! ## The null pattern -/

set_option maxRecDepth 100000 in
/-- C3 (failing input): for the tree `Concat(NullPattern, PatternEnd)` with the
distinct ids 1, 2, 3, `pge_gen` returns no text: the `emit` call of the
`PGE_NULL_PATTERN` case passes `e->id` to the conversion `%s`. -/
theorem null_pattern_no_text : pge_gen env_demo tree_null_pattern State.initial = none := by
  decide

/-! ## Independence of the leftover buffer state -/

theorem Sim.refl (s : State) : Sim s s := ⟨rfl, rfl, rfl, rfl, rfl⟩

theorem fault_sim {s t : State} (h : Sim s t) : Sim s.fault t.fault := by
  obtain ⟨h1, h2, h3, h4, _⟩ := h
  exact ⟨h1, h2, h3, h4, rfl⟩

theorem emit_sim (env : Env) (fmt : String) (args : List Arg) {s t : State} (h : Sim s t) :
    Sim (emit env fmt args s) (emit env fmt args t) := by
  have h' := h
  obtain ⟨h1, h2, h3, h4, h5⟩ := h
  unfold emit
  rw [h5]
  cases t.ub with
  | true => simpa using h'
  | false =>
    simp only [Bool.false_eq_true, if_false]
    cases vsprintf fmt.toList args with
    | none => exact fault_sim h'
    | some out => exact ⟨by simp [h1, h2], by simp [h2], h3, h4, rfl⟩

theorem emitlcount_sim (env : Env) {s t : State} (h : Sim s t) :
    Sim (emitlcount env s) (emitlcount env t) := by
  have h' := h
  obtain ⟨h1, h2, h3, h4, h5⟩ := h
  unfold emitlcount
  rw [h5, h1, h3]
  cases hub : t.ub with
  | true => simpa using h'
  | false =>
    simp only [Bool.false_eq_true, if_false]
    split_ifs
    · obtain ⟨e1, e2, _, e4, e5⟩ := emit_sim env "# line %d\n" [Arg.d (t.pge_cbuf.count '\n' : Nat)] h'
      exact ⟨e1, e2, rfl, e4, e5⟩
    · exact h'

theorem foldl_emit_sim (env : Env) (fmt : String) (l : List (List Char)) {s t : State}
    (h : Sim s t) :
    Sim (l.foldl (fun st r => emit env fmt [Arg.s r] st) s)
      (l.foldl (fun st r => emit env fmt [Arg.s r] st) t) := by
  induction l generalizing s t with
  | nil => exact h
  | cons a l ih => exact ih (emit_sim env _ _ h)

theorem emitsub_sim (env : Env) (sub : List Char) (regs : List (List Char)) {s t : State}
    (h : Sim s t) : Sim (emitsub env sub regs s) (emitsub env sub regs t) := by
  unfold emitsub
  apply emit_sim
  apply foldl_emit_sim
  apply emit_sim
  exact foldl_emit_sim _ _ _ h

theorem trace_sim (env : Env) (fmt : String) (args : List Arg) {s t : State} (h : Sim s t) :
    Sim (trace env fmt args s) (trace env fmt args t) := by
  unfold trace
  cases vsprintf fmt.toList args with
  | none => exact fault_sim h
  | some out =>
    have h1 := emit_sim env "    # %s\n" [Arg.s (out.take 79)] h
    simp only
    rw [h1.2.2.2.1]
    split_ifs
    · exact emit_sim env _ _ h1
    · exact h1

theorem on_cond_sim (c : Bool) (g : State → State)
    (hg : ∀ s t, Sim s t → Sim (g s) (g t)) {s t : State} (h : Sim s t) :
    Sim (on_cond c g s) (on_cond c g t) := by
  unfold on_cond
  split_ifs
  · exact hg _ _ h
  · exact h

theorem pge_gen_pattern_end_sim (env : Env) (e : PGE_Node) (succ : List Char) {s t : State}
    (h : Sim s t) :
    Sim (pge_gen_pattern_end env e succ s) (pge_gen_pattern_end env e succ t) := by
  unfold pge_gen_pattern_end
  exact emit_sim env _ _ (emit_sim env _ _ (trace_sim env _ _ h))

theorem pge_gen_dot_sim (env : Env) (e : PGE_Node) (succ : List Char) {s t : State}
    (h : Sim s t) : Sim (pge_gen_dot env e succ s) (pge_gen_dot env e succ t) := by
  unfold pge_gen_dot pge_gen_dot_greedy pge_gen_dot_lazy
  simp only []
  split_ifs <;>
  repeat (first
    | exact h
    | with_reducible apply emitsub_sim
    | with_reducible apply trace_sim
    | (with_reducible apply on_cond_sim; intro s t h)
    | with_reducible apply emit_sim)

theorem pge_gen_string_sim (env : Env) (e : PGE_Node) (succ : List Char) {s t : State}
    (h : Sim s t) : Sim (pge_gen_string env e succ s) (pge_gen_string env e succ t) := by
  unfold pge_gen_string pge_gen_string_greedy pge_gen_string_lazy
  simp only []
  split_ifs <;>
  repeat (first
    | exact h
    | with_reducible apply emitsub_sim
    | with_reducible apply trace_sim
    | (with_reducible apply on_cond_sim; intro s t h)
    | with_reducible apply emit_sim)

theorem pge_gen_literal_sim (env : Env) (e : PGE_Node) (succ : List Char) {s t : State}
    (h : Sim s t) : Sim (pge_gen_literal env e succ s) (pge_gen_literal env e succ t) := by
  unfold pge_gen_literal
  apply pge_gen_string_sim
  repeat (first
    | exact h
    | with_reducible apply trace_sim
    | with_reducible apply emit_sim)

theorem pge_gen_backreference_sim (env : Env) (e : PGE_Node) (succ : List Char)
    {s t : State} (h : Sim s t) :
    Sim (pge_gen_backreference env e succ s) (pge_gen_backreference env e succ t) := by
  unfold pge_gen_backreference
  apply pge_gen_string_sim
  repeat (first
    | exact h
    | with_reducible apply trace_sim
    | with_reducible apply emit_sim)

theorem pge_gen_anchor_sim (env : Env) (e : PGE_Node) (succ : List Char) {s t : State}
    (h : Sim s t) : Sim (pge_gen_anchor env e succ s) (pge_gen_anchor env e succ t) := by
  unfold pge_gen_anchor
  split <;>
  repeat (first
    | exact h
    | with_reducible apply trace_sim
    | with_reducible apply emit_sim)

theorem pge_gen_cut_sim (env : Env) (e : PGE_Node) (succ : List Char) {s t : State}
    (h : Sim s t) : Sim (pge_gen_cut env e succ s) (pge_gen_cut env e succ t) := by
  unfold pge_gen_cut
  repeat (first
    | exact h
    | with_reducible apply emitsub_sim
    | with_reducible apply trace_sim
    | (with_reducible apply on_cond_sim; intro s t h)
    | with_reducible apply emit_sim)

theorem pge_gen_group_init_sim (env : Env) (e : PGE_Node) (key repsub : List Char)
    {s t : State} (h : Sim s t) :
    Sim (pge_gen_group_init env e key repsub s) (pge_gen_group_init env e key repsub t) := by
  unfold pge_gen_group_init
  repeat (first
    | exact h
    | (with_reducible apply on_cond_sim; intro s t h)
    | with_reducible apply emit_sim)

theorem pge_gen_group_repeat_sim (env : Env) (e : PGE_Node) (key repsub r1sub succ : List Char)
    {s t : State} (h : Sim s t) :
    Sim (pge_gen_group_repeat env e key repsub r1sub succ s)
      (pge_gen_group_repeat env e key repsub r1sub succ t) := by
  unfold pge_gen_group_repeat
  simp only []
  split_ifs <;>
  repeat (first
    | exact h
    | with_reducible apply emitsub_sim
    | (with_reducible apply on_cond_sim; intro s t h)
    | with_reducible apply emit_sim)

theorem pge_gen_concat_sim (env : Env) (id1 id2 : Int) (gen1 gen2 : List Char → State → State)
    (h1 : ∀ (succ : List Char) {s t : State}, Sim s t → Sim (gen1 succ s) (gen1 succ t))
    (h2 : ∀ (succ : List Char) {s t : State}, Sim s t → Sim (gen2 succ s) (gen2 succ t))
    (succ : List Char) {s t : State} (h : Sim s t) :
    Sim (pge_gen_concat env id1 id2 gen1 gen2 succ s)
      (pge_gen_concat env id1 id2 gen1 gen2 succ t) := by
  unfold pge_gen_concat
  exact h2 _ (h1 _ (emit_sim env _ _ h))

theorem pge_gen_group_sim (env : Env) (e : PGE_Node) (id1 : Int)
    (gen1 : List Char → State → State)
    (h1 : ∀ (succ : List Char) {s t : State}, Sim s t → Sim (gen1 succ s) (gen1 succ t))
    (succ : List Char) {s t : State} (h : Sim s t) :
    Sim (pge_gen_group env e id1 gen1 succ s) (pge_gen_group env e id1 gen1 succ t) := by
  unfold pge_gen_group
  simp only []
  split_ifs <;>
  repeat (first
    | exact h
    | with_reducible apply h1
    | with_reducible apply pge_gen_group_repeat_sim
    | with_reducible apply pge_gen_group_init_sim
    | with_reducible apply trace_sim)

theorem pge_gen_alt_sim (env : Env) (id1 id2 : Int) (gen1 gen2 : List Char → State → State)
    (h1 : ∀ (succ : List Char) {s t : State}, Sim s t → Sim (gen1 succ s) (gen1 succ t))
    (h2 : ∀ (succ : List Char) {s t : State}, Sim s t → Sim (gen2 succ s) (gen2 succ t))
    (succ : List Char) {s t : State} (h : Sim s t) :
    Sim (pge_gen_alt env id1 id2 gen1 gen2 succ s)
      (pge_gen_alt env id1 id2 gen1 gen2 succ t) := by
  unfold pge_gen_alt
  exact h2 _ (h1 _ (emit_sim env _ _ (emitsub_sim env _ _ (trace_sim env _ _ h))))

theorem pge_gen_exp_sim (env : Env) (e : PGE_Exp) :
    ∀ (succ : List Char) {s t : State}, Sim s t →
      Sim (pge_gen_exp env e succ s) (pge_gen_exp env e succ t) := by
  induction e with
  | null => intro succ s t h; exact fault_sim h
  | node n exp1 exp2 ih1 ih2 =>
    intro succ s t h
    have h0 : Sim (emit env "  R%d:\n" [Arg.d n.id] (emitlcount env s))
        (emit env "  R%d:\n" [Arg.d n.id] (emitlcount env t)) :=
      emit_sim env _ _ (emitlcount_sim env h)
    unfold pge_gen_exp
    simp only []
    split
    · exact emit_sim env _ _ h0
    · exact pge_gen_pattern_end_sim env _ _ h0
    · exact pge_gen_dot_sim env _ _ h0
    · exact pge_gen_literal_sim env _ _ h0
    · split
      · exact pge_gen_concat_sim env _ _ _ _ ih1 ih2 _ h0
      · exact fault_sim h0
    · split
      · exact pge_gen_group_sim env _ _ _ ih1 _ h0
      · exact fault_sim h0
    · split
      · exact pge_gen_alt_sim env _ _ _ _ ih1 ih2 _ h0
      · exact fault_sim h0
    · exact pge_gen_anchor_sim env _ _ h0
    · exact pge_gen_anchor_sim env _ _ h0
    · exact pge_gen_anchor_sim env _ _ h0
    · exact pge_gen_anchor_sim env _ _ h0
    · exact pge_gen_cut_sim env _ _ h0
    · exact pge_gen_cut_sim env _ _ h0
    · exact pge_gen_backreference_sim env _ _ h0
    · exact h0

theorem pge_gen_epilogue_sim (env : Env) {s t : State} (h : Sim s t) :
    Sim (pge_gen_epilogue env s) (pge_gen_epilogue env t) := by
  unfold pge_gen_epilogue
  repeat (first
    | exact h
    | with_reducible apply trace_sim
    | with_reducible apply emit_sim)

/-- The first `emit` after `pge_cbuf_len = 0` overwrites whatever the buffer
held. -/
theorem emit_reset_sim (env : Env) (fmt : String) (args : List Arg) (out : List Char)
    (hv : vsprintf fmt.toList args = some out) {s t : State}
    (hlen : s.pge_cbuf_len = 0) (hlen' : t.pge_cbuf_len = 0)
    (hl : s.pge_cbuf_lcount = t.pge_cbuf_lcount) (ht : s.pge_istraced = t.pge_istraced)
    (hu : s.ub = false) (hu' : t.ub = false) :
    Sim (emit env fmt args s) (emit env fmt args t) := by
  unfold emit
  rw [hu, hu', hv]
  exact ⟨by simp [hlen, hlen'], by simp [hlen, hlen'], hl, ht, by simp [hu, hu']⟩

theorem pge_gen_tracedef_sim (env : Env) {s t : State}
    (hlen : s.pge_cbuf_len = 0) (hlen' : t.pge_cbuf_len = 0)
    (hl : s.pge_cbuf_lcount = t.pge_cbuf_lcount) (ht : s.pge_istraced = t.pge_istraced)
    (hu : s.ub = false) (hu' : t.ub = false) :
    Sim (emit env ".sub _PGE_Rule\n" [] (pge_gen_tracedef env s))
      (emit env ".sub _PGE_Rule\n" [] (pge_gen_tracedef env t)) := by
  unfold pge_gen_tracedef
  rw [ht]
  cases t.pge_istraced with
  | false =>
    simp only [on_cond, if_false, Bool.false_eq_true]
    exact emit_reset_sim env ".sub _PGE_Rule\n" [] _ rfl hlen hlen' hl ht hu hu'
  | true =>
    simp only [on_cond, if_true]
    have h1 := emit_reset_sim env ".macro trace(POS, LABEL)\n" [] _ rfl hlen hlen' hl ht hu hu'
    repeat (first
      | exact h1
      | with_reducible apply emit_sim)

theorem pge_gen_prologue_sim (env : Env) (e : PGE_Exp) (r1sub : List Char) {s t : State}
    (hlen : s.pge_cbuf_len = 0) (hlen' : t.pge_cbuf_len = 0)
    (hl : s.pge_cbuf_lcount = t.pge_cbuf_lcount) (ht : s.pge_istraced = t.pge_istraced)
    (hu : s.ub = false) (hu' : t.ub = false) :
    Sim (pge_gen_prologue env e r1sub s) (pge_gen_prologue env e r1sub t) := by
  unfold pge_gen_prologue
  have h1 := pge_gen_tracedef_sim env hlen hlen' hl ht hu hu'
  repeat (first
    | exact h1
    | with_reducible apply emitsub_sim
    | (with_reducible apply on_cond_sim; intro s t h)
    | exact h
    | with_reducible apply emit_sim)

theorem pge_gen_state_sim (env : Env) (e : PGE_Exp) {s t : State}
    (ht : s.pge_istraced = t.pge_istraced) (hu : s.ub = false) (hu' : t.ub = false) :
    (pge_gen_state env e s).ub = (pge_gen_state env e t).ub ∧
    ((pge_gen_state env e s).ub = false →
      (pge_gen_state env e s).pge_cbuf = (pge_gen_state env e t).pge_cbuf) := by
  unfold pge_gen_state
  simp only []
  cases e.id? with
  | none => simp [State.fault]
  | some id =>
    simp only []
    have h := pge_gen_epilogue_sim env (pge_gen_exp_sim env e null_str
      (pge_gen_prologue_sim env e (sprintf "R%d" [Arg.d id])
        (s := { s with pge_cbuf_len := 0, pge_cbuf_lcount := 0 })
        (t := { t with pge_cbuf_len := 0, pge_cbuf_lcount := 0 }) rfl rfl rfl ht hu hu'))
    exact ⟨h.2.2.2.2, fun _ => h.1⟩

/-- C5: the text `pge_gen` returns for a tree depends on the tree and on the
trace flag only: two runs that start from any two values of the buffer
contents, `pge_cbuf_size`, `pge_cbuf_len` and `pge_cbuf_lcount` return the
same text. -/
theorem pge_gen_deterministic (env : Env) (e : PGE_Exp) (s t : State)
    (ht : s.pge_istraced = t.pge_istraced) (hu : s.ub = false) (hu' : t.ub = false) :
    pge_gen env e s = pge_gen env e t := by
  obtain ⟨h1, h2⟩ := pge_gen_state_sim env e ht hu hu'
  unfold pge_gen
  simp only []
  rw [← h1]
  cases hub : (pge_gen_state env e s).ub with
  | true => simp
  | false => simp [h2 hub]

set_option maxRecDepth 100000 in
theorem pge_gen_deterministic_witness :
    pge_gen env_demo tree_dot (pge_gen_state env_demo tree_other_kind State.initial)
      = pge_gen env_demo tree_dot State.initial :=
  pge_gen_deterministic env_demo tree_dot _ _ rfl (by decide) rfl

/-! ## The size of a string constant; the jump of the null pattern -/

theorem str_con_esc_length (c : Char) :
    (str_con_esc c).length = 1 + (if escaped c then 1 else 0) := by
  unfold str_con_esc escaped
  split_ifs <;> simp_all

theorem str_con_loop_length (s : List Char) :
    (str_con_loop s s.length).length = s.length + s.countP escaped := by
  induction s with
  | nil => rfl
  | cons c cs ih =>
    simp only [str_con_loop, List.length_append, List.length_cons, ih, str_con_esc_length,
      List.countP_cons]
    split_ifs <;> omega

/-- C20: output size of `str_con`.  For every byte sequence `s` of length
`len`, the text `str_con(s, len)` has exactly `len + 2 + k` bytes, `k` the
number of bytes of `s` that are backslash, double quote, single quote, LF, CR,
TAB or NUL; hence at most `2*len + 2` bytes, and for
`len <= PGE_MAX_LITERAL_LEN` the text and its terminating NUL fit the
`PGE_MAX_LITERAL_LEN*2 + 3` bytes of `esc[]`. -/
theorem str_con_size (env : Env) (s : List Char) (hlen : s.length ≤ env.PGE_MAX_LITERAL_LEN) :
    (str_con s s.length).length = s.length + 2 + s.countP escaped ∧
    (str_con s s.length).length ≤ 2 * s.length + 2 ∧
    (str_con s s.length).length + 1 ≤ env.PGE_MAX_LITERAL_LEN * 2 + 3 := by
  have h : (str_con s s.length).length = s.length + 2 + s.countP escaped := by
    simp only [str_con, Int.toNat_ofNat, List.length_cons, List.length_append,
      str_con_loop_length, List.length_nil]
    omega
  have hk : s.countP escaped ≤ s.length := List.countP_le_length _
  refine ⟨h, ?_, ?_⟩ <;> omega

theorem str_con_size_witness :
    (str_con ['a', '\\', '\n', 'b'] (4 : Nat)).length = 4 + 2 + 2 ∧
    (str_con ['a', '\\', '\n', 'b'] (4 : Nat)).length ≤ 2 * 4 + 2 ∧
    (str_con ['a', '\\', '\n', 'b'] (4 : Nat)).length + 1 ≤ 128 * 2 + 3 :=
  str_con_size env_demo ['a', '\\', '\n', 'b'] (by decide)

/-- The call `emit("    goto %s\n", e->id, succ)` of the `PGE_NULL_PATTERN` case
hands an `int` to `%s`. -/
theorem null_pattern_emit_ub (env : Env) (id : Int) (succ : List Char) (s : State) :
    (emit env "    goto %s\n" [Arg.d id, Arg.s succ] s).ub = true := by
  unfold emit
  cases h : s.ub with
  | true => simp [h]
  | false => simp [vsprintf, State.fault]

/-- C18 (failing input): for every NullPattern node, every continuation `succ`
and every sound state, `pge_gen_exp` writes the label line `R<i>:` (after the
line marker, if one is due) and then runs into undefined behaviour: the call
that should write the jump passes `e->id` to the conversion `%s`, so no jump
to `succ` is written. -/
theorem null_pattern_jump_undefined (env : Env) (e : PGE_Node) (exp1 exp2 : PGE_Exp)
    (succ : List Char) (s : State) (hty : e.type = .PGE_NULL_PATTERN) (hs : s.ok) :
    (pge_gen_exp env (.node e exp1 exp2) succ s).ub = true ∧
    (pge_gen_exp env (.node e exp1 exp2) succ s).pge_cbuf =
      s.pge_cbuf ++ line_marker s ++ ("  R".toList ++ fmt_d e.id ++ ":\n".toList) := by
  obtain ⟨h1, h2, _⟩ := emitlcount_ok hs env
  unfold pge_gen_exp
  simp only [hty]
  refine ⟨null_pattern_emit_ub _ _ _ _, ?_⟩
  have hl : (emit env "  R%d:\n" [Arg.d e.id] (emitlcount env s)).ub = false := by
    rw [emit_ok h1]; simp [vsprintf, h1.1]
  have hl2 : (emit env "  R%d:\n" [Arg.d e.id] (emitlcount env s)).pge_cbuf =
      s.pge_cbuf ++ line_marker s ++ ("  R".toList ++ fmt_d e.id ++ ":\n".toList) := by
    rw [emit_ok h1]; simp [vsprintf, h2]
  generalize emit env "  R%d:\n" [Arg.d e.id] (emitlcount env s) = s1 at hl hl2 ⊢
  unfold emit
  rw [hl]
  simpa only [Bool.false_eq_true, if_false, vsprintf, State.fault] using hl2

theorem null_pattern_jump_undefined_witness :
    (pge_gen_exp env_demo (PGE_Exp.leaf (PGE_Node.plain 1 .PGE_NULL_PATTERN)) "R2".toList
        State.initial).ub = true ∧
    (pge_gen_exp env_demo (PGE_Exp.leaf (PGE_Node.plain 1 .PGE_NULL_PATTERN)) "R2".toList
        State.initial).pge_cbuf =
      State.initial.pge_cbuf ++ line_marker State.initial
        ++ ("  R".toList ++ fmt_d 1 ++ ":\n".toList) :=
  null_pattern_jump_undefined env_demo (PGE_Node.plain 1 .PGE_NULL_PATTERN) .null .null
    "R2".toList State.initial rfl ⟨rfl, rfl⟩

/-! ## Quantifier bounds and the cut flag -/

/-- For every node with a finite `max` below `min`, `pge_gen_dot` and
`pge_gen_string` return normally from a sound state, and the blocks they write
embed the bounds: the AnyChar block has `if maxrep < min goto fail` (for
`min > 0`), `if maxrep <= max goto R<id>_1` and `maxrep = max`; the string
block has `if rep >= max goto R<id>_2` when greedy and `if rep == max goto
succ` when lazy without cut. -/
theorem bounds_in_blocks (env : Env) (e : PGE_Node) (succ : List Char) (s : State)
    (hs : s.ok) (hmax : e.max ≠ env.PGE_INF) (hlt : e.max < e.min) :
    Emits s (pge_gen_dot env e succ s) (render (dot_prog env e succ s.pge_istraced)) ∧
    (0 < e.min → .if_cmp .maxrep .lt (.num e.min) "fail".toList ∈
      dot_prog env e succ s.pge_istraced) ∧
    .if_cmp .maxrep .le (.num e.max) (aux_label e.id "_1") ∈
      dot_prog env e succ s.pge_istraced ∧
    .set .maxrep (.num e.max) ∈ dot_prog env e succ s.pge_istraced ∧
    Emits s (pge_gen_string env e succ s) (render (string_prog env e succ)) ∧
    (e.isgreedy = true →
      .if_cmp .rep .ge (.num e.max) (aux_label e.id "_2") ∈ string_prog env e succ) ∧
    (e.isgreedy = false → e.iscut = false →
      .if_cmp .rep .eq (.num e.max) succ ∈ string_prog env e succ) := by
  have hne : e.min ≠ e.max := ne_of_gt hlt
  have hfix : ¬ (e.min = 1 ∧ e.max = 1) := fun h => hne (h.1.trans h.2.symm)
  refine ⟨pge_gen_dot_text env e succ s hs, ?_, ?_, ?_, pge_gen_string_text env e succ s hs,
    ?_, ?_⟩
  · intro h0
    simp [dot_prog, h0]
  · simp [dot_prog, hne, hmax]
  · simp [dot_prog, hne, hmax]
  · intro hg
    simp [string_prog, string_greedy_prog, hfix, hg, hmax]
  · intro hg hc
    simp [string_prog, string_lazy_prog, hfix, hg, hc, hmax]

/-- C15 (failing input): for every Literal or Backreference node that is lazy,
has the cut flag and `min > 0` (and is not the fixed case `<1>`), the block
`pge_gen_string` writes is `rep = 0`, the label `R<id>_1`, `if rep < min goto
R<id>_2:` and `goto succ`: the loop that matches the string is not written.
Run from any store, the block never gets to `succ`: with `rep = 0 < min`
control leaves for the label `R<id>_2:`, which the block does not define. -/
theorem lazy_cut_string_misses_succ (env : Env) (e : PGE_Node) (succ : List Char) (s : State)
    (hs : s.ok) (hg : e.isgreedy = false) (hc : e.iscut = true) (hmin : 0 < e.min)
    (hfix : ¬ (e.min = 1 ∧ e.max = 1))
    (hsucc : succ ∉ [aux_label e.id "_1", aux_label e.id "_2:"])
    (st : Store) (sv : List Val) :
    Emits s (pge_gen_string env e succ s) (render (string_prog env e succ)) ∧
    string_prog env e succ =
      [.set .rep (.num 0), .label 2 (aux_label e.id "_1"),
        .if_cmp .rep .lt (.num e.min) (aux_label e.id "_2:"), .goto succ] ∧
    Leads (string_prog env e succ) ext_stop
      ⟨string_prog env e succ, st, sv, [], [], .running⟩
      (fun m' => m'.status = .left (aux_label e.id "_2:") ∧ succ ∉ arrivals m'.log ∧
        m'.store.int .rep = 0 ∧ m'.store.int .pos = st.int .pos) := by
  have hprog : string_prog env e succ =
      [.set .rep (.num 0), .label 2 (aux_label e.id "_1"),
        .if_cmp .rep .lt (.num e.min) (aux_label e.id "_2:"), .goto succ] := by
    simp [string_prog, string_lazy_prog, hfix, hg, hc, hmin]
  simp only [List.mem_cons, List.mem_singleton, List.not_mem_nil, or_false, not_or] at hsucc
  have hne : aux_label e.id "_2:" ≠ aux_label e.id "_1" := aux_label_ne _ _ _ (by decide)
  have hf : find_label (string_prog env e succ) (aux_label e.id "_2:") = none := by
    rw [hprog]
    simp [find_label, Instr.defines, Ne.symm hne]
  refine ⟨pge_gen_string_text env e succ s hs, hprog, ?_⟩
  generalize string_prog env e succ = prog at hf hprog ⊢
  have hstart : (⟨prog, st, sv, [], [], .running⟩ : Machine) =
      ⟨[.set .rep (.num 0), .label 2 (aux_label e.id "_1"),
        .if_cmp .rep .lt (.num e.min) (aux_label e.id "_2:"), .goto succ],
        st, sv, [], [], .running⟩ := by rw [hprog]
  rw [hstart]
  apply leads_step
  simp only [Machine.exec, Store.opd]
  apply leads_step
  simp only [Machine.exec]
  apply leads_step
  simp only [Machine.exec, Cmp.holds, Store.opd, set_int_int, if_true, hmin, decide_True,
    Machine.jump, hf, ext_stop]
  refine leads_done ⟨rfl, ?_, rfl, rfl⟩
  simp [arrivals, hsucc.1, hsucc.2]

theorem lazy_cut_string_misses_succ_witness :
    Leads (string_prog env_demo node_lazy_cut "R6".toList) ext_stop
      ⟨string_prog env_demo node_lazy_cut "R6".toList, store_demo, [], [], [], .running⟩
      (fun m' => m'.status = .left (aux_label 5 "_2:") ∧ "R6".toList ∉ arrivals m'.log ∧
        m'.store.int .rep = 0 ∧ m'.store.int .pos = 0) :=
  (lazy_cut_string_misses_succ env_demo node_lazy_cut "R6".toList State.initial ⟨rfl, rfl⟩
    rfl rfl (by decide) (by decide) (by decide) store_demo []).2.2

/-! ## The repeat block of a group -/

theorem fmt_d_one : fmt_d 1 = ['1'] := rfl

set_option maxRecDepth 20000 in
set_option maxHeartbeats 4000000 in
theorem pge_gen_group_init_text (env : Env) (e : PGE_Node) (key repsub : List Char)
    (s : State) (hs : s.ok) :
    Emits s (pge_gen_group_init env e key repsub s) (render (group_init_prog e key repsub)) := by
  unfold pge_gen_group_init group_init_prog
  simp only [on_cond, decide_eq_true_eq, List.cons_append, List.nil_append]
  split_ifs <;>
  simp only [List.cons_append, List.nil_append] <;>
  apply emits_of_rev <;>
  repeat (first
    | exact Emits.nil hs
    | (refine emits_rcons ?_ ?_; · rfl)
    | (refine emits_rcons2 ?_ ?_; · rfl)
    | (refine emits_rcons ?_ ?_;
       · simp only [vsprintf, String.toList, Option.map, Instr.write, aux_label, sprintf,
           List.replicate, List.append_assoc, List.cons_append, List.nil_append,
           Option.getD, List.take, IReg.name, SReg.name, PReg.name, Reg.name, Opd.text,
           SOpd.text, Cmp.text]))

set_option maxRecDepth 20000 in
set_option maxHeartbeats 8000000 in
theorem pge_gen_group_repeat_text (env : Env) (e : PGE_Node) (key repsub r1sub succ : List Char)
    (s : State) (hs : s.ok) :
    Emits s (pge_gen_group_repeat env e key repsub r1sub succ s)
      (render (group_repeat_prog env e key repsub r1sub succ)) := by
  unfold pge_gen_group_repeat group_repeat_prog repeat_head_prog repeat_greedy_prog
    repeat_lazy_prog repeat_tail_prog body_call_prog emitsub_prog group_regs
  simp only [on_cond, emitsub, decide_eq_true_eq, List.take, List.foldl, List.reverse,
    List.reverseAux, List.map]
  split_ifs <;>
  simp only [List.cons_append, List.nil_append, List.append_assoc, if_true, if_false,
    Bool.false_eq_true] <;>
  apply emits_of_rev <;>
  repeat (first
    | exact Emits.nil hs
    | (refine emits_rcons ?_ ?_; · rfl)
    | (refine emits_rcons2 ?_ ?_; · rfl)
    | (refine emits_rcons ?_ ?_;
       · simp only [vsprintf, String.toList, Option.map, Instr.write, aux_label, sprintf,
           List.replicate, List.append_assoc, List.cons_append, List.nil_append,
           Option.getD, List.take, IReg.name, SReg.name, PReg.name, Reg.name, Opd.text,
           SOpd.text, Cmp.text, fmt_d_one]))

theorem calls_append (p q : List Instr) : calls (p ++ q) = calls p ++ calls q := by
  induction p with
  | nil => rfl
  | cons i p ih => cases i <;> simp [calls, ih]

theorem calls_emitsub (l : List Char) : calls (emitsub_prog l group_regs) = [l] := rfl

theorem calls_body_call (e : PGE_Node) (r1sub : List Char) :
    calls (body_call_prog e r1sub) = [r1sub] := by
  unfold body_call_prog
  split_ifs <;> rfl

theorem calls_repeat_head (e : PGE_Node) (key repsub : List Char) :
    calls (repeat_head_prog e key repsub) = [] := by
  unfold repeat_head_prog
  split_ifs <;> rfl

theorem calls_repeat_tail (e : PGE_Node) (repsub : List Char) :
    calls (repeat_tail_prog e repsub) = [] := by
  unfold repeat_tail_prog
  split_ifs <;> rfl

/-- C11: group search order.  For every Group node compiled with the group
machinery (not the case `<1>` without capture), `pge_gen_group` writes the
repeat block `R<id>_repeat` with `pge_gen_group_repeat`, whose text is the
instruction list `group_repeat_prog`.  When `isgreedy` is set, the block is:
the guard `if gr_rep >= max goto R<id>_repeat_2` (for a finite `max`), the
call of the body `R<body.id>` between `inc gr_rep` and `dec gr_rep`, the
label `R<id>_repeat_2`, the guard `if gr_rep < min goto R<id>_repeat_fail` (for
`min > 0`) and the call of `succ`: the `bsr` instructions of the block are
that of the body, then that of `succ`.  When `isgreedy` is clear, the guard on
`min` and the call of `succ` come first, then the label `R<id>_repeat_3`, the
guard on `max` and the call of the body between `inc gr_rep` and
`dec gr_rep`: the `bsr` instructions are that of `succ`, then that of the
body. -/
theorem group_search_order (env : Env) (e : PGE_Node) (id1 : Int)
    (gen1 : List Char → State → State) (succ : List Char) (s : State)
    (hm : ¬ (e.min = 1 ∧ e.max = 1 ∧ e.group < 0)) :
    pge_gen_group env e id1 gen1 succ s =
      gen1 (repeat_label e.id)
        (pge_gen_group_repeat env e (group_key e) (repeat_label e.id) (node_label id1) succ
          (pge_gen_group_init env e (group_key e) (repeat_label e.id)
            (trace env "group %s %c %s %c %s"
              [Arg.s (group_key e), Arg.c (if e.group ≥ 0 then '(' else '['),
                Arg.s (node_label id1), Arg.c (if e.group ≥ 0 then ')' else ']'),
                Arg.s (fmt_quant env e)] s))) ∧
    (∀ s' : State, s'.ok →
      Emits s'
        (pge_gen_group_repeat env e (group_key e) (repeat_label e.id) (node_label id1) succ s')
        (render (group_repeat_prog env e (group_key e) (repeat_label e.id) (node_label id1)
          succ))) ∧
    (e.isgreedy = true →
      calls (group_repeat_prog env e (group_key e) (repeat_label e.id) (node_label id1) succ)
        = [node_label id1, succ] ∧
      ∃ a b, calls a = [] ∧ calls b = [] ∧
        group_repeat_prog env e (group_key e) (repeat_label e.id) (node_label id1) succ =
          a ++ ((if e.max ≠ env.PGE_INF then
              [.if_pcmp .gr_rep .ge (.num e.max) (repeat_label e.id ++ "_2".toList)] else []) ++
            ([.pinc .gr_rep] ++ (if e.group ≥ 0 then [.push .gr_cap .pos] else []) ++
              emitsub_prog (node_label id1) group_regs ++
              (if e.group ≥ 0 then [.pop .I0 .gr_cap] else []) ++ [.pdec .gr_rep]) ++
            [.label 2 (repeat_label e.id ++ "_2".toList)] ++
            (if e.min > 0 then
              [.if_pcmp .gr_rep .lt (.num e.min) (repeat_label e.id ++ "_fail".toList)]
              else []) ++
            emitsub_prog succ group_regs) ++ b) ∧
    (e.isgreedy = false →
      calls (group_repeat_prog env e (group_key e) (repeat_label e.id) (node_label id1) succ)
        = [succ, node_label id1] ∧
      ∃ a b, calls a = [] ∧ calls b = [] ∧
        group_repeat_prog env e (group_key e) (repeat_label e.id) (node_label id1) succ =
          a ++ ((if e.min > 0 then
              [.if_pcmp .gr_rep .lt (.num e.min) (repeat_label e.id ++ "_3".toList)] else []) ++
            emitsub_prog succ group_regs ++
            [.label 2 (repeat_label e.id ++ "_3".toList)] ++
            (if e.max ≠ env.PGE_INF then
              [.if_pcmp .gr_rep .ge (.num e.max) (repeat_label e.id ++ "_fail".toList)]
              else []) ++
            ([.pinc .gr_rep] ++ (if e.group ≥ 0 then [.push .gr_cap .pos] else []) ++
              emitsub_prog (node_label id1) group_regs ++
              (if e.group ≥ 0 then [.pop .I0 .gr_cap] else []) ++ [.pdec .gr_rep])) ++ b) := by
  refine ⟨?_, fun s' hs' => pge_gen_group_repeat_text env e _ _ _ succ s' hs', ?_, ?_⟩
  · simp only [pge_gen_group, hm, if_false, repeat_label, node_label, group_key]
  · intro hg
    refine ⟨?_, repeat_head_prog e (group_key e) (repeat_label e.id),
      repeat_tail_prog e (repeat_label e.id), calls_repeat_head _ _ _, calls_repeat_tail _ _, ?_⟩
    · simp only [group_repeat_prog, hg, if_true, repeat_greedy_prog, calls_append,
        calls_repeat_head, calls_repeat_tail, calls_body_call, calls_emitsub]
      split_ifs <;> rfl
    · simp only [group_repeat_prog, hg, if_true, repeat_greedy_prog, body_call_prog,
        List.append_assoc]
  · intro hg
    refine ⟨?_, repeat_head_prog e (group_key e) (repeat_label e.id),
      repeat_tail_prog e (repeat_label e.id), calls_repeat_head _ _ _, calls_repeat_tail _ _, ?_⟩
    · simp only [group_repeat_prog, hg, Bool.false_eq_true, if_false, repeat_lazy_prog,
        calls_append, calls_repeat_head, calls_repeat_tail, calls_body_call, calls_emitsub]
      split_ifs <;> rfl
    · simp only [group_repeat_prog, hg, Bool.false_eq_true, if_false, repeat_lazy_prog,
        body_call_prog, List.append_assoc]

theorem group_search_order_witness :
    calls (group_repeat_prog env_demo (node_group true) (group_key (node_group true))
      (repeat_label 4) (node_label 5) "R9".toList) = [node_label 5, "R9".toList] ∧
    calls (group_repeat_prog env_demo (node_group false) (group_key (node_group false))
      (repeat_label 4) (node_label 5) "R9".toList) = ["R9".toList, node_label 5] :=
  ⟨((group_search_order env_demo (node_group true) 5 (fun _ s => s) "R9".toList State.initial
      (by decide)).2.2.1 rfl).1,
   ((group_search_order env_demo (node_group false) 5 (fun _ s => s) "R9".toList State.initial
      (by decide)).2.2.2 rfl).1⟩

/-! ## Running the repeat block of a capturing group -/

@[simp] theorem set_int_reps (st : Store) (r : IReg) (v : Int) :
    (st.set_int r v).reps = st.reps := rfl
@[simp] theorem set_pmc_reps (st : Store) (r : PReg) (v : PVal) :
    (st.set_pmc r v).reps = st.reps := rfl
@[simp] theorem set_pmc_attr_base (st : Store) (r : PReg) (v : PVal) :
    (st.set_pmc r v).attr_base = st.attr_base := rfl
@[simp] theorem set_rep_reps (st : Store) (k k' : List Char) (v : Int) :
    (st.set_rep k v).reps k' = if k' = k then some v else st.reps k' := rfl
@[simp] theorem set_rep_caps (st : Store) (k : List Char) (v : Int) :
    (st.set_rep k v).caps = st.caps := rfl
@[simp] theorem set_rep_int (st : Store) (k : List Char) (v : Int) :
    (st.set_rep k v).int = st.int := rfl
@[simp] theorem set_rep_pmc (st : Store) (k : List Char) (v : Int) :
    (st.set_rep k v).pmc = st.pmc := rfl
@[simp] theorem set_cap_caps (st : Store) (k k' : List Char) (xs : List Int) :
    (st.set_cap k xs).caps k' = if k' = k then some xs else st.caps k' := rfl
@[simp] theorem set_cap_reps (st : Store) (k : List Char) (xs : List Int) :
    (st.set_cap k xs).reps = st.reps := rfl
@[simp] theorem set_cap_int (st : Store) (k : List Char) (xs : List Int) :
    (st.set_cap k xs).int = st.int := rfl
@[simp] theorem set_cap_pmc (st : Store) (k : List Char) (xs : List Int) :
    (st.set_cap k xs).pmc = st.pmc := rfl

/-- A call written by `emitsub` with the three registers of the repeat block,
to code outside that fails with `cutgrp = 0` and leaves the counter and the
stack of the group alone: afterwards the block goes on as before. -/
theorem group_call_run {prog : List Instr} {ext : Ext} {l key : List Char} {R : Int}
    {S : List Int} {rest : List Instr} {st0 : Store} {sv : List Val}
    {cs : List (List Instr)} {L0 : List Event} {P : Machine → Prop}
    (hfind : find_label prog l = none)
    (hext : ∀ k st, ∃ st1, ext l k st = some st1 ∧ st1.int .cutgrp = 0 ∧
      st1.reps key = st.reps key ∧ st1.caps key = st.caps key)
    (hinv : GInv key R S st0)
    (hnext : ∀ st1 L1, GInv key R S st1 →
      Leads prog ext ⟨rest, st1, sv, cs, L1, .running⟩ P) :
    Leads prog ext ⟨emitsub_prog l group_regs ++ rest, st0, sv, cs, L0, .running⟩ P := by
  obtain ⟨h1, h2, h3, h4⟩ := hinv
  obtain ⟨st1, e1, e2, e3, e4⟩ := hext L0.length st0
  unfold emitsub_prog group_regs
  simp only [List.map, List.reverse, List.reverseAux, List.cons_append, List.nil_append]
  apply leads_step
  simp only [Machine.exec, Store.get]
  apply leads_step
  simp only [Machine.exec, Store.get]
  apply leads_step
  simp only [Machine.exec, Store.get]
  apply leads_step
  simp only [Machine.exec, Machine.jump, hfind, e1, Machine.do_ret]
  apply leads_step
  simp only [Machine.exec, Store.put]
  apply leads_step
  simp only [Machine.exec, Store.put]
  apply leads_step
  simp only [Machine.exec, Store.put]
  apply leads_step
  simp only [Machine.exec, set_int_int, set_pmc_int, reduceCtorEq, if_false, e2, ne_eq,
    not_true_eq_false]
  apply hnext
  refine ⟨?_, ?_, ?_, ?_⟩
  · simp [h1]
  · simp [h2]
  · simp [e3, h3]
  · simp [e4, h4]

/-- One more round of the body in the repeat block of a capturing group: the
counter and the stack are afterwards what they were before. -/
theorem body_call_run {prog : List Instr} {ext : Ext} {e : PGE_Node} {l key : List Char}
    {R : Int} {S : List Int} {rest : List Instr} {st0 : Store} {sv : List Val}
    {cs : List (List Instr)} {L0 : List Event} {P : Machine → Prop}
    (hcap : e.group ≥ 0)
    (hfind : find_label prog l = none)
    (hext : ∀ k st, ∃ st1, ext l k st = some st1 ∧ st1.int .cutgrp = 0 ∧
      st1.reps key = st.reps key ∧ st1.caps key = st.caps key)
    (hinv : GInv key R S st0)
    (hnext : ∀ st1 L1, GInv key R S st1 →
      Leads prog ext ⟨rest, st1, sv, cs, L1, .running⟩ P) :
    Leads prog ext ⟨body_call_prog e l ++ rest, st0, sv, cs, L0, .running⟩ P := by
  obtain ⟨h1, h2, h3, h4⟩ := hinv
  unfold body_call_prog
  simp only [hcap, if_true, List.cons_append, List.nil_append, List.append_assoc]
  apply leads_step
  simp only [Machine.exec, h1, h3]
  apply leads_step
  simp only [Machine.exec, set_rep_pmc, set_rep_caps, h2, h4]
  refine group_call_run (R := R + 1) (S := S ++ [st0.int .pos]) hfind hext ?_ ?_
  · refine ⟨?_, ?_, ?_, ?_⟩
    · simp [h1]
    · simp [h2]
    · exact if_pos rfl
    · exact if_pos rfl
  · rintro st1 L1 ⟨g1, g2, g3, g4⟩
    apply leads_step
    simp only [Machine.exec, g2, g4, List.getLast?_append, List.getLast?_singleton,
      List.dropLast_concat]
    apply leads_step
    simp only [Machine.exec, set_int_pmc, set_cap_pmc, set_int_reps, set_cap_reps, g1, g3]
    apply hnext
    refine ⟨g1, g2, ?_, ?_⟩
    · refine (if_pos rfl).trans ?_
      rw [add_sub_cancel_right]
    · exact if_pos rfl

theorem attr_slot_next (a : Int) : (a + 3 + 1 = a + 3) = False := by simp
theorem attr_slot_cap (a : Int) : (a + 3 + 1 = a + 4) = True := by
  simp only [eq_iff_iff, iff_true]; ring

/-- The first part of the repeat block of a capturing group: the registers
`gr_rep` and `gr_cap` are set, and from the second round on (`R >= 1`) the
position is pushed as the end of the previous capture. -/
theorem repeat_head_run {prog : List Instr} {ext : Ext} {e : PGE_Node}
    {key repsub : List Char} {R : Int} {S : List Int} {rest : List Instr} {st : Store}
    {sv : List Val} {cs : List (List Instr)} {L : List Event} {P : Machine → Prop}
    (hcap : e.group ≥ 0) (hrep : st.reps key = some R) (hstk : st.caps key = some S)
    (h1 : find_label prog (repsub ++ "_1".toList) =
      some (.label 2 (repsub ++ "_1".toList) :: rest))
    (hnext : ∀ st1 L1, GInv key R (if R < 1 then S else S ++ [st.int .pos]) st1 →
      Leads prog ext ⟨rest, st1, sv, cs, L1, .running⟩ P) :
    Leads prog ext ⟨repeat_head_prog e key repsub ++ rest, st, sv, cs, L, .running⟩ P := by
  unfold repeat_head_prog
  simp only [hcap, if_true, List.cons_append, List.nil_append, List.append_assoc]
  apply leads_step
  simp only [Machine.exec]
  apply leads_step
  simp only [Machine.exec]
  apply leads_step
  simp only [Machine.exec, Store.opd, set_int_int, if_true]
  apply leads_step
  simp only [Machine.exec, set_int_int, set_int_attr_base, if_true]
  apply leads_step
  simp only [Machine.exec, set_pmc_pmc, set_pmc_caps, set_int_caps, set_pmc_reps, set_int_reps,
    if_true, hrep]
  apply leads_step
  simp only [Machine.exec, set_pmc_int, set_int_int, if_true]
  apply leads_step
  simp only [Machine.exec, set_int_int, set_pmc_int, set_int_attr_base, set_pmc_attr_base,
    if_true, attr_slot_next, attr_slot_cap, if_false]
  apply leads_step
  simp only [Machine.exec, set_pmc_pmc, set_pmc_caps, set_int_caps, set_int_pmc, if_true, hstk]
  apply leads_step
  simp only [Machine.exec, set_pmc_pmc, set_pmc_reps, set_int_reps, set_int_pmc, reduceCtorEq,
    if_false, if_true, hrep, Cmp.holds, Store.opd, decide_eq_true_eq]
  by_cases hR : R < 1
  · simp only [hR, if_true, Machine.jump, h1]
    apply leads_step
    simp only [Machine.exec]
    apply hnext
    refine ⟨?_, ?_, ?_, ?_⟩
    · rfl
    · rfl
    · exact hrep
    · rw [if_pos hR]; exact hstk
  · simp only [hR, if_false]
    apply leads_step
    simp only [Machine.exec, set_pmc_pmc, set_pmc_caps, set_int_caps, set_int_pmc, if_true,
      hstk, set_pmc_int, set_int_int, reduceCtorEq, if_false]
    apply leads_step
    simp only [Machine.exec]
    apply hnext
    refine ⟨?_, ?_, ?_, ?_⟩
    · rfl
    · rfl
    · exact hrep
    · rw [if_neg hR]; exact if_pos rfl

/-- The end of the repeat block of a capturing group: from the second round
on the recorded end of the previous capture is popped, then control leaves
for `fail` or `fail_group`. -/
theorem repeat_tail_run {prog : List Instr} {ext : Ext} {e : PGE_Node}
    {key repsub : List Char} {R p : Int} {S : List Int} {rest : List Instr} {st : Store}
    {sv : List Val} {cs : List (List Instr)} {L : List Event}
    (hcap : e.group ≥ 0)
    (hfail : find_label prog "fail".toList = none)
    (hfail_group : find_label prog "fail_group".toList = none)
    (hext1 : ∀ k st, ext "fail".toList k st = none)
    (hext2 : ∀ k st, ext "fail_group".toList k st = none)
    (hinv : GInv key R (if R < 1 then S else S ++ [p]) st) :
    Leads prog ext ⟨repeat_tail_prog e repsub ++ rest, st, sv, cs, L, .running⟩
      (fun m' => (m'.status = .left "fail".toList ∨ m'.status = .left "fail_group".toList) ∧
        m'.store.reps key = some R ∧ m'.store.caps key = some S ∧ m'.saved = sv) := by
  obtain ⟨g1, g2, g3, g4⟩ := hinv
  unfold repeat_tail_prog
  simp only [hcap, if_true, List.cons_append, List.nil_append, List.append_assoc]
  apply leads_step
  simp only [Machine.exec]
  apply leads_step
  simp only [Machine.exec, g1, g3, Cmp.holds, Store.opd, decide_eq_true_eq]
  by_cases hR : R < 1
  · simp only [hR, if_true] at g4 ⊢
    simp only [Machine.jump, hfail, hext1]
    exact leads_done ⟨Or.inl rfl, g3, g4, rfl⟩
  · simp only [hR, if_false] at g4 ⊢
    apply leads_step
    simp only [Machine.exec, g2, g4, List.getLast?_append, List.getLast?_singleton,
      List.dropLast_concat]
    apply leads_step
    cases hc : e.iscut with
    | true =>
      simp only [Machine.exec, if_true, Machine.jump, hfail_group, hext2]
      exact leads_done ⟨Or.inr rfl, g3, if_pos rfl, rfl⟩
    | false =>
      simp only [Machine.exec, Bool.false_eq_true, if_false, Machine.jump, hfail, hext1]
      exact leads_done ⟨Or.inl rfl, g3, if_pos rfl, rfl⟩

theorem emitsub_prog_defines (sub : List Char) (regs : List Reg) (l : List Char) :
    ∀ i ∈ emitsub_prog sub regs, i.defines l = false := by
  intro i hi
  simp only [emitsub_prog, List.mem_append, List.mem_map, List.mem_cons, List.mem_singleton,
    List.not_mem_nil, or_false] at hi
  rcases hi with ⟨r, _, rfl⟩ | rfl | ⟨r, _, rfl⟩ | rfl <;> rfl

theorem body_call_defines (e : PGE_Node) (r1sub l : List Char) :
    ∀ i ∈ body_call_prog e r1sub, i.defines l = false := by
  intro i hi
  unfold body_call_prog at hi
  simp only [List.mem_append] at hi
  rcases hi with (((hi | hi) | hi) | hi) | hi
  · simp at hi; subst hi; rfl
  · split_ifs at hi <;> simp at hi; subst hi; rfl
  · exact emitsub_prog_defines _ _ _ i hi
  · split_ifs at hi <;> simp at hi; subst hi; rfl
  · simp at hi; subst hi; rfl

theorem repeat_head_defines (e : PGE_Node) (key repsub l : List Char)
    (h0 : l ≠ repsub) (h1 : l ≠ repsub ++ "_1".toList) :
    ∀ i ∈ repeat_head_prog e key repsub, i.defines l = false := by
  have h1' : ¬ repsub ++ ['_', '1'] = l := Ne.symm h1
  unfold repeat_head_prog
  split_ifs <;> simp [Instr.defines, Ne.symm h0, h1']

theorem repeat_greedy_defines (env : Env) (e : PGE_Node) (repsub r1sub succ l : List Char)
    (h2 : l ≠ repsub ++ "_2".toList) :
    ∀ i ∈ repeat_greedy_prog env e repsub r1sub succ, i.defines l = false := by
  intro i hi
  unfold repeat_greedy_prog at hi
  simp only [List.mem_append] at hi
  rcases hi with (((hi | hi) | hi) | hi) | hi
  · split_ifs at hi <;> simp at hi; subst hi; rfl
  · exact body_call_defines _ _ _ i hi
  · have h2' : ¬ repsub ++ ['_', '2'] = l := Ne.symm h2
    simp at hi; subst hi; simp [Instr.defines, h2']
  · split_ifs at hi <;> simp at hi; subst hi; rfl
  · exact emitsub_prog_defines _ _ _ i hi

theorem repeat_lazy_defines (env : Env) (e : PGE_Node) (repsub r1sub succ l : List Char)
    (h3 : l ≠ repsub ++ "_3".toList) :
    ∀ i ∈ repeat_lazy_prog env e repsub r1sub succ, i.defines l = false := by
  intro i hi
  unfold repeat_lazy_prog at hi
  simp only [List.mem_append] at hi
  rcases hi with (((hi | hi) | hi) | hi) | hi
  · split_ifs at hi <;> simp at hi; subst hi; rfl
  · exact emitsub_prog_defines _ _ _ i hi
  · have h3' : ¬ repsub ++ ['_', '3'] = l := Ne.symm h3
    simp at hi; subst hi; simp [Instr.defines, h3']
  · split_ifs at hi <;> simp at hi; subst hi; rfl
  · exact body_call_defines _ _ _ i hi

theorem repeat_tail_defines (e : PGE_Node) (repsub l : List Char)
    (h4 : l ≠ repsub ++ "_fail".toList) :
    ∀ i ∈ repeat_tail_prog e repsub, i.defines l = false := by
  have h4' : ¬ repsub ++ ['_', 'f', 'a', 'i', 'l'] = l := Ne.symm h4
  unfold repeat_tail_prog
  split_ifs <;> simp [Instr.defines, h4']

theorem repeat_mid_defines (env : Env) (e : PGE_Node) (repsub r1sub succ l : List Char)
    (h2 : l ≠ repsub ++ "_2".toList) (h3 : l ≠ repsub ++ "_3".toList) :
    ∀ i ∈ (if e.isgreedy then repeat_greedy_prog env e repsub r1sub succ
      else repeat_lazy_prog env e repsub r1sub succ), i.defines l = false := by
  split_ifs
  · exact repeat_greedy_defines env e repsub r1sub succ l h2
  · exact repeat_lazy_defines env e repsub r1sub succ l h3

theorem group_repeat_defines (env : Env) (e : PGE_Node) (key repsub r1sub succ l : List Char)
    (hl : l ∉ repeat_labels repsub) :
    ∀ i ∈ group_repeat_prog env e key repsub r1sub succ, i.defines l = false := by
  simp only [repeat_labels, List.mem_cons, List.mem_singleton, List.not_mem_nil, or_false,
    not_or] at hl
  obtain ⟨h0, h1, h2, h3, h4⟩ := hl
  intro i hi
  unfold group_repeat_prog at hi
  simp only [List.mem_append] at hi
  rcases hi with (hi | hi) | hi
  · exact repeat_head_defines e key repsub l h0 h1 i hi
  · exact repeat_mid_defines env e repsub r1sub succ l h2 h3 i hi
  · exact repeat_tail_defines e repsub l h4 i hi

theorem find_label_skip (pre q : List Instr) (n : Nat) (l : List Char)
    (h : ∀ i ∈ pre, i.defines l = false) :
    find_label (pre ++ .label n l :: q) l = some (.label n l :: q) := by
  rw [find_label_append _ _ _ h]
  exact find_label_here _ _ _

theorem suffix_ne_self (r : List Char) (a : String) (h : a.toList ≠ []) :
    r ++ a.toList ≠ r := by
  intro hh
  exact h (List.append_right_eq_self.1 hh)

theorem suffix_ne (r : List Char) (a b : String) (h : a.toList ≠ b.toList) :
    r ++ a.toList ≠ r ++ b.toList := by
  intro hh
  exact h (List.append_cancel_left hh)

theorem repeat_find_fail (env : Env) (e : PGE_Node) (key repsub r1sub succ : List Char) :
    find_label (group_repeat_prog env e key repsub r1sub succ) (repsub ++ "_fail".toList) =
      some (repeat_tail_prog e repsub) := by
  have e1 : repeat_tail_prog e repsub = .label 2 (repsub ++ "_fail".toList) ::
      ((if e.group ≥ 0 then
        [.if_pcmp .gr_rep .lt (.num 1) "fail".toList, .pop .I0 .gr_cap] else []) ++
      [.goto (if e.iscut then "fail_group".toList else "fail".toList), .blank]) := by
    simp only [repeat_tail_prog, List.cons_append, List.nil_append, List.append_assoc]
  unfold group_repeat_prog
  rw [e1]
  refine find_label_skip _ _ _ _ ?_
  intro i hi
  rcases List.mem_append.1 hi with hi | hi
  · exact repeat_head_defines e key repsub _ (suffix_ne_self _ _ (by decide))
      (suffix_ne _ _ _ (by decide)) i hi
  · exact repeat_mid_defines env e repsub r1sub succ _ (suffix_ne _ _ _ (by decide))
      (suffix_ne _ _ _ (by decide)) i hi

theorem repeat_find_2 (env : Env) (e : PGE_Node) (key repsub r1sub succ : List Char)
    (hg : e.isgreedy = true) :
    find_label (group_repeat_prog env e key repsub r1sub succ) (repsub ++ "_2".toList) =
      some (.label 2 (repsub ++ "_2".toList) ::
        ((if e.min > 0 then
          [.if_pcmp .gr_rep .lt (.num e.min) (repsub ++ "_fail".toList)] else []) ++
        (emitsub_prog succ group_regs ++ repeat_tail_prog e repsub))) := by
  have e1 : group_repeat_prog env e key repsub r1sub succ =
      (repeat_head_prog e key repsub ++ ((if e.max ≠ env.PGE_INF then
        [.if_pcmp .gr_rep .ge (.num e.max) (repsub ++ "_2".toList)] else []) ++
        body_call_prog e r1sub)) ++ .label 2 (repsub ++ "_2".toList) ::
        ((if e.min > 0 then
          [.if_pcmp .gr_rep .lt (.num e.min) (repsub ++ "_fail".toList)] else []) ++
        (emitsub_prog succ group_regs ++ repeat_tail_prog e repsub)) := by
    simp only [group_repeat_prog, hg, if_true, repeat_greedy_prog, List.append_assoc,
      List.cons_append, List.nil_append]
  rw [e1]
  refine find_label_skip _ _ _ _ ?_
  intro i hi
  rcases List.mem_append.1 hi with hi | hi
  · exact repeat_head_defines e key repsub _ (suffix_ne_self _ _ (by decide))
      (suffix_ne _ _ _ (by decide)) i hi
  · rcases List.mem_append.1 hi with hi | hi
    · split_ifs at hi <;> simp at hi; subst hi; rfl
    · exact body_call_defines _ _ _ i hi

theorem repeat_find_3 (env : Env) (e : PGE_Node) (key repsub r1sub succ : List Char)
    (hg : e.isgreedy = false) :
    find_label (group_repeat_prog env e key repsub r1sub succ) (repsub ++ "_3".toList) =
      some (.label 2 (repsub ++ "_3".toList) ::
        ((if e.max ≠ env.PGE_INF then
          [.if_pcmp .gr_rep .ge (.num e.max) (repsub ++ "_fail".toList)] else []) ++
        (body_call_prog e r1sub ++ repeat_tail_prog e repsub))) := by
  have e1 : group_repeat_prog env e key repsub r1sub succ =
      (repeat_head_prog e key repsub ++ ((if e.min > 0 then
        [.if_pcmp .gr_rep .lt (.num e.min) (repsub ++ "_3".toList)] else []) ++
        emitsub_prog succ group_regs)) ++ .label 2 (repsub ++ "_3".toList) ::
        ((if e.max ≠ env.PGE_INF then
          [.if_pcmp .gr_rep .ge (.num e.max) (repsub ++ "_fail".toList)] else []) ++
        (body_call_prog e r1sub ++ repeat_tail_prog e repsub)) := by
    simp only [group_repeat_prog, hg, Bool.false_eq_true, if_false, repeat_lazy_prog,
      List.append_assoc, List.cons_append, List.nil_append]
  rw [e1]
  refine find_label_skip _ _ _ _ ?_
  intro i hi
  rcases List.mem_append.1 hi with hi | hi
  · exact repeat_head_defines e key repsub _ (suffix_ne_self _ _ (by decide))
      (suffix_ne _ _ _ (by decide)) i hi
  · rcases List.mem_append.1 hi with hi | hi
    · split_ifs at hi <;> simp at hi; subst hi; rfl
    · exact emitsub_prog_defines _ _ _ i hi

theorem repeat_find_1 (env : Env) (e : PGE_Node) (key repsub r1sub succ : List Char) :
    find_label (group_repeat_prog env e key repsub r1sub succ) (repsub ++ "_1".toList) =
      some (.label 2 (repsub ++ "_1".toList) ::
        ((if e.isgreedy then repeat_greedy_prog env e repsub r1sub succ
          else repeat_lazy_prog env e repsub r1sub succ) ++ repeat_tail_prog e repsub)) := by
  unfold group_repeat_prog repeat_head_prog
  split_ifs <;> simp [find_label, Instr.defines]

theorem repeat_run_greedy {prog : List Instr} {ext : Ext} {env : Env} {e : PGE_Node}
    {key repsub r1sub succ : List Char} {R p : Int} {S : List Int} {st : Store}
    {sv : List Val} {cs : List (List Instr)} {L : List Event}
    (hcap : e.group ≥ 0) (henv : GroupEnv prog ext key r1sub succ)
    (h2 : find_label prog (repsub ++ "_2".toList) =
      some (.label 2 (repsub ++ "_2".toList) ::
        ((if e.min > 0 then
          [.if_pcmp .gr_rep .lt (.num e.min) (repsub ++ "_fail".toList)] else []) ++
        (emitsub_prog succ group_regs ++ repeat_tail_prog e repsub))))
    (hf : find_label prog (repsub ++ "_fail".toList) = some (repeat_tail_prog e repsub))
    (hinv : GInv key R (if R < 1 then S else S ++ [p]) st) :
    Leads prog ext
      ⟨repeat_greedy_prog env e repsub r1sub succ ++ repeat_tail_prog e repsub, st, sv, cs, L,
        .running⟩
      (fun m' => (m'.status = .left "fail".toList ∨ m'.status = .left "fail_group".toList) ∧
        m'.store.reps key = some R ∧ m'.store.caps key = some S ∧ m'.saved = sv) := by
  have tail : ∀ st1 L1, GInv key R (if R < 1 then S else S ++ [p]) st1 →
      Leads prog ext ⟨repeat_tail_prog e repsub, st1, sv, cs, L1, .running⟩
        (fun m' => (m'.status = .left "fail".toList ∨ m'.status = .left "fail_group".toList) ∧
          m'.store.reps key = some R ∧ m'.store.caps key = some S ∧ m'.saved = sv) := by
    intro st1 L1 h
    have := @repeat_tail_run prog ext e key repsub R p S [] st1 sv cs L1 hcap henv.find_fail
      henv.find_fail_group henv.ext_fail henv.ext_fail_group h
    rwa [List.append_nil] at this
  have from2 : ∀ st1 L1, GInv key R (if R < 1 then S else S ++ [p]) st1 →
      Leads prog ext
        ⟨.label 2 (repsub ++ "_2".toList) ::
          ((if e.min > 0 then
            [.if_pcmp .gr_rep .lt (.num e.min) (repsub ++ "_fail".toList)] else []) ++
          (emitsub_prog succ group_regs ++ repeat_tail_prog e repsub)), st1, sv, cs, L1,
          .running⟩
        (fun m' => (m'.status = .left "fail".toList ∨ m'.status = .left "fail_group".toList) ∧
          m'.store.reps key = some R ∧ m'.store.caps key = some S ∧ m'.saved = sv) := by
    intro st1 L1 h
    apply leads_step
    simp only [Machine.exec]
    by_cases hmin : e.min > 0
    · simp only [hmin, if_true, List.cons_append, List.nil_append]
      apply leads_step
      simp only [Machine.exec, h.1, h.2.2.1, Cmp.holds, Store.opd, decide_eq_true_eq]
      by_cases hlt : R < e.min
      · simp only [hlt, if_true, Machine.jump, hf]
        exact tail _ _ h
      · simp only [hlt, if_false]
        exact group_call_run henv.find_succ henv.ext_succ h (fun st2 L2 h' => tail st2 L2 h')
    · simp only [hmin, if_false, List.nil_append]
      exact group_call_run henv.find_succ henv.ext_succ h (fun st2 L2 h' => tail st2 L2 h')
  unfold repeat_greedy_prog
  by_cases hmax : e.max ≠ env.PGE_INF
  · simp only [hmax, if_true, ne_eq, not_false_eq_true, List.cons_append, List.nil_append,
      List.append_assoc]
    apply leads_step
    simp only [Machine.exec, hinv.1, hinv.2.2.1, Cmp.holds, Store.opd, decide_eq_true_eq, ge_iff_le]
    by_cases hge : e.max ≤ R
    · simp only [hge, if_true, Machine.jump, h2]
      exact from2 _ _ hinv
    · simp only [hge, if_false]
      exact body_call_run hcap henv.find_body henv.ext_body hinv (fun st2 L2 h' => from2 st2 L2 h')
  · simp only [hmax, if_false, List.nil_append, List.append_assoc, List.cons_append]
    exact body_call_run hcap henv.find_body henv.ext_body hinv (fun st2 L2 h' => from2 st2 L2 h')

theorem repeat_run_lazy {prog : List Instr} {ext : Ext} {env : Env} {e : PGE_Node}
    {key repsub r1sub succ : List Char} {R p : Int} {S : List Int} {st : Store}
    {sv : List Val} {cs : List (List Instr)} {L : List Event}
    (hcap : e.group ≥ 0) (henv : GroupEnv prog ext key r1sub succ)
    (h3 : find_label prog (repsub ++ "_3".toList) =
      some (.label 2 (repsub ++ "_3".toList) ::
        ((if e.max ≠ env.PGE_INF then
          [.if_pcmp .gr_rep .ge (.num e.max) (repsub ++ "_fail".toList)] else []) ++
        (body_call_prog e r1sub ++ repeat_tail_prog e repsub))))
    (hf : find_label prog (repsub ++ "_fail".toList) = some (repeat_tail_prog e repsub))
    (hinv : GInv key R (if R < 1 then S else S ++ [p]) st) :
    Leads prog ext
      ⟨repeat_lazy_prog env e repsub r1sub succ ++ repeat_tail_prog e repsub, st, sv, cs, L,
        .running⟩
      (fun m' => (m'.status = .left "fail".toList ∨ m'.status = .left "fail_group".toList) ∧
        m'.store.reps key = some R ∧ m'.store.caps key = some S ∧ m'.saved = sv) := by
  have tail : ∀ st1 L1, GInv key R (if R < 1 then S else S ++ [p]) st1 →
      Leads prog ext ⟨repeat_tail_prog e repsub, st1, sv, cs, L1, .running⟩
        (fun m' => (m'.status = .left "fail".toList ∨ m'.status = .left "fail_group".toList) ∧
          m'.store.reps key = some R ∧ m'.store.caps key = some S ∧ m'.saved = sv) := by
    intro st1 L1 h
    have := @repeat_tail_run prog ext e key repsub R p S [] st1 sv cs L1 hcap henv.find_fail
      henv.find_fail_group henv.ext_fail henv.ext_fail_group h
    rwa [List.append_nil] at this
  have from3 : ∀ st1 L1, GInv key R (if R < 1 then S else S ++ [p]) st1 →
      Leads prog ext
        ⟨.label 2 (repsub ++ "_3".toList) ::
          ((if e.max ≠ env.PGE_INF then
            [.if_pcmp .gr_rep .ge (.num e.max) (repsub ++ "_fail".toList)] else []) ++
          (body_call_prog e r1sub ++ repeat_tail_prog e repsub)), st1, sv, cs, L1,
          .running⟩
        (fun m' => (m'.status = .left "fail".toList ∨ m'.status = .left "fail_group".toList) ∧
          m'.store.reps key = some R ∧ m'.store.caps key = some S ∧ m'.saved = sv) := by
    intro st1 L1 h
    apply leads_step
    simp only [Machine.exec]
    by_cases hmax : e.max ≠ env.PGE_INF
    · simp only [hmax, if_true, ne_eq, not_false_eq_true, List.cons_append, List.nil_append]
      apply leads_step
      simp only [Machine.exec, h.1, h.2.2.1, Cmp.holds, Store.opd, decide_eq_true_eq, ge_iff_le]
      by_cases hge : e.max ≤ R
      · simp only [hge, if_true, Machine.jump, hf]
        exact tail _ _ h
      · simp only [hge, if_false]
        exact body_call_run hcap henv.find_body henv.ext_body h (fun st2 L2 h' => tail st2 L2 h')
    · simp only [hmax, if_false, List.nil_append]
      exact body_call_run hcap henv.find_body henv.ext_body h (fun st2 L2 h' => tail st2 L2 h')
  unfold repeat_lazy_prog
  by_cases hmin : e.min > 0
  · simp only [hmin, if_true, List.cons_append, List.nil_append, List.append_assoc]
    apply leads_step
    simp only [Machine.exec, hinv.1, hinv.2.2.1, Cmp.holds, Store.opd, decide_eq_true_eq]
    by_cases hlt : R < e.min
    · simp only [hlt, if_true, Machine.jump, h3]
      exact from3 _ _ hinv
    · simp only [hlt, if_false]
      exact group_call_run henv.find_succ henv.ext_succ hinv (fun st2 L2 h' => from3 st2 L2 h')
  · simp only [hmin, if_false, List.nil_append, List.append_assoc, List.cons_append]
    exact group_call_run henv.find_succ henv.ext_succ hinv (fun st2 L2 h' => from3 st2 L2 h')

/-- C19: the capture stack is restored on backtrack.  For every capturing
Group node (greedy or lazy, any `min` and `max`, cut or not), run the repeat
block `R<id>_repeat` from its label, with any store in which the group has a
counter `R` and a capture stack `S`, against called subroutines (body and
`succ`) that fail with `cutgrp = 0` and leave the counter and the stack of the
group as they were at the call: the run gets to the final jump of the block
(`goto fail`, or `goto fail_group` for a cut group), and there the counter is
`R` and the capture stack is `S` again.  The text of the block is the one
`pge_gen_group_repeat` writes. -/
theorem capture_stack_restored (env : Env) (e : PGE_Node) (r1sub succ : List Char)
    (s : State) (hs : s.ok)
    (ext : Ext) (st : Store) (sv : List Val) (R : Int) (S : List Int)
    (hcap : e.group ≥ 0)
    (hrep : st.reps (group_key e) = some R) (hstk : st.caps (group_key e) = some S)
    (hr1 : r1sub ∉ repeat_labels (repeat_label e.id))
    (hsucc : succ ∉ repeat_labels (repeat_label e.id))
    (hext1 : ∀ k st, ext "fail".toList k st = none)
    (hext2 : ∀ k st, ext "fail_group".toList k st = none)
    (hbody : ∀ k st, ∃ st1, ext r1sub k st = some st1 ∧ st1.int .cutgrp = 0 ∧
      st1.reps (group_key e) = st.reps (group_key e) ∧
      st1.caps (group_key e) = st.caps (group_key e))
    (hcont : ∀ k st, ∃ st1, ext succ k st = some st1 ∧ st1.int .cutgrp = 0 ∧
      st1.reps (group_key e) = st.reps (group_key e) ∧
      st1.caps (group_key e) = st.caps (group_key e)) :
    Emits s (pge_gen_group_repeat env e (group_key e) (repeat_label e.id) r1sub succ s)
      (render (group_repeat_prog env e (group_key e) (repeat_label e.id) r1sub succ)) ∧
    Leads (group_repeat_prog env e (group_key e) (repeat_label e.id) r1sub succ) ext
      ⟨group_repeat_prog env e (group_key e) (repeat_label e.id) r1sub succ, st, sv, [], [],
        .running⟩
      (fun m' => (m'.status = .left "fail".toList ∨ m'.status = .left "fail_group".toList) ∧
        m'.store.reps (group_key e) = some R ∧ m'.store.caps (group_key e) = some S ∧
        m'.saved = sv) := by
  refine ⟨pge_gen_group_repeat_text env e _ _ r1sub succ s hs, ?_⟩
  have hfl : ∀ l : List Char, l.head? ≠ some 'R' → l ∉ repeat_labels (repeat_label e.id) := by
    intro l hl hmem
    simp only [repeat_labels, repeat_label, sprintf, vsprintf, String.toList, Option.map,
      Option.getD, List.mem_cons, List.mem_singleton, List.not_mem_nil, or_false,
      List.cons_append] at hmem
    rcases hmem with h | h | h | h | h <;> (rw [h] at hl; exact hl rfl)
  have henv : GroupEnv (group_repeat_prog env e (group_key e) (repeat_label e.id) r1sub succ)
      ext (group_key e) r1sub succ :=
    { find_body := find_label_none _ _ (group_repeat_defines _ _ _ _ _ _ _ hr1)
      find_succ := find_label_none _ _ (group_repeat_defines _ _ _ _ _ _ _ hsucc)
      find_fail := find_label_none _ _
        (group_repeat_defines _ _ _ _ _ _ _ (hfl _ (by decide)))
      find_fail_group := find_label_none _ _
        (group_repeat_defines _ _ _ _ _ _ _ (hfl _ (by decide)))
      ext_fail := hext1
      ext_fail_group := hext2
      ext_body := hbody
      ext_succ := hcont }
  have h1 := repeat_find_1 env e (group_key e) (repeat_label e.id) r1sub succ
  have hf := repeat_find_fail env e (group_key e) (repeat_label e.id) r1sub succ
  generalize hprog : group_repeat_prog env e (group_key e) (repeat_label e.id) r1sub succ
    = prog at henv h1 hf
  have hstart : (⟨prog, st, sv, [], [], .running⟩ : Machine) =
      ⟨repeat_head_prog e (group_key e) (repeat_label e.id) ++
        ((if e.isgreedy then repeat_greedy_prog env e (repeat_label e.id) r1sub succ
          else repeat_lazy_prog env e (repeat_label e.id) r1sub succ) ++
          repeat_tail_prog e (repeat_label e.id)), st, sv, [], [], .running⟩ := by
    rw [← hprog]; simp only [group_repeat_prog, List.append_assoc]
  rw [hstart]
  refine repeat_head_run hcap hrep hstk h1 ?_
  intro st1 L1 hinv
  cases hg : e.isgreedy with
  | true =>
    have h2 := repeat_find_2 env e (group_key e) (repeat_label e.id) r1sub succ hg
    rw [hprog] at h2
    simp only [if_true]
    exact repeat_run_greedy hcap henv h2 hf hinv
  | false =>
    have h3 := repeat_find_3 env e (group_key e) (repeat_label e.id) r1sub succ hg
    rw [hprog] at h3
    simp only [Bool.false_eq_true, if_false]
    exact repeat_run_lazy hcap henv h3 hf hinv

theorem capture_stack_restored_witness :
    Leads (group_repeat_prog env_demo (node_group true) (group_key (node_group true))
        (repeat_label 4) (node_label 5) "R9".toList) ext_calls
      ⟨group_repeat_prog env_demo (node_group true) (group_key (node_group true))
        (repeat_label 4) (node_label 5) "R9".toList, store_group, [], [], [], .running⟩
      (fun m' => (m'.status = .left "fail".toList ∨ m'.status = .left "fail_group".toList) ∧
        m'.store.reps (group_key (node_group true)) = some 1 ∧
        m'.store.caps (group_key (node_group true)) = some [0] ∧ m'.saved = []) ∧
    Leads (group_repeat_prog env_demo (node_group false) (group_key (node_group false))
        (repeat_label 4) (node_label 5) "R9".toList) ext_calls
      ⟨group_repeat_prog env_demo (node_group false) (group_key (node_group false))
        (repeat_label 4) (node_label 5) "R9".toList, store_group, [], [], [], .running⟩
      (fun m' => (m'.status = .left "fail".toList ∨ m'.status = .left "fail_group".toList) ∧
        m'.store.reps (group_key (node_group false)) = some 1 ∧
        m'.store.caps (group_key (node_group false)) = some [0] ∧ m'.saved = []) :=
  ⟨(capture_stack_restored env_demo (node_group true) (node_label 5) "R9".toList
      State.initial ⟨rfl, rfl⟩ ext_calls
      store_group [] 1 [0] (by decide) rfl rfl (by decide) (by decide) (fun _ _ => rfl)
      (fun _ _ => rfl) (fun _ st => ⟨st.set_int .cutgrp 0, rfl, rfl, rfl, rfl⟩)
      (fun _ st => ⟨st.set_int .cutgrp 0, rfl, rfl, rfl, rfl⟩)).2,
   (capture_stack_restored env_demo (node_group false) (node_label 5) "R9".toList
      State.initial ⟨rfl, rfl⟩ ext_calls
      store_group [] 1 [0] (by decide) rfl rfl (by decide) (by decide) (fun _ _ => rfl)
      (fun _ _ => rfl) (fun _ st => ⟨st.set_int .cutgrp 0, rfl, rfl, rfl, rfl⟩)
      (fun _ st => ⟨st.set_int .cutgrp 0, rfl, rfl, rfl, rfl⟩)).2⟩

/-! ## The instructions of a whole program -/

theorem emit_of_ub {s : State} (h : s.ub = true) (env : Env) (fmt : String) (args : List Arg) :
    emit env fmt args s = s := by
  unfold emit
  rw [if_pos h]

theorem fault_of_ub {s : State} (h : s.ub = true) : s.fault = s := by
  cases s
  simp only [State.fault] at h ⊢
  simp only [h]

theorem trace_of_ub {s : State} (h : s.ub = true) (env : Env) (fmt : String) (args : List Arg) :
    trace env fmt args s = s := by
  unfold trace
  cases vsprintf fmt.toList args with
  | none => exact fault_of_ub h
  | some t => simp only [emit_of_ub h, ite_self]

theorem foldl_emit_of_ub {s : State} (h : s.ub = true) (env : Env) (fmt : String)
    (l : List (List Char)) :
    l.foldl (fun st r => emit env fmt [Arg.s r] st) s = s := by
  induction l with
  | nil => rfl
  | cons r l ih => rw [List.foldl_cons, emit_of_ub h, ih]

theorem emitsub_of_ub {s : State} (h : s.ub = true) (env : Env) (sub : List Char)
    (regs : List (List Char)) : emitsub env sub regs s = s := by
  unfold emitsub
  simp only [foldl_emit_of_ub h, emit_of_ub h]

theorem emitlcount_of_ub {s : State} (h : s.ub = true) (env : Env) : emitlcount env s = s := by
  unfold emitlcount
  rw [if_pos h]

theorem pge_gen_string_of_ub {s : State} (h : s.ub = true) (env : Env) (e : PGE_Node)
    (succ : List Char) : pge_gen_string env e succ s = s := by
  unfold pge_gen_string pge_gen_string_greedy pge_gen_string_lazy
  simp only [on_cond, emit_of_ub h, trace_of_ub h, emitsub_of_ub h, ite_self]

theorem leaf_of_ub {s : State} (h : s.ub = true) (env : Env) (e : PGE_Node)
    (succ : List Char) :
    pge_gen_pattern_end env e succ s = s ∧ pge_gen_dot env e succ s = s ∧
    pge_gen_literal env e succ s = s ∧ pge_gen_anchor env e succ s = s ∧
    pge_gen_cut env e succ s = s ∧ pge_gen_backreference env e succ s = s := by
  refine ⟨?_, ?_, ?_, ?_, ?_, ?_⟩
  · unfold pge_gen_pattern_end
    simp only [on_cond, emit_of_ub h, trace_of_ub h, emitsub_of_ub h, ite_self]
  · unfold pge_gen_dot pge_gen_dot_greedy pge_gen_dot_lazy
    simp only [on_cond, emit_of_ub h, trace_of_ub h, emitsub_of_ub h, ite_self]
  · unfold pge_gen_literal
    simp only [on_cond, emit_of_ub h, trace_of_ub h, emitsub_of_ub h, ite_self,
      pge_gen_string_of_ub h]
  · unfold pge_gen_anchor
    cases e.type <;> simp only [on_cond, emit_of_ub h, trace_of_ub h, emitsub_of_ub h, ite_self]
  · unfold pge_gen_cut
    simp only [on_cond, emit_of_ub h, trace_of_ub h, emitsub_of_ub h, ite_self]
  · unfold pge_gen_backreference
    simp only [on_cond, emit_of_ub h, trace_of_ub h, emitsub_of_ub h, ite_self,
      pge_gen_string_of_ub h]

theorem group_init_of_ub {s : State} (h : s.ub = true) (env : Env) (e : PGE_Node)
    (key repsub : List Char) : pge_gen_group_init env e key repsub s = s := by
  unfold pge_gen_group_init
  simp only [on_cond, emit_of_ub h, trace_of_ub h, emitsub_of_ub h, ite_self]

theorem group_repeat_of_ub {s : State} (h : s.ub = true) (env : Env) (e : PGE_Node)
    (key repsub r1sub succ : List Char) :
    pge_gen_group_repeat env e key repsub r1sub succ s = s := by
  unfold pge_gen_group_repeat
  simp only [on_cond, emit_of_ub h, trace_of_ub h, emitsub_of_ub h, ite_self]

/-- Once undefined behaviour was met, `pge_gen_exp` changes nothing. -/
theorem pge_gen_exp_of_ub (env : Env) : ∀ (e : PGE_Exp) (succ : List Char) (s : State),
    s.ub = true → pge_gen_exp env e succ s = s
  | .null, _, s, h => fault_of_ub h
  | .node e exp1 exp2, succ, s, h => by
    have h1 := pge_gen_exp_of_ub env exp1
    have h2 := pge_gen_exp_of_ub env exp2
    obtain ⟨l1, l2, l3, l4, l5, l6⟩ := leaf_of_ub h env e succ
    simp only [pge_gen_exp, emitlcount_of_ub h, emit_of_ub h]
    cases e.type <;> simp only [l1, l2, l3, l4, l5, l6]
    · cases exp1.id? <;> cases exp2.id? <;>
        simp only [fault_of_ub h, pge_gen_concat, emit_of_ub h, h1 _ s h, h2 _ s h]
    · cases exp1.id? with
      | none => exact fault_of_ub h
      | some id1 =>
        simp only [pge_gen_group, trace_of_ub h]
        split_ifs
        · exact h1 _ s h
        · rw [group_init_of_ub h, group_repeat_of_ub h, h1 _ s h]
    · cases exp1.id? <;> cases exp2.id? <;>
        simp only [fault_of_ub h, pge_gen_alt, emit_of_ub h, trace_of_ub h, emitsub_of_ub h,
          h1 _ s h, h2 _ s h]

theorem ub_of_final {F : State → State} (hF : ∀ s, s.ub = true → F s = s) {s : State}
    (h : (F s).ub = false) : s.ub = false := by
  cases hub : s.ub with
  | false => rfl
  | true => rw [hF s hub, hub] at h; exact h

theorem trace_text (env : Env) (fmt : String) (args : List Arg) (t : List Char) (s : State)
    (hs : s.ok) (hv : vsprintf fmt.toList args = some t) :
    Emits s (trace env fmt args s) (render (trace_prog s.pge_istraced t)) := by
  unfold trace trace_prog
  rw [hv]
  cases htr : s.pge_istraced <;>
  simp only [emit_istraced, htr, Bool.false_eq_true, if_false, if_true] <;>
  apply emits_of_rev <;>
  repeat (first
    | exact Emits.nil hs
    | (refine emits_rcons ?_ ?_;
       · simp only [vsprintf, String.toList, Option.map, Instr.write, List.replicate,
           List.append_assoc, List.cons_append, List.nil_append]))

set_option maxRecDepth 20000 in
theorem pge_gen_pattern_end_text (env : Env) (e : PGE_Node) (succ : List Char) (s : State)
    (hs : s.ok) :
    Emits s (pge_gen_pattern_end env e succ s) (render (pattern_end_prog s.pge_istraced)) := by
  unfold pge_gen_pattern_end pattern_end_prog trace_prog
  cases htr : s.pge_istraced <;>
  simp only [trace, vsprintf, String.toList, Option.map, emit_istraced, htr, List.take,
    Bool.false_eq_true, if_false, if_true, List.cons_append, List.nil_append] <;>
  apply emits_of_rev <;>
  repeat (first
    | exact Emits.nil hs
    | (refine emits_rcons ?_ ?_; · rfl)
    | (refine emits_rcons2 ?_ ?_; · rfl))

set_option maxRecDepth 20000 in
set_option maxHeartbeats 2000000 in
theorem pge_gen_anchor_text (env : Env) (e : PGE_Node) (succ : List Char) (s : State)
    (hs : s.ok) :
    Emits s (pge_gen_anchor env e succ s) (render (anchor_prog e succ s.pge_istraced)) := by
  cases hty : e.type
  case PGE_ANCHOR_EOL =>
    have h := pge_gen_anchor_eol_text env e succ s hs hty
    unfold anchor_prog
    rw [hty]
    exact h
  all_goals
    unfold pge_gen_anchor anchor_prog trace_prog
    cases htr : s.pge_istraced <;>
    simp only [hty, trace, vsprintf, String.toList, Option.map, emit_istraced, htr, List.take,
      Bool.false_eq_true, if_false, if_true, List.cons_append, List.nil_append] <;>
    apply emits_of_rev <;>
    repeat (first
      | exact Emits.nil hs
      | (refine emits_rcons ?_ ?_; · rfl)
      | (refine emits_rcons2 ?_ ?_; · rfl))

set_option maxRecDepth 20000 in
set_option maxHeartbeats 2000000 in
theorem pge_gen_cut_text (env : Env) (e : PGE_Node) (succ : List Char) (s : State)
    (hs : s.ok) :
    Emits s (pge_gen_cut env e succ s) (render (cut_prog e succ s.pge_istraced)) := by
  unfold pge_gen_cut cut_prog trace_prog emitsub_prog
  cases hty : e.type <;>
  cases htr : s.pge_istraced <;>
  simp only [on_cond, trace, emitsub, vsprintf, String.toList, Option.map, emit_istraced, htr,
    List.take, List.foldl, List.reverse, List.reverseAux, List.map, reduceCtorEq,
    decide_True, decide_False, List.append_nil,
    Bool.false_eq_true, if_false, if_true, List.cons_append, List.nil_append] <;>
  apply emits_of_rev <;>
  repeat (first
    | exact Emits.nil hs
    | (refine emits_rcons ?_ ?_; · rfl))

set_option maxRecDepth 20000 in
theorem literal_body_text (env : Env) (e : PGE_Node) (succ : List Char) (s : State)
    (hs : s.ok) :
    Emits s (pge_gen_literal env e succ s)
      (render (literal_body_prog env e succ s.pge_istraced)) := by
  have h1 : Emits s
      (s |> trace env "%.16s %s" [Arg.s (str_con e.name e.nlen), Arg.s (fmt_quant env e)]
        |> emit env "    str = %s\n" [Arg.s (str_con e.name e.nlen)]
        |> emit env "    strlen = %d\n" [Arg.d e.nlen])
      (render (trace_prog s.pge_istraced
            (sprintf "%.16s %s" [Arg.s (str_con e.name e.nlen), Arg.s (fmt_quant env e)])
          ++ [.sets .str (.const (str_con e.name e.nlen)), .set .strlen (.num e.nlen)])) := by
    unfold trace_prog
    cases htr : s.pge_istraced <;>
    simp only [trace, vsprintf, String.toList, Option.map, emit_istraced, htr, List.take,
      Bool.false_eq_true, if_false, if_true, List.cons_append, List.nil_append] <;>
    apply emits_of_rev <;>
    repeat (first
      | exact Emits.nil hs
      | (refine emits_rcons ?_ ?_; · rfl))
  have h := h1.seqp (fun h => pge_gen_string_text env e succ _ h)
  unfold literal_body_prog pge_gen_literal
  simpa only [List.cons_append, List.append_assoc] using h

theorem group_trace_ok (env : Env) (e : PGE_Node) (id1 : Int) :
    vsprintf "group %s %c %s %c %s".toList
      [Arg.s (group_key e), Arg.c (if e.group ≥ 0 then '(' else '['), Arg.s (node_label id1),
        Arg.c (if e.group ≥ 0 then ')' else ']'), Arg.s (fmt_quant env e)] =
      some (group_trace_text env e id1) := by
  simp only [group_trace_text, sprintf, vsprintf, String.toList, Option.map, Option.getD]

set_option maxRecDepth 20000 in
set_option maxHeartbeats 2000000 in
theorem alt_body_text (env : Env) (id1 id2 : Int) (s : State) (hs : s.ok) :
    Emits s
      (s |> trace env "alt R%d | R%d" [Arg.d id1, Arg.d id2]
        |> emitsub env (node_label id1) ["pos".toList]
        |> emit env "    goto R%d\n\n" [Arg.d id2])
      (render (alt_body_prog id1 id2 s.pge_istraced)) := by
  unfold alt_body_prog trace_prog emitsub_prog
  cases htr : s.pge_istraced <;>
  simp only [trace, emitsub, vsprintf, String.toList, Option.map, emit_istraced, htr, List.take,
    List.foldl, List.reverse, List.reverseAux, List.map,
    Bool.false_eq_true, if_false, if_true, List.cons_append, List.nil_append] <;>
  apply emits_of_rev <;>
  repeat (first
    | exact Emits.nil hs
    | (refine emits_rcons ?_ ?_; · rfl)
    | (refine emits_rcons2 ?_ ?_; · rfl)
    | (refine emits_rcons ?_ ?_;
       · simp only [vsprintf, String.toList, Option.map, Instr.write, node_label, sprintf,
           List.replicate, List.append_assoc, List.cons_append, List.nil_append,
           Option.getD, List.take, IReg.name, SReg.name, PReg.name, Reg.name, Opd.text,
           SOpd.text, Cmp.text])
    | (refine emits_rcons2 ?_ ?_;
       · simp only [vsprintf, String.toList, Option.map, Instr.write, node_label, sprintf,
           List.replicate, List.append_assoc, List.cons_append, List.nil_append,
           Option.getD, List.take, IReg.name, SReg.name, PReg.name, Reg.name, Opd.text,
           SOpd.text, Cmp.text]))

set_option maxRecDepth 20000 in
set_option maxHeartbeats 4000000 in
theorem pge_gen_prologue_text (env : Env) (e : PGE_Exp) (r1sub : List Char) (s : State)
    (hs : s.ok) :
    Emits s (pge_gen_prologue env e r1sub s)
      (render (prologue_prog env e r1sub s.pge_istraced)) := by
  unfold pge_gen_prologue pge_gen_tracedef prologue_prog emitsub_prog
  cases htr : s.pge_istraced <;>
  cases hb : env.pge_is_bos_anchored e <;>
  simp only [on_cond, emitsub, List.take, List.foldl, List.reverse, List.reverseAux, List.map,
    Bool.not_true, Bool.not_false,
    Bool.false_eq_true, if_false, if_true, List.cons_append, List.nil_append,
    List.append_assoc] <;>
  apply emits_of_rev <;>
  repeat (first
    | exact Emits.nil hs
    | (refine emits_rcons ?_ ?_; · rfl)
    | (refine emits_rcons2 ?_ ?_; · rfl))

theorem writes_step {s s1 s2 : State} {p q : List Instr} {i : Instr}
    (h1 : Writes s s1 (render (p ++ [i]))) (h2 : s1.ok → Writes s1 s2 (render q)) :
    Writes s s2 (render (p ++ i :: q)) := by
  have h := writes_seqp h1 h2
  rwa [List.append_assoc] at h

theorem writes_nil {s : State} (hs : s.ok) : Writes s s (render []) :=
  ⟨hs, by simp [render], rfl⟩

theorem label_text (env : Env) (id : Int) (s : State) (hs : s.ok) :
    Writes s (emit env "  R%d:\n" [Arg.d id] (emitlcount env s))
      (render (marker_prog (due s) ++ [.label 2 (node_label id)])) ∧
    (emit env "  R%d:\n" [Arg.d id] (emitlcount env s)).pge_istraced = s.pge_istraced := by
  have e1 := emitlcount_text env s hs
  have e2 := writes_seqp e1 (fun h =>
    (emits_line h env "  R%d:\n" [Arg.d id] (.label 2 (node_label id)) (by
      simp only [vsprintf, String.toList, Option.map, Instr.write, node_label, sprintf,
        List.replicate, List.append_assoc, List.cons_append, List.nil_append,
        Option.getD])).writes)
  exact ⟨e2, e2.2.2⟩

/-- The text `pge_gen_exp` writes, when it meets no undefined behaviour, is the
rendering of `exp_prog`. -/
theorem exp_text (env : Env) : ∀ (e : PGE_Exp) (succ : List Char) (s : State), s.ok →
    (pge_gen_exp env e succ s).ub = false →
    Writes s (pge_gen_exp env e succ s) (render (exp_prog env e succ s))
  | .null, _, s, _, hub => by
    simp [pge_gen_exp, State.fault] at hub
  | .node e exp1 exp2, succ, s, hs, hub => by
    have ih1 := exp_text env exp1
    have ih2 := exp_text env exp2
    obtain ⟨e2, t2⟩ := label_text env e.id s hs
    cases hty : e.type
    case PGE_NULL_PATTERN =>
      simp only [pge_gen_exp, hty] at hub
      rw [null_pattern_emit_ub] at hub
      exact absurd hub (by decide)
    case PGE_CONCAT =>
      simp only [pge_gen_exp, exp_prog, hty] at hub ⊢
      cases hi1 : exp1.id? with
      | none => simp [hi1, State.fault] at hub
      | some id1 =>
        cases hi2 : exp2.id? with
        | none => simp [hi1, hi2, State.fault] at hub
        | some id2 =>
          simp only [hi1, hi2, pge_gen_concat] at hub ⊢
          refine writes_step e2 (fun h1 => ?_)
          have e3 := emits_line h1 env "    #concat R%d, R%d\n" [Arg.d id1, Arg.d id2]
            (.comment 4 (sprintf "concat R%d, R%d" [Arg.d id1, Arg.d id2])) (by
              simp only [vsprintf, String.toList, Option.map, Instr.write, sprintf,
                List.replicate, List.append_assoc, List.cons_append, List.nil_append,
                Option.getD])
          have hub1 := ub_of_final (pge_gen_exp_of_ub env exp2 succ) hub
          have w1 := ih1 _ _ e3.1 hub1
          have w2 := ih2 succ _ w1.1 hub
          exact writes_seqp e3.writes (fun _ => writes_seqp w1 (fun _ => w2))
    case PGE_GROUP =>
      simp only [pge_gen_exp, exp_prog, hty] at hub ⊢
      cases hi1 : exp1.id? with
      | none => simp [hi1, State.fault] at hub
      | some id1 =>
        simp only [hi1, pge_gen_group] at hub ⊢
        refine writes_step e2 (fun h1 => ?_)
        have e3 := trace_text env _ _ _ _ h1 (group_trace_ok env e id1)
        rw [t2] at e3
        refine writes_seqp e3.writes (fun h3 => ?_)
        by_cases hc : e.min = 1 ∧ e.max = 1 ∧ e.group < 0
        · simp only [hc, and_self, if_true] at hub ⊢
          exact ih1 _ _ h3 hub
        · simp only [hc, if_false] at hub ⊢
          have e4 := pge_gen_group_init_text env e (group_key e) (repeat_label e.id) _ h3
          have e5 := pge_gen_group_repeat_text env e (group_key e) (repeat_label e.id)
            (node_label id1) succ _ e4.1
          have w := ih1 (repeat_label e.id) _ e5.1 hub
          exact writes_seqp e4.writes (fun _ => writes_seqp e5.writes (fun _ => w))
    case PGE_ALT =>
      simp only [pge_gen_exp, exp_prog, hty] at hub ⊢
      cases hi1 : exp1.id? with
      | none => simp [hi1, State.fault] at hub
      | some id1 =>
        cases hi2 : exp2.id? with
        | none => simp [hi1, hi2, State.fault] at hub
        | some id2 =>
          simp only [hi1, hi2, pge_gen_alt] at hub ⊢
          refine writes_step e2 (fun h1 => ?_)
          have e3 := alt_body_text env id1 id2 _ h1
          rw [t2] at e3
          have hub1 := ub_of_final (pge_gen_exp_of_ub env exp2 succ) hub
          have w1 := ih1 _ _ e3.1 hub1
          have w2 := ih2 succ _ w1.1 hub
          exact writes_seqp e3.writes (fun _ => writes_seqp w1 (fun _ => w2))
    case PGE_PATTERN_END =>
      simp only [pge_gen_exp, exp_prog, leaf_prog, hty]
      refine writes_step e2 (fun h1 => ?_)
      have e3 := pge_gen_pattern_end_text env e succ _ h1
      rw [t2] at e3
      exact e3.writes
    case PGE_DOT =>
      simp only [pge_gen_exp, exp_prog, leaf_prog, hty]
      refine writes_step e2 (fun h1 => ?_)
      have e3 := pge_gen_dot_text env e succ _ h1
      rw [t2] at e3
      exact e3.writes
    case PGE_LITERAL =>
      simp only [pge_gen_exp, exp_prog, leaf_prog, hty]
      refine writes_step e2 (fun h1 => ?_)
      have e3 := literal_body_text env e succ _ h1
      rw [t2] at e3
      exact e3.writes
    case PGE_BACKREFERENCE =>
      simp only [pge_gen_exp, exp_prog, leaf_prog, hty]
      refine writes_step e2 (fun h1 => ?_)
      have e3 := pge_gen_backreference_text env e succ _ h1
      rw [t2] at e3
      exact e3.writes
    case PGE_CUT_ALT =>
      simp only [pge_gen_exp, exp_prog, leaf_prog, hty]
      refine writes_step e2 (fun h1 => ?_)
      have e3 := pge_gen_cut_text env e succ _ h1
      rw [t2] at e3
      exact e3.writes
    case PGE_CUT_RULE =>
      simp only [pge_gen_exp, exp_prog, leaf_prog, hty]
      refine writes_step e2 (fun h1 => ?_)
      have e3 := pge_gen_cut_text env e succ _ h1
      rw [t2] at e3
      exact e3.writes
    case PGE_OTHER k =>
      simp only [pge_gen_exp, exp_prog, leaf_prog, hty]
      exact e2
    all_goals
      simp only [pge_gen_exp, exp_prog, leaf_prog, hty]
      refine writes_step e2 (fun h1 => ?_)
      have e3 := pge_gen_anchor_text env e succ _ h1
      rw [t2] at e3
      exact e3.writes

theorem emit_fresh (env : Env) (fmt : String) (args : List Arg) (out : List Char) (s : State)
    (h : s.ub = false) (hv : vsprintf fmt.toList args = some out) :
    emit env fmt args { s with pge_cbuf_len := 0, pge_cbuf_lcount := 0 } =
      emit env fmt args s.fresh := by
  unfold emit State.fresh
  simp only [h, hv, Bool.false_eq_true, if_false, List.take_zero]

theorem prologue_fresh (env : Env) (e : PGE_Exp) (r1sub : List Char) (s : State)
    (h : s.ub = false) :
    pge_gen_prologue env e r1sub { s with pge_cbuf_len := 0, pge_cbuf_lcount := 0 } =
      pge_gen_prologue env e r1sub s.fresh := by
  have h1 : emit env ".sub _PGE_Rule\n" []
      (pge_gen_tracedef env { s with pge_cbuf_len := 0, pge_cbuf_lcount := 0 }) =
      emit env ".sub _PGE_Rule\n" [] (pge_gen_tracedef env s.fresh) := by
    unfold pge_gen_tracedef on_cond
    have ht : ({ s with pge_cbuf_len := 0, pge_cbuf_lcount := 0 } : State).pge_istraced =
      s.pge_istraced := rfl
    have ht' : s.fresh.pge_istraced = s.pge_istraced := rfl
    rw [ht, ht']
    have e1 := emit_fresh env ".sub _PGE_Rule\n" [] _ s h rfl
    have e2 := emit_fresh env ".macro trace(POS, LABEL)\n" [] _ s h rfl
    by_cases htr : s.pge_istraced = true
    · rw [if_pos htr, if_pos htr]
      beta_reduce
      rw [e2]
    · rw [if_neg htr, if_neg htr, e1]
  unfold pge_gen_prologue
  rw [h1]

theorem prologue_of_ub {s : State} (h : s.ub = true) (env : Env) (e : PGE_Exp)
    (r1sub : List Char) : pge_gen_prologue env e r1sub s = s := by
  unfold pge_gen_prologue pge_gen_tracedef
  simp only [on_cond, emit_of_ub h, trace_of_ub h, emitsub_of_ub h, ite_self]

theorem epilogue_of_ub {s : State} (h : s.ub = true) (env : Env) :
    pge_gen_epilogue env s = s := by
  unfold pge_gen_epilogue
  simp only [on_cond, emit_of_ub h, trace_of_ub h, emitsub_of_ub h, ite_self]

theorem fresh_ok (s : State) (h : s.ub = false) : s.fresh.ok := ⟨h, rfl⟩

theorem prologue_istraced (env : Env) (e : PGE_Exp) (r1sub : List Char) (s : State)
    (hs : s.ok) : (pge_gen_prologue env e r1sub s).pge_istraced = s.pge_istraced :=
  (pge_gen_prologue_text env e r1sub s hs).2.2.1

/-- The program `pge_gen` returns is the rendering of `gen_prog`. -/
theorem pge_gen_text (env : Env) (e : PGE_Exp) (s : State) (text : List Char)
    (h : pge_gen env e s = some text) : text = render (gen_prog env e s) := by
  unfold pge_gen at h
  simp only at h
  split_ifs at h with hub
  simp only [Option.some.injEq] at h
  simp only [Bool.not_eq_true] at hub
  subst h
  unfold pge_gen_state gen_prog at *
  cases hid : e.id? with
  | none => simp [hid, State.fault] at hub
  | some id =>
    simp only [hid] at hub ⊢
    have hub2 := ub_of_final (fun s h => epilogue_of_ub h env) hub
    have hub1 := ub_of_final (pge_gen_exp_of_ub env e null_str) hub2
    have hub0 : s.ub = false := by
      cases hs : s.ub with
      | false => rfl
      | true =>
        have h' : ({ s with pge_cbuf_len := 0, pge_cbuf_lcount := 0 } : State).ub = true := hs
        rw [prologue_of_ub h'] at hub1
        exact h'.symm.trans hub1
    rw [prologue_fresh env e _ s hub0] at hub2 ⊢
    have w1 := pge_gen_prologue_text env e (node_label id) s.fresh (fresh_ok s hub0)
    have w2 := exp_text env e null_str _ w1.1 hub2
    have w3 := pge_gen_epilogue_text env _ w2.1
    rw [w2.2.2, w1.2.2.1] at w3
    have w := writes_seqp w1.writes (fun _ => writes_seqp w2 (fun _ => w3.writes))
    exact w.2.1

theorem wf_id (e : PGE_Exp) (h : e.wf = true) : ∃ id, e.id? = some id := by
  cases e with
  | null => simp [PGE_Exp.wf] at h
  | node n a b => exact ⟨n.id, rfl⟩

/-- On a tree without null pointers and without NullPattern nodes
`pge_gen_exp` meets no undefined behaviour. -/
theorem exp_ok (env : Env) : ∀ (e : PGE_Exp) (succ : List Char) (s : State),
    e.wf = true → s.ok → (pge_gen_exp env e succ s).ok
  | .null, _, _, hw, _ => by simp [PGE_Exp.wf] at hw
  | .node e exp1 exp2, succ, s, hw, hs => by
    have ih1 := exp_ok env exp1
    have ih2 := exp_ok env exp2
    obtain ⟨e2, -⟩ := label_text env e.id s hs
    have h1 := e2.1
    cases hty : e.type
    case PGE_NULL_PATTERN => simp [PGE_Exp.wf, hty] at hw
    case PGE_CONCAT =>
      simp only [PGE_Exp.wf, hty, Bool.and_eq_true] at hw
      obtain ⟨id1, hi1⟩ := wf_id exp1 hw.1
      obtain ⟨id2, hi2⟩ := wf_id exp2 hw.2
      simp only [pge_gen_exp, hty, hi1, hi2, pge_gen_concat]
      have e3 := emits_line h1 env "    #concat R%d, R%d\n" [Arg.d id1, Arg.d id2]
        (.comment 4 (sprintf "concat R%d, R%d" [Arg.d id1, Arg.d id2])) (by
          simp only [vsprintf, String.toList, Option.map, Instr.write, sprintf,
            List.replicate, List.append_assoc, List.cons_append, List.nil_append,
            Option.getD])
      exact ih2 _ _ hw.2 (ih1 _ _ hw.1 e3.1)
    case PGE_GROUP =>
      simp only [PGE_Exp.wf, hty] at hw
      obtain ⟨id1, hi1⟩ := wf_id exp1 hw
      simp only [pge_gen_exp, hty, hi1, pge_gen_group]
      have e3 := trace_text env _ _ _ _ h1 (group_trace_ok env e id1)
      by_cases hc : e.min = 1 ∧ e.max = 1 ∧ e.group < 0
      · simp only [hc, and_self, if_true]
        exact ih1 _ _ hw e3.1
      · simp only [hc, if_false]
        have e4 := pge_gen_group_init_text env e (group_key e) (repeat_label e.id) _ e3.1
        have e5 := pge_gen_group_repeat_text env e (group_key e) (repeat_label e.id)
          (node_label id1) succ _ e4.1
        exact ih1 (repeat_label e.id) _ hw e5.1
    case PGE_ALT =>
      simp only [PGE_Exp.wf, hty, Bool.and_eq_true] at hw
      obtain ⟨id1, hi1⟩ := wf_id exp1 hw.1
      obtain ⟨id2, hi2⟩ := wf_id exp2 hw.2
      simp only [pge_gen_exp, hty, hi1, hi2, pge_gen_alt]
      have e3 := alt_body_text env id1 id2 _ h1
      exact ih2 _ _ hw.2 (ih1 _ _ hw.1 e3.1)
    case PGE_PATTERN_END =>
      simp only [pge_gen_exp, hty]
      exact (pge_gen_pattern_end_text env e succ _ h1).1
    case PGE_DOT =>
      simp only [pge_gen_exp, hty]
      exact (pge_gen_dot_text env e succ _ h1).1
    case PGE_LITERAL =>
      simp only [pge_gen_exp, hty]
      exact (literal_body_text env e succ _ h1).1
    case PGE_BACKREFERENCE =>
      simp only [pge_gen_exp, hty]
      exact (pge_gen_backreference_text env e succ _ h1).1
    case PGE_CUT_ALT =>
      simp only [pge_gen_exp, hty]
      exact (pge_gen_cut_text env e succ _ h1).1
    case PGE_CUT_RULE =>
      simp only [pge_gen_exp, hty]
      exact (pge_gen_cut_text env e succ _ h1).1
    case PGE_OTHER k =>
      simp only [pge_gen_exp, hty]
      exact h1
    all_goals
      simp only [pge_gen_exp, hty]
      exact (pge_gen_anchor_text env e succ _ h1).1

/-- On a tree without null pointers and without NullPattern nodes, from a
state without undefined behaviour, `pge_gen` returns a program text: the
rendering of `gen_prog`. -/
theorem pge_gen_some (env : Env) (e : PGE_Exp) (s : State) (hw : e.wf = true)
    (hub : s.ub = false) : pge_gen env e s = some (render (gen_prog env e s)) := by
  obtain ⟨id, hid⟩ := wf_id e hw
  have w1 := pge_gen_prologue_text env e (node_label id) s.fresh (fresh_ok s hub)
  have w2 := exp_ok env e null_str _ hw w1.1
  have w3 := pge_gen_epilogue_text env _ w2
  have hst : pge_gen_state env e s = pge_gen_epilogue env (pge_gen_exp env e null_str
      (pge_gen_prologue env e (node_label id) s.fresh)) := by
    simp only [pge_gen_state, hid]
    rw [prologue_fresh env e _ s hub]
    rfl
  have hsome : pge_gen env e s = some (pge_gen_state env e s).pge_cbuf := by
    unfold pge_gen
    simp only
    rw [if_neg]
    rw [hst, w3.1.1]
    decide
  rw [hsome, ← pge_gen_text env e s _ hsome]

/-! ## Properties that hold of every block -/

theorem trace_istraced (env : Env) (fmt : String) (args : List Arg) (s : State) :
    (trace env fmt args s).pge_istraced = s.pge_istraced := by
  unfold trace
  cases vsprintf fmt.toList args with
  | none => rfl
  | some t =>
    simp only
    split_ifs <;> simp only [emit_istraced]

theorem foldl_emit_istraced (env : Env) (fmt : String) (l : List (List Char)) (s : State) :
    (l.foldl (fun st r => emit env fmt [Arg.s r] st) s).pge_istraced = s.pge_istraced := by
  induction l generalizing s with
  | nil => rfl
  | cons r l ih => rw [List.foldl_cons, ih, emit_istraced]

theorem emitsub_istraced (env : Env) (sub : List Char) (regs : List (List Char)) (s : State) :
    (emitsub env sub regs s).pge_istraced = s.pge_istraced := by
  unfold emitsub
  simp only [emit_istraced, foldl_emit_istraced]

theorem emitlcount_istraced (env : Env) (s : State) :
    (emitlcount env s).pge_istraced = s.pge_istraced := by
  unfold emitlcount
  simp only
  split_ifs
  · rfl
  · exact emit_istraced _ _ _ _
  · rfl

theorem pge_gen_string_istraced (env : Env) (e : PGE_Node) (succ : List Char) (s : State) :
    (pge_gen_string env e succ s).pge_istraced = s.pge_istraced := by
  unfold pge_gen_string pge_gen_string_greedy pge_gen_string_lazy
  simp only [on_cond]
  split_ifs <;> simp only [emit_istraced, trace_istraced, emitsub_istraced]

theorem leaf_istraced (env : Env) (e : PGE_Node) (succ : List Char) (s : State) :
    (pge_gen_pattern_end env e succ s).pge_istraced = s.pge_istraced ∧
    (pge_gen_dot env e succ s).pge_istraced = s.pge_istraced ∧
    (pge_gen_literal env e succ s).pge_istraced = s.pge_istraced ∧
    (pge_gen_anchor env e succ s).pge_istraced = s.pge_istraced ∧
    (pge_gen_cut env e succ s).pge_istraced = s.pge_istraced ∧
    (pge_gen_backreference env e succ s).pge_istraced = s.pge_istraced := by
  refine ⟨?_, ?_, ?_, ?_, ?_, ?_⟩
  · unfold pge_gen_pattern_end
    simp only [emit_istraced, trace_istraced]
  · unfold pge_gen_dot pge_gen_dot_greedy pge_gen_dot_lazy
    simp only [on_cond]
    split_ifs <;> simp only [emit_istraced, trace_istraced, emitsub_istraced]
  · unfold pge_gen_literal
    simp only [emit_istraced, trace_istraced, pge_gen_string_istraced]
  · unfold pge_gen_anchor
    cases e.type <;> simp only [emit_istraced, trace_istraced]
  · unfold pge_gen_cut
    simp only [on_cond]
    split_ifs <;> simp only [emit_istraced, trace_istraced, emitsub_istraced]
  · unfold pge_gen_backreference
    simp only [emit_istraced, trace_istraced, pge_gen_string_istraced]

theorem group_init_istraced (env : Env) (e : PGE_Node) (key repsub : List Char) (s : State) :
    (pge_gen_group_init env e key repsub s).pge_istraced = s.pge_istraced := by
  unfold pge_gen_group_init
  simp only [on_cond]
  split_ifs <;> simp only [emit_istraced]

theorem group_repeat_istraced (env : Env) (e : PGE_Node) (key repsub r1sub succ : List Char)
    (s : State) :
    (pge_gen_group_repeat env e key repsub r1sub succ s).pge_istraced = s.pge_istraced := by
  unfold pge_gen_group_repeat
  simp only [on_cond]
  split_ifs <;> simp only [emit_istraced, emitsub_istraced]

/-- No generator function changes the trace flag. -/
theorem pge_gen_exp_istraced (env : Env) : ∀ (e : PGE_Exp) (succ : List Char) (s : State),
    (pge_gen_exp env e succ s).pge_istraced = s.pge_istraced
  | .null, _, _ => rfl
  | .node e exp1 exp2, succ, s => by
    have h1 := pge_gen_exp_istraced env exp1
    have h2 := pge_gen_exp_istraced env exp2
    obtain ⟨l1, l2, l3, l4, l5, l6⟩ :=
      leaf_istraced env e succ (emit env "  R%d:\n" [Arg.d e.id] (emitlcount env s))
    have l0 : (emit env "  R%d:\n" [Arg.d e.id] (emitlcount env s)).pge_istraced =
        s.pge_istraced := by rw [emit_istraced, emitlcount_istraced]
    simp only [pge_gen_exp]
    cases e.type <;> simp only [l1, l2, l3, l4, l5, l6, emit_istraced, emitlcount_istraced]
    · cases exp1.id? <;> cases exp2.id? <;>
        simp only [State.fault, pge_gen_concat, h1, h2, emit_istraced, emitlcount_istraced]
    · cases exp1.id? with
      | none => exact l0
      | some id1 =>
        simp only [pge_gen_group]
        split_ifs <;>
          simp only [h1, group_init_istraced, group_repeat_istraced, trace_istraced, emit_istraced,
            emitlcount_istraced]
    · cases exp1.id? <;> cases exp2.id? <;>
        simp only [State.fault, pge_gen_alt, h1, h2, emit_istraced, trace_istraced,
          emitsub_istraced, emitlcount_istraced]

/-- A property of instruction lists that holds of the block of every node
kind holds of `exp_prog`. -/
theorem exp_prog_ind (env : Env) (tr : Bool) (G : List Char → Prop) (P : List Instr → Prop)
    (hP : BlockProp env tr G P) : ∀ (e : PGE_Exp) (succ : List Char) (s : State),
    s.pge_istraced = tr → G succ → P (exp_prog env e succ s)
  | .null, _, _, _, _ => hP.nil
  | .node e exp1 exp2, succ, s, ht, hg => by
    have h1 := exp_prog_ind env tr G P hP exp1
    have h2 := exp_prog_ind env tr G P hP exp2
    have l0 : (emit env "  R%d:\n" [Arg.d e.id] (emitlcount env s)).pge_istraced = tr := by
      rw [emit_istraced, emitlcount_istraced, ht]
    simp only [exp_prog]
    refine hP.append _ _ (hP.marker _) (hP.append [_] _ (hP.label _) ?_)
    cases hty : e.type
    case PGE_CONCAT =>
      simp only
      cases exp1.id? with
      | none => exact hP.nil
      | some id1 =>
        cases exp2.id? with
        | none => exact hP.nil
        | some id2 =>
          refine hP.append [_] _ (hP.concat _ _)
            (hP.append _ _ (h1 _ _ ?_ (hP.succ_node _)) (h2 _ _ ?_ hg))
          · rw [emit_istraced, l0]
          · rw [pge_gen_exp_istraced, emit_istraced, l0]
    case PGE_GROUP =>
      simp only
      cases exp1.id? with
      | none => exact hP.nil
      | some id1 =>
        simp only [ht]
        refine hP.append _ _ (hP.group_trace _ _) ?_
        by_cases hc : e.min = 1 ∧ e.max = 1 ∧ e.group < 0
        · rw [if_pos hc]
          exact h1 _ _ (by rw [trace_istraced, l0]) hg
        · rw [if_neg hc]
          refine hP.append _ _ (hP.group_init _)
            (hP.append _ _ (hP.group_repeat _ _ _ hg) ?_)
          exact h1 _ _ (by
            rw [group_repeat_istraced, group_init_istraced, trace_istraced, l0])
            (hP.succ_repeat _)
    case PGE_ALT =>
      simp only
      cases exp1.id? with
      | none => exact hP.nil
      | some id1 =>
        cases exp2.id? with
        | none => exact hP.nil
        | some id2 =>
          simp only [ht]
          refine hP.append _ _ (hP.alt _ _) (hP.append _ _ (h1 _ _ ?_ hg) (h2 _ _ ?_ hg))
          · rw [emit_istraced, emitsub_istraced, trace_istraced, l0]
          · rw [pge_gen_exp_istraced, emit_istraced, emitsub_istraced, trace_istraced, l0]
    all_goals
      simp only [ht]
      have h := hP.leaf e succ hg
      simp only [leaf_prog, hty] at h ⊢
      exact h

theorem all_local_append (p q : List Instr) (hp : p.all Instr.local_label = true)
    (hq : q.all Instr.local_label = true) : (p ++ q).all Instr.local_label = true := by
  rw [List.all_append, hp, hq]
  rfl

set_option maxRecDepth 20000 in
theorem leaf_local (env : Env) (tr : Bool) (e : PGE_Node) (succ : List Char) :
    (leaf_prog env e succ tr).all Instr.local_label = true := by
  cases hty : e.type <;>
  simp only [leaf_prog, hty, pattern_end_prog, dot_prog, dot_greedy_prog, dot_lazy_prog,
    literal_body_prog, string_prog, string_fixed_prog, string_greedy_prog, string_lazy_prog,
    anchor_prog, eol_prog, cut_prog, backref_prog, backref_head_prog, trace_prog,
    emitsub_prog] <;>
  first
    | rfl
    | (split_ifs <;> rfl)

set_option maxRecDepth 20000 in
theorem group_local (env : Env) (e : PGE_Node) (id1 : Int) (succ : List Char) :
    (group_init_prog e (group_key e) (repeat_label e.id)).all Instr.local_label = true ∧
    (group_repeat_prog env e (group_key e) (repeat_label e.id) (node_label id1) succ).all
      Instr.local_label = true := by
  constructor
  · unfold group_init_prog
    split_ifs <;> rfl
  · unfold group_repeat_prog repeat_head_prog repeat_greedy_prog repeat_lazy_prog
      repeat_tail_prog body_call_prog emitsub_prog group_regs
    split_ifs <;> rfl

theorem local_blocks (env : Env) (tr : Bool) :
    BlockProp env tr (fun _ => True) (fun p => p.all Instr.local_label = true) where
  nil := rfl
  append := all_local_append
  marker := fun o => by cases o <;> rfl
  label := fun _ => rfl
  succ_node := fun _ => trivial
  succ_repeat := fun _ => trivial
  leaf := fun e succ _ => leaf_local env tr e succ
  concat := fun _ _ => rfl
  group_trace := fun _ _ => by cases tr <;> rfl
  group_init := fun e => (group_local env e 0 []).1
  group_repeat := fun e id1 succ _ => (group_local env e id1 succ).2
  alt := fun _ _ => by cases tr <;> rfl

/-! ## The lines of the text -/

theorem nl_digit (d : Nat) (h : d < 10) : Char.ofNat (48 + d) ≠ '\n' := by
  interval_cases d <;> decide

theorem nl_fmt_nat_aux (fuel : Nat) : ∀ (n : Nat) (acc : List Char), '\n' ∉ acc →
    '\n' ∉ fmt_nat_aux fuel n acc := by
  induction fuel with
  | zero => intro n acc h; simpa [fmt_nat_aux] using h
  | succ fuel ih =>
    intro n acc h
    unfold fmt_nat_aux
    split_ifs with hn
    · simp only [List.mem_cons, not_or]
      exact ⟨(nl_digit n hn).symm, h⟩
    · apply ih
      simp only [List.mem_cons, not_or]
      exact ⟨(nl_digit (n % 10) (Nat.mod_lt _ (by decide))).symm, h⟩

theorem nl_fmt_d (n : Int) : '\n' ∉ fmt_d n := by
  cases n with
  | ofNat n => exact nl_fmt_nat_aux _ _ _ (by simp)
  | negSucc n =>
    simp only [fmt_d, List.mem_cons, not_or]
    exact ⟨by decide, nl_fmt_nat_aux _ _ _ (by simp)⟩

theorem nl_ireg (r : IReg) : '\n' ∉ r.name := by cases r <;> decide

theorem nl_sreg (r : SReg) : '\n' ∉ r.name := by cases r <;> decide

theorem nl_preg (r : PReg) : '\n' ∉ r.name := by cases r <;> decide

theorem nl_reg (r : Reg) : '\n' ∉ r.name := by
  cases r with
  | int r => exact nl_ireg r
  | string r => exact nl_sreg r
  | pmc r => exact nl_preg r

theorem nl_cmp (c : Cmp) : '\n' ∉ c.text := by cases c <;> decide

theorem nl_opd (b : Opd) : '\n' ∉ b.text := by
  cases b with
  | reg r => exact nl_ireg r
  | num n => exact nl_fmt_d n

/-- An instruction whose strings have no newline is written on one line. -/
theorem text_one_line (i : Instr) (h : ∀ a ∈ i.strings, '\n' ∉ a) : '\n' ∉ i.text := by
  cases i <;>
    simp only [Instr.strings, List.mem_cons, List.mem_singleton, List.not_mem_nil, or_false,
      forall_eq_or_imp, forall_eq, false_implies, implies_true] at h <;>
    simp [Instr.text, Instr.write, nl_ireg, nl_sreg, nl_preg, nl_reg, nl_cmp, nl_opd,
      nl_fmt_d, h]

theorem nl_vsprintf : ∀ (fmt : List Char) (args : List Arg) (out : List Char),
    vsprintf fmt args = some out → '\n' ∉ fmt → (∀ a ∈ args, a.tidy) → '\n' ∉ out := by
  intro fmt args
  induction fmt, args using vsprintf.induct with
  | case1 args =>
    intro out h _ _
    simp only [vsprintf, Option.some.injEq] at h
    subst h
    simp
  | case2 fmt n args ih =>
    intro out h hf ha
    simp only [vsprintf, Option.map_eq_some'] at h
    obtain ⟨o, ho, rfl⟩ := h
    have := ih o ho (by simp at hf ⊢; tauto) (fun a h => ha a (List.mem_cons_of_mem _ h))
    simp [nl_fmt_d, this]
  | case3 fmt str args ih =>
    intro out h hf ha
    simp only [vsprintf, Option.map_eq_some'] at h
    obtain ⟨o, ho, rfl⟩ := h
    have := ih o ho (by simp at hf ⊢; tauto) (fun a h => ha a (List.mem_cons_of_mem _ h))
    have hs : '\n' ∉ str := ha (Arg.s str) (List.mem_cons_self _ _)
    simp [hs, this]
  | case4 fmt ch args ih =>
    intro out h hf ha
    simp only [vsprintf, Option.map_eq_some'] at h
    obtain ⟨o, ho, rfl⟩ := h
    have := ih o ho (by simp at hf ⊢; tauto) (fun a h => ha a (List.mem_cons_of_mem _ h))
    have hs : ch ≠ '\n' := ha (Arg.c ch) (List.mem_cons_self _ _)
    simp [hs.symm, this]
  | case5 fmt str args ih =>
    intro out h hf ha
    simp only [vsprintf, Option.map_eq_some'] at h
    obtain ⟨o, ho, rfl⟩ := h
    have := ih o ho (by simp at hf ⊢; tauto) (fun a h => ha a (List.mem_cons_of_mem _ h))
    have hs : '\n' ∉ str := ha (Arg.s str) (List.mem_cons_self _ _)
    have hs' : '\n' ∉ str.take 16 := fun h => hs (List.mem_of_mem_take h)
    simp [hs', this]
  | case6 tail args h1 h2 h3 h4 =>
    intro out h _ _
    rw [vsprintf.eq_6 _ _ h1 h2 h3 h4] at h
    exact absurd h (by simp)
  | case7 ch fmt args h1 h2 h3 h4 h5 ih =>
    intro out h hf ha
    rw [vsprintf.eq_7 _ _ _ h5 h1 h2 h3 h4, Option.map_eq_some'] at h
    obtain ⟨o, ho, rfl⟩ := h
    simp only [List.mem_cons, not_or] at hf
    have := ih o ho hf.2 ha
    simp only [List.mem_cons, not_or]
    exact ⟨hf.1, this⟩

theorem nl_sprintf (fmt : String) (args : List Arg) (hf : '\n' ∉ fmt.toList)
    (ha : ∀ a ∈ args, a.tidy) : '\n' ∉ sprintf fmt args := by
  unfold sprintf
  cases h : vsprintf fmt.toList args with
  | none => simp
  | some out => exact nl_vsprintf _ _ _ h hf ha

theorem nl_str_con_loop (s : List Char) : ∀ (n : Nat), '\n' ∉ str_con_loop s n := by
  induction s with
  | nil => intro n; cases n <;> simp [str_con_loop]
  | cons c cs ih =>
    intro n
    cases n with
    | zero => simp [str_con_loop]
    | succ n =>
      simp only [str_con_loop, List.mem_append, not_or]
      refine ⟨?_, ih n⟩
      unfold str_con_esc
      split_ifs with h1 h2 h3 h4 h5 h6 h7 <;> simp
      exact fun h => h4 h.symm

theorem nl_str_con (s : List Char) (len : Int) : '\n' ∉ str_con s len := by
  simp [str_con, nl_str_con_loop]

theorem nl_fmt_quant (env : Env) (e : PGE_Node) : '\n' ∉ fmt_quant env e := by
  unfold fmt_quant
  simp only
  split_ifs <;> apply nl_sprintf <;> first | decide | skip
  all_goals
    intro a ha
    simp only [List.mem_cons, List.mem_singleton, List.not_mem_nil, or_false] at ha
    rcases ha with rfl | rfl | rfl <;> first | trivial | (simp only [Arg.tidy]; decide)

theorem tidy_nil : tidy [] := fun _ h => absurd h (List.not_mem_nil _)

theorem tidy_append (p q : List Instr) : tidy (p ++ q) ↔ tidy p ∧ tidy q := by
  unfold tidy
  simp only [List.mem_append]
  constructor
  · exact fun h => ⟨fun i hi => h i (Or.inl hi), fun i hi => h i (Or.inr hi)⟩
  · rintro ⟨h1, h2⟩ i (hi | hi)
    · exact h1 i hi
    · exact h2 i hi

theorem tidy_cons (i : Instr) (p : List Instr) :
    tidy (i :: p) ↔ (∀ a ∈ i.strings, '\n' ∉ a) ∧ tidy p := by
  unfold tidy
  simp only [List.mem_cons, forall_eq_or_imp]

theorem nl_take (n : Nat) (l : List Char) (h : '\n' ∉ l) : '\n' ∉ l.take n :=
  fun h' => h (List.mem_of_mem_take h')

theorem nl_aux_label (id : Int) (suffix : String) (h : '\n' ∉ suffix.toList) :
    '\n' ∉ aux_label id suffix := by
  simp only [aux_label, List.mem_cons, List.mem_append, not_or]
  exact ⟨by decide, nl_fmt_d id, h⟩

theorem nl_node_label (id : Int) : '\n' ∉ node_label id :=
  nl_sprintf _ _ (by decide) (fun _ _ => by simp_all [Arg.tidy])

theorem nl_repeat_label (id : Int) : '\n' ∉ repeat_label id :=
  nl_sprintf _ _ (by decide) (fun _ _ => by simp_all [Arg.tidy])

theorem nl_group_key (e : PGE_Node) : '\n' ∉ group_key e :=
  nl_sprintf _ _ (by decide) (fun _ _ => by simp_all [Arg.tidy])

theorem tidy_trace (tr : Bool) (t : List Char) (h : '\n' ∉ t) : tidy (trace_prog tr t) := by
  have h' := nl_take 79 t h
  cases tr <;> simp [trace_prog, tidy_cons, tidy_nil, Instr.strings, h']

theorem tidy_emitsub (sub : List Char) (regs : List Reg) (h : '\n' ∉ sub) :
    tidy (emitsub_prog sub regs) := by
  intro i hi a ha
  simp only [emitsub_prog, List.mem_append, List.mem_map, List.mem_cons, List.mem_singleton,
    List.mem_reverse, List.not_mem_nil, or_false] at hi
  rcases hi with ⟨r, -, rfl⟩ | rfl | ⟨r, -, rfl⟩ | rfl <;>
    simp only [Instr.strings, List.mem_singleton, List.not_mem_nil] at ha
  · rw [ha]; exact h
  · rw [ha]; decide

theorem nl_suffix (l : List Char) (sfx : String) (hl : '\n' ∉ l) (h : '\n' ∉ sfx.toList) :
    '\n' ∉ l ++ sfx.toList := by
  simp only [List.mem_append, not_or]
  exact ⟨hl, h⟩

theorem tidy_args1 (a : Arg) (h : a.tidy) : ∀ x ∈ [a], x.tidy := by
  intro x hx
  rw [List.mem_singleton.mp hx]
  exact h

theorem tidy_args2 (a b : Arg) (ha : a.tidy) (hb : b.tidy) : ∀ x ∈ [a, b], x.tidy := by
  intro x hx
  simp only [List.mem_cons, List.mem_singleton, List.not_mem_nil, or_false] at hx
  rcases hx with rfl | rfl
  · exact ha
  · exact hb

set_option maxRecDepth 20000 in
set_option maxHeartbeats 1000000 in
theorem leaf_tidy (env : Env) (tr : Bool) (e : PGE_Node) (succ : List Char)
    (hs : '\n' ∉ succ) : tidy (leaf_prog env e succ tr) := by
  have hq := nl_fmt_quant env e
  have hc := nl_str_con e.name e.nlen
  cases hty : e.type <;>
  simp only [leaf_prog, hty, pattern_end_prog, dot_prog, dot_greedy_prog, dot_lazy_prog,
    literal_body_prog, string_prog, string_fixed_prog, string_greedy_prog, string_lazy_prog,
    anchor_prog, eol_prog, cut_prog, backref_prog, backref_head_prog] <;>
  (try split_ifs) <;>
  simp only [tidy_append, tidy_cons, tidy_nil, Instr.strings, List.mem_cons, List.mem_singleton,
    forall_eq_or_imp, forall_eq, List.not_mem_nil, false_implies, implies_true, and_true,
    true_and, SOpd.text, reduceCtorEq] <;>
  (repeat' apply And.intro) <;>
  first
    | exact tidy_nil
    | exact hs
    | exact hc
    | exact nl_aux_label _ _ (by decide)
    | exact nl_group_key e
    | exact tidy_emitsub _ _ hs
    | exact tidy_trace _ _ (by decide)
    | exact tidy_trace _ _ (nl_sprintf _ _ (by decide) (tidy_args1 _ hq))
    | exact tidy_trace _ _ (nl_sprintf _ _ (by decide) (tidy_args2 _ _ hc hq))
    | exact tidy_trace _ _ (nl_sprintf _ _ (by decide) (tidy_args2 _ _ trivial hq))
    | exact nl_sreg _
    | decide

set_option maxRecDepth 20000 in
set_option maxHeartbeats 1000000 in
theorem group_tidy (env : Env) (e : PGE_Node) (id1 : Int) (succ : List Char)
    (hs : '\n' ∉ succ) :
    tidy (group_init_prog e (group_key e) (repeat_label e.id)) ∧
    tidy (group_repeat_prog env e (group_key e) (repeat_label e.id) (node_label id1) succ) := by
  have hk := nl_group_key e
  have hr := nl_repeat_label e.id
  have hn := nl_node_label id1
  constructor
  · unfold group_init_prog
    split_ifs <;>
    simp only [tidy_append, tidy_cons, tidy_nil, Instr.strings, List.mem_cons,
      List.mem_singleton, forall_eq_or_imp, forall_eq, List.not_mem_nil, false_implies,
      implies_true, and_true, true_and] <;>
    (repeat' apply And.intro) <;>
    first
      | exact hk
      | exact hr
      | exact nl_aux_label _ _ (by decide)
      | decide
  · unfold group_repeat_prog repeat_head_prog repeat_greedy_prog repeat_lazy_prog
      repeat_tail_prog body_call_prog
    split_ifs <;>
    simp only [tidy_append, tidy_cons, tidy_nil, Instr.strings, List.mem_cons,
      List.mem_singleton, forall_eq_or_imp, forall_eq, List.not_mem_nil, false_implies,
      implies_true, and_true, true_and] <;>
    (repeat' apply And.intro) <;>
    first
      | exact hk
      | exact hr
      | exact nl_suffix _ _ hr (by decide)
      | exact tidy_emitsub _ _ hs
      | exact tidy_emitsub _ _ hn
      | decide

theorem marker_tidy (o : Option Int) : tidy (marker_prog o) := by
  cases o with
  | none => exact tidy_nil
  | some n =>
    simp only [marker_prog, tidy_cons, tidy_nil, Instr.strings, List.mem_singleton, forall_eq,
      and_true]
    exact nl_sprintf _ _ (by decide) (tidy_args1 _ trivial)

theorem alt_tidy (id1 id2 : Int) (tr : Bool) : tidy (alt_body_prog id1 id2 tr) := by
  unfold alt_body_prog
  simp only [tidy_append, tidy_cons, tidy_nil, Instr.strings, List.mem_singleton, forall_eq,
    List.not_mem_nil, false_implies, implies_true, and_true]
  exact ⟨⟨tidy_trace _ _ (nl_sprintf _ _ (by decide) (tidy_args2 _ _ trivial trivial)),
    tidy_emitsub _ _ (nl_node_label id1)⟩, nl_node_label id2⟩

theorem group_trace_tidy (env : Env) (tr : Bool) (e : PGE_Node) (id1 : Int) :
    tidy (trace_prog tr (group_trace_text env e id1)) := by
  apply tidy_trace
  apply nl_sprintf _ _ (by decide)
  intro a ha
  simp only [List.mem_cons, List.mem_singleton, List.not_mem_nil, or_false] at ha
  rcases ha with rfl | rfl | rfl | rfl | rfl
  · exact nl_group_key e
  · simp only [Arg.tidy]; split_ifs <;> decide
  · exact nl_node_label id1
  · simp only [Arg.tidy]; split_ifs <;> decide
  · exact nl_fmt_quant env e

set_option maxRecDepth 20000 in
set_option maxHeartbeats 1000000 in
theorem prologue_tidy (env : Env) (e : PGE_Exp) (r1sub : List Char) (tr : Bool)
    (hr : '\n' ∉ r1sub) : tidy (prologue_prog env e r1sub tr) := by
  unfold prologue_prog
  cases tr <;> cases env.pge_is_bos_anchored e <;>
  simp only [tidy_append, tidy_cons, tidy_nil, Instr.strings, List.mem_cons,
    List.mem_singleton, forall_eq_or_imp, forall_eq, List.not_mem_nil, false_implies,
    implies_true, and_true, true_and, Bool.false_eq_true, if_false, if_true, Bool.not_true,
    Bool.not_false] <;>
  (repeat' apply And.intro) <;>
  first
    | exact tidy_emitsub _ _ hr
    | decide

theorem epilogue_tidy (tr : Bool) : tidy (epilogue_prog tr) := by
  unfold epilogue_prog
  simp only [tidy_append, tidy_cons, tidy_nil, Instr.strings, List.mem_singleton, forall_eq,
    List.not_mem_nil, false_implies, implies_true, and_true, true_and]
  exact ⟨by decide, tidy_trace _ _ (by decide), by decide, tidy_trace _ _ (by decide),
    by decide⟩

theorem tidy_blocks (env : Env) (tr : Bool) :
    BlockProp env tr (fun l => '\n' ∉ l) tidy where
  nil := tidy_nil
  append := fun p q hp hq => (tidy_append p q).mpr ⟨hp, hq⟩
  marker := marker_tidy
  label := fun id => by
    simp only [tidy_cons, tidy_nil, Instr.strings, List.mem_singleton, forall_eq, and_true]
    exact nl_node_label id
  succ_node := nl_node_label
  succ_repeat := nl_repeat_label
  leaf := fun e succ hs => leaf_tidy env tr e succ hs
  concat := fun id1 id2 => by
    simp only [tidy_cons, tidy_nil, Instr.strings, List.mem_singleton, forall_eq, and_true]
    exact nl_sprintf _ _ (by decide) (tidy_args2 _ _ trivial trivial)
  group_trace := fun e id1 => group_trace_tidy env tr e id1
  group_init := fun e => (group_tidy env e 0 [] (List.not_mem_nil _)).1
  group_repeat := fun e id1 succ hs => (group_tidy env e id1 succ hs).2
  alt := fun id1 id2 => alt_tidy id1 id2 tr

/-- Every instruction of `gen_prog` is written on one line. -/
theorem gen_prog_one_line (env : Env) (e : PGE_Exp) (s : State) :
    ∀ i ∈ gen_prog env e s, '\n' ∉ i.text := by
  have h : tidy (gen_prog env e s) := by
    unfold gen_prog
    cases e.id? with
    | none => exact tidy_nil
    | some id =>
      simp only [tidy_append]
      exact ⟨prologue_tidy env e _ _ (nl_node_label id),
        exp_prog_ind env _ _ _ (tidy_blocks env _) e null_str _ rfl (by decide),
        epilogue_tidy _⟩
  exact fun i hi => text_one_line i (h i hi)

/-- The lines of the rendering of an instruction list are the texts of the
instructions, one by one (and the empty rest after the last newline). -/
theorem lines_render (p : List Instr) (h : ∀ i ∈ p, '\n' ∉ i.text) :
    (render p).splitOn '\n' = p.map Instr.text ++ [[]] := by
  induction p with
  | nil => rfl
  | cons i p ih =>
    have hi := h i (List.mem_cons_self _ _)
    have hw : render (i :: p) = i.text ++ '\n' :: render p := by
      show i.write ('\n' :: render p) = i.write [] ++ '\n' :: render p
      rw [← write_append, List.nil_append]
    have hx : ∀ x ∈ i.text, ¬ (x == '\n') = true := by
      intro x hx hx'
      rw [beq_iff_eq] at hx'
      rw [hx'] at hx
      exact hi hx
    rw [hw, List.splitOn, List.splitOnP_first (· == '\n') i.text hx '\n' (by rfl),
      List.map_cons, List.cons_append, ← ih (fun j hj => h j (List.mem_cons_of_mem _ hj))]
    rfl

/-- The lines of the text `pge_gen` returns are the texts of the instructions
of `gen_prog`, one by one. -/
theorem pge_gen_lines (env : Env) (e : PGE_Exp) (s : State) (text : List Char)
    (h : pge_gen env e s = some text) :
    text.splitOn '\n' = (gen_prog env e s).map Instr.text ++ [[]] := by
  rw [pge_gen_text env e s text h]
  exact lines_render _ (gen_prog_one_line env e s)

/-! ## Tracing disabled -/

theorem quiet_append (p q : List Instr) (hp : quiet p = true) (hq : quiet q = true) :
    quiet (p ++ q) = true := by
  unfold quiet at *
  rw [List.all_append, hp, hq]
  rfl

set_option maxRecDepth 100000 in
set_option maxHeartbeats 2000000 in
theorem leaf_quiet (env : Env) (e : PGE_Node) (succ : List Char) :
    quiet (leaf_prog env e succ false) = true := by
  cases hty : e.type <;>
  simp only [leaf_prog, hty, pattern_end_prog, dot_prog, dot_greedy_prog, dot_lazy_prog,
    literal_body_prog, string_prog, string_fixed_prog, string_greedy_prog, string_lazy_prog,
    anchor_prog, eol_prog, cut_prog, backref_prog, backref_head_prog, trace_prog,
    emitsub_prog, Bool.false_eq_true, if_false] <;>
  first
    | rfl
    | (split_ifs <;> rfl)

set_option maxRecDepth 100000 in
set_option maxHeartbeats 2000000 in
theorem group_quiet (env : Env) (e : PGE_Node) (id1 : Int) (succ : List Char) :
    quiet (group_init_prog e (group_key e) (repeat_label e.id)) = true ∧
    quiet (group_repeat_prog env e (group_key e) (repeat_label e.id) (node_label id1) succ) =
      true := by
  constructor
  · unfold group_init_prog
    split_ifs <;> rfl
  · unfold group_repeat_prog repeat_head_prog repeat_greedy_prog repeat_lazy_prog
      repeat_tail_prog body_call_prog emitsub_prog group_regs
    split_ifs <;> rfl

theorem quiet_blocks (env : Env) :
    BlockProp env false (fun _ => True) (fun p => quiet p = true) where
  nil := rfl
  append := quiet_append
  marker := fun o => by cases o <;> rfl
  label := fun _ => rfl
  succ_node := fun _ => trivial
  succ_repeat := fun _ => trivial
  leaf := fun e succ _ => leaf_quiet env e succ
  concat := fun _ _ => rfl
  group_trace := fun _ _ => rfl
  group_init := fun e => (group_quiet env e 0 []).1
  group_repeat := fun e id1 succ _ => (group_quiet env e id1 succ).2
  alt := fun _ _ => rfl

set_option maxRecDepth 100000 in
theorem prologue_quiet (env : Env) (e : PGE_Exp) (r1sub : List Char) :
    quiet (prologue_prog env e r1sub false) = true := by
  unfold prologue_prog emitsub_prog
  cases env.pge_is_bos_anchored e <;> rfl

/-- A run of `pge_gen` that returns a text started without undefined
behaviour. -/
theorem ub_of_pge_gen (env : Env) (e : PGE_Exp) (s : State) (text : List Char)
    (h : pge_gen env e s = some text) : s.ub = false := by
  unfold pge_gen at h
  simp only at h
  split_ifs at h with hub
  simp only [Bool.not_eq_true] at hub
  unfold pge_gen_state at hub
  cases hid : e.id? with
  | none => simp [hid, State.fault] at hub
  | some id =>
    simp only [hid] at hub
    have hub2 := ub_of_final (fun s h => epilogue_of_ub h env) hub
    have hub1 := ub_of_final (pge_gen_exp_of_ub env e null_str) hub2
    cases hs : s.ub with
    | false => rfl
    | true =>
      have h' : ({ s with pge_cbuf_len := 0, pge_cbuf_lcount := 0 } : State).ub = true := hs
      rw [prologue_of_ub h'] at hub1
      exact h'.symm.trans hub1

/-- With tracing off, `trace` writes one comment line. -/
theorem trace_off_text (env : Env) (fmt : String) (args : List Arg) (t : List Char) (s : State)
    (hs : s.ok) (htr : s.pge_istraced = false) (hv : vsprintf fmt.toList args = some t) :
    Emits s (trace env fmt args s) (render [.comment 4 (' ' :: t.take 79)]) := by
  have h := trace_text env fmt args t s hs hv
  rw [htr] at h
  exact h

/-- C14: tracing disabled.  With `pge_istraced` clear, for every tree no line
of the text `pge_gen` returns is a `.trace(...)` call or the first or last line
of a macro definition (`.macro`, `.endm`); every call of `trace` from a sound
state writes exactly one line, the comment `    # <text>`. -/
theorem trace_off_no_trace_lines (env : Env) (e : PGE_Exp) (s : State) (text : List Char)
    (htr : s.pge_istraced = false) (h : pge_gen env e s = some text) :
    (∀ l ∈ text.splitOn '\n', trace_line l = false) ∧
    (∀ (fmt : String) (args : List Arg) (t : List Char) (s' : State), s'.ok →
      s'.pge_istraced = false → vsprintf fmt.toList args = some t →
      Emits s' (trace env fmt args s') (render [.comment 4 (' ' :: t.take 79)])) := by
  refine ⟨?_, fun fmt args t s' hs ht hv => trace_off_text env fmt args t s' hs ht hv⟩
  have hall : quiet (gen_prog env e s) = true := by
    unfold gen_prog
    cases e.id? with
    | none => rfl
    | some id =>
      simp only [htr]
      refine quiet_append _ _ (prologue_quiet env e _) (quiet_append _ _ ?_ rfl)
      refine exp_prog_ind env false _ _ (quiet_blocks env) e null_str _ ?_ trivial
      rw [prologue_istraced env e _ _ (fresh_ok s (ub_of_pge_gen env e s text h))]
      exact htr
  intro l hl
  rw [pge_gen_lines env e s text h, List.mem_append, List.mem_map, List.mem_singleton] at hl
  rcases hl with ⟨i, hi, rfl⟩ | rfl
  · have := List.all_eq_true.mp hall i hi
    simpa using this
  · rfl

theorem trace_off_no_trace_lines_witness :
    Emits State.initial (trace env_demo "eop" [] State.initial)
      (render [.comment 4 (' ' :: "eop".toList.take 79)]) ∧
    trace_line (Instr.text (.comment 4 (' ' :: "eop".toList.take 79))) = false ∧
    trace_line (Instr.text (.trace_call "eop".toList)) = true :=
  ⟨(trace_off_no_trace_lines env_demo tree_group State.initial
    (render (gen_prog env_demo tree_group State.initial)) rfl
    (pge_gen_some env_demo tree_group State.initial rfl rfl)).2
    "eop" [] "eop".toList State.initial ⟨rfl, rfl⟩ rfl rfl, rfl, rfl⟩

/-! ## The shared failure labels -/

theorem defines_of_local (l : List Char) (hl : l.head? ≠ some 'R') (p : List Instr)
    (h : p.all Instr.local_label = true) : ∀ i ∈ p, i.defines l = false := by
  intro i hi
  have hi' := List.all_eq_true.mp h i hi
  cases i <;> try rfl
  rename_i n name
  simp only [Instr.local_label, beq_iff_eq] at hi'
  simp only [Instr.defines, decide_eq_false_iff_not]
  intro heq
  rw [heq] at hi'
  exact hl hi'

theorem label_count_zero (l : List Char) (p : List Instr)
    (h : ∀ i ∈ p, i.defines l = false) : label_count l p = 0 := by
  unfold label_count
  rw [List.countP_eq_zero]
  intro i hi
  rw [h i hi]
  decide

theorem label_count_append (l : List Char) (p q : List Instr) :
    label_count l (p ++ q) = label_count l p + label_count l q :=
  List.countP_append _ _ _

theorem defines_of_count (l : List Char) (p : List Instr) (h : label_count l p = 0) :
    ∀ i ∈ p, i.defines l = false := by
  unfold label_count at h
  rw [List.countP_eq_zero] at h
  intro i hi
  simpa using h i hi

set_option maxRecDepth 20000 in
theorem prologue_counts (env : Env) (e : PGE_Exp) (r1sub : List Char) (tr : Bool) :
    label_count "fail_group".toList (prologue_prog env e r1sub tr) = 0 ∧
    label_count "fail".toList (prologue_prog env e r1sub tr) = 0 ∧
    label_count "fail_forever".toList (prologue_prog env e r1sub tr) = 1 := by
  unfold prologue_prog emitsub_prog
  cases tr <;> cases env.pge_is_bos_anchored e <;> exact ⟨rfl, rfl, rfl⟩

theorem exp_prog_local (env : Env) (e : PGE_Exp) (succ : List Char) (s : State) :
    (exp_prog env e succ s).all Instr.local_label = true :=
  exp_prog_ind env s.pge_istraced _ _ (local_blocks env s.pge_istraced) e succ s rfl trivial

/-- The block `fail` clears the group-cut flag and returns to the caller. -/
theorem fail_run {prog : List Instr} {ext : Ext} {tr : Bool} {st : Store}
    {sv : List Val} {k : List Instr} {ks : List (List Instr)} {L : List Event}
    {P : Machine → Prop}
    (h : Leads prog ext ⟨k, st.set_int .cutgrp 0, sv, ks,
      L ++ [Event.arrive "fail".toList (st.int .pos) (st.int .rep)], .running⟩ P) :
    Leads prog ext ⟨fail_prog tr, st, sv, k :: ks, L, .running⟩ P := by
  unfold fail_prog
  apply leads_step
  simp only [Machine.exec]
  apply leads_trace
  apply leads_step
  simp only [Machine.exec, Store.opd]
  apply leads_step
  simp only [Machine.exec, Machine.do_ret]
  exact h

theorem shared_free_append (p q : List Instr) (hp : shared_free p = true)
    (hq : shared_free q = true) : shared_free (p ++ q) = true := by
  unfold shared_free at *
  rw [List.all_append, hp, hq]
  rfl

set_option maxRecDepth 100000 in
set_option maxHeartbeats 2000000 in
theorem leaf_shared_free (env : Env) (tr : Bool) (e : PGE_Node) (succ : List Char) :
    shared_free (leaf_prog env e succ tr) = true := by
  cases hty : e.type <;>
  simp only [leaf_prog, hty, pattern_end_prog, dot_prog, dot_greedy_prog, dot_lazy_prog,
    literal_body_prog, string_prog, string_fixed_prog, string_greedy_prog, string_lazy_prog,
    anchor_prog, eol_prog, cut_prog, backref_prog, backref_head_prog, trace_prog,
    emitsub_prog] <;>
  first
    | rfl
    | (split_ifs <;> rfl)

set_option maxRecDepth 100000 in
set_option maxHeartbeats 2000000 in
theorem group_shared_free (env : Env) (e : PGE_Node) (id1 : Int) (succ : List Char) :
    shared_free (group_init_prog e (group_key e) (repeat_label e.id)) = true ∧
    shared_free
      (group_repeat_prog env e (group_key e) (repeat_label e.id) (node_label id1) succ) =
      true := by
  constructor
  · unfold group_init_prog
    split_ifs <;> rfl
  · unfold group_repeat_prog repeat_head_prog repeat_greedy_prog repeat_lazy_prog
      repeat_tail_prog body_call_prog emitsub_prog group_regs
    split_ifs <;> rfl

theorem shared_free_blocks (env : Env) (tr : Bool) :
    BlockProp env tr (fun _ => True) (fun p => shared_free p = true) where
  nil := rfl
  append := shared_free_append
  marker := fun o => by cases o <;> rfl
  label := fun _ => rfl
  succ_node := fun _ => trivial
  succ_repeat := fun _ => trivial
  leaf := fun e succ _ => leaf_shared_free env tr e succ
  concat := fun _ _ => rfl
  group_trace := fun _ _ => by cases tr <;> rfl
  group_init := fun e => (group_shared_free env e 0 []).1
  group_repeat := fun e id1 succ _ => (group_shared_free env e id1 succ).2
  alt := fun _ _ => by cases tr <;> rfl

theorem line_defines_nil (name : List Char) : line_defines name [] = false := by
  cases name <;> rfl

/-- The lines of a rendering that define the label `name` are those of the
instructions. -/
theorem label_lines_render (name : List Char) (p : List Instr)
    (h : ∀ i ∈ p, '\n' ∉ i.text) :
    label_lines name (render p) = p.countP (fun i => line_defines name i.text) := by
  unfold label_lines
  rw [lines_render p h, List.countP_append, List.countP_map, List.countP_cons,
    line_defines_nil]
  rfl

theorem shared_free_count (name : List Char) (p : List Instr) (h : shared_free p = true)
    (hn : ∀ l, line_defines name l = true → shared_line l = true) :
    p.countP (fun i => line_defines name i.text) = 0 := by
  rw [List.countP_eq_zero]
  intro i hi hd
  have h1 := List.all_eq_true.mp h i hi
  rw [hn _ hd] at h1
  exact absurd h1 (by decide)

set_option maxRecDepth 100000 in
theorem prologue_lines (env : Env) (e : PGE_Exp) (r1sub : List Char) (tr : Bool) :
    (prologue_prog env e r1sub tr).countP (fun i => line_defines "fail_group".toList i.text)
      = 0 ∧
    (prologue_prog env e r1sub tr).countP (fun i => line_defines "fail".toList i.text) = 0 ∧
    (prologue_prog env e r1sub tr).countP (fun i => line_defines "fail_forever".toList i.text)
      = 1 := by
  unfold prologue_prog emitsub_prog
  cases tr <;> cases env.pge_is_bos_anchored e <;> exact ⟨rfl, rfl, rfl⟩

set_option maxRecDepth 100000 in
theorem epilogue_lines (tr : Bool) :
    (epilogue_prog tr).countP (fun i => line_defines "fail_group".toList i.text) = 1 ∧
    (epilogue_prog tr).countP (fun i => line_defines "fail".toList i.text) = 1 ∧
    (epilogue_prog tr).countP (fun i => line_defines "fail_forever".toList i.text) = 0 := by
  cases tr <;> exact ⟨rfl, rfl, rfl⟩

/-- C12: the three shared labels.  For every tree, every start state (trace on
or off) and every answer of `pge_is_bos_anchored`, the text `pge_gen` returns
has exactly one line that defines `fail_group`, exactly one that defines
`fail` and exactly one that defines `fail_forever`.  The text is the rendering
of the instruction list `gen_prog`; there the label `fail_group` starts the
last two blocks of the program (`epilogue_prog`) and `fail` the last one
(`fail_prog`); run with a call pending, the block `fail_group` sets `cutgrp`
to 1 and returns to the caller, and the block `fail` sets `cutgrp` to 0 and
returns to the caller. -/
theorem shared_labels_once (env : Env) (e : PGE_Exp) (s : State) (text : List Char)
    (h : pge_gen env e s = some text) :
    label_lines "fail_group".toList text = 1 ∧
    label_lines "fail".toList text = 1 ∧
    label_lines "fail_forever".toList text = 1 ∧
    text = render (gen_prog env e s) ∧
    find_label (gen_prog env e s) "fail_group".toList = some (epilogue_prog s.pge_istraced) ∧
    find_label (gen_prog env e s) "fail".toList = some (fail_prog s.pge_istraced) ∧
    (∀ (ext : Ext) (st : Store) (sv : List Val) (k : List Instr) (ks : List (List Instr))
      (L : List Event),
      Leads (gen_prog env e s) ext ⟨epilogue_prog s.pge_istraced, st, sv, k :: ks, L, .running⟩
        (fun m => m.code = k ∧ m.calls = ks ∧ m.saved = sv ∧
          m.store = st.set_int .cutgrp 1 ∧ m.status = .running)) ∧
    (∀ (ext : Ext) (st : Store) (sv : List Val) (k : List Instr) (ks : List (List Instr))
      (L : List Event),
      Leads (gen_prog env e s) ext ⟨fail_prog s.pge_istraced, st, sv, k :: ks, L, .running⟩
        (fun m => m.code = k ∧ m.calls = ks ∧ m.saved = sv ∧
          m.store = st.set_int .cutgrp 0 ∧ m.status = .running)) := by
  have htext := pge_gen_text env e s text h
  cases hid : e.id? with
  | none =>
    unfold pge_gen pge_gen_state at h
    simp [hid, State.fault] at h
  | some id =>
    have hg : gen_prog env e s = prologue_prog env e (node_label id) s.pge_istraced ++
        (exp_prog env e null_str (pge_gen_prologue env e (node_label id) s.fresh) ++
          epilogue_prog s.pge_istraced) := by
      simp only [gen_prog, hid]
    obtain ⟨p1, p2, p3⟩ := prologue_counts env e (node_label id) s.pge_istraced
    have hl := exp_prog_local env e null_str (pge_gen_prologue env e (node_label id) s.fresh)
    have x1 := defines_of_local "fail_group".toList (by decide) _ hl
    have x2 := defines_of_local "fail".toList (by decide) _ hl
    have hep : epilogue_prog s.pge_istraced =
        (.label 2 "fail_group".toList :: (trace_prog s.pge_istraced "fail_group".toList ++
          [.set .cutgrp (.num 1), .ret])) ++ fail_prog s.pge_istraced := by
      simp [epilogue_prog, fail_prog]
    obtain ⟨a1, a2, a3⟩ := prologue_lines env e (node_label id) s.pge_istraced
    obtain ⟨b1, b2, b3⟩ := epilogue_lines s.pge_istraced
    have hsf : shared_free (exp_prog env e null_str
        (pge_gen_prologue env e (node_label id) s.fresh)) = true :=
      exp_prog_ind env _ _ _ (shared_free_blocks env _) e null_str _ rfl trivial
    have c1 := shared_free_count "fail_group".toList _ hsf (fun l hl => by
      simp only [shared_line, hl, Bool.true_or])
    have c2 := shared_free_count "fail".toList _ hsf (fun l hl => by
      simp only [shared_line, hl, Bool.true_or, Bool.or_true])
    have c3 := shared_free_count "fail_forever".toList _ hsf (fun l hl => by
      simp only [shared_line, hl, Bool.or_true])
    have hone := gen_prog_one_line env e s
    refine ⟨?_, ?_, ?_, htext, ?_, ?_, ?_, ?_⟩
    · rw [htext, label_lines_render _ _ hone, hg, List.countP_append, List.countP_append,
        a1, b1, c1]
    · rw [htext, label_lines_render _ _ hone, hg, List.countP_append, List.countP_append,
        a2, b2, c2]
    · rw [htext, label_lines_render _ _ hone, hg, List.countP_append, List.countP_append,
        a3, b3, c3]
    · rw [hg, find_label_append _ _ _ (defines_of_count _ _ p1), find_label_append _ _ _ x1]
      exact find_label_here _ _ _
    · rw [hg, find_label_append _ _ _ (defines_of_count _ _ p2), find_label_append _ _ _ x2,
        hep, find_label_append]
      · exact find_label_here _ _ _
      · intro i hi
        cases htr : s.pge_istraced <;> rw [htr] at hi <;>
          simp [trace_prog] at hi <;> rcases hi with rfl | rfl | rfl | rfl | rfl <;> rfl
    · intro ext st sv k ks L
      exact fail_group_run (leads_done ⟨rfl, rfl, rfl, rfl, rfl⟩)
    · intro ext st sv k ks L
      exact fail_run (leads_done ⟨rfl, rfl, rfl, rfl, rfl⟩)

theorem shared_labels_once_witness :
    label_lines "fail".toList (render (gen_prog env_demo tree_group State.initial)) = 1 ∧
    find_label (gen_prog env_demo tree_group State.initial) "fail".toList =
      some (fail_prog false) :=
  have h := shared_labels_once env_demo tree_group State.initial
    (render (gen_prog env_demo tree_group State.initial))
    (pge_gen_some env_demo tree_group State.initial rfl rfl)
  ⟨h.2.1, h.2.2.2.2.2.1⟩

/-! ## The discipline of save and restore -/

theorem scan_append (m : Scan) (p q : List StackOp) :
    scan m (p ++ q) = (scan m p).bind (fun m' => scan m' q) := by
  induction p generalizing m with
  | nil => rfl
  | cons i p ih =>
    simp only [List.cons_append, scan]
    cases m.next i with
    | none => rfl
    | some m' => exact ih m'

theorem balanced_append (p q : List Instr) (hp : balanced p) (hq : balanced q) :
    balanced (p ++ q) := by
  unfold balanced prog_ops at *
  rw [List.map_append, scan_append, hp]
  exact hq

set_option maxRecDepth 100000 in
set_option maxHeartbeats 4000000 in
theorem leaf_balanced (env : Env) (tr : Bool) (e : PGE_Node) (succ : List Char) :
    balanced (leaf_prog env e succ tr) := by
  cases hty : e.type <;>
  simp only [leaf_prog, hty, pattern_end_prog, dot_prog, dot_greedy_prog, dot_lazy_prog,
    literal_body_prog, string_prog, string_fixed_prog, string_greedy_prog, string_lazy_prog,
    anchor_prog, eol_prog, cut_prog, backref_prog, backref_head_prog, trace_prog,
    emitsub_prog] <;>
  first
    | exact rfl
    | (split_ifs <;> exact rfl)

set_option maxRecDepth 100000 in
set_option maxHeartbeats 4000000 in
theorem group_balanced (env : Env) (e : PGE_Node) (id1 : Int) (succ : List Char) :
    balanced (group_init_prog e (group_key e) (repeat_label e.id)) ∧
    balanced
      (group_repeat_prog env e (group_key e) (repeat_label e.id) (node_label id1) succ) := by
  constructor
  · unfold group_init_prog
    split_ifs <;> exact rfl
  · unfold group_repeat_prog repeat_head_prog repeat_greedy_prog repeat_lazy_prog
      repeat_tail_prog body_call_prog emitsub_prog group_regs
    split_ifs <;> exact rfl

theorem balanced_blocks (env : Env) (tr : Bool) :
    BlockProp env tr (fun _ => True) balanced where
  nil := rfl
  append := balanced_append
  marker := fun o => by cases o <;> exact rfl
  label := fun _ => rfl
  succ_node := fun _ => trivial
  succ_repeat := fun _ => trivial
  leaf := fun e succ _ => leaf_balanced env tr e succ
  concat := fun _ _ => rfl
  group_trace := fun _ _ => by cases tr <;> exact rfl
  group_init := fun e => (group_balanced env e 0 []).1
  group_repeat := fun e id1 succ _ => (group_balanced env e id1 succ).2
  alt := fun _ _ => by cases tr <;> exact rfl

set_option maxRecDepth 100000 in
theorem prologue_balanced (env : Env) (e : PGE_Exp) (r1sub : List Char) (tr : Bool) :
    balanced (prologue_prog env e r1sub tr) := by
  unfold prologue_prog emitsub_prog
  cases tr <;> cases env.pge_is_bos_anchored e <;> exact rfl

theorem epilogue_balanced (tr : Bool) : balanced (epilogue_prog tr) := by
  cases tr <;> exact rfl

theorem next_depth (m m1 : Scan) (op : StackOp) (h : m.next op = some m1) :
    op.saves + m.depth = op.restores + m1.depth := by
  cases op <;> cases m <;> rename_i rs <;> cases rs <;>
    simp only [Scan.next, Option.some.injEq, reduceCtorEq, ite_eq_left_iff,
      Option.ite_none_right_eq_some] at h <;>
    first
      | (subst h; simp [Scan.depth, StackOp.saves, StackOp.restores]; try omega)
      | (obtain ⟨_, h⟩ := h; subst h; simp [Scan.depth, StackOp.saves, StackOp.restores];
         try omega)

/-- A text the checker accepts has as many `save` as `restore` lines, up to
the registers the checker holds at the two ends. -/
theorem scan_counts (p : List StackOp) : ∀ (m m' : Scan), scan m p = some m' →
    save_count p + m.depth = restore_count p + m'.depth := by
  induction p with
  | nil =>
    intro m m' h
    simp only [scan, Option.some.injEq] at h
    rw [h]
    rfl
  | cons i p ih =>
    intro m m' h
    simp only [scan] at h
    cases hn : m.next i with
    | none => simp [hn] at h
    | some m1 =>
      rw [hn] at h
      have h1 := ih m1 m' h
      have h2 := next_depth m m1 i hn
      simp only [save_count, restore_count, List.map_cons, List.sum_cons] at h1 ⊢
      omega

/-- C17: the discipline of `save` and `restore`.  For every tree, the checker
`scan` accepts the lines of the text `pge_gen` returns, read in order: every
`save` line stands in a run of saves `s1..sn` that ends at a `bsr` line, the
`bsr` is followed at once by the restores of `sn..s1`, and there is no other
`restore` line (this holds of the calls written by `emitsub` and of the
hand-written first call of a group); so the text has as many `save` as
`restore` lines. -/
theorem save_restore_discipline (env : Env) (e : PGE_Exp) (s : State) (text : List Char)
    (h : pge_gen env e s = some text) :
    scan (.saving []) (text_ops text) = some (.saving []) ∧
    save_count (text_ops text) = restore_count (text_ops text) := by
  have hbal : balanced (gen_prog env e s) := by
    unfold gen_prog
    cases e.id? with
    | none => rfl
    | some id =>
      exact balanced_append _ _ (prologue_balanced env e _ _) (balanced_append _ _
        (exp_prog_ind env _ _ _ (balanced_blocks env _) e null_str _ rfl trivial)
        (epilogue_balanced _))
  have hscan : scan (.saving []) (text_ops text) = some (.saving []) := by
    unfold text_ops
    rw [pge_gen_lines env e s text h, List.map_append, List.map_map, scan_append]
    unfold balanced prog_ops at hbal
    rw [show (line_op ∘ Instr.text) = (fun i => line_op i.text) from rfl, hbal]
    rfl
  exact ⟨hscan, by simpa [Scan.depth] using scan_counts _ _ _ hscan⟩

theorem save_restore_discipline_witness :
    scan (.saving [])
      (text_ops (render (gen_prog env_demo tree_group State.initial))) = some (.saving []) ∧
    text_ops "    save pos\n    bsr R2\n    restore pos\n".toList =
      [.save "pos".toList, .call, .restore "pos".toList, .other] ∧
    scan (.saving []) [.save "pos".toList, .save "rep".toList, .call, .restore "pos".toList] =
      none :=
  ⟨(save_restore_discipline env_demo tree_group State.initial
    (render (gen_prog env_demo tree_group State.initial))
    (pge_gen_some env_demo tree_group State.initial rfl rfl)).1, by decide, rfl⟩

/-! ## A jump to a label that is not defined -/

set_option maxRecDepth 100000 in
/-- C16 (failing input): for the tree `Concat(Literal "a" <2..3> lazy with cut,
PatternEnd)` with the distinct ids 1, 5 and 3, `pge_gen` returns a program
text that has the conditional branch `if rep < 2 goto R5_2:`, and no line of
the text defines a label `R5_2:` or a label `R5_2`; the labels `R5_1` and
`fail` are defined. -/
theorem jump_to_undefined_label :
    (pge_gen env_demo tree_lazy_cut State.initial).isSome = true ∧
    (pge_gen env_demo tree_lazy_cut State.initial).map
      (has_line "    if rep < 2 goto R5_2:".toList) = some true ∧
    (pge_gen env_demo tree_lazy_cut State.initial).map
      (defines_label "R5_2:".toList) = some false ∧
    (pge_gen env_demo tree_lazy_cut State.initial).map
      (defines_label "R5_2".toList) = some false ∧
    (pge_gen env_demo tree_lazy_cut State.initial).map
      (defines_label "R5_1".toList) = some true ∧
    (pge_gen env_demo tree_lazy_cut State.initial).map
      (defines_label "fail".toList) = some true := by
  decide

/-! ## Unknown node kinds in a whole program -/

/-- The block of every node the generator visits is part of `exp_prog`, for
some continuation label and trace flag. -/
theorem node_in_exp (env : Env) (n : PGE_Node) : ∀ (e : PGE_Exp) (succ : List Char)
    (s : State), e.wf = true → n ∈ e.nodes →
    ∃ succ' tr', ∀ i ∈ node_block env n succ' tr', i ∈ exp_prog env e succ s
  | .null, _, _, hw, _ => by simp [PGE_Exp.wf] at hw
  | .node e x1 x2, succ, s, hw, hn => by
    have ih1 := node_in_exp env n x1
    have ih2 := node_in_exp env n x2
    simp only [PGE_Exp.nodes, List.mem_cons] at hn
    rcases hn with rfl | hn
    · refine ⟨succ, s.pge_istraced, fun i hi => ?_⟩
      simp only [node_block, List.mem_cons] at hi
      simp only [exp_prog, List.mem_append, List.mem_cons]
      rcases hi with rfl | hi
      · exact Or.inr (Or.inl rfl)
      · right
        right
        cases hty : n.type <;> simp only [leaf_prog, hty, List.not_mem_nil] at hi ⊢ <;>
          exact hi
    · cases hty : e.type <;> simp only [hty, List.not_mem_nil, List.mem_append] at hn
      case PGE_CONCAT =>
        simp only [PGE_Exp.wf, hty, Bool.and_eq_true] at hw
        obtain ⟨id1, hi1⟩ := wf_id x1 hw.1
        obtain ⟨id2, hi2⟩ := wf_id x2 hw.2
        rcases hn with hn | hn
        · obtain ⟨succ', tr', h⟩ := ih1 (node_label id2)
            (emit env "    #concat R%d, R%d\n" [Arg.d id1, Arg.d id2]
              (emit env "  R%d:\n" [Arg.d e.id] (emitlcount env s))) hw.1 hn
          refine ⟨succ', tr', fun i hi => ?_⟩
          simp only [exp_prog, hty, hi1, hi2, List.mem_append, List.mem_cons]
          exact Or.inr (Or.inr (Or.inr (Or.inl (h i hi))))
        · obtain ⟨succ', tr', h⟩ := ih2 succ
            (pge_gen_exp env x1 (node_label id2)
              (emit env "    #concat R%d, R%d\n" [Arg.d id1, Arg.d id2]
                (emit env "  R%d:\n" [Arg.d e.id] (emitlcount env s)))) hw.2 hn
          refine ⟨succ', tr', fun i hi => ?_⟩
          simp only [exp_prog, hty, hi1, hi2, List.mem_append, List.mem_cons]
          exact Or.inr (Or.inr (Or.inr (Or.inr (h i hi))))
      case PGE_GROUP =>
        simp only [PGE_Exp.wf, hty] at hw
        obtain ⟨id1, hi1⟩ := wf_id x1 hw
        by_cases hc : e.min = 1 ∧ e.max = 1 ∧ e.group < 0
        · obtain ⟨succ', tr', h⟩ := ih1 succ
            (trace env "group %s %c %s %c %s"
              [Arg.s (group_key e), Arg.c (if e.group ≥ 0 then '(' else '['),
                Arg.s (node_label id1), Arg.c (if e.group ≥ 0 then ')' else ']'),
                Arg.s (fmt_quant env e)]
              (emit env "  R%d:\n" [Arg.d e.id] (emitlcount env s))) hw hn
          refine ⟨succ', tr', fun i hi => ?_⟩
          simp only [exp_prog, hty, hi1, List.mem_append, List.mem_cons]
          rw [if_pos hc]
          exact Or.inr (Or.inr (Or.inr (h i hi)))
        · obtain ⟨succ', tr', h⟩ := ih1 (repeat_label e.id)
            (pge_gen_group_repeat env e (group_key e) (repeat_label e.id) (node_label id1)
              succ (pge_gen_group_init env e (group_key e) (repeat_label e.id)
                (trace env "group %s %c %s %c %s"
                  [Arg.s (group_key e), Arg.c (if e.group ≥ 0 then '(' else '['),
                    Arg.s (node_label id1), Arg.c (if e.group ≥ 0 then ')' else ']'),
                    Arg.s (fmt_quant env e)]
                  (emit env "  R%d:\n" [Arg.d e.id] (emitlcount env s))))) hw hn
          refine ⟨succ', tr', fun i hi => ?_⟩
          simp only [exp_prog, hty, hi1, List.mem_append, List.mem_cons]
          rw [if_neg hc]
          simp only [List.mem_append]
          exact Or.inr (Or.inr (Or.inr (Or.inr (Or.inr (h i hi)))))
      case PGE_ALT =>
        simp only [PGE_Exp.wf, hty, Bool.and_eq_true] at hw
        obtain ⟨id1, hi1⟩ := wf_id x1 hw.1
        obtain ⟨id2, hi2⟩ := wf_id x2 hw.2
        rcases hn with hn | hn
        · obtain ⟨succ', tr', h⟩ := ih1 succ
            (emit env "    goto R%d\n\n" [Arg.d id2]
              (emitsub env (node_label id1) ["pos".toList]
                (trace env "alt R%d | R%d" [Arg.d id1, Arg.d id2]
                  (emit env "  R%d:\n" [Arg.d e.id] (emitlcount env s))))) hw.1 hn
          refine ⟨succ', tr', fun i hi => ?_⟩
          simp only [exp_prog, hty, hi1, hi2, List.mem_append, List.mem_cons]
          exact Or.inr (Or.inr (Or.inr (Or.inl (h i hi))))
        · obtain ⟨succ', tr', h⟩ := ih2 succ
            (pge_gen_exp env x1 succ
              (emit env "    goto R%d\n\n" [Arg.d id2]
                (emitsub env (node_label id1) ["pos".toList]
                  (trace env "alt R%d | R%d" [Arg.d id1, Arg.d id2]
                    (emit env "  R%d:\n" [Arg.d e.id] (emitlcount env s)))))) hw.2 hn
          refine ⟨succ', tr', fun i hi => ?_⟩
          simp only [exp_prog, hty, hi1, hi2, List.mem_append, List.mem_cons]
          exact Or.inr (Or.inr (Or.inr (Or.inr (h i hi))))

/-- The block of every node the generator visits is part of the program. -/
theorem node_in_gen (env : Env) (n : PGE_Node) (e : PGE_Exp) (s : State) (hw : e.wf = true)
    (hn : n ∈ e.nodes) :
    ∃ succ' tr', ∀ i ∈ node_block env n succ' tr', i ∈ gen_prog env e s := by
  obtain ⟨id, hid⟩ := wf_id e hw
  obtain ⟨succ', tr', h⟩ := node_in_exp env n e null_str
    (pge_gen_prologue env e (node_label id) s.fresh) hw hn
  refine ⟨succ', tr', fun i hi => ?_⟩
  simp only [gen_prog, hid, List.mem_append]
  exact Or.inr (Or.inl (h i hi))

/-- The text of every instruction of the program is a line of the text. -/
theorem line_of_instr (env : Env) (e : PGE_Exp) (s : State) (i : Instr)
    (hi : i ∈ gen_prog env e s) : has_line i.text (render (gen_prog env e s)) = true := by
  unfold has_line
  rw [lines_render _ (gen_prog_one_line env e s), List.contains_eq_any_beq, List.any_eq_true]
  exact ⟨i.text, List.mem_append_left _ (List.mem_map_of_mem _ hi), beq_self_eq_true _⟩

theorem label_line (id : Int) :
    Instr.text (.label 2 (node_label id)) = "  R".toList ++ fmt_d id ++ ":".toList := by
  simp [Instr.text, Instr.write, node_label, sprintf, vsprintf]

set_option maxRecDepth 100000 in
/-- C4 (counterexample): for the tree `Concat(<kind 99>, PatternEnd)` with the
ids 1, 7 and 3, whose second node has a type tag that is none of the fourteen
kinds, `pge_gen` returns a program text: no compile error is raised.  The text
has the label line `  R7:` of the node, and the next line is already the label
`  R3:` of the node after it: the node is skipped. -/
theorem unknown_kind_not_rejected :
    (pge_gen env_demo tree_other_kind State.initial).isSome = true ∧
    (pge_gen env_demo tree_other_kind State.initial).map (has_line "  R7:".toList) =
      some true ∧
    (pge_gen env_demo tree_other_kind State.initial).map
      (fun text => line_after "  R7:".toList (text.splitOn '\n')) =
      some (some "  R3:".toList) := by
  decide

/-- C4 (amended): a node whose type tag is none of the fourteen kinds raises no
error.  On such a node `pge_gen_exp` returns normally from every sound state,
and all it has written is the line marker (if one is due) and the label line
`R<id>:`.  For every tree that contains such a node
(among the nodes the generator visits) and that has no null pointer where a
node is read and no NullPattern node, `pge_gen` from a state without undefined
behaviour returns a program text, and the text has the label line `  R<id>:`
of the node. -/
theorem unknown_kind_emits_label (env : Env) (n : PGE_Node) (exp1 exp2 : PGE_Exp)
    (succ : List Char) (s : State) (tag : Int) (e : PGE_Exp) (s0 : State)
    (hty : n.type = .PGE_OTHER tag) (hs : s.ok)
    (hw : e.wf = true) (hn : n ∈ e.nodes) (hub : s0.ub = false) :
    (pge_gen_exp env (.node n exp1 exp2) succ s).ub = false ∧
    (pge_gen_exp env (.node n exp1 exp2) succ s).pge_cbuf =
      s.pge_cbuf ++ line_marker s ++ ("  R".toList ++ fmt_d n.id ++ ":\n".toList) ∧
    pge_gen env e s0 = some (render (gen_prog env e s0)) ∧
    has_line ("  R".toList ++ fmt_d n.id ++ ":".toList) (render (gen_prog env e s0)) = true := by
  obtain ⟨h1, h2⟩ := other_kind_label env n exp1 exp2 succ s tag hty hs
  obtain ⟨succ', tr', h⟩ := node_in_gen env n e s0 hw hn
  refine ⟨h1, h2, pge_gen_some env e s0 hw hub, ?_⟩
  rw [← label_line]
  exact line_of_instr env e s0 _ (h _ (List.mem_cons_self _ _))

set_option maxRecDepth 100000 in
theorem unknown_kind_emits_label_witness :
    pge_gen env_demo tree_other_kind State.initial =
      some (render (gen_prog env_demo tree_other_kind State.initial)) ∧
    has_line ("  R".toList ++ fmt_d 7 ++ ":".toList)
      (render (gen_prog env_demo tree_other_kind State.initial)) = true ∧
    (pge_gen_exp env_demo (PGE_Exp.leaf (PGE_Node.plain 7 (.PGE_OTHER 99))) "R3".toList
        state_first_emit).pge_cbuf =
      state_first_emit.pge_cbuf ++ line_marker state_first_emit
        ++ ("  R".toList ++ fmt_d 7 ++ ":\n".toList) :=
  have h := unknown_kind_emits_label env_demo (PGE_Node.plain 7 (.PGE_OTHER 99)) .null .null
    "R3".toList state_first_emit 99 tree_other_kind State.initial rfl ⟨by decide, by decide⟩
    rfl (by decide) rfl
  ⟨h.2.2.1, h.2.2.2, h.2.1⟩

/-! ## Quantifier bounds in a whole program -/

theorem dot_lines (n : PGE_Node) :
    Instr.text (.if_cmp .maxrep .lt (.num n.min) "fail".toList) =
      "    if maxrep < ".toList ++ fmt_d n.min ++ " goto fail".toList ∧
    Instr.text (.if_cmp .maxrep .le (.num n.max) (aux_label n.id "_1")) =
      "    if maxrep <= ".toList ++ fmt_d n.max ++ " goto R".toList ++ fmt_d n.id
        ++ "_1".toList ∧
    Instr.text (.set .maxrep (.num n.max)) = "    maxrep = ".toList ++ fmt_d n.max := by
  simp [Instr.text, Instr.write, aux_label, IReg.name, Cmp.text, Opd.text]

theorem string_lines (n : PGE_Node) (succ : List Char) :
    Instr.text (.if_cmp .rep .ge (.num n.max) (aux_label n.id "_2")) =
      "    if rep >= ".toList ++ fmt_d n.max ++ " goto R".toList ++ fmt_d n.id
        ++ "_2".toList ∧
    Instr.text (.if_cmp .rep .eq (.num n.max) succ) =
      "    if rep == ".toList ++ fmt_d n.max ++ " goto ".toList ++ succ := by
  simp [Instr.text, Instr.write, aux_label, IReg.name, Cmp.text, Opd.text]

theorem string_in_leaf (env : Env) (n : PGE_Node) (succ : List Char) (tr : Bool)
    (hty : n.type = .PGE_LITERAL ∨ n.type = .PGE_BACKREFERENCE) :
    ∀ i ∈ string_prog env n succ, i ∈ leaf_prog env n succ tr := by
  intro i hi
  rcases hty with hty | hty
  · simp only [leaf_prog, hty, literal_body_prog, List.mem_append]
    exact Or.inr hi
  · simp only [leaf_prog, hty, backref_prog, List.mem_append]
    exact Or.inr hi

set_option maxRecDepth 100000 in
/-- C13 (counterexample): for the tree `Concat(AnyChar<3..2>, PatternEnd)`, whose
quantified node has the finite `max = 2` below `min = 3`, `pge_gen` returns a
program text, and the text has the lines `if maxrep < 3 goto fail` and
`maxrep = 2`. -/
theorem bad_bounds_not_rejected :
    (pge_gen env_demo tree_bad_bounds State.initial).isSome = true ∧
    ((pge_gen env_demo tree_bad_bounds State.initial).map
      (has_line "    if maxrep < 3 goto fail".toList)) = some true ∧
    ((pge_gen env_demo tree_bad_bounds State.initial).map
      (has_line "    maxrep = 2".toList)) = some true := by
  decide

/-- C13 (amended): the generator does not check the bounds of a quantifier.
For every tree that contains (among the nodes the generator visits) a node
with a finite `max` below `min`, and that has no null pointer where a node is
read and no NullPattern node, `pge_gen` from a state without undefined
behaviour returns a program text, and the text embeds the bounds: for an
AnyChar node it has the lines `if maxrep < min goto fail` (for `min > 0`),
`if maxrep <= max goto R<id>_1` and `maxrep = max`; for a Literal or
Backreference node it has the line `if rep >= max goto R<id>_2` when the node
is greedy and a line `if rep == max goto <label>` when it is lazy without
cut.  On the node alone, `pge_gen_dot` and `pge_gen_string` return normally
from every sound state and write blocks with these lines. -/
theorem bad_bounds_embedded (env : Env) (n : PGE_Node) (succ : List Char) (s : State)
    (e : PGE_Exp) (s0 : State)
    (hs : s.ok) (hmax : n.max ≠ env.PGE_INF) (hlt : n.max < n.min)
    (hw : e.wf = true) (hn : n ∈ e.nodes) (hub : s0.ub = false) :
    pge_gen env e s0 = some (render (gen_prog env e s0)) ∧
    (n.type = .PGE_DOT →
      (0 < n.min → has_line ("    if maxrep < ".toList ++ fmt_d n.min ++ " goto fail".toList)
        (render (gen_prog env e s0)) = true) ∧
      has_line ("    if maxrep <= ".toList ++ fmt_d n.max ++ " goto R".toList ++ fmt_d n.id
        ++ "_1".toList) (render (gen_prog env e s0)) = true ∧
      has_line ("    maxrep = ".toList ++ fmt_d n.max) (render (gen_prog env e s0)) = true) ∧
    (n.type = .PGE_LITERAL ∨ n.type = .PGE_BACKREFERENCE →
      (n.isgreedy = true →
        has_line ("    if rep >= ".toList ++ fmt_d n.max ++ " goto R".toList ++ fmt_d n.id
          ++ "_2".toList) (render (gen_prog env e s0)) = true) ∧
      (n.isgreedy = false → n.iscut = false →
        ∃ label, has_line ("    if rep == ".toList ++ fmt_d n.max ++ " goto ".toList ++ label)
          (render (gen_prog env e s0)) = true)) ∧
    Emits s (pge_gen_dot env n succ s) (render (dot_prog env n succ s.pge_istraced)) ∧
    (0 < n.min → .if_cmp .maxrep .lt (.num n.min) "fail".toList ∈
      dot_prog env n succ s.pge_istraced) ∧
    .if_cmp .maxrep .le (.num n.max) (aux_label n.id "_1") ∈
      dot_prog env n succ s.pge_istraced ∧
    .set .maxrep (.num n.max) ∈ dot_prog env n succ s.pge_istraced ∧
    Emits s (pge_gen_string env n succ s) (render (string_prog env n succ)) ∧
    (n.isgreedy = true →
      .if_cmp .rep .ge (.num n.max) (aux_label n.id "_2") ∈ string_prog env n succ) ∧
    (n.isgreedy = false → n.iscut = false →
      .if_cmp .rep .eq (.num n.max) succ ∈ string_prog env n succ) := by
  obtain ⟨succ', tr', h⟩ := node_in_gen env n e s0 hw hn
  have hleaf : ∀ i ∈ leaf_prog env n succ' tr', i ∈ gen_prog env e s0 :=
    fun i hi => h i (List.mem_cons_of_mem _ hi)
  have hb := bounds_in_blocks env n succ'
    { State.initial with pge_istraced := tr' } ⟨rfl, rfl⟩ hmax hlt
  obtain ⟨l1, l2, l3⟩ := dot_lines n
  refine ⟨pge_gen_some env e s0 hw hub, ?_, ?_, bounds_in_blocks env n succ s hs hmax hlt⟩
  · intro hty
    have hdot : ∀ i ∈ dot_prog env n succ' tr', i ∈ gen_prog env e s0 := by
      intro i hi
      apply hleaf
      simp only [leaf_prog, hty]
      exact hi
    refine ⟨fun h0 => ?_, ?_, ?_⟩
    · rw [← l1]
      exact line_of_instr env e s0 _ (hdot _ (hb.2.1 h0))
    · rw [← l2]
      exact line_of_instr env e s0 _ (hdot _ hb.2.2.1)
    · rw [← l3]
      exact line_of_instr env e s0 _ (hdot _ hb.2.2.2.1)
  · intro hty
    have hstr := string_in_leaf env n succ' tr' hty
    refine ⟨fun hg => ?_, fun hg hc => ⟨succ', ?_⟩⟩
    · rw [← (string_lines n succ').1]
      exact line_of_instr env e s0 _ (hleaf _ (hstr _ (hb.2.2.2.2.2.1 hg)))
    · rw [← (string_lines n succ').2]
      exact line_of_instr env e s0 _ (hleaf _ (hstr _ (hb.2.2.2.2.2.2 hg hc)))

set_option maxRecDepth 100000 in
theorem bad_bounds_embedded_witness :
    pge_gen env_demo tree_bad_bounds State.initial =
      some (render (gen_prog env_demo tree_bad_bounds State.initial)) ∧
    has_line ("    maxrep = ".toList ++ fmt_d 2)
      (render (gen_prog env_demo tree_bad_bounds State.initial)) = true ∧
    Instr.set .maxrep (.num 2) ∈
      dot_prog env_demo { PGE_Node.plain 2 .PGE_DOT with min := 3, max := 2 } "R3".toList
        false :=
  have h := bad_bounds_embedded env_demo { PGE_Node.plain 2 .PGE_DOT with min := 3, max := 2 }
    "R3".toList state_first_emit tree_bad_bounds State.initial ⟨by decide, by decide⟩
    (by decide) (by decide) rfl (by decide) rfl
  ⟨h.1, (h.2.1 rfl).2.2, h.2.2.2.2.2.2.1⟩

end PGE
